import Mathlib

/-!
# The sparse `UniLowerMatrix` adaptor

Shallow embedding of `blaze/math/adaptors/unilowermatrix/Sparse.h`
(`UniLowerMatrix<MT,SO,false>` together with its nested classes `UniLowerValue`,
`UniLowerElement` and `Iterator`).

Conventions of the embedding

* The cells of the adapted matrix hold integers (the tests instantiate `int`). The storage
  engine, its elements (to which the guarded element `UniLowerElement` forwards) and the
  matrix expressions are not part of the sources and compute with the integers. The guarded
  value `UniLowerValue` acts on a cell of the element type itself and computes with the 32-bit
  `int`: `+`, `-` and `*` are reduced modulo `2^32` into the range of `int`, and `/` is the
  truncating division, which has no result for the divisor 0 and for `INT_MIN / -1`.
* The capacity of the storage is tracked where a constructor requests it (`ReservedMatrix`);
  it does not influence the stored entries. The position of a storage iterator in the element
  array is the start of its row/column plus the position within it (`Iterator.position`).
* The adapted sparse matrix `MT` is a compressed matrix: one line per row (row-major,
  `SO = false`) or per column (column-major, `SO = true`), each line a list of
  `(index, value)` pairs.
* A member function that may throw is a function from the object state to an
  `Outcome`: the state the object is left in, and either the returned value or the
  exception that left the call. A constructor that throws produces no object and is an
  `Except`.
* Type traits (`IsUniLower<MT2>::value`, `IsStrictlyLower<MT2>::value`,
  `IsSquare<MT2>::value`) are Boolean parameters.
* A right-hand side matrix is given by its evaluated form in the storage type of the
  adaptor (what `MT( ~m )` produces).
-/

namespace blaze

/-! ## Exceptions and outcomes -/

/-- Exceptions thrown by the library (only `std::invalid_argument` occurs here). -/
inductive Exception where
  | invalid_argument (what : String)
  deriving DecidableEq, Repr

/-- Outcome of a call of a member function on an object with state `σ`: the state the
object is left in and the value returned, or the exception thrown. -/
structure Outcome (σ ρ : Type) where
  state : σ
  result : Except Exception ρ

namespace Outcome

variable {σ ρ : Type}

/-- The call returned normally. -/
def succeeds (o : Outcome σ ρ) : Prop := ∃ r, o.result = Except.ok r

/-- The call was left by a `std::invalid_argument` exception. -/
def raisesInvalidArgument (o : Outcome σ ρ) : Prop :=
  ∃ what, o.result = Except.error (Exception.invalid_argument what)

instance (o : Outcome σ ρ) : Decidable o.succeeds :=
  match h : o.result with
  | Except.ok r => isTrue ⟨r, h⟩
  | Except.error _ => isFalse (by rintro ⟨r, hr⟩; rw [h] at hr; cases hr)

instance (o : Outcome σ ρ) : Decidable o.raisesInvalidArgument :=
  match h : o.result with
  | Except.ok _ => isFalse (by rintro ⟨w, hw⟩; rw [h] at hw; cases hw)
  | Except.error (Exception.invalid_argument w) => isTrue ⟨w, h⟩

end Outcome

/-- A constructor call was left by a `std::invalid_argument` exception. -/
def ctorRaisesInvalidArgument {α : Type} (r : Except Exception α) : Prop :=
  ∃ what, r = Except.error (Exception.invalid_argument what)

/-- A `for( k=lo; k<hi; ++k )` loop over a state. -/
def forLoop {σ : Type} (lo hi : Nat) (body : Nat → σ → σ) (s : σ) : σ :=
  (List.range' lo (hi - lo)).foldl (fun acc k => body k acc) s

/-! ## The storage engine -/

/-- The element type `ET` of the adapted matrix. -/
abbrev ElementType := Int

/-- One row (row-major) or column (column-major) of a compressed matrix: the stored
`(index, value)` pairs in storage order. -/
abbrev Line := List (Nat × ElementType)

namespace Line

/-- A line is well-formed when its indices are strictly increasing. -/
def sorted (l : Line) : Prop := l.Pairwise (fun a b => a.1 < b.1)

instance (l : Line) : Decidable l.sorted := by unfold sorted; infer_instance

/-- Modelled from the spec: const indexed access of the storage engine, which is not part
of the sources: the stored value, or the structural zero if no entry is stored. -/
def value : Line → Nat → ElementType
  | [], _ => 0
  | e :: es, idx => if e.1 = idx then e.2 else value es idx

/-- Whether the line stores an explicit entry with the given index. -/
def stored (l : Line) (idx : Nat) : Bool := l.any (fun e => e.1 == idx)

/-- Modelled from the spec: `lowerBound` of the storage engine: position of the first
element with an index not less than `idx` (the end position if there is none). -/
def lowerBound : Line → Nat → Nat
  | [], _ => 0
  | e :: es, idx => if idx ≤ e.1 then 0 else lowerBound es idx + 1

/-- Modelled from the spec: `upperBound` of the storage engine: position of the first
element with an index greater than `idx` (the end position if there is none). -/
def upperBound : Line → Nat → Nat
  | [], _ => 0
  | e :: es, idx => if idx < e.1 then 0 else upperBound es idx + 1

/-- Modelled from the spec: `find` of the storage engine: position of the element with index
`idx`, the end position if there is none. -/
def find : Line → Nat → Nat
  | [], _ => 0
  | e :: es, idx => if e.1 = idx then 0 else find es idx + 1

/-- Index of the element at a position (`pos->index()`); the end position carries none. -/
def indexAt (l : Line) (pos : Nat) : Option Nat := (l.get? pos).map Prod.fst

/-- Modelled from the spec: `set` of the storage engine on one line: overwrite the entry
with index `idx`, or insert a new entry at its sorted position. -/
def set : Line → Nat → ElementType → Line
  | [], idx, v => [(idx, v)]
  | e :: es, idx, v =>
    if idx < e.1 then (idx, v) :: e :: es
    else if idx = e.1 then (idx, v) :: es
    else e :: set es idx v

/-- Modelled from the spec: `erase( i, j )` of the storage engine on one line: remove the
entry with index `idx` if there is one. -/
def eraseIndex (l : Line) (idx : Nat) : Line := l.filter (fun e => e.1 != idx)

/-- Modelled from the spec: `erase( i, pos )` of the storage engine on one line: remove the
element at position `pos`; the end position removes nothing. -/
def erasePos (l : Line) (pos : Nat) : Line := l.eraseIdx pos

/-- Modelled from the spec: `erase( i, first, last )` of the storage engine on one line:
remove the elements at the positions `first ≤ p < last`. -/
def eraseRange (l : Line) (first last : Nat) : Line := l.take first ++ l.drop last

/-- Overwrite the value of the element at a position (`*pos = v`). -/
def modifyValue (l : Line) (pos : Nat) (f : ElementType → ElementType) : Line :=
  l.modify (fun e => (e.1, f e.2)) pos

end Line

/-- Modelled from the spec: the underlying storage engine (`CompressedMatrix<int,SO>`),
which is not part of the sources: `m_` rows, `n_` columns and one line of stored
entries per row (`SO = false`) or column (`SO = true`). -/
structure CompressedMatrix (SO : Bool) where
  m_ : Nat
  n_ : Nat
  lines : Nat → Line

/-- Line holding the cell `(i,j)`: row `i` for row-major, column `j` for column-major. -/
def lineOf (SO : Bool) (i j : Nat) : Nat := if SO then j else i

/-- Index of the cell `(i,j)` within its line. -/
def indexOf (SO : Bool) (i j : Nat) : Nat := if SO then i else j

namespace CompressedMatrix

variable {SO : Bool}

/-- Modelled from the spec: `Storage(rows, cols[, capacity_hint])`: an empty `m × n`
matrix. The capacity hint does not influence the stored entries and is not part of
the state. -/
def create (m n : Nat) (_capacity : Nat) : CompressedMatrix SO := ⟨m, n, fun _ => []⟩

/-- Modelled from the spec: `rows()` of the storage engine. -/
def rows (M : CompressedMatrix SO) : Nat := M.m_

/-- Modelled from the spec: `columns()` of the storage engine. -/
def columns (M : CompressedMatrix SO) : Nat := M.n_

/-- Number of lines: columns for column-major, rows for row-major storage. -/
def numLines (M : CompressedMatrix SO) : Nat := if SO then M.n_ else M.m_

/-- Modelled from the spec: const `operator()(i,j)` of the storage engine. -/
def get (M : CompressedMatrix SO) (i j : Nat) : ElementType :=
  (M.lines (lineOf SO i j)).value (indexOf SO i j)

/-- Whether an explicit entry is stored at `(i,j)` (`find(i,j) != end`). -/
def stored (M : CompressedMatrix SO) (i j : Nat) : Bool :=
  (M.lines (lineOf SO i j)).stored (indexOf SO i j)

/-- Modelled from the spec: `nonZeros(i)` of the storage engine. -/
def nonZerosAt (M : CompressedMatrix SO) (k : Nat) : Nat := (M.lines k).length

/-- Modelled from the spec: `nonZeros()` of the storage engine. -/
def nonZeros (M : CompressedMatrix SO) : Nat :=
  ((List.range M.numLines).map (fun k => M.nonZerosAt k)).sum

/-- Modelled from the spec: `begin(k)` of the storage engine, as a position within line `k`. -/
def begin_ (_M : CompressedMatrix SO) (_k : Nat) : Nat := 0

/-- Modelled from the spec: `end(k)` of the storage engine, as a position within line `k`. -/
def end_ (M : CompressedMatrix SO) (k : Nat) : Nat := (M.lines k).length

/-- Modelled from the spec: `lowerBound(i,j)` of the storage engine, as a position within the
line of the cell. -/
def lowerBound (M : CompressedMatrix SO) (i j : Nat) : Nat :=
  (M.lines (lineOf SO i j)).lowerBound (indexOf SO i j)

/-- Modelled from the spec: `upperBound(i,j)` of the storage engine, as a position within the
line of the cell. -/
def upperBound (M : CompressedMatrix SO) (i j : Nat) : Nat :=
  (M.lines (lineOf SO i j)).upperBound (indexOf SO i j)

/-- Modelled from the spec: `find(i,j)` of the storage engine, as a position within the line of
the cell. -/
def find (M : CompressedMatrix SO) (i j : Nat) : Nat :=
  (M.lines (lineOf SO i j)).find (indexOf SO i j)

/-- Replace line `k`. -/
def withLine (M : CompressedMatrix SO) (k : Nat) (l : Line) : CompressedMatrix SO :=
  ⟨M.m_, M.n_, Function.update M.lines k l⟩

/-- Modelled from the spec: `set(i,j,value)` of the storage engine; returns the position
of the set element. -/
def set (M : CompressedMatrix SO) (i j : Nat) (v : ElementType) : CompressedMatrix SO × Nat :=
  let l := (M.lines (lineOf SO i j)).set (indexOf SO i j) v
  (M.withLine (lineOf SO i j) l, l.lowerBound (indexOf SO i j))

/-- Modelled from the spec: `insert(i,j,value)` of the storage engine: as `set`, but a
duplicate entry is an invalid-argument error. -/
def insert (M : CompressedMatrix SO) (i j : Nat) (v : ElementType) :
    Outcome (CompressedMatrix SO) Nat :=
  if M.stored i j then ⟨M, Except.error (Exception.invalid_argument "Bad access index")⟩
  else ⟨(M.set i j v).1, Except.ok (M.set i j v).2⟩

/-- Modelled from the spec: `append(i,j,value)` of the storage engine: the entry is put at
the end of its line. -/
def append (M : CompressedMatrix SO) (i j : Nat) (v : ElementType) : CompressedMatrix SO :=
  M.withLine (lineOf SO i j) (M.lines (lineOf SO i j) ++ [(indexOf SO i j, v)])

/-- Modelled from the spec: `finalize(i)` of the storage engine only moves capacity; the stored
entries are unchanged. -/
def finalize (M : CompressedMatrix SO) (_k : Nat) : CompressedMatrix SO := M

/-- Modelled from the spec: `trim(i)` of the storage engine, see `finalize`. -/
def trim (M : CompressedMatrix SO) (_k : Nat) : CompressedMatrix SO := M

/-- Modelled from the spec: mutable `operator()(i,j)` of the storage engine: a reference to
the cell, which is created with the default value if it is not stored. -/
def access (M : CompressedMatrix SO) (i j : Nat) : CompressedMatrix SO :=
  if M.stored i j then M else (M.set i j 0).1

/-- Modelled from the spec: `erase(i,j)` of the storage engine. -/
def erase (M : CompressedMatrix SO) (i j : Nat) : CompressedMatrix SO :=
  M.withLine (lineOf SO i j) ((M.lines (lineOf SO i j)).eraseIndex (indexOf SO i j))

/-- Modelled from the spec: `erase(k,pos)` of the storage engine. -/
def erasePos (M : CompressedMatrix SO) (k pos : Nat) : CompressedMatrix SO :=
  M.withLine k ((M.lines k).erasePos pos)

/-- Modelled from the spec: `erase(k,first,last)` of the storage engine. -/
def eraseRange (M : CompressedMatrix SO) (k first last : Nat) : CompressedMatrix SO :=
  M.withLine k ((M.lines k).eraseRange first last)

/-- Modelled from the spec: the structural predicate `isSquare`. -/
def isSquare (M : CompressedMatrix SO) : Bool := M.m_ == M.n_

/-- Modelled from the spec: the structural predicate `isUniLower`: the matrix is square,
every diagonal entry is the identity and there is no nonzero strictly above the
diagonal. -/
def isUniLower (M : CompressedMatrix SO) : Bool :=
  M.isSquare && (List.range M.m_).all (fun i =>
    M.get i i == 1 && (List.range M.n_).all (fun j => !(decide (i < j)) || M.get i j == 0))

/-- Modelled from the spec: the structural predicate `isStrictlyLower`: the matrix is square
and zero on and above the diagonal. -/
def isStrictlyLower (M : CompressedMatrix SO) : Bool :=
  M.isSquare && (List.range M.m_).all (fun i =>
    (List.range M.n_).all (fun j => !(decide (i ≤ j)) || M.get i j == 0))

/-- Modelled from the spec: evaluation of a matrix expression with the cells `f` into fresh
storage; cells holding the structural zero are not stored. -/
def ofFn (m n : Nat) (f : Nat → Nat → ElementType) : CompressedMatrix SO :=
  ⟨m, n, fun k =>
    if k < (if SO then n else m) then
      (List.range (if SO then m else n)).filterMap (fun idx =>
        let v := if SO then f idx k else f k idx
        if v = 0 then none else some (idx, v))
    else []⟩

/-- Modelled from the spec: `operator+=` of the storage engine: elementwise addition, an
invalid-argument error if the sizes do not match. -/
def addAssign (M rhs : CompressedMatrix SO) : Outcome (CompressedMatrix SO) Unit :=
  if rhs.m_ ≠ M.m_ ∨ rhs.n_ ≠ M.n_ then
    ⟨M, Except.error (Exception.invalid_argument "Matrix sizes do not match")⟩
  else ⟨ofFn M.m_ M.n_ (fun i j => M.get i j + rhs.get i j), Except.ok ()⟩

/-- Modelled from the spec: `operator-=` of the storage engine: elementwise subtraction, an
invalid-argument error if the sizes do not match. -/
def subAssign (M rhs : CompressedMatrix SO) : Outcome (CompressedMatrix SO) Unit :=
  if rhs.m_ ≠ M.m_ ∨ rhs.n_ ≠ M.n_ then
    ⟨M, Except.error (Exception.invalid_argument "Matrix sizes do not match")⟩
  else ⟨ofFn M.m_ M.n_ (fun i j => M.get i j - rhs.get i j), Except.ok ()⟩

/-- Modelled from the spec: the evaluated matrix product `A * B`, an invalid-argument error
if the sizes do not match. -/
def mul (A B : CompressedMatrix SO) : Except Exception (CompressedMatrix SO) :=
  if A.n_ ≠ B.m_ then Except.error (Exception.invalid_argument "Matrix sizes do not match")
  else Except.ok (ofFn A.m_ B.n_ (fun i j =>
    ((List.range A.n_).map (fun k => A.get i k * B.get k j)).sum))

/-- Well-formed storage: every line has strictly increasing indices. -/
def WF (M : CompressedMatrix SO) : Prop := ∀ k, (M.lines k).sorted

end CompressedMatrix

/-- Modelled from the spec: a storage object together with its capacity (`capacity()`), the
number of entries it has reserved memory for. The storage engine is not part of the
sources. The capacity does not influence which entries are stored. -/
structure ReservedMatrix (SO : Bool) where
  matrix : CompressedMatrix SO
  capacity_ : Nat

namespace ReservedMatrix

variable {SO : Bool}

/-- Modelled from the spec: `Storage(rows, cols, capacity_hint)`: an empty `m × n` matrix with
memory reserved for `capacity` entries. -/
def create (m n capacity : Nat) : ReservedMatrix SO :=
  ⟨CompressedMatrix.create m n capacity, capacity⟩

/-- Modelled from the spec: `append(i,j,value)` of the storage engine puts the entry into
reserved memory; the capacity stays as it is. -/
def append (R : ReservedMatrix SO) (i j : Nat) (v : ElementType) : ReservedMatrix SO :=
  ⟨R.matrix.append i j v, R.capacity_⟩

/-- Modelled from the spec: `finalize(i)` of the storage engine; the capacity stays as it is. -/
def finalize (R : ReservedMatrix SO) (k : Nat) : ReservedMatrix SO :=
  ⟨R.matrix.finalize k, R.capacity_⟩

/-- Modelled from the spec: `capacity()` of the storage engine. -/
def capacity (R : ReservedMatrix SO) : Nat := R.capacity_

end ReservedMatrix

/-! ## The guarded value `UniLowerValue` -/

/-- A complex element (`std::complex<int>`), for the `real`/`imag` members of
`UniLowerValue`. -/
structure ComplexElement where
  re : Int
  im : Int
  deriving DecidableEq, Repr

/-- The values of the 32-bit `int`. -/
def intInRange (x : Int) : Prop := -2 ^ 31 ≤ x ∧ x < 2 ^ 31

instance (x : Int) : Decidable (intInRange x) := by unfold intInRange; infer_instance

/-- Reduction of an integer into the range of the 32-bit `int`: the two's complement
representative modulo `2^32`. -/
def wrapInt (x : Int) : Int := (x + 2 ^ 31) % 2 ^ 32 - 2 ^ 31

/-- The quotient `x / v` of two `int` values: truncated towards zero; there is none for the
divisor 0 and for `INT_MIN / -1`, where the behaviour of the division is undefined. -/
def intDiv (x v : Int) : Option Int :=
  if v = 0 ∨ (x = -2 ^ 31 ∧ v = -1) then none else some (Int.tdiv x v)

/-- Arithmetic of a numeric element type `ET`, as used by the compound assignment operators of
the guarded value. The quotient is `none` where the division of the element type has no
defined result. -/
class Numeric (α : Type) where
  add : α → α → α
  sub : α → α → α
  mul : α → α → α
  div : α → α → Option α

/-- The arithmetic of the 32-bit `int`, on the integers of its range. -/
instance : Numeric Int :=
  ⟨fun x v => wrapInt (x + v), fun x v => wrapInt (x - v), fun x v => wrapInt (x * v), intDiv⟩

/-- The class `UniLowerValue`. The member `value_` points to a cell of the adapted matrix; the
content of that cell is the state the member functions act on. -/
structure UniLowerValue where
  diagonal_ : Bool
  deriving DecidableEq, Repr

namespace UniLowerValue

variable {α : Type}

/-- The copy assignment operator `operator=( const UniLowerValue& uv )`; `uvCell` is the content
of the cell `uv` refers to. (The source reads that cell as `*uv.value`, the member being
`value_`.) -/
def copyAssign (p : UniLowerValue) (cell uvCell : α) : Outcome α Unit :=
  if p.diagonal_ then
    ⟨cell, Except.error (Exception.invalid_argument "Invalid assignment to diagonal matrix element")⟩
  else ⟨uvCell, Except.ok ()⟩

/-- The member `operator=( const T& v )`. -/
def assign (p : UniLowerValue) (cell v : α) : Outcome α Unit :=
  if p.diagonal_ then
    ⟨cell, Except.error (Exception.invalid_argument "Invalid assignment to diagonal matrix element")⟩
  else ⟨v, Except.ok ()⟩

/-- The member `operator+=( const T& v )`. -/
def addAssign [Numeric α] (p : UniLowerValue) (cell v : α) : Outcome α Unit :=
  if p.diagonal_ then
    ⟨cell, Except.error (Exception.invalid_argument "Invalid assignment to diagonal matrix element")⟩
  else ⟨Numeric.add cell v, Except.ok ()⟩

/-- The member `operator-=( const T& v )`. -/
def subAssign [Numeric α] (p : UniLowerValue) (cell v : α) : Outcome α Unit :=
  if p.diagonal_ then
    ⟨cell, Except.error (Exception.invalid_argument "Invalid assignment to diagonal matrix element")⟩
  else ⟨Numeric.sub cell v, Except.ok ()⟩

/-- The member `operator*=( const T& v )`. -/
def mulAssign [Numeric α] (p : UniLowerValue) (cell v : α) : Outcome α Unit :=
  if p.diagonal_ then
    ⟨cell, Except.error (Exception.invalid_argument "Invalid assignment to diagonal matrix element")⟩
  else ⟨Numeric.mul cell v, Except.ok ()⟩

/-- The member `operator/=( const T& v )`; there is no outcome where the guard is passed and
the quotient of the element type is undefined. -/
def divAssign [Numeric α] (p : UniLowerValue) (cell v : α) : Option (Outcome α Unit) :=
  if p.diagonal_ then
    some ⟨cell,
      Except.error (Exception.invalid_argument "Invalid assignment to diagonal matrix element")⟩
  else (Numeric.div cell v).map (fun q => ⟨q, Except.ok ()⟩)

/-- The conversion `operator ElementType() const`. -/
def toElementType (_p : UniLowerValue) (cell : α) : α := cell

/-- The getter `real() const`. -/
def real (_p : UniLowerValue) (cell : ComplexElement) : Int := cell.re

/-- The setter `real( ValueType value ) const`. -/
def setReal (p : UniLowerValue) (cell : ComplexElement) (value : Int) :
    Outcome ComplexElement Unit :=
  if p.diagonal_ then
    ⟨cell, Except.error (Exception.invalid_argument "Invalid assignment to diagonal matrix element")⟩
  else ⟨⟨value, cell.im⟩, Except.ok ()⟩

/-- The getter `imag() const`. -/
def imag (_p : UniLowerValue) (cell : ComplexElement) : Int := cell.im

/-- The setter `imag( ValueType value ) const`. -/
def setImag (p : UniLowerValue) (cell : ComplexElement) (value : Int) :
    Outcome ComplexElement Unit :=
  if p.diagonal_ then
    ⟨cell, Except.error (Exception.invalid_argument "Invalid assignment to diagonal matrix element")⟩
  else ⟨⟨cell.re, value⟩, Except.ok ()⟩

end UniLowerValue

/-! ## The guarded element `UniLowerElement` and the guarded `Iterator` -/

/-- The class `UniLowerElement`. The member `pos_` is the position of the element within the
row/column it belongs to; that line is the state the member functions act on. The members
forward to the element of the storage engine (`*pos_ += v`), which computes with the
integers. -/
structure UniLowerElement where
  pos_ : Nat
  diagonal_ : Bool
  deriving DecidableEq, Repr

namespace UniLowerElement

/-- The member `operator=( const T& v )`. -/
def assign (e : UniLowerElement) (l : Line) (v : ElementType) : Outcome Line Unit :=
  if e.diagonal_ then
    ⟨l, Except.error (Exception.invalid_argument "Invalid assignment to diagonal matrix element")⟩
  else ⟨l.modifyValue e.pos_ (fun _ => v), Except.ok ()⟩

/-- The member `operator+=( const T& v )`. -/
def addAssign (e : UniLowerElement) (l : Line) (v : ElementType) : Outcome Line Unit :=
  if e.diagonal_ then
    ⟨l, Except.error (Exception.invalid_argument "Invalid assignment to diagonal matrix element")⟩
  else ⟨l.modifyValue e.pos_ (fun x => x + v), Except.ok ()⟩

/-- The member `operator-=( const T& v )`. -/
def subAssign (e : UniLowerElement) (l : Line) (v : ElementType) : Outcome Line Unit :=
  if e.diagonal_ then
    ⟨l, Except.error (Exception.invalid_argument "Invalid assignment to diagonal matrix element")⟩
  else ⟨l.modifyValue e.pos_ (fun x => x - v), Except.ok ()⟩

/-- The member `operator*=( const T& v )`. -/
def mulAssign (e : UniLowerElement) (l : Line) (v : ElementType) : Outcome Line Unit :=
  if e.diagonal_ then
    ⟨l, Except.error (Exception.invalid_argument "Invalid assignment to diagonal matrix element")⟩
  else ⟨l.modifyValue e.pos_ (fun x => x * v), Except.ok ()⟩

/-- The member `operator/=( const T& v )`. -/
def divAssign (e : UniLowerElement) (l : Line) (v : ElementType) : Outcome Line Unit :=
  if e.diagonal_ then
    ⟨l, Except.error (Exception.invalid_argument "Invalid assignment to diagonal matrix element")⟩
  else ⟨l.modifyValue e.pos_ (fun x => Int.tdiv x v), Except.ok ()⟩

/-- The member `value() const`: a guarded value for the value of the element, with the same
diagonal flag. -/
def value (e : UniLowerElement) : UniLowerValue := ⟨e.diagonal_⟩

/-- The content of the cell the guarded value returned by `value()` refers to. -/
def cell (e : UniLowerElement) (l : Line) : ElementType :=
  ((l.get? e.pos_).map Prod.snd).getD 0

/-- The member `index() const`. -/
def index (e : UniLowerElement) (l : Line) : Option Nat := l.indexAt e.pos_

end UniLowerElement

/-- The class `Iterator`: `pos_` is the position of the underlying storage iterator within its
row/column, `index_` the index of that row/column. -/
structure Iterator where
  pos_ : Nat
  index_ : Nat
  deriving DecidableEq, Repr

namespace Iterator

/-- The prefix `operator++`. -/
def increment (it : Iterator) : Iterator := ⟨it.pos_ + 1, it.index_⟩

/-- The members `operator*` and `operator->`: the guarded element at the position, flagged
diagonal when the index of the element equals the index of the iterator. -/
def deref (it : Iterator) (l : Line) : UniLowerElement :=
  ⟨it.pos_, decide (l.indexAt it.pos_ = some it.index_)⟩

/-- The member `base()`. -/
def base (it : Iterator) : Nat := it.pos_

end Iterator

/-! ## The adaptor `UniLowerMatrix<MT,SO,false>` -/

/-- The class `UniLowerMatrix<MT,SO,false>`: its only member is the adapted matrix. -/
structure UniLowerMatrix (SO : Bool) where
  matrix_ : CompressedMatrix SO

/-- Modelled from the spec: the class `UniLowerProxy` returned by the mutable function call
operator, which is not part of the sources (`UniLowerProxy.h`). It refers to the cell
`(row, column)` of the adapted matrix and is restricted on the diagonal and in the
upper part, as documented at `operator()` ("The attempt to assign to an element on the
diagonal or in the upper part of the matrix (i.e. above the diagonal) will result in
a std::invalid_argument exception") and by the diagonal and fixed-zero immutability
properties of the specification. -/
structure UniLowerProxy where
  row : Nat
  column : Nat
  restricted_ : Bool
  deriving DecidableEq, Repr

namespace UniLowerMatrix

variable {SO : Bool}

/-- The member `rows()`. -/
def rows (A : UniLowerMatrix SO) : Nat := A.matrix_.rows

/-- The member `columns()`. -/
def columns (A : UniLowerMatrix SO) : Nat := A.matrix_.columns

/-- The member `nonZeros()`. -/
def nonZeros (A : UniLowerMatrix SO) : Nat := A.matrix_.nonZeros

/-- The member `nonZeros( size_t i )`. -/
def nonZerosAt (A : UniLowerMatrix SO) (i : Nat) : Nat := A.matrix_.nonZerosAt i

/-- The member `resetUpper()`. -/
def resetUpper (A : UniLowerMatrix SO) : UniLowerMatrix SO :=
  if SO then
    ⟨forLoop 1 A.columns
      (fun j M => M.eraseRange j (M.begin_ j) (M.lowerBound j j)) A.matrix_⟩
  else
    ⟨forLoop 0 A.rows
      (fun i M => M.eraseRange i (M.upperBound i i) (M.end_ i)) A.matrix_⟩

/-- The default constructor `UniLowerMatrix()`. -/
def default : UniLowerMatrix SO := ⟨CompressedMatrix.create 0 0 0⟩

/-- The constructor `UniLowerMatrix( size_t n )` as it acts on the member `matrix_`: the member
initializer `matrix_( n, n, n )` and the loop over the diagonal; the storage it leaves, with
its capacity. -/
def sizedStorage (n : Nat) : ReservedMatrix SO :=
  forLoop 0 n (fun i R => (R.append i i 1).finalize i) (ReservedMatrix.create n n n)

/-- The constructor `UniLowerMatrix( size_t n )`. -/
def sized (n : Nat) : UniLowerMatrix SO := ⟨(sizedStorage n).matrix⟩

/-- The constructor `UniLowerMatrix( size_t n, size_t nonzeros )` as it acts on the member
`matrix_`: the member initializer `matrix_( n, n, max( nonzeros, n ) )` and the loop over the
diagonal; the storage it leaves, with its capacity. -/
def sizedNonzerosStorage (n nonzeros : Nat) : ReservedMatrix SO :=
  forLoop 0 n (fun i R => (R.append i i 1).finalize i)
    (ReservedMatrix.create n n (max nonzeros n))

/-- The constructor `UniLowerMatrix( size_t n, size_t nonzeros )`. -/
def sizedNonzeros (n nonzeros : Nat) : UniLowerMatrix SO :=
  ⟨(sizedNonzerosStorage n nonzeros).matrix⟩

/-- The constructor `UniLowerMatrix( size_t n, const std::vector<size_t>& nonzeros )`; the
vector has at least `n` elements. -/
def sizedCapacities (n : Nat) (nonzeros : List Nat) : Except Exception (UniLowerMatrix SO) :=
  ((List.range n).foldlM (fun (M : CompressedMatrix SO) i =>
      if nonzeros.getD i 0 = 0 then
        Except.error (Exception.invalid_argument "Invalid capacity specification")
      else Except.ok ((M.append i i 1).finalize i))
    (CompressedMatrix.create n n (nonzeros.take n).sum)).map UniLowerMatrix.mk

/-- The copy constructor. -/
def copy (m : UniLowerMatrix SO) : UniLowerMatrix SO := ⟨m.matrix_⟩

/-- The conversion constructor `UniLowerMatrix( const Matrix<MT2,SO2>& m )`; `m` is the
evaluated source and `isUniLowerT` the value of `IsUniLower<MT2>::value`. -/
def convert (m : CompressedMatrix SO) (isUniLowerT : Bool) :
    Except Exception (UniLowerMatrix SO) :=
  let A : UniLowerMatrix SO := ⟨m⟩
  if !isUniLowerT && !A.matrix_.isUniLower then
    Except.error (Exception.invalid_argument "Invalid setup of unilower matrix")
  else
    Except.ok (if !isUniLowerT then A.resetUpper else A)

/-- The mutable `operator()( size_t i, size_t j )`, which returns `Reference( matrix_, i, j )`.
The constructor of the proxy is not part of the sources and is modelled from the spec ("a
proxy that can create new storage entries"): it takes a reference to the cell, which creates
the cell in the sparse storage when it is not stored. -/
def call (A : UniLowerMatrix SO) (i j : Nat) : UniLowerMatrix SO × UniLowerProxy :=
  (⟨A.matrix_.access i j⟩, ⟨i, j, decide (i ≤ j)⟩)

/-- The const `operator()( size_t i, size_t j ) const`. -/
def callConst (A : UniLowerMatrix SO) (i j : Nat) : ElementType := A.matrix_.get i j

/-- The copy assignment operator. -/
def copyAssign (_A rhs : UniLowerMatrix SO) : UniLowerMatrix SO := ⟨rhs.matrix_⟩

/-- The assignment operator for general (non-computation) matrices. -/
def assign (A : UniLowerMatrix SO) (rhs : CompressedMatrix SO) (isUniLowerT : Bool) :
    Outcome (UniLowerMatrix SO) Unit :=
  if !isUniLowerT && !rhs.isUniLower then
    ⟨A, Except.error (Exception.invalid_argument "Invalid assignment to unilower matrix")⟩
  else
    let A1 : UniLowerMatrix SO := ⟨rhs⟩
    let A2 := if !isUniLowerT then A1.resetUpper else A1
    ⟨A2, Except.ok ()⟩

/-- The assignment operator for matrix computations. -/
def assignComputation (A : UniLowerMatrix SO) (rhs : CompressedMatrix SO)
    (isSquareT isUniLowerT : Bool) : Outcome (UniLowerMatrix SO) Unit :=
  if !isSquareT && !rhs.isSquare then
    ⟨A, Except.error (Exception.invalid_argument "Invalid assignment to unilower matrix")⟩
  else if isUniLowerT then
    ⟨⟨rhs⟩, Except.ok ()⟩
  else
    let tmp : CompressedMatrix SO := rhs
    if !tmp.isUniLower then
      ⟨A, Except.error (Exception.invalid_argument "Invalid assignment to unilower matrix")⟩
    else
      let A1 : UniLowerMatrix SO := ⟨tmp⟩
      ⟨A1.resetUpper, Except.ok ()⟩

/-- The addition assignment operator for general (non-computation) matrices. -/
def addAssign (A : UniLowerMatrix SO) (rhs : CompressedMatrix SO) (isStrictlyLowerT : Bool) :
    Outcome (UniLowerMatrix SO) Unit :=
  if !isStrictlyLowerT && !rhs.isStrictlyLower then
    ⟨A, Except.error (Exception.invalid_argument "Invalid assignment to unilower matrix")⟩
  else
    match (A.matrix_.addAssign rhs).result with
    | Except.error e => ⟨⟨(A.matrix_.addAssign rhs).state⟩, Except.error e⟩
    | Except.ok _ =>
      let A1 : UniLowerMatrix SO := ⟨(A.matrix_.addAssign rhs).state⟩
      ⟨if !isStrictlyLowerT then A1.resetUpper else A1, Except.ok ()⟩

/-- The addition assignment operator for matrix computations. -/
def addAssignComputation (A : UniLowerMatrix SO) (rhs : CompressedMatrix SO)
    (isSquareT isStrictlyLowerT : Bool) : Outcome (UniLowerMatrix SO) Unit :=
  if !isSquareT && !rhs.isSquare then
    ⟨A, Except.error (Exception.invalid_argument "Invalid assignment to unilower matrix")⟩
  else if isStrictlyLowerT then
    ⟨⟨(A.matrix_.addAssign rhs).state⟩, (A.matrix_.addAssign rhs).result⟩
  else
    let tmp : CompressedMatrix SO := rhs
    if !tmp.isStrictlyLower then
      ⟨A, Except.error (Exception.invalid_argument "Invalid assignment to unilower matrix")⟩
    else
      match (A.matrix_.addAssign tmp).result with
      | Except.error e => ⟨⟨(A.matrix_.addAssign tmp).state⟩, Except.error e⟩
      | Except.ok _ =>
        let A1 : UniLowerMatrix SO := ⟨(A.matrix_.addAssign tmp).state⟩
        ⟨A1.resetUpper, Except.ok ()⟩

/-- The subtraction assignment operator for general (non-computation) matrices. -/
def subAssign (A : UniLowerMatrix SO) (rhs : CompressedMatrix SO) (isStrictlyLowerT : Bool) :
    Outcome (UniLowerMatrix SO) Unit :=
  if !isStrictlyLowerT && !rhs.isStrictlyLower then
    ⟨A, Except.error (Exception.invalid_argument "Invalid assignment to unilower matrix")⟩
  else
    match (A.matrix_.subAssign rhs).result with
    | Except.error e => ⟨⟨(A.matrix_.subAssign rhs).state⟩, Except.error e⟩
    | Except.ok _ =>
      let A1 : UniLowerMatrix SO := ⟨(A.matrix_.subAssign rhs).state⟩
      ⟨if !isStrictlyLowerT then A1.resetUpper else A1, Except.ok ()⟩

/-- The subtraction assignment operator for matrix computations. -/
def subAssignComputation (A : UniLowerMatrix SO) (rhs : CompressedMatrix SO)
    (isSquareT isStrictlyLowerT : Bool) : Outcome (UniLowerMatrix SO) Unit :=
  if !isSquareT && !rhs.isSquare then
    ⟨A, Except.error (Exception.invalid_argument "Invalid assignment to unilower matrix")⟩
  else if isStrictlyLowerT then
    ⟨⟨(A.matrix_.subAssign rhs).state⟩, (A.matrix_.subAssign rhs).result⟩
  else
    let tmp : CompressedMatrix SO := rhs
    if !tmp.isStrictlyLower then
      ⟨A, Except.error (Exception.invalid_argument "Invalid assignment to unilower matrix")⟩
    else
      match (A.matrix_.subAssign tmp).result with
      | Except.error e => ⟨⟨(A.matrix_.subAssign tmp).state⟩, Except.error e⟩
      | Except.ok _ =>
        let A1 : UniLowerMatrix SO := ⟨(A.matrix_.subAssign tmp).state⟩
        ⟨A1.resetUpper, Except.ok ()⟩

/-- The multiplication assignment operator `operator*=`. -/
def mulAssign (A : UniLowerMatrix SO) (rhs : CompressedMatrix SO) (isUniLowerT : Bool) :
    Outcome (UniLowerMatrix SO) Unit :=
  if A.matrix_.rows ≠ rhs.columns then
    ⟨A, Except.error (Exception.invalid_argument "Invalid assignment to unilower matrix")⟩
  else
    match A.matrix_.mul rhs with
    | Except.error e => ⟨A, Except.error e⟩
    | Except.ok tmp =>
      if !tmp.isUniLower then
        ⟨A, Except.error (Exception.invalid_argument "Invalid assignment to unilower matrix")⟩
      else
        let A1 : UniLowerMatrix SO := ⟨tmp⟩
        ⟨if !isUniLowerT then A1.resetUpper else A1, Except.ok ()⟩

/-- The member `reset()`. -/
def reset (A : UniLowerMatrix SO) : UniLowerMatrix SO :=
  if SO then
    ⟨forLoop 0 A.columns
      (fun j M => M.eraseRange j (M.lowerBound (j + 1) j) (M.end_ j)) A.matrix_⟩
  else
    ⟨forLoop 1 A.rows
      (fun i M => M.eraseRange i (M.begin_ i) (M.lowerBound i i)) A.matrix_⟩

/-- The member `reset( size_t i )`. -/
def resetAt (A : UniLowerMatrix SO) (i : Nat) : UniLowerMatrix SO :=
  if SO then
    ⟨A.matrix_.eraseRange i (A.matrix_.lowerBound (i + 1) i) (A.matrix_.end_ i)⟩
  else
    ⟨A.matrix_.eraseRange i (A.matrix_.begin_ i) (A.matrix_.lowerBound i i)⟩

/-- The member `set( size_t i, size_t j, const ElementType& value )`. -/
def set (A : UniLowerMatrix SO) (i j : Nat) (value : ElementType) :
    Outcome (UniLowerMatrix SO) Iterator :=
  if i ≤ j then
    ⟨A, Except.error
      (Exception.invalid_argument "Invalid access to diagonal or upper matrix element")⟩
  else
    ⟨⟨(A.matrix_.set i j value).1⟩,
      Except.ok ⟨(A.matrix_.set i j value).2, if SO then j else i⟩⟩

/-- The member `insert( size_t i, size_t j, const ElementType& value )`. -/
def insert (A : UniLowerMatrix SO) (i j : Nat) (value : ElementType) :
    Outcome (UniLowerMatrix SO) Iterator :=
  if i ≤ j then
    ⟨A, Except.error
      (Exception.invalid_argument "Invalid access to diagonal or upper matrix element")⟩
  else
    ⟨⟨(A.matrix_.insert i j value).state⟩,
      (A.matrix_.insert i j value).result.map (fun pos => ⟨pos, if SO then j else i⟩)⟩

/-- The member `erase( size_t i, size_t j )`. -/
def erase (A : UniLowerMatrix SO) (i j : Nat) : Outcome (UniLowerMatrix SO) Unit :=
  if i = j then
    ⟨A, Except.error (Exception.invalid_argument "Invalid access to diagonal matrix element")⟩
  else
    ⟨⟨A.matrix_.erase i j⟩, Except.ok ()⟩

/-- The member `erase( size_t i, Iterator pos )`; `pos` is an iterator of row/column `i`. -/
def erasePos (A : UniLowerMatrix SO) (i : Nat) (pos : Iterator) :
    Outcome (UniLowerMatrix SO) Iterator :=
  if pos.base ≠ A.matrix_.end_ i ∧ (A.matrix_.lines i).indexAt pos.pos_ = some i then
    ⟨A, Except.error (Exception.invalid_argument "Invalid access to diagonal matrix element")⟩
  else
    ⟨⟨A.matrix_.erasePos i pos.base⟩, Except.ok ⟨pos.base, i⟩⟩

/-- The member `erase( size_t i, Iterator first, Iterator last )`; `first` and `last` are
iterators of row/column `i`. -/
def eraseRange (A : UniLowerMatrix SO) (i : Nat) (first last : Iterator) :
    Outcome (UniLowerMatrix SO) Iterator :=
  if (List.range' first.pos_ (last.pos_ - first.pos_)).any
      (fun p => decide ((A.matrix_.lines i).indexAt p = some i)) then
    ⟨A, Except.error (Exception.invalid_argument "Invalid access to diagonal matrix element")⟩
  else
    ⟨⟨A.matrix_.eraseRange i first.base last.base⟩, Except.ok ⟨first.base, i⟩⟩

/-- The member `swap( UniLowerMatrix& m )`: the states of `*this` and of `m` afterwards. -/
def swap (A m : UniLowerMatrix SO) : UniLowerMatrix SO × UniLowerMatrix SO :=
  (⟨m.matrix_⟩, ⟨A.matrix_⟩)

/-- The member `append( size_t i, size_t j, const ElementType& value, bool check )`. -/
def append (A : UniLowerMatrix SO) (i j : Nat) (value : ElementType) (check : Bool) :
    Outcome (UniLowerMatrix SO) Unit :=
  if i ≤ j then
    ⟨A, Except.error
      (Exception.invalid_argument "Invalid access to diagonal or upper matrix element")⟩
  else if !check || !(value == 0) then
    ⟨⟨(A.matrix_.insert i j value).state⟩, (A.matrix_.insert i j value).result.map (fun _ => ())⟩
  else
    ⟨A, Except.ok ()⟩

/-- The member `finalize( size_t i )`. -/
def finalize (A : UniLowerMatrix SO) (i : Nat) : UniLowerMatrix SO := ⟨A.matrix_.trim i⟩

end UniLowerMatrix

namespace UniLowerProxy

variable {SO : Bool}

/-- Modelled from the spec: a write of the value `f x` through the proxy, where `x` is the
current value of the cell: rejected when the proxy is restricted, otherwise forwarded
to the cell. -/
def write (p : UniLowerProxy) (A : UniLowerMatrix SO) (f : ElementType → ElementType) :
    Outcome (UniLowerMatrix SO) Unit :=
  if p.restricted_ then
    ⟨A, Except.error
      (Exception.invalid_argument "Invalid assignment to diagonal or upper matrix element")⟩
  else
    ⟨⟨(A.matrix_.set p.row p.column (f (A.matrix_.get p.row p.column))).1⟩, Except.ok ()⟩

/-- Modelled from the spec: assignment through the proxy. -/
def assign (p : UniLowerProxy) (A : UniLowerMatrix SO) (v : ElementType) :
    Outcome (UniLowerMatrix SO) Unit := p.write A (fun _ => v)

/-- Modelled from the spec: addition assignment through the proxy. -/
def addAssign (p : UniLowerProxy) (A : UniLowerMatrix SO) (v : ElementType) :
    Outcome (UniLowerMatrix SO) Unit := p.write A (fun x => x + v)

/-- Modelled from the spec: subtraction assignment through the proxy. -/
def subAssign (p : UniLowerProxy) (A : UniLowerMatrix SO) (v : ElementType) :
    Outcome (UniLowerMatrix SO) Unit := p.write A (fun x => x - v)

/-- Modelled from the spec: multiplication assignment through the proxy. -/
def mulAssign (p : UniLowerProxy) (A : UniLowerMatrix SO) (v : ElementType) :
    Outcome (UniLowerMatrix SO) Unit := p.write A (fun x => x * v)

/-- Modelled from the spec: division assignment through the proxy. -/
def divAssign (p : UniLowerProxy) (A : UniLowerMatrix SO) (v : ElementType) :
    Outcome (UniLowerMatrix SO) Unit := p.write A (fun x => Int.tdiv x v)

end UniLowerProxy

/-! ## The structural invariant and the reachable states -/

namespace UniLowerMatrix

variable {SO : Bool}

/-- The unit-lower invariant: the storage is well-formed, the matrix is square, every diagonal
cell reads 1 and every cell above the diagonal reads 0. -/
def Invariant (A : UniLowerMatrix SO) : Prop :=
  A.matrix_.WF ∧ A.rows = A.columns ∧
    (∀ i, i < A.rows → A.callConst i i = 1) ∧
    (∀ i j, i < j → j < A.rows → A.callConst i j = 0)

/-- The adaptor states reachable from the constructors by the public operations `set`, `insert`,
`append`, the three forms of `erase`, `reset()`, `reset(i)`, `swap`, copy assignment,
matrix assignment, `+=`, `-=` and `*=`, whether a call succeeds or raises. A right-hand
side matrix is well-formed storage, and a type trait that is set is backed by the
matrix it describes. Iterator arguments of `erase` delimit a range of the row/column. -/
inductive Reachable : UniLowerMatrix SO → Prop
  | default : Reachable UniLowerMatrix.default
  | sized (n : Nat) : Reachable (UniLowerMatrix.sized n)
  | sizedNonzeros (n nonzeros : Nat) : Reachable (UniLowerMatrix.sizedNonzeros n nonzeros)
  | sizedCapacities (n : Nat) (nonzeros : List Nat) (A : UniLowerMatrix SO) :
      UniLowerMatrix.sizedCapacities n nonzeros = Except.ok A → Reachable A
  | copy (m : UniLowerMatrix SO) : Reachable m → Reachable (UniLowerMatrix.copy m)
  | convert (m : CompressedMatrix SO) (isUniLowerT : Bool) (A : UniLowerMatrix SO) :
      m.WF → (isUniLowerT = true → m.isUniLower = true) →
      UniLowerMatrix.convert m isUniLowerT = Except.ok A → Reachable A
  | set (A : UniLowerMatrix SO) (i j : Nat) (value : ElementType) :
      Reachable A → Reachable (A.set i j value).state
  | insert (A : UniLowerMatrix SO) (i j : Nat) (value : ElementType) :
      Reachable A → Reachable (A.insert i j value).state
  | append (A : UniLowerMatrix SO) (i j : Nat) (value : ElementType) (check : Bool) :
      Reachable A → Reachable (A.append i j value check).state
  | erase (A : UniLowerMatrix SO) (i j : Nat) :
      Reachable A → Reachable (A.erase i j).state
  | erasePos (A : UniLowerMatrix SO) (i : Nat) (pos : Iterator) :
      Reachable A → Reachable (A.erasePos i pos).state
  | eraseRange (A : UniLowerMatrix SO) (i : Nat) (first last : Iterator) :
      Reachable A → first.pos_ ≤ last.pos_ → Reachable (A.eraseRange i first last).state
  | reset (A : UniLowerMatrix SO) : Reachable A → Reachable A.reset
  | resetAt (A : UniLowerMatrix SO) (i : Nat) : Reachable A → Reachable (A.resetAt i)
  | swapLeft (A m : UniLowerMatrix SO) : Reachable A → Reachable m → Reachable (A.swap m).1
  | swapRight (A m : UniLowerMatrix SO) : Reachable A → Reachable m → Reachable (A.swap m).2
  | copyAssign (A rhs : UniLowerMatrix SO) :
      Reachable A → Reachable rhs → Reachable (A.copyAssign rhs)
  | assign (A : UniLowerMatrix SO) (rhs : CompressedMatrix SO) (isUniLowerT : Bool) :
      Reachable A → rhs.WF → (isUniLowerT = true → rhs.isUniLower = true) →
      Reachable (A.assign rhs isUniLowerT).state
  | assignComputation (A : UniLowerMatrix SO) (rhs : CompressedMatrix SO)
      (isSquareT isUniLowerT : Bool) :
      Reachable A → rhs.WF → (isSquareT = true → rhs.isSquare = true) →
      (isUniLowerT = true → rhs.isUniLower = true) →
      Reachable (A.assignComputation rhs isSquareT isUniLowerT).state
  | addAssign (A : UniLowerMatrix SO) (rhs : CompressedMatrix SO) (isStrictlyLowerT : Bool) :
      Reachable A → rhs.WF → (isStrictlyLowerT = true → rhs.isStrictlyLower = true) →
      Reachable (A.addAssign rhs isStrictlyLowerT).state
  | addAssignComputation (A : UniLowerMatrix SO) (rhs : CompressedMatrix SO)
      (isSquareT isStrictlyLowerT : Bool) :
      Reachable A → rhs.WF → (isSquareT = true → rhs.isSquare = true) →
      (isStrictlyLowerT = true → rhs.isStrictlyLower = true) →
      Reachable (A.addAssignComputation rhs isSquareT isStrictlyLowerT).state
  | subAssign (A : UniLowerMatrix SO) (rhs : CompressedMatrix SO) (isStrictlyLowerT : Bool) :
      Reachable A → rhs.WF → (isStrictlyLowerT = true → rhs.isStrictlyLower = true) →
      Reachable (A.subAssign rhs isStrictlyLowerT).state
  | subAssignComputation (A : UniLowerMatrix SO) (rhs : CompressedMatrix SO)
      (isSquareT isStrictlyLowerT : Bool) :
      Reachable A → rhs.WF → (isSquareT = true → rhs.isSquare = true) →
      (isStrictlyLowerT = true → rhs.isStrictlyLower = true) →
      Reachable (A.subAssignComputation rhs isSquareT isStrictlyLowerT).state
  | mulAssign (A : UniLowerMatrix SO) (rhs : CompressedMatrix SO) (isUniLowerT : Bool) :
      Reachable A → rhs.WF → (isUniLowerT = true → rhs.isUniLower = true) →
      Reachable (A.mulAssign rhs isUniLowerT).state

end UniLowerMatrix

/-! ## Resizing and the matrix product -/

/-- A `for( k=lo; k<hi; ++k )` loop over a state whose body may throw: the first exception
leaves the loop. -/
def forLoopThrowing {σ ρ : Type} (lo hi : Nat) (body : Nat → σ → Outcome σ ρ) (s : σ) :
    Outcome σ Unit :=
  (List.range' lo (hi - lo)).foldl (fun (acc : Outcome σ Unit) k =>
    match acc.result with
    | Except.error _ => acc
    | Except.ok _ => ⟨(body k acc.state).state, (body k acc.state).result.map (fun _ => ())⟩)
    ⟨s, Except.ok ()⟩

namespace CompressedMatrix

variable {SO : Bool}

/-- Length of a line: the number of columns for row-major, of rows for column-major storage. -/
def lineLength (M : CompressedMatrix SO) : Nat := if SO then M.m_ else M.n_

/-- The storage holds no entry outside the matrix: entries only in existing lines, with
indices below the length of a line. -/
def Bounded (M : CompressedMatrix SO) : Prop :=
  ∀ k e, e ∈ M.lines k → k < M.numLines ∧ e.1 < M.lineLength

/-- Cell `(i,j)` of the matrix product `A * B`: the sum over `k` of `A(i,k) * B(k,j)`. -/
def productCell (A B : CompressedMatrix SO) (i j : Nat) : ElementType :=
  ((List.range A.n_).map (fun k => A.get i k * B.get k j)).sum

/-- Modelled from the spec: `resize(m, n, preserve)` of the storage engine. With `preserve`
the entries inside the new bounds are kept and new rows/columns are empty; without it
no entry is kept. -/
def resize (M : CompressedMatrix SO) (m n : Nat) (preserve : Bool) : CompressedMatrix SO :=
  if preserve then
    ⟨m, n, fun k =>
      if k < M.numLines ∧ k < (if SO then n else m) then
        (M.lines k).filter (fun e => decide (e.1 < (if SO then m else n)))
      else []⟩
  else ⟨m, n, fun _ => []⟩

end CompressedMatrix

namespace UniLowerMatrix

variable {SO : Bool}

/-- The member `resize( size_t n, bool preserve )`. -/
def resize (A : UniLowerMatrix SO) (n : Nat) (preserve : Bool) :
    Outcome (UniLowerMatrix SO) Unit :=
  let oldsize := A.matrix_.rows
  let M := A.matrix_.resize n n preserve
  if n > oldsize then
    ⟨⟨(forLoopThrowing oldsize n (fun i N => N.insert i i 1) M).state⟩,
      (forLoopThrowing oldsize n (fun i N => N.insert i i 1) M).result⟩
  else ⟨⟨M⟩, Except.ok ()⟩

end UniLowerMatrix

/-! ## Lookup, iteration, capacity and the reachable states with resizing -/

/-- Matrix position `(row, column)` of the element with index `idx` in line `k`. -/
def cellOfLine (SO : Bool) (k idx : Nat) : Nat × Nat := if SO then (idx, k) else (k, idx)

/-- The index pairs `(i,j)` with `j ≤ i < n`: the cells on and below the diagonal of an
`n × n` matrix. -/
def lowerCells (n : Nat) : List (Nat × Nat) :=
  ((List.range n).map (fun i => (List.range (i + 1)).map (fun j => (i, j)))).flatten

namespace UniLowerMatrix

variable {SO : Bool}

/-- The body of the constructor `UniLowerMatrix( size_t n, const std::vector<size_t>& nonzeros )`
as it acts on the member `matrix_`: the storage at the point where the constructor is left,
normally or by the exception. -/
def sizedCapacitiesStorage (n : Nat) (nonzeros : List Nat) :
    Outcome (CompressedMatrix SO) Unit :=
  forLoopThrowing 0 n (fun i (M : CompressedMatrix SO) =>
      if nonzeros.getD i 0 = 0 then
        (⟨M, Except.error (Exception.invalid_argument "Invalid capacity specification")⟩ :
          Outcome (CompressedMatrix SO) Unit)
      else ⟨(M.append i i 1).finalize i, Except.ok ()⟩)
    (CompressedMatrix.create n n (nonzeros.take n).sum)

/-- The static member `maxNonZeros( size_t n )`, in `size_t` arithmetic of width `w`. -/
def maxNonZeros (w n : Nat) : Nat := ((n + 1) % 2 ^ w * n % 2 ^ w) / 2

/-- The member `begin( size_t i )`. -/
def begin_ (A : UniLowerMatrix SO) (i : Nat) : Iterator := ⟨A.matrix_.begin_ i, i⟩

/-- The member `end( size_t i )`. -/
def end_ (A : UniLowerMatrix SO) (i : Nat) : Iterator := ⟨A.matrix_.end_ i, i⟩

/-- The member `find( size_t i, size_t j )`. -/
def find (A : UniLowerMatrix SO) (i j : Nat) : Iterator :=
  ⟨A.matrix_.find i j, if SO then j else i⟩

/-- The member `lowerBound( size_t i, size_t j )`. -/
def lowerBound (A : UniLowerMatrix SO) (i j : Nat) : Iterator :=
  ⟨A.matrix_.lowerBound i j, if SO then j else i⟩

/-- The member `upperBound( size_t i, size_t j )`. -/
def upperBound (A : UniLowerMatrix SO) (i j : Nat) : Iterator :=
  ⟨A.matrix_.upperBound i j, if SO then j else i⟩

/-- A call of the mutating member `op` of the element `*it`, where `it` is an iterator of
row/column `k`: the element acts on line `k` of the adapted matrix. -/
def writeThrough (A : UniLowerMatrix SO) (k : Nat) (it : Iterator)
    (op : UniLowerElement → Line → Outcome Line Unit) : Outcome (UniLowerMatrix SO) Unit :=
  ⟨⟨A.matrix_.withLine k (op (it.deref (A.matrix_.lines k)) (A.matrix_.lines k)).state⟩,
    (op (it.deref (A.matrix_.lines k)) (A.matrix_.lines k)).result⟩

/-- The adaptor states reachable from the constructors by the public operations, whether a
call succeeds or raises: those of `Reachable` and in addition `resize`, mutable element
access, writes through the proxy it returns, writes through the elements of a mutable
iterator and `finalize`. A type trait that is set is backed by the matrix it describes. -/
inductive ReachableResizing : UniLowerMatrix SO → Prop
  | default : ReachableResizing UniLowerMatrix.default
  | sized (n : Nat) : ReachableResizing (UniLowerMatrix.sized n)
  | sizedNonzeros (n nonzeros : Nat) : ReachableResizing (UniLowerMatrix.sizedNonzeros n nonzeros)
  | sizedCapacities (n : Nat) (nonzeros : List Nat) (A : UniLowerMatrix SO) :
      UniLowerMatrix.sizedCapacities n nonzeros = Except.ok A → ReachableResizing A
  | copy (m : UniLowerMatrix SO) : ReachableResizing m → ReachableResizing (UniLowerMatrix.copy m)
  | convert (m : CompressedMatrix SO) (isUniLowerT : Bool) (A : UniLowerMatrix SO) :
      (isUniLowerT = true → m.isUniLower = true) →
      UniLowerMatrix.convert m isUniLowerT = Except.ok A → ReachableResizing A
  | call (A : UniLowerMatrix SO) (i j : Nat) :
      ReachableResizing A → ReachableResizing (A.call i j).1
  | proxyWrite (A : UniLowerMatrix SO) (i j : Nat) (f : ElementType → ElementType) :
      ReachableResizing A → ReachableResizing ((A.call i j).2.write (A.call i j).1 f).state
  | elementAssign (A : UniLowerMatrix SO) (k : Nat) (it : Iterator) (v : ElementType) :
      ReachableResizing A → ReachableResizing (A.writeThrough k it (fun e l => e.assign l v)).state
  | elementAddAssign (A : UniLowerMatrix SO) (k : Nat) (it : Iterator) (v : ElementType) :
      ReachableResizing A →
      ReachableResizing (A.writeThrough k it (fun e l => e.addAssign l v)).state
  | elementSubAssign (A : UniLowerMatrix SO) (k : Nat) (it : Iterator) (v : ElementType) :
      ReachableResizing A →
      ReachableResizing (A.writeThrough k it (fun e l => e.subAssign l v)).state
  | elementMulAssign (A : UniLowerMatrix SO) (k : Nat) (it : Iterator) (v : ElementType) :
      ReachableResizing A →
      ReachableResizing (A.writeThrough k it (fun e l => e.mulAssign l v)).state
  | elementDivAssign (A : UniLowerMatrix SO) (k : Nat) (it : Iterator) (v : ElementType) :
      ReachableResizing A →
      ReachableResizing (A.writeThrough k it (fun e l => e.divAssign l v)).state
  | set (A : UniLowerMatrix SO) (i j : Nat) (value : ElementType) :
      ReachableResizing A → ReachableResizing (A.set i j value).state
  | insert (A : UniLowerMatrix SO) (i j : Nat) (value : ElementType) :
      ReachableResizing A → ReachableResizing (A.insert i j value).state
  | append (A : UniLowerMatrix SO) (i j : Nat) (value : ElementType) (check : Bool) :
      ReachableResizing A → ReachableResizing (A.append i j value check).state
  | finalize (A : UniLowerMatrix SO) (i : Nat) :
      ReachableResizing A → ReachableResizing (A.finalize i)
  | erase (A : UniLowerMatrix SO) (i j : Nat) :
      ReachableResizing A → ReachableResizing (A.erase i j).state
  | erasePos (A : UniLowerMatrix SO) (i : Nat) (pos : Iterator) :
      ReachableResizing A → ReachableResizing (A.erasePos i pos).state
  | eraseRange (A : UniLowerMatrix SO) (i : Nat) (first last : Iterator) :
      ReachableResizing A → ReachableResizing (A.eraseRange i first last).state
  | reset (A : UniLowerMatrix SO) : ReachableResizing A → ReachableResizing A.reset
  | resetAt (A : UniLowerMatrix SO) (i : Nat) :
      ReachableResizing A → ReachableResizing (A.resetAt i)
  | resize (A : UniLowerMatrix SO) (n : Nat) (preserve : Bool) :
      ReachableResizing A → ReachableResizing (A.resize n preserve).state
  | swapLeft (A m : UniLowerMatrix SO) :
      ReachableResizing A → ReachableResizing m → ReachableResizing (A.swap m).1
  | swapRight (A m : UniLowerMatrix SO) :
      ReachableResizing A → ReachableResizing m → ReachableResizing (A.swap m).2
  | copyAssign (A rhs : UniLowerMatrix SO) :
      ReachableResizing A → ReachableResizing rhs → ReachableResizing (A.copyAssign rhs)
  | assign (A : UniLowerMatrix SO) (rhs : CompressedMatrix SO) (isUniLowerT : Bool) :
      ReachableResizing A → (isUniLowerT = true → rhs.isUniLower = true) →
      ReachableResizing (A.assign rhs isUniLowerT).state
  | assignComputation (A : UniLowerMatrix SO) (rhs : CompressedMatrix SO)
      (isSquareT isUniLowerT : Bool) :
      ReachableResizing A → (isSquareT = true → rhs.isSquare = true) →
      (isUniLowerT = true → rhs.isUniLower = true) →
      ReachableResizing (A.assignComputation rhs isSquareT isUniLowerT).state
  | addAssign (A : UniLowerMatrix SO) (rhs : CompressedMatrix SO) (isStrictlyLowerT : Bool) :
      ReachableResizing A → (isStrictlyLowerT = true → rhs.isStrictlyLower = true) →
      ReachableResizing (A.addAssign rhs isStrictlyLowerT).state
  | addAssignComputation (A : UniLowerMatrix SO) (rhs : CompressedMatrix SO)
      (isSquareT isStrictlyLowerT : Bool) :
      ReachableResizing A → (isSquareT = true → rhs.isSquare = true) →
      (isStrictlyLowerT = true → rhs.isStrictlyLower = true) →
      ReachableResizing (A.addAssignComputation rhs isSquareT isStrictlyLowerT).state
  | subAssign (A : UniLowerMatrix SO) (rhs : CompressedMatrix SO) (isStrictlyLowerT : Bool) :
      ReachableResizing A → (isStrictlyLowerT = true → rhs.isStrictlyLower = true) →
      ReachableResizing (A.subAssign rhs isStrictlyLowerT).state
  | subAssignComputation (A : UniLowerMatrix SO) (rhs : CompressedMatrix SO)
      (isSquareT isStrictlyLowerT : Bool) :
      ReachableResizing A → (isSquareT = true → rhs.isSquare = true) →
      (isStrictlyLowerT = true → rhs.isStrictlyLower = true) →
      ReachableResizing (A.subAssignComputation rhs isSquareT isStrictlyLowerT).state
  | mulAssign (A : UniLowerMatrix SO) (rhs : CompressedMatrix SO) (isUniLowerT : Bool) :
      ReachableResizing A → (isUniLowerT = true → rhs.isUniLower = true) →
      ReachableResizing (A.mulAssign rhs isUniLowerT).state

end UniLowerMatrix

/-- The diagonal flag of the element that the iterator `it` of line `k` of `M` refers to is set
exactly when the row of that element equals its column. -/
def Iterator.flagCorrect {SO : Bool} (it : Iterator) (M : CompressedMatrix SO) (k : Nat) : Prop :=
  ∀ idx, (M.lines k).indexAt it.pos_ = some idx →
    ((it.deref (M.lines k)).diagonal_ = true ↔
      (cellOfLine SO k idx).1 = (cellOfLine SO k idx).2)

/-! ## Iterator comparison and the states reachable without discarding entries -/

/-- Modelled from the spec: the arrangement `start` of the lines in the element array of the
storage engine, which is not part of the sources, fits the matrix: line `k` occupies the
positions from `start k` on, and the next line begins behind its elements (directly behind
them when the line has no spare capacity). -/
def CompressedMatrix.Layout {SO : Bool} (M : CompressedMatrix SO) (start : Nat → Nat) : Prop :=
  ∀ k, start k + (M.lines k).length ≤ start (k + 1)

namespace Iterator

/-- Modelled from the spec: the value of the storage iterator `pos_` (`MT::Iterator`) of an
iterator of line `k`: the position it refers to in the element array of the storage engine,
whose line `k` begins at `start k`. Iterators of the same line differ by their positions within
the line; iterators of different lines are told apart by where their lines begin. -/
def position (it : Iterator) (start : Nat → Nat) (k : Nat) : Nat := start k + it.pos_

/-- The member `operator==`, for an iterator `a` of line `ka` and an iterator `rhs` of line
`kb`: `pos_ == rhs.pos_`. -/
def eq (start : Nat → Nat) (ka kb : Nat) (a rhs : Iterator) : Bool :=
  a.position start ka == rhs.position start kb

/-- The member `operator!=`. -/
def ne (start : Nat → Nat) (ka kb : Nat) (a rhs : Iterator) : Bool :=
  !(Iterator.eq start ka kb a rhs)

/-- The member `operator-`: the number of elements between two iterators (a `ptrdiff_t`),
`pos_ - rhs.pos_`. -/
def sub (start : Nat → Nat) (ka kb : Nat) (a rhs : Iterator) : Int :=
  (a.position start ka : Int) - (rhs.position start kb : Int)

/-- The postfix `operator++( int )`: the iterator after the call and the returned copy of the
iterator before the call. -/
def postIncrement (a : Iterator) : Iterator × Iterator :=
  let tmp := a
  (a.increment, tmp)

end Iterator

namespace UniLowerMatrix

variable {SO : Bool}

/-- The part of the unit-lower invariant that concerns the diagonal: the storage is well-formed,
the matrix is square and every diagonal cell reads 1. -/
def UnitDiagonal (A : UniLowerMatrix SO) : Prop :=
  A.matrix_.WF ∧ A.rows = A.columns ∧ ∀ i, i < A.rows → A.callConst i i = 1

/-- The adaptor states reachable from the constructors by the public operations other than
`resize` with `preserve == false`, whether a call succeeds or raises. A right-hand side
matrix is well-formed storage, a type trait that is set is backed by the matrix it
describes, an iterator of row/column `k` carries the index `k`, and the iterator arguments
of `erase` delimit a range of the row/column. -/
inductive ReachablePreserving : UniLowerMatrix SO → Prop
  | default : ReachablePreserving UniLowerMatrix.default
  | sized (n : Nat) : ReachablePreserving (UniLowerMatrix.sized n)
  | sizedNonzeros (n nonzeros : Nat) :
      ReachablePreserving (UniLowerMatrix.sizedNonzeros n nonzeros)
  | sizedCapacities (n : Nat) (nonzeros : List Nat) (A : UniLowerMatrix SO) :
      UniLowerMatrix.sizedCapacities n nonzeros = Except.ok A → ReachablePreserving A
  | copy (m : UniLowerMatrix SO) :
      ReachablePreserving m → ReachablePreserving (UniLowerMatrix.copy m)
  | convert (m : CompressedMatrix SO) (isUniLowerT : Bool) (A : UniLowerMatrix SO) :
      m.WF → (isUniLowerT = true → m.isUniLower = true) →
      UniLowerMatrix.convert m isUniLowerT = Except.ok A → ReachablePreserving A
  | call (A : UniLowerMatrix SO) (i j : Nat) :
      ReachablePreserving A → ReachablePreserving (A.call i j).1
  | proxyWrite (A : UniLowerMatrix SO) (i j : Nat) (f : ElementType → ElementType) :
      ReachablePreserving A →
      ReachablePreserving ((A.call i j).2.write (A.call i j).1 f).state
  | elementAssign (A : UniLowerMatrix SO) (k : Nat) (it : Iterator) (v : ElementType) :
      ReachablePreserving A → it.index_ = k →
      ReachablePreserving (A.writeThrough k it (fun e l => e.assign l v)).state
  | elementAddAssign (A : UniLowerMatrix SO) (k : Nat) (it : Iterator) (v : ElementType) :
      ReachablePreserving A → it.index_ = k →
      ReachablePreserving (A.writeThrough k it (fun e l => e.addAssign l v)).state
  | elementSubAssign (A : UniLowerMatrix SO) (k : Nat) (it : Iterator) (v : ElementType) :
      ReachablePreserving A → it.index_ = k →
      ReachablePreserving (A.writeThrough k it (fun e l => e.subAssign l v)).state
  | elementMulAssign (A : UniLowerMatrix SO) (k : Nat) (it : Iterator) (v : ElementType) :
      ReachablePreserving A → it.index_ = k →
      ReachablePreserving (A.writeThrough k it (fun e l => e.mulAssign l v)).state
  | elementDivAssign (A : UniLowerMatrix SO) (k : Nat) (it : Iterator) (v : ElementType) :
      ReachablePreserving A → it.index_ = k →
      ReachablePreserving (A.writeThrough k it (fun e l => e.divAssign l v)).state
  | set (A : UniLowerMatrix SO) (i j : Nat) (value : ElementType) :
      ReachablePreserving A → ReachablePreserving (A.set i j value).state
  | insert (A : UniLowerMatrix SO) (i j : Nat) (value : ElementType) :
      ReachablePreserving A → ReachablePreserving (A.insert i j value).state
  | append (A : UniLowerMatrix SO) (i j : Nat) (value : ElementType) (check : Bool) :
      ReachablePreserving A → ReachablePreserving (A.append i j value check).state
  | finalize (A : UniLowerMatrix SO) (i : Nat) :
      ReachablePreserving A → ReachablePreserving (A.finalize i)
  | erase (A : UniLowerMatrix SO) (i j : Nat) :
      ReachablePreserving A → ReachablePreserving (A.erase i j).state
  | erasePos (A : UniLowerMatrix SO) (i : Nat) (pos : Iterator) :
      ReachablePreserving A → ReachablePreserving (A.erasePos i pos).state
  | eraseRange (A : UniLowerMatrix SO) (i : Nat) (first last : Iterator) :
      ReachablePreserving A → first.pos_ ≤ last.pos_ →
      ReachablePreserving (A.eraseRange i first last).state
  | reset (A : UniLowerMatrix SO) : ReachablePreserving A → ReachablePreserving A.reset
  | resetAt (A : UniLowerMatrix SO) (i : Nat) :
      ReachablePreserving A → ReachablePreserving (A.resetAt i)
  | resize (A : UniLowerMatrix SO) (n : Nat) :
      ReachablePreserving A → ReachablePreserving (A.resize n true).state
  | swapLeft (A m : UniLowerMatrix SO) :
      ReachablePreserving A → ReachablePreserving m → ReachablePreserving (A.swap m).1
  | swapRight (A m : UniLowerMatrix SO) :
      ReachablePreserving A → ReachablePreserving m → ReachablePreserving (A.swap m).2
  | copyAssign (A rhs : UniLowerMatrix SO) :
      ReachablePreserving A → ReachablePreserving rhs → ReachablePreserving (A.copyAssign rhs)
  | assign (A : UniLowerMatrix SO) (rhs : CompressedMatrix SO) (isUniLowerT : Bool) :
      ReachablePreserving A → rhs.WF → (isUniLowerT = true → rhs.isUniLower = true) →
      ReachablePreserving (A.assign rhs isUniLowerT).state
  | assignComputation (A : UniLowerMatrix SO) (rhs : CompressedMatrix SO)
      (isSquareT isUniLowerT : Bool) :
      ReachablePreserving A → rhs.WF → (isSquareT = true → rhs.isSquare = true) →
      (isUniLowerT = true → rhs.isUniLower = true) →
      ReachablePreserving (A.assignComputation rhs isSquareT isUniLowerT).state
  | addAssign (A : UniLowerMatrix SO) (rhs : CompressedMatrix SO) (isStrictlyLowerT : Bool) :
      ReachablePreserving A → rhs.WF → (isStrictlyLowerT = true → rhs.isStrictlyLower = true) →
      ReachablePreserving (A.addAssign rhs isStrictlyLowerT).state
  | addAssignComputation (A : UniLowerMatrix SO) (rhs : CompressedMatrix SO)
      (isSquareT isStrictlyLowerT : Bool) :
      ReachablePreserving A → rhs.WF → (isSquareT = true → rhs.isSquare = true) →
      (isStrictlyLowerT = true → rhs.isStrictlyLower = true) →
      ReachablePreserving (A.addAssignComputation rhs isSquareT isStrictlyLowerT).state
  | subAssign (A : UniLowerMatrix SO) (rhs : CompressedMatrix SO) (isStrictlyLowerT : Bool) :
      ReachablePreserving A → rhs.WF → (isStrictlyLowerT = true → rhs.isStrictlyLower = true) →
      ReachablePreserving (A.subAssign rhs isStrictlyLowerT).state
  | subAssignComputation (A : UniLowerMatrix SO) (rhs : CompressedMatrix SO)
      (isSquareT isStrictlyLowerT : Bool) :
      ReachablePreserving A → rhs.WF → (isSquareT = true → rhs.isSquare = true) →
      (isStrictlyLowerT = true → rhs.isStrictlyLower = true) →
      ReachablePreserving (A.subAssignComputation rhs isSquareT isStrictlyLowerT).state
  | mulAssign (A : UniLowerMatrix SO) (rhs : CompressedMatrix SO) (isUniLowerT : Bool) :
      ReachablePreserving A → rhs.WF → (isUniLowerT = true → rhs.isUniLower = true) →
      ReachablePreserving (A.mulAssign rhs isUniLowerT).state

end UniLowerMatrix

/-! ## Example matrices and auxiliary predicates -/

/-- A 2×2 row-major matrix whose only entry lies below the diagonal. -/
def exampleStrictlyLower : CompressedMatrix false :=
  ⟨2, 2, fun k => match k with
    | 1 => [(0, 5)]
    | _ => []⟩

/-- A 2×2 row-major matrix whose only entry lies above the diagonal. -/
def exampleStrictlyUpper : CompressedMatrix false :=
  ⟨2, 2, fun k => match k with
    | 0 => [(1, 3)]
    | _ => []⟩

/-- A 2×2 row-major unit lower triangular matrix that stores an explicit zero above the
diagonal. -/
def exampleUniLower : CompressedMatrix false :=
  ⟨2, 2, fun k => match k with
    | 0 => [(0, 1), (1, 0)]
    | 1 => [(0, 4), (1, 1)]
    | _ => []⟩

/-- A 2×2 row-major matrix with a nonzero above the diagonal. -/
def exampleNotUniLower : CompressedMatrix false :=
  ⟨2, 2, fun k => match k with
    | 0 => [(0, 1), (1, 7)]
    | 1 => [(1, 1)]
    | _ => []⟩

/-- A 2×3 row-major matrix. -/
def exampleNonSquare : CompressedMatrix false :=
  ⟨2, 3, fun k => match k with
    | 0 => [(0, 1)]
    | 1 => [(1, 1)]
    | _ => []⟩

/-- The 3×3 row-major identity after `set(2,0,5)`, a rejected `set(0,1,7)` and `reset(2)`. -/
def exampleReached : UniLowerMatrix false :=
  (((UniLowerMatrix.sized 3 : UniLowerMatrix false).set 2 0 5).state.set 0 1 7).state.resetAt 2

/-- Outcome of a write through a restricted proxy obtained from the state `A`: an
invalid-argument error, every cell reads what it read in `A`, the diagonal reads 1 and
the cells above it read 0. -/
def rejectedWrite {SO : Bool} (A : UniLowerMatrix SO)
    (o : Outcome (UniLowerMatrix SO) Unit) : Prop :=
  o.raisesInvalidArgument ∧ (∀ a b, o.state.callConst a b = A.callConst a b) ∧
    (∀ k, k < A.rows → o.state.callConst k k = 1) ∧
    (∀ a b, a < b → b < A.rows → o.state.callConst a b = 0)

/-- The state `S` is the cell-by-cell combination of the valid state `A` with the matrix `B`
under `op`: same shape, every cell `(i,j)` reads `op (A(i,j)) (B(i,j))`, the diagonal reads
1 and the cells above it read 0. -/
def cellwiseResult {SO : Bool} (op : ElementType → ElementType → ElementType)
    (A : UniLowerMatrix SO) (B : CompressedMatrix SO) (S : UniLowerMatrix SO) : Prop :=
  S.rows = A.rows ∧ S.columns = A.columns ∧
    (∀ i j, i < A.rows → j < A.columns → S.callConst i j = op (A.callConst i j) (B.get i j)) ∧
    (∀ i, i < S.rows → S.callConst i i = 1) ∧
    (∀ i j, i < j → j < S.rows → S.callConst i j = 0)

/-- The positions `first ≤ p < last` of a line hold an element with index `idx`. -/
def Line.rangeContainsIndex (l : Line) (first last idx : Nat) : Prop :=
  ∃ p, first ≤ p ∧ p < last ∧ l.indexAt p = some idx

/-- The 2×2 row-major identity with the additional entry 5 at `(1,0)`. -/
def exampleWithEntry : UniLowerMatrix false :=
  ((UniLowerMatrix.sized 2 : UniLowerMatrix false).set 1 0 5).state

/-- A 2×2 row-major unit lower triangular matrix with the entry 2 at `(1,0)`. -/
def exampleUniLowerFactor : CompressedMatrix false :=
  ⟨2, 2, fun k => match k with
    | 0 => [(0, 1)]
    | 1 => [(0, 2), (1, 1)]
    | _ => []⟩

namespace Line

theorem value_eq_zero_of_forall_ne {l : Line} {k : Nat} (h : ∀ e ∈ l, e.1 ≠ k) :
    l.value k = 0 := by
  induction l with
  | nil => rfl
  | cons e es ih =>
    have h1 : e.1 ≠ k := h e (List.mem_cons_self _ _)
    simp only [value, h1, if_false]
    exact ih (fun x hx => h x (List.mem_cons_of_mem _ hx))

theorem value_of_mem {l : Line} (hs : l.sorted) {k : Nat} {v : ElementType}
    (h : (k, v) ∈ l) : l.value k = v := by
  induction l with
  | nil => cases h
  | cons e es ih =>
    unfold sorted at hs
    rw [List.pairwise_cons] at hs
    rcases List.mem_cons.mp h with h1 | h1
    · subst h1; simp [value]
    · have hlt : e.1 < k := hs.1 _ h1
      have hne : e.1 ≠ k := Nat.ne_of_lt hlt
      simp only [value, hne, if_false]
      exact ih hs.2 h1

theorem value_eq_zero_or_mem (l : Line) (k : Nat) :
    l.value k = 0 ∨ (k, l.value k) ∈ l := by
  induction l with
  | nil => left; rfl
  | cons e es ih =>
    by_cases h : e.1 = k
    · right
      simp only [value, h, if_true]
      rw [← h]
      exact List.mem_cons_self _ _
    · simp only [value, h, if_false]
      rcases ih with h0 | hm
      · left; exact h0
      · right; exact List.mem_cons_of_mem _ hm

theorem stored_iff (l : Line) (k : Nat) : l.stored k = true ↔ ∃ v, (k, v) ∈ l := by
  unfold stored
  rw [List.any_eq_true]
  constructor
  · rintro ⟨⟨a, b⟩, hm, he⟩
    have : a = k := by simpa using he
    subst this
    exact ⟨b, hm⟩
  · rintro ⟨v, hm⟩
    exact ⟨(k, v), hm, by simp⟩

theorem value_eq_zero_of_not_stored {l : Line} {k : Nat} (h : l.stored k = false) :
    l.value k = 0 := by
  apply value_eq_zero_of_forall_ne
  intro e he hk
  have : l.stored k = true := (stored_iff l k).mpr ⟨e.2, by rw [← hk]; exact he⟩
  rw [h] at this
  cases this

theorem value_set (l : Line) (idx : Nat) (v : ElementType) (k : Nat) :
    (l.set idx v).value k = if k = idx then v else l.value k := by
  induction l with
  | nil =>
    by_cases h : k = idx
    · subst h; simp [set, value]
    · have h2 : ¬ idx = k := fun e => h e.symm
      simp [set, value, h, h2]
  | cons e es ih =>
    unfold set
    by_cases h1 : idx < e.1
    · simp only [h1, if_true]
      by_cases h : k = idx
      · subst h; simp [value]
      · have h2 : ¬ idx = k := fun e => h e.symm
        simp [value, h, h2]
    · simp only [h1, if_false]
      by_cases h3 : idx = e.1
      · simp only [h3, if_true]
        by_cases h : k = e.1
        · subst h; simp [value]
        · have h2 : ¬ e.1 = k := fun e => h e.symm
          simp [value, h, h2]
      · simp only [h3, if_false]
        by_cases h : k = idx
        · subst h
          have h4 : ¬ e.1 = k := fun e => h3 e.symm
          simp [value, h4, ih]
        · simp [value, ih, h]

theorem mem_set {l : Line} {idx : Nat} {v : ElementType} {x : Nat × ElementType}
    (h : x ∈ l.set idx v) : x = (idx, v) ∨ x ∈ l := by
  induction l with
  | nil => simp [set] at h; left; exact h
  | cons e es ih =>
    unfold set at h
    by_cases h1 : idx < e.1
    · simp only [h1, if_true] at h
      rcases List.mem_cons.mp h with h | h
      · left; exact h
      · right; exact h
    · simp only [h1, if_false] at h
      by_cases h3 : idx = e.1
      · simp only [h3, if_true] at h
        rcases List.mem_cons.mp h with h | h
        · left; rw [h3]; exact h
        · right; exact List.mem_cons_of_mem _ h
      · simp only [h3, if_false] at h
        rcases List.mem_cons.mp h with h | h
        · right; rw [h]; exact List.mem_cons_self _ _
        · rcases ih h with h | h
          · left; exact h
          · right; exact List.mem_cons_of_mem _ h

theorem sorted_set {l : Line} (hs : l.sorted) (idx : Nat) (v : ElementType) :
    (l.set idx v).sorted := by
  induction l with
  | nil => simp [set, sorted]
  | cons e es ih =>
    unfold sorted at hs
    have hs2 := List.pairwise_cons.mp hs
    unfold set
    by_cases h1 : idx < e.1
    · simp only [h1, if_true]
      unfold sorted
      refine List.pairwise_cons.mpr ⟨?_, hs⟩
      intro a ha
      rcases List.mem_cons.mp ha with ha | ha
      · rw [ha]; exact h1
      · exact Nat.lt_trans h1 (hs2.1 a ha)
    · simp only [h1, if_false]
      by_cases h3 : idx = e.1
      · simp only [h3, if_true]
        unfold sorted
        exact List.pairwise_cons.mpr ⟨fun a ha => hs2.1 a ha, hs2.2⟩
      · simp only [h3, if_false]
        unfold sorted
        refine List.pairwise_cons.mpr ⟨?_, ih hs2.2⟩
        intro a ha
        rcases mem_set ha with ha | ha
        · rw [ha]; show e.1 < idx; omega
        · exact hs2.1 a ha

theorem sorted_of_sublist {l l2 : Line} (h : l2.Sublist l) (hs : l.sorted) : l2.sorted :=
  List.Pairwise.sublist h hs

theorem value_filter (p : Nat → Bool) (l : Line) (k : Nat) :
    value (l.filter (fun e => p e.1)) k = if p k then l.value k else 0 := by
  induction l with
  | nil => simp [value]
  | cons e es ih =>
    by_cases hk : e.1 = k
    · by_cases hp : p k
      · have hp2 : p e.1 = true := by rw [hk]; exact hp
        simp [List.filter_cons, hp2, value, hk, hp]
      · have hp2 : p e.1 = false := by rw [hk]; simpa using hp
        simp only [List.filter_cons, hp2]
        simp [ih, hp]
    · by_cases hp2 : p e.1
      · simp [List.filter_cons, hp2, value, hk, ih]
      · have hp3 : p e.1 = false := by simpa using hp2
        simp [List.filter_cons, hp3, value, hk, ih]

theorem take_upperBound {l : Line} (hs : l.sorted) (i : Nat) :
    l.take (l.upperBound i) = l.filter (fun e => decide (e.1 ≤ i)) := by
  induction l with
  | nil => rfl
  | cons e es ih =>
    unfold sorted at hs
    have hs2 := List.pairwise_cons.mp hs
    unfold upperBound
    by_cases h : i < e.1
    · simp only [h, if_true, List.take_zero]
      symm
      rw [List.filter_eq_nil_iff]
      intro a ha
      rcases List.mem_cons.mp ha with ha | ha
      · rw [ha]; simp; omega
      · have := hs2.1 a ha
        simp; omega
    · simp only [h, if_false, List.take_succ_cons]
      have h2 : decide (e.1 ≤ i) = true := by simp; omega
      rw [List.filter_cons, h2, if_pos rfl, ih hs2.2]

theorem take_lowerBound {l : Line} (hs : l.sorted) (i : Nat) :
    l.take (l.lowerBound i) = l.filter (fun e => decide (e.1 < i)) := by
  induction l with
  | nil => rfl
  | cons e es ih =>
    unfold sorted at hs
    have hs2 := List.pairwise_cons.mp hs
    unfold lowerBound
    by_cases h : i ≤ e.1
    · simp only [h, if_true, List.take_zero]
      symm
      rw [List.filter_eq_nil_iff]
      intro a ha
      rcases List.mem_cons.mp ha with ha | ha
      · rw [ha]; simp; omega
      · have := hs2.1 a ha
        simp; omega
    · simp only [h, if_false, List.take_succ_cons]
      have h2 : decide (e.1 < i) = true := by simp; omega
      rw [List.filter_cons, h2, if_pos rfl, ih hs2.2]

theorem drop_lowerBound {l : Line} (hs : l.sorted) (i : Nat) :
    l.drop (l.lowerBound i) = l.filter (fun e => decide (i ≤ e.1)) := by
  induction l with
  | nil => rfl
  | cons e es ih =>
    unfold sorted at hs
    have hs2 := List.pairwise_cons.mp hs
    unfold lowerBound
    by_cases h : i ≤ e.1
    · simp only [h, if_true, List.drop_zero]
      symm
      rw [List.filter_eq_self]
      intro a ha
      rcases List.mem_cons.mp ha with ha | ha
      · rw [ha]; simp; omega
      · have := hs2.1 a ha
        simp; omega
    · simp only [h, if_false, List.drop_succ_cons]
      have h2 : decide (i ≤ e.1) = false := by simp; omega
      rw [List.filter_cons, h2, ih hs2.2]
      simp

end Line

theorem forLoop_succ_left {σ : Type} (lo cnt : Nat) (body : Nat → σ → σ) (s : σ) :
    forLoop lo (lo + (cnt + 1)) body s = forLoop (lo + 1) (lo + 1 + cnt) body (body lo s) := by
  unfold forLoop
  have h1 : lo + (cnt + 1) - lo = cnt + 1 := by omega
  have h2 : lo + 1 + cnt - (lo + 1) = cnt := by omega
  rw [h1, h2, List.range'_succ, List.foldl_cons]

theorem forLoop_empty {σ : Type} (lo hi : Nat) (h : hi ≤ lo) (body : Nat → σ → σ) (s : σ) :
    forLoop lo hi body s = s := by
  unfold forLoop
  have : hi - lo = 0 := by omega
  rw [this]; rfl

namespace CompressedMatrix

variable {SO : Bool}

theorem get_withLine (M : CompressedMatrix SO) (k : Nat) (l : Line) (i j : Nat) :
    (M.withLine k l).get i j =
      if lineOf SO i j = k then l.value (indexOf SO i j) else M.get i j := by
  unfold get withLine
  by_cases h : lineOf SO i j = k
  · rw [if_pos h]
    show (Function.update M.lines k l (lineOf SO i j)).value (indexOf SO i j) = _
    rw [h, Function.update_same]
  · rw [if_neg h]
    show (Function.update M.lines k l (lineOf SO i j)).value (indexOf SO i j) = _
    rw [Function.update_noteq h]

theorem lines_withLine (M : CompressedMatrix SO) (k : Nat) (l : Line) (k2 : Nat) :
    (M.withLine k l).lines k2 = if k2 = k then l else M.lines k2 := by
  unfold withLine
  by_cases h : k2 = k
  · subst h; simp
  · simp [h, Function.update_noteq h]

/-- A loop that rewrites line `k` in step `k` rewrites exactly the lines in its range. -/
theorem forLoop_lines_aux (g : Nat → Line → Line) (cnt : Nat) :
    ∀ (lo : Nat) (M : CompressedMatrix SO),
      (forLoop lo (lo + cnt) (fun k N => N.withLine k (g k (N.lines k))) M).m_ = M.m_ ∧
      (forLoop lo (lo + cnt) (fun k N => N.withLine k (g k (N.lines k))) M).n_ = M.n_ ∧
      ∀ k, (forLoop lo (lo + cnt) (fun k N => N.withLine k (g k (N.lines k))) M).lines k =
        if lo ≤ k ∧ k < lo + cnt then g k (M.lines k) else M.lines k := by
  induction cnt with
  | zero =>
    intro lo M
    rw [forLoop_empty _ _ (by omega)]
    refine ⟨rfl, rfl, ?_⟩
    intro k
    have : ¬ (lo ≤ k ∧ k < lo + 0) := by omega
    rw [if_neg this]
  | succ cnt ih =>
    intro lo M
    rw [forLoop_succ_left]
    obtain ⟨h1, h2, h3⟩ := ih (lo + 1) (M.withLine lo (g lo (M.lines lo)))
    refine ⟨h1, h2, ?_⟩
    intro k
    rw [h3 k, lines_withLine]
    by_cases hk : k = lo
    · subst hk
      have : ¬ (k + 1 ≤ k ∧ k < k + 1 + cnt) := by omega
      simp [this]
    · by_cases hr : lo + 1 ≤ k ∧ k < lo + 1 + cnt
      · have : lo ≤ k ∧ k < lo + (cnt + 1) := by omega
        simp [hr, this, hk]
      · have : ¬ (lo ≤ k ∧ k < lo + (cnt + 1)) := by omega
        simp [hr, this, hk]

theorem forLoop_lines (g : Nat → Line → Line) (lo hi : Nat) (M : CompressedMatrix SO) :
    (forLoop lo hi (fun k N => N.withLine k (g k (N.lines k))) M).m_ = M.m_ ∧
    (forLoop lo hi (fun k N => N.withLine k (g k (N.lines k))) M).n_ = M.n_ ∧
    ∀ k, (forLoop lo hi (fun k N => N.withLine k (g k (N.lines k))) M).lines k =
      if lo ≤ k ∧ k < hi then g k (M.lines k) else M.lines k := by
  by_cases h : lo ≤ hi
  · obtain ⟨c, rfl⟩ := Nat.exists_eq_add_of_le h
    exact forLoop_lines_aux g c lo M
  · rw [forLoop_empty _ _ (by omega)]
    refine ⟨rfl, rfl, ?_⟩
    intro k
    have : ¬ (lo ≤ k ∧ k < hi) := by omega
    simp [this]

theorem isSquare_iff (M : CompressedMatrix SO) : M.isSquare = true ↔ M.m_ = M.n_ := by
  simp [isSquare]

theorem isUniLower_iff (M : CompressedMatrix SO) :
    M.isUniLower = true ↔
      M.m_ = M.n_ ∧ (∀ i, i < M.m_ → M.get i i = 1) ∧
        (∀ i j, i < M.m_ → j < M.n_ → i < j → M.get i j = 0) := by
  unfold isUniLower isSquare
  simp only [Bool.and_eq_true, List.all_eq_true, List.mem_range, beq_iff_eq, Bool.or_eq_true,
    Bool.not_eq_true', decide_eq_false_iff_not]
  constructor
  · rintro ⟨h1, h2⟩
    refine ⟨h1, fun i hi => (h2 i hi).1, ?_⟩
    intro i j hi hj hij
    rcases (h2 i hi).2 j hj with h | h
    · exact absurd hij h
    · exact h
  · rintro ⟨h1, h2, h3⟩
    refine ⟨h1, fun i hi => ⟨h2 i hi, fun j hj => ?_⟩⟩
    by_cases hij : i < j
    · right; exact h3 i j hi hj hij
    · left; exact hij

theorem isStrictlyLower_iff (M : CompressedMatrix SO) :
    M.isStrictlyLower = true ↔
      M.m_ = M.n_ ∧ (∀ i j, i < M.m_ → j < M.n_ → i ≤ j → M.get i j = 0) := by
  unfold isStrictlyLower isSquare
  simp only [Bool.and_eq_true, List.all_eq_true, List.mem_range, beq_iff_eq, Bool.or_eq_true,
    Bool.not_eq_true', decide_eq_false_iff_not]
  constructor
  · rintro ⟨h1, h2⟩
    refine ⟨h1, ?_⟩
    intro i j hi hj hij
    rcases h2 i hi j hj with h | h
    · exact absurd hij h
    · exact h
  · rintro ⟨h1, h3⟩
    refine ⟨h1, fun i hi j hj => ?_⟩
    by_cases hij : i ≤ j
    · right; exact h3 i j hi hj hij
    · left; exact hij

end CompressedMatrix
namespace CompressedMatrix

variable {SO : Bool}

theorem value_filterMap (L : List Nat) (f : Nat → ElementType) (k : Nat) :
    Line.value (L.filterMap (fun idx => if f idx = 0 then none else some (idx, f idx))) k
      = if k ∈ L then f k else 0 := by
  induction L with
  | nil => simp [Line.value]
  | cons a L ih =>
    by_cases h0 : f a = 0
    · rw [List.filterMap_cons]
      simp only [h0, if_true]
      rw [ih]
      by_cases hk : k = a
      · subst hk; simp [h0]
      · simp [hk]
    · rw [List.filterMap_cons]
      simp only [h0, if_false]
      by_cases hk : k = a
      · subst hk; simp [Line.value]
      · have hk2 : ¬ a = k := fun e => hk e.symm
        simp only [Line.value, hk2, if_false, ih]
        simp [hk]

theorem sorted_filterMap_range (n : Nat) (f : Nat → ElementType) :
    Line.sorted ((List.range n).filterMap
      (fun idx => if f idx = 0 then none else some (idx, f idx))) := by
  unfold Line.sorted
  rw [List.pairwise_filterMap]
  refine List.Pairwise.imp ?_ (List.pairwise_lt_range n)
  intro a b hab x hx y hy
  by_cases ha : f a = 0
  · simp [ha] at hx
  · by_cases hb : f b = 0
    · simp [hb] at hy
    · simp [ha] at hx
      simp [hb] at hy
      subst hx; subst hy
      exact hab

theorem ofFn_m (m n : Nat) (f : Nat → Nat → ElementType) :
    (ofFn m n f : CompressedMatrix SO).m_ = m := rfl

theorem ofFn_n (m n : Nat) (f : Nat → Nat → ElementType) :
    (ofFn m n f : CompressedMatrix SO).n_ = n := rfl

theorem ofFn_WF (m n : Nat) (f : Nat → Nat → ElementType) :
    (ofFn m n f : CompressedMatrix SO).WF := by
  intro k
  cases SO
  · show Line.sorted (if k < m then _ else [])
    by_cases h : k < m
    · rw [if_pos h]
      exact sorted_filterMap_range n (fun idx => f k idx)
    · rw [if_neg h]; exact List.Pairwise.nil
  · show Line.sorted (if k < n then _ else [])
    by_cases h : k < n
    · rw [if_pos h]
      exact sorted_filterMap_range m (fun idx => f idx k)
    · rw [if_neg h]; exact List.Pairwise.nil

theorem get_ofFn (m n : Nat) (f : Nat → Nat → ElementType) (i j : Nat) :
    (ofFn m n f : CompressedMatrix SO).get i j = if i < m ∧ j < n then f i j else 0 := by
  cases SO
  · show Line.value (if i < m then _ else []) j = _
    by_cases h : i < m
    · rw [if_pos h]
      have := value_filterMap (List.range n) (fun idx => f i idx) j
      simp only [List.mem_range] at this
      simp only [Bool.false_eq_true, if_false]
      show Line.value (List.filterMap (fun idx => if f i idx = 0 then none else some (idx, f i idx))
        (List.range n)) j = _
      rw [this]
      simp [h]
    · rw [if_neg h]
      simp [Line.value, h]
  · show Line.value (if j < n then _ else []) i = _
    by_cases h : j < n
    · rw [if_pos h]
      have := value_filterMap (List.range m) (fun idx => f idx j) i
      simp only [List.mem_range] at this
      simp only [if_true]
      show Line.value (List.filterMap (fun idx => if f idx j = 0 then none else some (idx, f idx j))
        (List.range m)) i = _
      rw [this]
      simp [h]
    · rw [if_neg h]
      simp [Line.value, h]

end CompressedMatrix

namespace UniLowerMatrix

variable {SO : Bool}

/-- Line `k` after `resetUpper()`, for well-formed storage: the entries above the diagonal
are gone. -/
theorem resetUpper_lines (A : UniLowerMatrix SO) (hwf : A.matrix_.WF) (k : Nat) :
    A.resetUpper.matrix_.lines k =
      if k < A.matrix_.numLines then
        (A.matrix_.lines k).filter
          (fun e => if SO then decide (k ≤ e.1) else decide (e.1 ≤ k))
      else A.matrix_.lines k := by
  cases SO
  · have hbody : (fun (i : Nat) (M : CompressedMatrix false) =>
        M.eraseRange i (M.upperBound i i) (M.end_ i)) =
        (fun k N => N.withLine k
          ((fun (i : Nat) (l : Line) => l.eraseRange (l.upperBound i) l.length) k (N.lines k))) := rfl
    have h := (CompressedMatrix.forLoop_lines
      (fun (i : Nat) (l : Line) => l.eraseRange (l.upperBound i) l.length) 0 A.rows A.matrix_).2.2 k
    show (forLoop 0 A.rows _ A.matrix_).lines k = _
    rw [hbody, h]
    show _ = if k < A.matrix_.m_ then _ else _
    by_cases hk : k < A.matrix_.m_
    · have hk2 : 0 ≤ k ∧ k < A.rows := ⟨Nat.zero_le _, hk⟩
      rw [if_pos hk2, if_pos hk]
      simp only [Line.eraseRange, List.drop_length, List.append_nil, Bool.false_eq_true, if_false]
      exact Line.take_upperBound (hwf k) k
    · have hk2 : ¬ (0 ≤ k ∧ k < A.rows) := fun h => hk h.2
      rw [if_neg hk2, if_neg hk]
  · have hbody : (fun (j : Nat) (M : CompressedMatrix true) =>
        M.eraseRange j (M.begin_ j) (M.lowerBound j j)) =
        (fun k N => N.withLine k
          ((fun (j : Nat) (l : Line) => l.eraseRange 0 (l.lowerBound j)) k (N.lines k))) := rfl
    have h := (CompressedMatrix.forLoop_lines
      (fun (j : Nat) (l : Line) => l.eraseRange 0 (l.lowerBound j)) 1 A.columns A.matrix_).2.2 k
    show (forLoop 1 A.columns _ A.matrix_).lines k = _
    rw [hbody, h]
    show _ = if k < A.matrix_.n_ then _ else _
    by_cases hk : k < A.matrix_.n_
    · rw [if_pos hk]
      simp only [if_true]
      by_cases hk1 : 1 ≤ k
      · have hk2 : 1 ≤ k ∧ k < A.columns := ⟨hk1, hk⟩
        rw [if_pos hk2]
        simp only [Line.eraseRange, List.take_zero, List.nil_append]
        exact Line.drop_lowerBound (hwf k) k
      · have hk2 : ¬ (1 ≤ k ∧ k < A.columns) := fun h => hk1 h.1
        rw [if_neg hk2]
        symm
        rw [List.filter_eq_self]
        intro a _
        simp; omega
    · have hk2 : ¬ (1 ≤ k ∧ k < A.columns) := fun h => hk h.2
      rw [if_neg hk2, if_neg hk]

theorem resetUpper_rows (A : UniLowerMatrix SO) : A.resetUpper.rows = A.rows := by
  cases SO
  · exact (CompressedMatrix.forLoop_lines
      (fun (i : Nat) (l : Line) => l.eraseRange (l.upperBound i) l.length) 0 A.rows A.matrix_).1
  · exact (CompressedMatrix.forLoop_lines
      (fun (j : Nat) (l : Line) => l.eraseRange 0 (l.lowerBound j)) 1 A.columns A.matrix_).1

theorem resetUpper_columns (A : UniLowerMatrix SO) : A.resetUpper.columns = A.columns := by
  cases SO
  · exact (CompressedMatrix.forLoop_lines
      (fun (i : Nat) (l : Line) => l.eraseRange (l.upperBound i) l.length) 0 A.rows A.matrix_).2.1
  · exact (CompressedMatrix.forLoop_lines
      (fun (j : Nat) (l : Line) => l.eraseRange 0 (l.lowerBound j)) 1 A.columns A.matrix_).2.1

theorem resetUpper_WF (A : UniLowerMatrix SO) (hwf : A.matrix_.WF) : A.resetUpper.matrix_.WF := by
  intro k
  rw [resetUpper_lines A hwf k]
  by_cases hk : k < A.matrix_.numLines
  · rw [if_pos hk]
    exact List.Pairwise.filter _ (hwf k)
  · rw [if_neg hk]; exact hwf k

/-- Cell values after `resetUpper()`: the cells above the diagonal read 0, all other cells
are unchanged. -/
theorem resetUpper_get (A : UniLowerMatrix SO) (hwf : A.matrix_.WF) (i j : Nat) :
    A.resetUpper.matrix_.get i j =
      if lineOf SO i j < A.matrix_.numLines ∧ i < j then 0 else A.matrix_.get i j := by
  unfold CompressedMatrix.get
  rw [resetUpper_lines A hwf]
  cases SO
  · simp only [lineOf, indexOf, Bool.false_eq_true, if_false]
    by_cases hk : i < A.matrix_.numLines
    · rw [if_pos hk]
      have := Line.value_filter (fun x => decide (x ≤ i)) (A.matrix_.lines i) j
      rw [this]
      by_cases hij : i < j
      · have : ¬ j ≤ i := by omega
        simp [hk, hij, this]
      · have : j ≤ i := by omega
        simp [hij, this]
    · rw [if_neg hk]
      simp [hk]
  · simp only [lineOf, indexOf, if_true]
    by_cases hk : j < A.matrix_.numLines
    · rw [if_pos hk]
      have := Line.value_filter (fun x => decide (j ≤ x)) (A.matrix_.lines j) i
      rw [this]
      by_cases hij : i < j
      · have : ¬ j ≤ i := by omega
        simp [hk, hij, this]
      · have : j ≤ i := by omega
        simp [hij, this]
    · rw [if_neg hk]
      simp [hk]

end UniLowerMatrix

theorem lineOf_indexOf_eq_iff (SO : Bool) (a b i j : Nat) :
    (lineOf SO a b = lineOf SO i j ∧ indexOf SO a b = indexOf SO i j) ↔ (a = i ∧ b = j) := by
  cases SO
  · simp [lineOf, indexOf]
  · simp only [lineOf, indexOf, if_true]
    exact And.comm

theorem lineOf_diag (SO : Bool) (k : Nat) : lineOf SO k k = k := by
  cases SO <;> rfl

theorem indexOf_diag (SO : Bool) (k : Nat) : indexOf SO k k = k := by
  cases SO <;> rfl

namespace Line

/-- Removing entries from a well-formed line leaves each value or turns it into zero. -/
theorem value_sublist {l l2 : Line} (hs : l.sorted) (h : l2.Sublist l) (k : Nat) :
    l2.value k = l.value k ∨ l2.value k = 0 := by
  rcases value_eq_zero_or_mem l2 k with h0 | hm
  · right; exact h0
  · left
    exact (value_of_mem hs (h.subset hm)).symm

theorem value_erasePos {l : Line} (hs : l.sorted) (pos k : Nat)
    (h : l.indexAt pos ≠ some k) : (l.erasePos pos).value k = l.value k := by
  have hsub : (l.erasePos pos).Sublist l := List.eraseIdx_sublist l pos
  rcases value_eq_zero_or_mem l k with h0 | hm
  · rcases value_sublist hs hsub k with h1 | h1
    · exact h1
    · rw [h1, h0]
  · have hm2 : (k, l.value k) ∈ l.erasePos pos := by
      unfold erasePos
      rw [List.mem_eraseIdx_iff_getElem?]
      obtain ⟨n, hn, hv⟩ := List.mem_iff_getElem.mp hm
      refine ⟨n, ?_, ?_⟩
      · intro hnp
        apply h
        unfold indexAt
        rw [← hnp, List.get?_eq_getElem?, List.getElem?_eq_getElem hn, hv]
        rfl
      · rw [List.getElem?_eq_getElem hn, hv]
    exact value_of_mem (sorted_of_sublist hsub hs) hm2

theorem eraseRange_sublist (l : Line) {first last : Nat} (h : first ≤ last) :
    (l.eraseRange first last).Sublist l := by
  unfold eraseRange
  have h1 : (List.take first l ++ List.drop last l).Sublist
      (List.take first l ++ List.drop first l) :=
    List.Sublist.append (List.Sublist.refl _) (List.drop_sublist_drop_left l h)
  rw [List.take_append_drop] at h1
  exact h1

theorem value_eraseRange {l : Line} (hs : l.sorted) {first last : Nat} (hfl : first ≤ last)
    (k : Nat) (h : ∀ p, first ≤ p → p < last → l.indexAt p ≠ some k) :
    (l.eraseRange first last).value k = l.value k := by
  have hsub := eraseRange_sublist l hfl
  rcases value_eq_zero_or_mem l k with h0 | hm
  · rcases value_sublist hs hsub k with h1 | h1
    · exact h1
    · rw [h1, h0]
  · have hm2 : (k, l.value k) ∈ l.eraseRange first last := by
      unfold eraseRange
      rw [List.mem_append]
      obtain ⟨n, hn, hv⟩ := List.mem_iff_getElem.mp hm
      by_cases hnf : n < first
      · left
        rw [List.mem_take_iff_getElem]
        exact ⟨n, by simp; omega, hv⟩
      · by_cases hnl : n < last
        · exfalso
          apply h n (by omega) hnl
          unfold indexAt
          rw [List.get?_eq_getElem?, List.getElem?_eq_getElem hn, hv]
          rfl
        · right
          rw [List.mem_drop_iff_getElem]
          refine ⟨n - last, by omega, ?_⟩
          have : last + (n - last) = n := by omega
          simp only [this]
          exact hv
    exact value_of_mem (sorted_of_sublist hsub hs) hm2

end Line

namespace CompressedMatrix

variable {SO : Bool}

theorem WF_withLine {M : CompressedMatrix SO} (hwf : M.WF) (k : Nat) {l : Line}
    (hl : l.sorted) : (M.withLine k l).WF := by
  intro k2
  rw [lines_withLine]
  by_cases h : k2 = k
  · rw [if_pos h]; exact hl
  · rw [if_neg h]; exact hwf k2

theorem get_set (M : CompressedMatrix SO) (i j : Nat) (v : ElementType) (a b : Nat) :
    (M.set i j v).1.get a b = if a = i ∧ b = j then v else M.get a b := by
  show (M.withLine _ _).get a b = _
  rw [get_withLine]
  by_cases hl : lineOf SO a b = lineOf SO i j
  · rw [if_pos hl, Line.value_set]
    by_cases hi : indexOf SO a b = indexOf SO i j
    · have := (lineOf_indexOf_eq_iff SO a b i j).mp ⟨hl, hi⟩
      rw [if_pos hi, if_pos this]
    · have : ¬ (a = i ∧ b = j) := fun h => hi ((lineOf_indexOf_eq_iff SO a b i j).mpr h).2
      rw [if_neg hi, if_neg this, ← hl]
      rfl
  · have : ¬ (a = i ∧ b = j) := fun h => hl ((lineOf_indexOf_eq_iff SO a b i j).mpr h).1
    rw [if_neg hl, if_neg this]

theorem WF_set {M : CompressedMatrix SO} (hwf : M.WF) (i j : Nat) (v : ElementType) :
    (M.set i j v).1.WF :=
  WF_withLine hwf _ (Line.sorted_set (hwf _) _ _)

theorem get_erase (M : CompressedMatrix SO) (i j a b : Nat) :
    (M.erase i j).get a b = if a = i ∧ b = j then 0 else M.get a b := by
  unfold erase
  rw [get_withLine]
  by_cases hl : lineOf SO a b = lineOf SO i j
  · rw [if_pos hl]
    unfold Line.eraseIndex
    rw [Line.value_filter (fun x => x != indexOf SO i j)]
    by_cases hi : indexOf SO a b = indexOf SO i j
    · have := (lineOf_indexOf_eq_iff SO a b i j).mp ⟨hl, hi⟩
      rw [if_pos this]
      simp [hi]
    · have : ¬ (a = i ∧ b = j) := fun h => hi ((lineOf_indexOf_eq_iff SO a b i j).mpr h).2
      rw [if_neg this, ← hl]
      simp [hi]
      rfl
  · have : ¬ (a = i ∧ b = j) := fun h => hl ((lineOf_indexOf_eq_iff SO a b i j).mpr h).1
    rw [if_neg hl, if_neg this]

theorem WF_erase {M : CompressedMatrix SO} (hwf : M.WF) (i j : Nat) : (M.erase i j).WF :=
  WF_withLine hwf _ (List.Pairwise.filter _ (hwf _))

theorem get_access (M : CompressedMatrix SO) (i j a b : Nat) :
    (M.access i j).get a b = M.get a b := by
  unfold access
  by_cases hs : M.stored i j = true
  · rw [if_pos hs]
  · rw [if_neg hs, get_set]
    by_cases h : a = i ∧ b = j
    · rw [if_pos h, h.1, h.2]
      have hs2 : (M.lines (lineOf SO i j)).stored (indexOf SO i j) = false := by
        simpa [stored] using hs
      exact (Line.value_eq_zero_of_not_stored hs2).symm
    · rw [if_neg h]

end CompressedMatrix

namespace UniLowerMatrix

variable {SO : Bool}

/-- A state with the same shape whose diagonal cells are those of a valid state and whose
cells above the diagonal are either unchanged or zero is valid. -/
theorem Invariant.of_cells {A B : UniLowerMatrix SO} (hA : A.Invariant)
    (hwf : B.matrix_.WF) (hr : B.matrix_.m_ = A.matrix_.m_) (hc : B.matrix_.n_ = A.matrix_.n_)
    (hd : ∀ i, B.matrix_.get i i = A.matrix_.get i i)
    (hu : ∀ i j, i < j → B.matrix_.get i j = A.matrix_.get i j ∨ B.matrix_.get i j = 0) :
    B.Invariant := by
  obtain ⟨_, h2, h3, h4⟩ := hA
  refine ⟨hwf, ?_, ?_, ?_⟩
  · show B.matrix_.m_ = B.matrix_.n_
    rw [hr, hc]; exact h2
  · intro i hi
    show B.matrix_.get i i = 1
    rw [hd i]
    exact h3 i (by show i < A.matrix_.m_; rw [← hr]; exact hi)
  · intro i j hij hj
    show B.matrix_.get i j = 0
    rcases hu i j hij with h | h
    · rw [h]; exact h4 i j hij (by show j < A.matrix_.m_; rw [← hr]; exact hj)
    · exact h

/-- Replacing line `k` by a sub-line that keeps the diagonal entry preserves validity. -/
theorem Invariant.withLine_sublist {A : UniLowerMatrix SO} (hA : A.Invariant) (k : Nat)
    {l : Line} (hsub : l.Sublist (A.matrix_.lines k))
    (hdiag : l.value k = (A.matrix_.lines k).value k) :
    Invariant (⟨A.matrix_.withLine k l⟩ : UniLowerMatrix SO) := by
  have hwf := hA.1
  refine Invariant.of_cells hA
    (CompressedMatrix.WF_withLine hwf k (Line.sorted_of_sublist hsub (hwf k))) rfl rfl ?_ ?_
  · intro i
    show (A.matrix_.withLine k l).get i i = _
    rw [CompressedMatrix.get_withLine, lineOf_diag, indexOf_diag]
    by_cases h : i = k
    · rw [if_pos h, h, hdiag]
      show _ = (A.matrix_.lines (lineOf SO k k)).value (indexOf SO k k)
      rw [lineOf_diag, indexOf_diag]
    · rw [if_neg h]
  · intro i j _
    show (A.matrix_.withLine k l).get i j = _ ∨ (A.matrix_.withLine k l).get i j = 0
    rw [CompressedMatrix.get_withLine]
    by_cases h : lineOf SO i j = k
    · rw [if_pos h]
      have := Line.value_sublist (hwf k) hsub (indexOf SO i j)
      rw [← h] at this
      exact this
    · rw [if_neg h]; left; rfl

theorem Invariant.resetUpper {A : UniLowerMatrix SO} (hA : A.Invariant) :
    A.resetUpper.Invariant := by
  refine Invariant.of_cells hA (resetUpper_WF A hA.1) (resetUpper_rows A) (resetUpper_columns A)
    ?_ ?_
  · intro i
    rw [resetUpper_get A hA.1]
    have : ¬ (lineOf SO i i < A.matrix_.numLines ∧ i < i) := fun h => Nat.lt_irrefl _ h.2
    rw [if_neg this]
  · intro i j _
    rw [resetUpper_get A hA.1]
    by_cases h : lineOf SO i j < A.matrix_.numLines ∧ i < j
    · rw [if_pos h]; right; rfl
    · rw [if_neg h]; left; rfl

theorem Invariant.of_isUniLower {M : CompressedMatrix SO} (hwf : M.WF)
    (h : M.isUniLower = true) : Invariant (⟨M⟩ : UniLowerMatrix SO) := by
  obtain ⟨h1, h2, h3⟩ := (CompressedMatrix.isUniLower_iff M).mp h
  refine ⟨hwf, h1, h2, ?_⟩
  intro i j hij hj
  have hj2 : j < M.n_ := by rw [← h1]; exact hj
  exact h3 i j (Nat.lt_trans hij hj) hj2 hij

theorem isUniLower_of_Invariant {A : UniLowerMatrix SO} (hA : A.Invariant) :
    A.matrix_.isUniLower = true := by
  obtain ⟨_, h2, h3, h4⟩ := hA
  rw [CompressedMatrix.isUniLower_iff]
  refine ⟨h2, h3, ?_⟩
  intro i j _ hj hij
  exact h4 i j hij (by show j < A.matrix_.m_; rw [show A.matrix_.m_ = A.matrix_.n_ from h2]; exact hj)

end UniLowerMatrix
namespace UniLowerMatrix

variable {SO : Bool}

theorem sized_body_eq :
    (fun (i : Nat) (M : CompressedMatrix SO) => (M.append i i 1).finalize i) =
      (fun k N => N.withLine k ((fun (i : Nat) (l : Line) => l ++ [(i, (1 : ElementType))]) k
        (N.lines k))) := by
  cases SO <;> rfl

theorem ReservedMatrix.forLoop_diagonal (lo hi : Nat) (R : ReservedMatrix SO) :
    (forLoop lo hi (fun i (T : ReservedMatrix SO) => (T.append i i 1).finalize i) R).matrix =
        forLoop lo hi (fun i (M : CompressedMatrix SO) => (M.append i i 1).finalize i)
          R.matrix ∧
      (forLoop lo hi (fun i (T : ReservedMatrix SO) => (T.append i i 1).finalize i)
        R).capacity_ = R.capacity_ := by
  unfold forLoop
  generalize List.range' lo (hi - lo) = L
  induction L generalizing R with
  | nil => exact ⟨rfl, rfl⟩
  | cons k L ih =>
    rw [List.foldl_cons, List.foldl_cons]
    exact ih ((R.append k k 1).finalize k)

theorem sized_matrix (n : Nat) :
    (sized n : UniLowerMatrix SO).matrix_ =
      forLoop 0 n (fun i (M : CompressedMatrix SO) => (M.append i i 1).finalize i)
        (CompressedMatrix.create n n n) :=
  (ReservedMatrix.forLoop_diagonal 0 n (ReservedMatrix.create n n n)).1

theorem sized_eq (n : Nat) :
    (sized n : UniLowerMatrix SO) =
      ⟨forLoop 0 n (fun i (M : CompressedMatrix SO) => (M.append i i 1).finalize i)
        (CompressedMatrix.create n n n)⟩ :=
  congrArg UniLowerMatrix.mk (sized_matrix n)

theorem sized_lines (n k : Nat) :
    (sized n : UniLowerMatrix SO).matrix_.lines k = if k < n then [(k, 1)] else [] := by
  rw [sized_matrix]
  show (forLoop 0 n _ (CompressedMatrix.create n n n)).lines k = _
  rw [sized_body_eq]
  rw [(CompressedMatrix.forLoop_lines
    (fun (i : Nat) (l : Line) => l ++ [(i, (1 : ElementType))]) 0 n
    (CompressedMatrix.create n n n)).2.2 k]
  by_cases h : k < n
  · have : 0 ≤ k ∧ k < n := ⟨Nat.zero_le _, h⟩
    rw [if_pos this, if_pos h]
    rfl
  · have : ¬ (0 ≤ k ∧ k < n) := fun h2 => h h2.2
    rw [if_neg this, if_neg h]
    rfl

theorem sized_rows (n : Nat) : (sized n : UniLowerMatrix SO).rows = n := by
  show (sized n : UniLowerMatrix SO).matrix_.m_ = _
  rw [sized_matrix]
  rw [sized_body_eq]
  exact (CompressedMatrix.forLoop_lines
    (fun (i : Nat) (l : Line) => l ++ [(i, (1 : ElementType))]) 0 n
    (CompressedMatrix.create n n n)).1

theorem sized_columns (n : Nat) : (sized n : UniLowerMatrix SO).columns = n := by
  show (sized n : UniLowerMatrix SO).matrix_.n_ = _
  rw [sized_matrix]
  rw [sized_body_eq]
  exact (CompressedMatrix.forLoop_lines
    (fun (i : Nat) (l : Line) => l ++ [(i, (1 : ElementType))]) 0 n
    (CompressedMatrix.create n n n)).2.1

theorem sized_get (n i j : Nat) :
    (sized n : UniLowerMatrix SO).matrix_.get i j = if i = j ∧ i < n then 1 else 0 := by
  unfold CompressedMatrix.get
  rw [sized_lines]
  cases SO
  · simp only [lineOf, indexOf, Bool.false_eq_true, if_false]
    by_cases h : i < n
    · rw [if_pos h]
      by_cases hij : i = j
      · simp [Line.value, hij, h, hij ▸ h]
      · simp [Line.value, hij, h]
    · rw [if_neg h]
      simp [Line.value, h]
  · simp only [lineOf, indexOf, if_true]
    by_cases h : j < n
    · rw [if_pos h]
      by_cases hij : i = j
      · simp [Line.value, hij, h]
      · have : ¬ j = i := fun e => hij e.symm
        simp [Line.value, hij, this]
    · rw [if_neg h]
      by_cases hij : i = j
      · simp [Line.value, hij, h]
      · simp [Line.value, hij]

theorem Invariant.sized (n : Nat) : (sized n : UniLowerMatrix SO).Invariant := by
  refine ⟨?_, ?_, ?_, ?_⟩
  · intro k
    rw [sized_lines]
    by_cases h : k < n
    · rw [if_pos h]; exact List.pairwise_singleton _ _
    · rw [if_neg h]; exact List.Pairwise.nil
  · rw [sized_rows, sized_columns]
  · intro i hi
    rw [sized_rows] at hi
    show (UniLowerMatrix.sized n : UniLowerMatrix SO).matrix_.get i i = 1
    rw [sized_get]
    simp [hi]
  · intro i j hij _
    show (UniLowerMatrix.sized n : UniLowerMatrix SO).matrix_.get i j = 0
    rw [sized_get]
    have : ¬ (i = j ∧ i < n) := fun h => Nat.ne_of_lt hij h.1
    rw [if_neg this]

theorem sizedNonzeros_eq (n nonzeros : Nat) :
    (sizedNonzeros n nonzeros : UniLowerMatrix SO) = sized n := by
  show UniLowerMatrix.mk _ = UniLowerMatrix.mk _
  congr 1
  exact (ReservedMatrix.forLoop_diagonal 0 n (ReservedMatrix.create n n (max nonzeros n))).1.trans
    (ReservedMatrix.forLoop_diagonal 0 n (ReservedMatrix.create n n n)).1.symm

theorem foldlM_guard_ok {σ : Type} (c : Nat → Bool) (e : Exception) (body : Nat → σ → σ) :
    ∀ (L : List Nat) (s r : σ),
      L.foldlM (fun (acc : σ) i => if c i = true then (Except.error e : Except Exception σ)
        else Except.ok (body i acc)) s = Except.ok r →
      r = L.foldl (fun acc i => body i acc) s := by
  intro L
  induction L with
  | nil =>
    intro s r h
    simp only [List.foldlM, pure, Except.pure] at h
    cases h; rfl
  | cons a L ih =>
    intro s r h
    rw [List.foldlM_cons] at h
    by_cases hc : c a = true
    · simp only [hc, if_true] at h
      cases h
    · simp only [hc] at h
      exact ih _ _ h

theorem sizedCapacities_ok {n : Nat} {nonzeros : List Nat} {A : UniLowerMatrix SO}
    (h : sizedCapacities n nonzeros = Except.ok A) : A = sized n := by
  unfold sizedCapacities at h
  cases hres : (List.range n).foldlM (fun (M : CompressedMatrix SO) i =>
      if nonzeros.getD i 0 = 0 then
        Except.error (Exception.invalid_argument "Invalid capacity specification")
      else Except.ok ((M.append i i 1).finalize i))
    (CompressedMatrix.create n n (nonzeros.take n).sum) with
  | error e => rw [hres] at h; cases h
  | ok M =>
    rw [hres] at h
    have hA : A = ⟨M⟩ := by cases h; rfl
    have hM := foldlM_guard_ok (fun i => decide (nonzeros.getD i 0 = 0))
      (Exception.invalid_argument "Invalid capacity specification")
      (fun (i : Nat) (M : CompressedMatrix SO) => (M.append i i 1).finalize i)
      (List.range n) (CompressedMatrix.create n n (nonzeros.take n).sum) M
      (by simpa using hres)
    rw [hA, hM, sized_eq]
    unfold forLoop
    rw [List.range_eq_range']
    rfl

end UniLowerMatrix
namespace UniLowerMatrix

variable {SO : Bool}

theorem Invariant.default : (UniLowerMatrix.default : UniLowerMatrix SO).Invariant := by
  refine ⟨fun _ => List.Pairwise.nil, rfl, ?_, ?_⟩
  · intro i hi; exact absurd hi (Nat.not_lt_zero _)
  · intro i j _ hj; exact absurd hj (Nat.not_lt_zero _)

theorem Invariant.storage_set {A : UniLowerMatrix SO} (hA : A.Invariant) {i j : Nat}
    (hij : ¬ i ≤ j) (v : ElementType) :
    Invariant (⟨(A.matrix_.set i j v).1⟩ : UniLowerMatrix SO) := by
  refine Invariant.of_cells hA (CompressedMatrix.WF_set hA.1 i j v) rfl rfl ?_ ?_
  · intro k
    show (A.matrix_.set i j v).1.get k k = _
    rw [CompressedMatrix.get_set]
    have : ¬ (k = i ∧ k = j) := by omega
    rw [if_neg this]
  · intro a b hab
    left
    show (A.matrix_.set i j v).1.get a b = _
    rw [CompressedMatrix.get_set]
    have : ¬ (a = i ∧ b = j) := by omega
    rw [if_neg this]

theorem Invariant.storage_insert {A : UniLowerMatrix SO} (hA : A.Invariant) {i j : Nat}
    (hij : ¬ i ≤ j) (v : ElementType) :
    Invariant (⟨(A.matrix_.insert i j v).state⟩ : UniLowerMatrix SO) := by
  unfold CompressedMatrix.insert
  by_cases hs : A.matrix_.stored i j = true
  · rw [if_pos hs]; exact hA
  · rw [if_neg hs]; exact Invariant.storage_set hA hij v

theorem Invariant.set {A : UniLowerMatrix SO} (hA : A.Invariant) (i j : Nat)
    (v : ElementType) : (A.set i j v).state.Invariant := by
  unfold UniLowerMatrix.set
  by_cases hij : i ≤ j
  · rw [if_pos hij]; exact hA
  · rw [if_neg hij]; exact Invariant.storage_set hA hij v

theorem Invariant.insert {A : UniLowerMatrix SO} (hA : A.Invariant) (i j : Nat)
    (v : ElementType) : (A.insert i j v).state.Invariant := by
  unfold UniLowerMatrix.insert
  by_cases hij : i ≤ j
  · rw [if_pos hij]; exact hA
  · rw [if_neg hij]; exact Invariant.storage_insert hA hij v

theorem Invariant.append {A : UniLowerMatrix SO} (hA : A.Invariant) (i j : Nat)
    (v : ElementType) (check : Bool) : (A.append i j v check).state.Invariant := by
  unfold UniLowerMatrix.append
  by_cases hij : i ≤ j
  · rw [if_pos hij]; exact hA
  · rw [if_neg hij]
    by_cases hc : (!check || !(v == 0)) = true
    · rw [if_pos hc]; exact Invariant.storage_insert hA hij v
    · rw [if_neg hc]; exact hA

theorem Invariant.erase {A : UniLowerMatrix SO} (hA : A.Invariant) (i j : Nat) :
    (A.erase i j).state.Invariant := by
  unfold UniLowerMatrix.erase
  by_cases hij : i = j
  · rw [if_pos hij]; exact hA
  · rw [if_neg hij]
    refine Invariant.of_cells hA (CompressedMatrix.WF_erase hA.1 i j) rfl rfl ?_ ?_
    · intro k
      show (A.matrix_.erase i j).get k k = _
      rw [CompressedMatrix.get_erase]
      have : ¬ (k = i ∧ k = j) := by omega
      rw [if_neg this]
    · intro a b _
      show (A.matrix_.erase i j).get a b = _ ∨ (A.matrix_.erase i j).get a b = 0
      rw [CompressedMatrix.get_erase]
      by_cases h : a = i ∧ b = j
      · rw [if_pos h]; right; rfl
      · rw [if_neg h]; left; rfl

theorem Invariant.erasePos {A : UniLowerMatrix SO} (hA : A.Invariant) (i : Nat)
    (pos : Iterator) : (A.erasePos i pos).state.Invariant := by
  unfold UniLowerMatrix.erasePos
  by_cases h : pos.base ≠ A.matrix_.end_ i ∧ (A.matrix_.lines i).indexAt pos.pos_ = some i
  · rw [if_pos h]; exact hA
  · rw [if_neg h]
    by_cases he : (A.matrix_.lines i).indexAt pos.pos_ = some i
    · have hend : pos.pos_ = (A.matrix_.lines i).length := by
        by_contra hne
        exact h ⟨hne, he⟩
      have : (A.matrix_.lines i).indexAt pos.pos_ = none := by
        unfold Line.indexAt
        rw [hend, List.get?_eq_getElem?, List.getElem?_eq_none (Nat.le_refl _)]
        rfl
      rw [this] at he
      cases he
    · exact Invariant.withLine_sublist hA i (List.eraseIdx_sublist _ _)
        (Line.value_erasePos (hA.1 i) pos.pos_ i he)

theorem Invariant.eraseRange {A : UniLowerMatrix SO} (hA : A.Invariant) (i : Nat)
    (first last : Iterator) (hfl : first.pos_ ≤ last.pos_) :
    (A.eraseRange i first last).state.Invariant := by
  unfold UniLowerMatrix.eraseRange
  by_cases h : (List.range' first.pos_ (last.pos_ - first.pos_)).any
      (fun p => decide ((A.matrix_.lines i).indexAt p = some i)) = true
  · rw [if_pos h]; exact hA
  · rw [if_neg h]
    have hno : ∀ p, first.pos_ ≤ p → p < last.pos_ →
        (A.matrix_.lines i).indexAt p ≠ some i := by
      intro p hp1 hp2 hp
      apply h
      rw [List.any_eq_true]
      refine ⟨p, ?_, by simpa using hp⟩
      rw [List.mem_range'_1]
      omega
    exact Invariant.withLine_sublist hA i (Line.eraseRange_sublist _ hfl)
      (Line.value_eraseRange (hA.1 i) hfl i hno)

/-- Line `k` after `reset()`, for well-formed storage: only the entries on and above the
diagonal are left. -/
theorem reset_lines (A : UniLowerMatrix SO) (hwf : A.matrix_.WF) (k : Nat) :
    A.reset.matrix_.lines k =
      if k < A.matrix_.numLines then
        (A.matrix_.lines k).filter
          (fun e => if SO then decide (e.1 < k + 1) else decide (k ≤ e.1))
      else A.matrix_.lines k := by
  cases SO
  · have hbody : (fun (i : Nat) (M : CompressedMatrix false) =>
        M.eraseRange i (M.begin_ i) (M.lowerBound i i)) =
        (fun k N => N.withLine k
          ((fun (i : Nat) (l : Line) => l.eraseRange 0 (l.lowerBound i)) k (N.lines k))) := rfl
    have h := (CompressedMatrix.forLoop_lines
      (fun (i : Nat) (l : Line) => l.eraseRange 0 (l.lowerBound i)) 1 A.rows A.matrix_).2.2 k
    show (forLoop 1 A.rows _ A.matrix_).lines k = _
    rw [hbody, h]
    show _ = if k < A.matrix_.m_ then _ else _
    by_cases hk : k < A.matrix_.m_
    · rw [if_pos hk]
      simp only [Bool.false_eq_true, if_false]
      by_cases hk1 : 1 ≤ k
      · have hk2 : 1 ≤ k ∧ k < A.rows := ⟨hk1, hk⟩
        rw [if_pos hk2]
        simp only [Line.eraseRange, List.take_zero, List.nil_append]
        exact Line.drop_lowerBound (hwf k) k
      · have hk2 : ¬ (1 ≤ k ∧ k < A.rows) := fun h => hk1 h.1
        rw [if_neg hk2]
        symm
        rw [List.filter_eq_self]
        intro a _
        simp; omega
    · have hk2 : ¬ (1 ≤ k ∧ k < A.rows) := fun h => hk h.2
      rw [if_neg hk2, if_neg hk]
  · have hbody : (fun (j : Nat) (M : CompressedMatrix true) =>
        M.eraseRange j (M.lowerBound (j + 1) j) (M.end_ j)) =
        (fun k N => N.withLine k
          ((fun (j : Nat) (l : Line) => l.eraseRange (l.lowerBound (j + 1)) l.length) k
            (N.lines k))) := rfl
    have h := (CompressedMatrix.forLoop_lines
      (fun (j : Nat) (l : Line) => l.eraseRange (l.lowerBound (j + 1)) l.length)
      0 A.columns A.matrix_).2.2 k
    show (forLoop 0 A.columns _ A.matrix_).lines k = _
    rw [hbody, h]
    show _ = if k < A.matrix_.n_ then _ else _
    by_cases hk : k < A.matrix_.n_
    · have hk2 : 0 ≤ k ∧ k < A.columns := ⟨Nat.zero_le _, hk⟩
      rw [if_pos hk2, if_pos hk]
      simp only [Line.eraseRange, List.drop_length, List.append_nil, if_true]
      exact Line.take_lowerBound (hwf k) (k + 1)
    · have hk2 : ¬ (0 ≤ k ∧ k < A.columns) := fun h => hk h.2
      rw [if_neg hk2, if_neg hk]

theorem reset_rows (A : UniLowerMatrix SO) : A.reset.rows = A.rows := by
  cases SO
  · exact (CompressedMatrix.forLoop_lines
      (fun (i : Nat) (l : Line) => l.eraseRange 0 (l.lowerBound i)) 1 A.rows A.matrix_).1
  · exact (CompressedMatrix.forLoop_lines
      (fun (j : Nat) (l : Line) => l.eraseRange (l.lowerBound (j + 1)) l.length)
      0 A.columns A.matrix_).1

theorem reset_columns (A : UniLowerMatrix SO) : A.reset.columns = A.columns := by
  cases SO
  · exact (CompressedMatrix.forLoop_lines
      (fun (i : Nat) (l : Line) => l.eraseRange 0 (l.lowerBound i)) 1 A.rows A.matrix_).2.1
  · exact (CompressedMatrix.forLoop_lines
      (fun (j : Nat) (l : Line) => l.eraseRange (l.lowerBound (j + 1)) l.length)
      0 A.columns A.matrix_).2.1

/-- Cell values after `reset()`: the cells below the diagonal read 0, all other cells are
unchanged. -/
theorem reset_get (A : UniLowerMatrix SO) (hwf : A.matrix_.WF) (i j : Nat) :
    A.reset.matrix_.get i j =
      if lineOf SO i j < A.matrix_.numLines ∧ j < i then 0 else A.matrix_.get i j := by
  unfold CompressedMatrix.get
  rw [reset_lines A hwf]
  cases SO
  · simp only [lineOf, indexOf, Bool.false_eq_true, if_false]
    by_cases hk : i < A.matrix_.numLines
    · rw [if_pos hk]
      have := Line.value_filter (fun x => decide (i ≤ x)) (A.matrix_.lines i) j
      rw [this]
      by_cases hij : j < i
      · have : ¬ i ≤ j := by omega
        simp [hk, hij, this]
      · have : i ≤ j := by omega
        simp [hij, this]
    · rw [if_neg hk]
      simp [hk]
  · simp only [lineOf, indexOf, if_true]
    by_cases hk : j < A.matrix_.numLines
    · rw [if_pos hk]
      have := Line.value_filter (fun x => decide (x < j + 1)) (A.matrix_.lines j) i
      rw [this]
      by_cases hij : j < i
      · have : ¬ i < j + 1 := by omega
        simp [hk, hij, this]
      · have : i < j + 1 := by omega
        simp [hij, this]
    · rw [if_neg hk]
      simp [hk]

theorem reset_WF (A : UniLowerMatrix SO) (hwf : A.matrix_.WF) : A.reset.matrix_.WF := by
  intro k
  rw [reset_lines A hwf k]
  by_cases hk : k < A.matrix_.numLines
  · rw [if_pos hk]
    exact List.Pairwise.filter _ (hwf k)
  · rw [if_neg hk]; exact hwf k

theorem Invariant.reset {A : UniLowerMatrix SO} (hA : A.Invariant) : A.reset.Invariant := by
  refine Invariant.of_cells hA (reset_WF A hA.1) (reset_rows A) (reset_columns A) ?_ ?_
  · intro i
    rw [reset_get A hA.1]
    have : ¬ (lineOf SO i i < A.matrix_.numLines ∧ i < i) := fun h => Nat.lt_irrefl _ h.2
    rw [if_neg this]
  · intro i j hij
    rw [reset_get A hA.1]
    have : ¬ (lineOf SO i j < A.matrix_.numLines ∧ j < i) := by omega
    rw [if_neg this]; left; rfl

theorem Invariant.resetAt {A : UniLowerMatrix SO} (hA : A.Invariant) (i : Nat) :
    (A.resetAt i).Invariant := by
  cases SO
  · show Invariant (⟨A.matrix_.withLine i
      ((A.matrix_.lines i).eraseRange 0 ((A.matrix_.lines i).lowerBound i))⟩ :
      UniLowerMatrix false)
    apply Invariant.withLine_sublist hA i (Line.eraseRange_sublist _ (Nat.zero_le _))
    simp only [Line.eraseRange, List.take_zero, List.nil_append]
    rw [Line.drop_lowerBound (hA.1 i) i,
      Line.value_filter (fun x => decide (i ≤ x)) (A.matrix_.lines i) i]
    simp
  · show Invariant (⟨A.matrix_.withLine i
      ((A.matrix_.lines i).eraseRange ((A.matrix_.lines i).lowerBound (i + 1))
        (A.matrix_.lines i).length)⟩ : UniLowerMatrix true)
    have hsub : (Line.eraseRange (A.matrix_.lines i) ((A.matrix_.lines i).lowerBound (i + 1))
        (A.matrix_.lines i).length).Sublist (A.matrix_.lines i) := by
      simp only [Line.eraseRange, List.drop_length, List.append_nil]
      exact List.take_sublist _ _
    apply Invariant.withLine_sublist hA i hsub
    simp only [Line.eraseRange, List.drop_length, List.append_nil]
    rw [Line.take_lowerBound (hA.1 i) (i + 1),
      Line.value_filter (fun x => decide (x < i + 1)) (A.matrix_.lines i) i]
    simp

end UniLowerMatrix
namespace UniLowerMatrix

variable {SO : Bool}

theorem Invariant.assign {A : UniLowerMatrix SO} (hA : A.Invariant)
    {rhs : CompressedMatrix SO} (hwf : rhs.WF) {t : Bool}
    (ht : t = true → rhs.isUniLower = true) : (A.assign rhs t).state.Invariant := by
  unfold UniLowerMatrix.assign
  by_cases h : (!t && !rhs.isUniLower) = true
  · rw [if_pos h]; exact hA
  · rw [if_neg h]
    have hU : rhs.isUniLower = true := by
      cases t
      · simpa using h
      · exact ht rfl
    have h1 : Invariant (⟨rhs⟩ : UniLowerMatrix SO) := Invariant.of_isUniLower hwf hU
    show Invariant (if (!t) = true then _ else _)
    by_cases h2 : (!t) = true
    · rw [if_pos h2]; exact h1.resetUpper
    · rw [if_neg h2]; exact h1

theorem Invariant.assignComputation {A : UniLowerMatrix SO} (hA : A.Invariant)
    {rhs : CompressedMatrix SO} (hwf : rhs.WF) {sq t : Bool}
    (ht : t = true → rhs.isUniLower = true) :
    (A.assignComputation rhs sq t).state.Invariant := by
  unfold UniLowerMatrix.assignComputation
  by_cases h : (!sq && !rhs.isSquare) = true
  · rw [if_pos h]; exact hA
  · rw [if_neg h]
    by_cases h2 : t = true
    · rw [if_pos h2]
      exact Invariant.of_isUniLower hwf (ht h2)
    · rw [if_neg h2]
      show Invariant (Outcome.state (if (!rhs.isUniLower) = true then _ else _))
      by_cases h3 : (!rhs.isUniLower) = true
      · rw [if_pos h3]; exact hA
      · rw [if_neg h3]
        have hU : rhs.isUniLower = true := by simpa using h3
        exact (Invariant.of_isUniLower hwf hU).resetUpper

/-- Adding a strictly lower matrix cell by cell to a valid state gives a valid state. -/
theorem Invariant.storage_combine {A : UniLowerMatrix SO} (hA : A.Invariant)
    {rhs : CompressedMatrix SO} (hS : rhs.isStrictlyLower = true)
    (hm : rhs.m_ = A.matrix_.m_) (hn : rhs.n_ = A.matrix_.n_)
    (op : ElementType → ElementType → ElementType) (hop : ∀ x, op x 0 = x) :
    Invariant (⟨CompressedMatrix.ofFn A.matrix_.m_ A.matrix_.n_
      (fun i j => op (A.matrix_.get i j) (rhs.get i j))⟩ : UniLowerMatrix SO) := by
  obtain ⟨_, h2, h3, h4⟩ := hA
  obtain ⟨_, hz⟩ := (CompressedMatrix.isStrictlyLower_iff rhs).mp hS
  have h2' : A.matrix_.m_ = A.matrix_.n_ := h2
  refine ⟨CompressedMatrix.ofFn_WF _ _ _, h2, ?_, ?_⟩
  · intro i hi
    have hi' : i < A.matrix_.m_ := hi
    show (CompressedMatrix.ofFn _ _ _ : CompressedMatrix SO).get i i = 1
    rw [CompressedMatrix.get_ofFn]
    have : i < A.matrix_.m_ ∧ i < A.matrix_.n_ := ⟨hi', by omega⟩
    rw [if_pos this, hz i i (by omega) (by omega) (Nat.le_refl _), hop]
    exact h3 i hi
  · intro i j hij hj
    have hj' : j < A.matrix_.m_ := hj
    show (CompressedMatrix.ofFn _ _ _ : CompressedMatrix SO).get i j = 0
    rw [CompressedMatrix.get_ofFn]
    have : i < A.matrix_.m_ ∧ j < A.matrix_.n_ := ⟨by omega, by omega⟩
    rw [if_pos this, hz i j (by omega) (by omega) (Nat.le_of_lt hij), hop]
    exact h4 i j hij hj

theorem Invariant.storage_addAssign {A : UniLowerMatrix SO} (hA : A.Invariant)
    {rhs : CompressedMatrix SO} (hS : rhs.isStrictlyLower = true) :
    Invariant (⟨(A.matrix_.addAssign rhs).state⟩ : UniLowerMatrix SO) := by
  unfold CompressedMatrix.addAssign
  by_cases h : rhs.m_ ≠ A.matrix_.m_ ∨ rhs.n_ ≠ A.matrix_.n_
  · rw [if_pos h]; exact hA
  · rw [if_neg h]
    exact Invariant.storage_combine hA hS (by omega) (by omega) (fun x y => x + y)
      (fun x => Int.add_zero x)

theorem Invariant.storage_subAssign {A : UniLowerMatrix SO} (hA : A.Invariant)
    {rhs : CompressedMatrix SO} (hS : rhs.isStrictlyLower = true) :
    Invariant (⟨(A.matrix_.subAssign rhs).state⟩ : UniLowerMatrix SO) := by
  unfold CompressedMatrix.subAssign
  by_cases h : rhs.m_ ≠ A.matrix_.m_ ∨ rhs.n_ ≠ A.matrix_.n_
  · rw [if_pos h]; exact hA
  · rw [if_neg h]
    exact Invariant.storage_combine hA hS (by omega) (by omega) (fun x y => x - y)
      (fun x => Int.sub_zero x)

theorem Invariant.addAssign {A : UniLowerMatrix SO} (hA : A.Invariant)
    {rhs : CompressedMatrix SO} {t : Bool}
    (ht : t = true → rhs.isStrictlyLower = true) : (A.addAssign rhs t).state.Invariant := by
  unfold UniLowerMatrix.addAssign
  by_cases h : (!t && !rhs.isStrictlyLower) = true
  · rw [if_pos h]; exact hA
  · rw [if_neg h]
    have hS : rhs.isStrictlyLower = true := by
      cases t
      · simpa using h
      · exact ht rfl
    have h1 := Invariant.storage_addAssign hA hS
    split
    · exact h1
    · show Invariant (if (!t) = true then _ else _)
      by_cases h2 : (!t) = true
      · rw [if_pos h2]; exact h1.resetUpper
      · rw [if_neg h2]; exact h1

theorem Invariant.subAssign {A : UniLowerMatrix SO} (hA : A.Invariant)
    {rhs : CompressedMatrix SO} {t : Bool}
    (ht : t = true → rhs.isStrictlyLower = true) : (A.subAssign rhs t).state.Invariant := by
  unfold UniLowerMatrix.subAssign
  by_cases h : (!t && !rhs.isStrictlyLower) = true
  · rw [if_pos h]; exact hA
  · rw [if_neg h]
    have hS : rhs.isStrictlyLower = true := by
      cases t
      · simpa using h
      · exact ht rfl
    have h1 := Invariant.storage_subAssign hA hS
    split
    · exact h1
    · show Invariant (if (!t) = true then _ else _)
      by_cases h2 : (!t) = true
      · rw [if_pos h2]; exact h1.resetUpper
      · rw [if_neg h2]; exact h1

theorem Invariant.addAssignComputation {A : UniLowerMatrix SO} (hA : A.Invariant)
    {rhs : CompressedMatrix SO} {sq t : Bool}
    (ht : t = true → rhs.isStrictlyLower = true) :
    (A.addAssignComputation rhs sq t).state.Invariant := by
  unfold UniLowerMatrix.addAssignComputation
  by_cases h : (!sq && !rhs.isSquare) = true
  · rw [if_pos h]; exact hA
  · rw [if_neg h]
    by_cases h2 : t = true
    · rw [if_pos h2]
      exact Invariant.storage_addAssign hA (ht h2)
    · rw [if_neg h2]
      show Invariant (Outcome.state (if (!rhs.isStrictlyLower) = true then _ else _))
      by_cases h3 : (!rhs.isStrictlyLower) = true
      · rw [if_pos h3]; exact hA
      · rw [if_neg h3]
        have hS : rhs.isStrictlyLower = true := by simpa using h3
        have h1 := Invariant.storage_addAssign hA hS
        split
        · exact h1
        · exact h1.resetUpper

theorem Invariant.subAssignComputation {A : UniLowerMatrix SO} (hA : A.Invariant)
    {rhs : CompressedMatrix SO} {sq t : Bool}
    (ht : t = true → rhs.isStrictlyLower = true) :
    (A.subAssignComputation rhs sq t).state.Invariant := by
  unfold UniLowerMatrix.subAssignComputation
  by_cases h : (!sq && !rhs.isSquare) = true
  · rw [if_pos h]; exact hA
  · rw [if_neg h]
    by_cases h2 : t = true
    · rw [if_pos h2]
      exact Invariant.storage_subAssign hA (ht h2)
    · rw [if_neg h2]
      show Invariant (Outcome.state (if (!rhs.isStrictlyLower) = true then _ else _))
      by_cases h3 : (!rhs.isStrictlyLower) = true
      · rw [if_pos h3]; exact hA
      · rw [if_neg h3]
        have hS : rhs.isStrictlyLower = true := by simpa using h3
        have h1 := Invariant.storage_subAssign hA hS
        split
        · exact h1
        · exact h1.resetUpper

theorem mul_WF {A B T : CompressedMatrix SO} (h : A.mul B = Except.ok T) : T.WF := by
  unfold CompressedMatrix.mul at h
  by_cases hd : A.n_ ≠ B.m_
  · rw [if_pos hd] at h; cases h
  · rw [if_neg hd] at h
    cases h
    exact CompressedMatrix.ofFn_WF _ _ _

theorem Invariant.mulAssign {A : UniLowerMatrix SO} (hA : A.Invariant)
    (rhs : CompressedMatrix SO) (t : Bool) : (A.mulAssign rhs t).state.Invariant := by
  unfold UniLowerMatrix.mulAssign
  by_cases h : A.matrix_.rows ≠ rhs.columns
  · rw [if_pos h]; exact hA
  · rw [if_neg h]
    cases hmul : A.matrix_.mul rhs with
    | error e => exact hA
    | ok tmp =>
      show Invariant (Outcome.state (if (!tmp.isUniLower) = true then _ else _))
      by_cases h3 : (!tmp.isUniLower) = true
      · rw [if_pos h3]; exact hA
      · rw [if_neg h3]
        have hU : tmp.isUniLower = true := by simpa using h3
        have h1 : Invariant (⟨tmp⟩ : UniLowerMatrix SO) :=
          Invariant.of_isUniLower (mul_WF hmul) hU
        show Invariant (if (!t) = true then _ else _)
        by_cases h2 : (!t) = true
        · rw [if_pos h2]; exact h1.resetUpper
        · rw [if_neg h2]; exact h1

theorem Invariant.convert {m : CompressedMatrix SO} (hwf : m.WF) {t : Bool}
    (ht : t = true → m.isUniLower = true) {A : UniLowerMatrix SO}
    (h : UniLowerMatrix.convert m t = Except.ok A) : A.Invariant := by
  unfold UniLowerMatrix.convert at h
  by_cases hc : (!t && !m.isUniLower) = true
  · simp only [hc, if_true] at h
    cases h
  · simp only [hc] at h
    have hU : m.isUniLower = true := by
      cases t
      · simpa using hc
      · exact ht rfl
    have h1 : Invariant (⟨m⟩ : UniLowerMatrix SO) := Invariant.of_isUniLower hwf hU
    by_cases h2 : (!t) = true
    · simp only [h2, if_true] at h
      cases h
      exact h1.resetUpper
    · simp only [h2] at h
      cases h
      exact h1

/-- Every reachable state satisfies the unit-lower invariant. -/
theorem Reachable.invariant {A : UniLowerMatrix SO} (h : Reachable A) : A.Invariant := by
  induction h with
  | default => exact Invariant.default
  | sized n => exact Invariant.sized n
  | sizedNonzeros n nz => rw [sizedNonzeros_eq]; exact Invariant.sized n
  | sizedCapacities n nz A h => rw [sizedCapacities_ok h]; exact Invariant.sized n
  | copy m _ ih => exact ih
  | convert m t A hwf ht h => exact Invariant.convert hwf ht h
  | set A i j v _ ih => exact ih.set i j v
  | insert A i j v _ ih => exact ih.insert i j v
  | append A i j v c _ ih => exact ih.append i j v c
  | erase A i j _ ih => exact ih.erase i j
  | erasePos A i pos _ ih => exact ih.erasePos i pos
  | eraseRange A i f l _ hfl ih => exact ih.eraseRange i f l hfl
  | reset A _ ih => exact ih.reset
  | resetAt A i _ ih => exact ih.resetAt i
  | swapLeft A m _ _ _ ih2 => exact ih2
  | swapRight A m _ _ ih1 _ => exact ih1
  | copyAssign A rhs _ _ _ ih2 => exact ih2
  | assign A rhs t _ hwf ht ih => exact ih.assign hwf ht
  | assignComputation A rhs sq t _ hwf _ ht ih => exact ih.assignComputation hwf ht
  | addAssign A rhs t _ _ ht ih => exact ih.addAssign ht
  | addAssignComputation A rhs sq t _ _ _ ht ih => exact ih.addAssignComputation ht
  | subAssign A rhs t _ _ ht ih => exact ih.subAssign ht
  | subAssignComputation A rhs sq t _ _ _ ht ih => exact ih.subAssignComputation ht
  | mulAssign A rhs t _ _ _ ih => exact ih.mulAssign rhs t

end UniLowerMatrix
/-! ## Lemmas for the claims -/

open UniLowerMatrix

theorem sized_nonZeros {SO : Bool} (n : Nat) : (sized n : UniLowerMatrix SO).nonZeros = n := by
  have hnum : (sized n : UniLowerMatrix SO).matrix_.numLines = n := by
    have h1 : (sized n : UniLowerMatrix SO).matrix_.m_ = n := sized_rows n
    have h2 : (sized n : UniLowerMatrix SO).matrix_.n_ = n := sized_columns n
    unfold CompressedMatrix.numLines
    cases SO
    · simpa using h1
    · simpa using h2
  unfold UniLowerMatrix.nonZeros CompressedMatrix.nonZeros
  rw [hnum]
  have hmap : (List.range n).map (fun k => (sized n : UniLowerMatrix SO).matrix_.nonZerosAt k)
      = (List.range n).map (fun _ => 1) := by
    apply List.map_congr_left
    intro k hk
    rw [List.mem_range] at hk
    unfold CompressedMatrix.nonZerosAt
    rw [sized_lines, if_pos hk]
    rfl
  rw [hmap]
  simp

theorem rejectedWrite_write {SO : Bool} (A : UniLowerMatrix SO) (hA : A.Invariant)
    (i j : Nat) (hij : i ≤ j) (f : ElementType → ElementType) :
    rejectedWrite A ((A.call i j).2.write (A.call i j).1 f) := by
  have hres : (A.call i j).2.write (A.call i j).1 f =
      ⟨(A.call i j).1, Except.error
        (Exception.invalid_argument "Invalid assignment to diagonal or upper matrix element")⟩ := by
    unfold UniLowerProxy.write UniLowerMatrix.call
    simp [hij]
  have hcell : ∀ a b, (A.call i j).1.callConst a b = A.callConst a b := by
    intro a b
    exact CompressedMatrix.get_access A.matrix_ i j a b
  rw [hres]
  refine ⟨⟨_, rfl⟩, hcell, ?_, ?_⟩
  · intro k hk
    show (A.call i j).1.callConst k k = 1
    rw [hcell]; exact hA.2.2.1 k hk
  · intro a b hab hb
    show (A.call i j).1.callConst a b = 0
    rw [hcell]; exact hA.2.2.2 a b hab hb

theorem assign_succeeds_iff {SO : Bool} (A : UniLowerMatrix SO) (M : CompressedMatrix SO) :
    (A.assign M false).succeeds ↔ M.isUniLower = true := by
  unfold UniLowerMatrix.assign Outcome.succeeds
  cases hU : M.isUniLower
  · simp
  · simp

theorem assign_state_of_isUniLower {SO : Bool} (A : UniLowerMatrix SO)
    (M : CompressedMatrix SO) (hU : M.isUniLower = true) :
    (A.assign M false).state = (⟨M⟩ : UniLowerMatrix SO).resetUpper := by
  unfold UniLowerMatrix.assign
  simp [hU]

theorem exampleUniLower_WF : exampleUniLower.WF := by
  intro k
  match k with
  | 0 => decide
  | 1 => decide
  | (k + 2) => exact List.Pairwise.nil

theorem exampleStrictlyLower_WF : exampleStrictlyLower.WF := by
  intro k
  match k with
  | 0 => decide
  | 1 => decide
  | (k + 2) => exact List.Pairwise.nil

theorem addAssign_succeeds_iff {SO : Bool} (A : UniLowerMatrix SO) (B : CompressedMatrix SO)
    (hr : B.rows = A.rows) (hc : B.columns = A.columns) :
    (A.addAssign B false).succeeds ↔ B.isStrictlyLower = true := by
  have hdim : ¬ (B.m_ ≠ A.matrix_.m_ ∨ B.n_ ≠ A.matrix_.n_) := by
    intro h
    rcases h with h | h
    · exact h hr
    · exact h hc
  unfold UniLowerMatrix.addAssign Outcome.succeeds CompressedMatrix.addAssign
  cases hS : B.isStrictlyLower
  · simp
  · simp [hdim]

theorem subAssign_succeeds_iff {SO : Bool} (A : UniLowerMatrix SO) (B : CompressedMatrix SO)
    (hr : B.rows = A.rows) (hc : B.columns = A.columns) :
    (A.subAssign B false).succeeds ↔ B.isStrictlyLower = true := by
  have hdim : ¬ (B.m_ ≠ A.matrix_.m_ ∨ B.n_ ≠ A.matrix_.n_) := by
    intro h
    rcases h with h | h
    · exact h hr
    · exact h hc
  unfold UniLowerMatrix.subAssign Outcome.succeeds CompressedMatrix.subAssign
  cases hS : B.isStrictlyLower
  · simp
  · simp [hdim]

theorem addAssign_raises_iff {SO : Bool} (A : UniLowerMatrix SO) (B : CompressedMatrix SO)
    (hr : B.rows = A.rows) (hc : B.columns = A.columns) :
    (A.addAssign B false).raisesInvalidArgument ↔ B.isStrictlyLower = false := by
  have hdim : ¬ (B.m_ ≠ A.matrix_.m_ ∨ B.n_ ≠ A.matrix_.n_) := by
    intro h
    rcases h with h | h
    · exact h hr
    · exact h hc
  unfold UniLowerMatrix.addAssign Outcome.raisesInvalidArgument CompressedMatrix.addAssign
  cases hS : B.isStrictlyLower
  · simp
  · simp [hdim]

theorem subAssign_raises_iff {SO : Bool} (A : UniLowerMatrix SO) (B : CompressedMatrix SO)
    (hr : B.rows = A.rows) (hc : B.columns = A.columns) :
    (A.subAssign B false).raisesInvalidArgument ↔ B.isStrictlyLower = false := by
  have hdim : ¬ (B.m_ ≠ A.matrix_.m_ ∨ B.n_ ≠ A.matrix_.n_) := by
    intro h
    rcases h with h | h
    · exact h hr
    · exact h hc
  unfold UniLowerMatrix.subAssign Outcome.raisesInvalidArgument CompressedMatrix.subAssign
  cases hS : B.isStrictlyLower
  · simp
  · simp [hdim]

/-! ## Lemmas for compound assignment, element manipulation and resizing -/

theorem storage_addAssign_ok {SO : Bool} (M B : CompressedMatrix SO)
    (hm : B.m_ = M.m_) (hn : B.n_ = M.n_) :
    M.addAssign B = ⟨CompressedMatrix.ofFn M.m_ M.n_ (fun i j => M.get i j + B.get i j),
      Except.ok ()⟩ := by
  unfold CompressedMatrix.addAssign
  have hdim : ¬ (B.m_ ≠ M.m_ ∨ B.n_ ≠ M.n_) := by
    intro h
    rcases h with h | h
    · exact h hm
    · exact h hn
  rw [if_neg hdim]

theorem storage_subAssign_ok {SO : Bool} (M B : CompressedMatrix SO)
    (hm : B.m_ = M.m_) (hn : B.n_ = M.n_) :
    M.subAssign B = ⟨CompressedMatrix.ofFn M.m_ M.n_ (fun i j => M.get i j - B.get i j),
      Except.ok ()⟩ := by
  unfold CompressedMatrix.subAssign
  have hdim : ¬ (B.m_ ≠ M.m_ ∨ B.n_ ≠ M.n_) := by
    intro h
    rcases h with h | h
    · exact h hm
    · exact h hn
  rw [if_neg hdim]

theorem storage_addAssign_error_state {SO : Bool} (M B : CompressedMatrix SO) (e : Exception)
    (h : (M.addAssign B).result = Except.error e) : (M.addAssign B).state = M := by
  unfold CompressedMatrix.addAssign at h ⊢
  by_cases hdim : B.m_ ≠ M.m_ ∨ B.n_ ≠ M.n_
  · rw [if_pos hdim]
  · rw [if_neg hdim] at h; cases h

theorem storage_subAssign_error_state {SO : Bool} (M B : CompressedMatrix SO) (e : Exception)
    (h : (M.subAssign B).result = Except.error e) : (M.subAssign B).state = M := by
  unfold CompressedMatrix.subAssign at h ⊢
  by_cases hdim : B.m_ ≠ M.m_ ∨ B.n_ ≠ M.n_
  · rw [if_pos hdim]
  · rw [if_neg hdim] at h; cases h

/-- The state after a successful `A += B` on the non-computation path. -/
theorem addAssign_state_of_isStrictlyLower {SO : Bool} (A : UniLowerMatrix SO)
    (B : CompressedMatrix SO) (hr : B.rows = A.rows) (hc : B.columns = A.columns)
    (hS : B.isStrictlyLower = true) :
    A.addAssign B false =
      ⟨UniLowerMatrix.resetUpper ⟨CompressedMatrix.ofFn A.matrix_.m_ A.matrix_.n_
        (fun i j => A.matrix_.get i j + B.get i j)⟩, Except.ok ()⟩ := by
  unfold UniLowerMatrix.addAssign
  rw [storage_addAssign_ok A.matrix_ B hr hc]
  simp [hS]

theorem addAssignComputation_eq {SO : Bool} (A : UniLowerMatrix SO)
    (B : CompressedMatrix SO) (hsq : B.isSquare = true) (isSquareT : Bool) :
    A.addAssignComputation B isSquareT false = A.addAssign B false := by
  unfold UniLowerMatrix.addAssignComputation UniLowerMatrix.addAssign
  simp [hsq]

theorem subAssignComputation_eq {SO : Bool} (A : UniLowerMatrix SO)
    (B : CompressedMatrix SO) (hsq : B.isSquare = true) (isSquareT : Bool) :
    A.subAssignComputation B isSquareT false = A.subAssign B false := by
  unfold UniLowerMatrix.subAssignComputation UniLowerMatrix.subAssign
  simp [hsq]

theorem isStrictlyLower_iff_cells {SO : Bool} (A : UniLowerMatrix SO) (hA : A.Invariant)
    (B : CompressedMatrix SO) (hr : B.rows = A.rows) (hc : B.columns = A.columns) :
    B.isStrictlyLower = true ↔
      ∀ i j, i < A.rows → j < A.columns → i ≤ j → B.get i j = 0 := by
  have h1 : B.m_ = A.matrix_.m_ := hr
  have h2 : B.n_ = A.matrix_.n_ := hc
  have h3 : A.matrix_.m_ = A.matrix_.n_ := hA.2.1
  rw [CompressedMatrix.isStrictlyLower_iff]
  constructor
  · rintro ⟨_, hz⟩ i j hi hj hij
    exact hz i j (by rw [h1]; exact hi) (by rw [h2]; exact hj) hij
  · intro hz
    refine ⟨by omega, ?_⟩
    intro i j hi hj hij
    exact hz i j (by rw [← show B.m_ = A.rows from hr]; exact hi)
      (by rw [← show B.n_ = A.columns from hc]; exact hj) hij

theorem cellwiseResult_addAssign {SO : Bool} (A : UniLowerMatrix SO) (hA : A.Invariant)
    (B : CompressedMatrix SO) (hr : B.rows = A.rows) (hc : B.columns = A.columns)
    (hS : B.isStrictlyLower = true) :
    cellwiseResult (fun x y => x + y) A B (A.addAssign B false).state := by
  have hinv : (A.addAssign B false).state.Invariant :=
    Invariant.addAssign hA (fun h => by cases h)
  rw [addAssign_state_of_isStrictlyLower A B hr hc hS] at hinv ⊢
  refine ⟨resetUpper_rows _, resetUpper_columns _, ?_, hinv.2.2.1, hinv.2.2.2⟩
  intro i j hi hj
  have hwf : (⟨CompressedMatrix.ofFn A.matrix_.m_ A.matrix_.n_
      (fun i j => A.matrix_.get i j + B.get i j)⟩ : UniLowerMatrix SO).matrix_.WF :=
    CompressedMatrix.ofFn_WF A.matrix_.m_ A.matrix_.n_ _
  show (UniLowerMatrix.resetUpper _).matrix_.get i j = _
  rw [resetUpper_get _ hwf]
  have hget : (CompressedMatrix.ofFn A.matrix_.m_ A.matrix_.n_
      (fun i j => A.matrix_.get i j + B.get i j) : CompressedMatrix SO).get i j =
      A.matrix_.get i j + B.get i j := by
    rw [CompressedMatrix.get_ofFn, if_pos ⟨hi, hj⟩]
  by_cases h : lineOf SO i j <
      (CompressedMatrix.ofFn A.matrix_.m_ A.matrix_.n_
        (fun i j => A.matrix_.get i j + B.get i j) : CompressedMatrix SO).numLines ∧ i < j
  · rw [if_pos h]
    have hz := ((isStrictlyLower_iff_cells A hA B hr hc).mp hS) i j hi hj (Nat.le_of_lt h.2)
    have ha : A.matrix_.get i j = 0 :=
      hA.2.2.2 i j h.2 (by show j < A.matrix_.m_; rw [show A.matrix_.m_ = A.matrix_.n_ from hA.2.1]; exact hj)
    show (0 : ElementType) = A.matrix_.get i j + B.get i j
    rw [ha, hz]; rfl
  · rw [if_neg h, hget]; rfl

theorem addAssign_raises_state {SO : Bool} (A : UniLowerMatrix SO) (B : CompressedMatrix SO)
    (t : Bool) (h : (A.addAssign B t).raisesInvalidArgument) : (A.addAssign B t).state = A := by
  unfold UniLowerMatrix.addAssign at h ⊢
  by_cases hc : (!t && !B.isStrictlyLower) = true
  · rw [if_pos hc]
  · rw [if_neg hc] at h ⊢
    cases hres : (A.matrix_.addAssign B).result with
    | error e =>
      simp only [hres]
      rw [storage_addAssign_error_state A.matrix_ B e hres]
    | ok u =>
      simp only [hres] at h
      obtain ⟨w, hw⟩ := h
      cases hw

theorem subAssign_raises_state {SO : Bool} (A : UniLowerMatrix SO) (B : CompressedMatrix SO)
    (t : Bool) (h : (A.subAssign B t).raisesInvalidArgument) : (A.subAssign B t).state = A := by
  unfold UniLowerMatrix.subAssign at h ⊢
  by_cases hc : (!t && !B.isStrictlyLower) = true
  · rw [if_pos hc]
  · rw [if_neg hc] at h ⊢
    cases hres : (A.matrix_.subAssign B).result with
    | error e =>
      simp only [hres]
      rw [storage_subAssign_error_state A.matrix_ B e hres]
    | ok u =>
      simp only [hres] at h
      obtain ⟨w, hw⟩ := h
      cases hw

theorem addAssignComputation_raises_state {SO : Bool} (A : UniLowerMatrix SO)
    (B : CompressedMatrix SO) (sq t : Bool)
    (h : (A.addAssignComputation B sq t).raisesInvalidArgument) :
    (A.addAssignComputation B sq t).state = A := by
  unfold UniLowerMatrix.addAssignComputation at h ⊢
  by_cases hc : (!sq && !B.isSquare) = true
  · rw [if_pos hc]
  · rw [if_neg hc] at h ⊢
    by_cases ht : t = true
    · rw [if_pos ht] at h ⊢
      obtain ⟨w, hw⟩ := h
      exact congrArg UniLowerMatrix.mk (storage_addAssign_error_state A.matrix_ B _ hw)
    · rw [if_neg ht] at h ⊢
      by_cases hS : (!B.isStrictlyLower) = true
      · simp only [hS, if_true]
      · simp only [hS] at h ⊢
        cases hres : (A.matrix_.addAssign B).result with
        | error e =>
          simp [hres, storage_addAssign_error_state A.matrix_ B e hres]
        | ok u =>
          simp only [hres] at h
          obtain ⟨w, hw⟩ := h
          cases hw

theorem subAssignComputation_raises_state {SO : Bool} (A : UniLowerMatrix SO)
    (B : CompressedMatrix SO) (sq t : Bool)
    (h : (A.subAssignComputation B sq t).raisesInvalidArgument) :
    (A.subAssignComputation B sq t).state = A := by
  unfold UniLowerMatrix.subAssignComputation at h ⊢
  by_cases hc : (!sq && !B.isSquare) = true
  · rw [if_pos hc]
  · rw [if_neg hc] at h ⊢
    by_cases ht : t = true
    · rw [if_pos ht] at h ⊢
      obtain ⟨w, hw⟩ := h
      exact congrArg UniLowerMatrix.mk (storage_subAssign_error_state A.matrix_ B _ hw)
    · rw [if_neg ht] at h ⊢
      by_cases hS : (!B.isStrictlyLower) = true
      · simp only [hS, if_true]
      · simp only [hS] at h ⊢
        cases hres : (A.matrix_.subAssign B).result with
        | error e =>
          simp [hres, storage_subAssign_error_state A.matrix_ B e hres]
        | ok u =>
          simp only [hres] at h
          obtain ⟨w, hw⟩ := h
          cases hw

theorem mul_ok {SO : Bool} (A B : CompressedMatrix SO) (h : A.n_ = B.m_) :
    A.mul B = Except.ok (CompressedMatrix.ofFn A.m_ B.n_ (CompressedMatrix.productCell A B)) := by
  unfold CompressedMatrix.mul
  have : ¬ A.n_ ≠ B.m_ := fun hne => hne h
  rw [if_neg this]
  rfl

theorem mul_error {SO : Bool} (A B : CompressedMatrix SO) (h : A.n_ ≠ B.m_) :
    A.mul B = Except.error (Exception.invalid_argument "Matrix sizes do not match") := by
  unfold CompressedMatrix.mul
  rw [if_pos h]

theorem isUniLower_ofFn_iff {SO : Bool} (n : Nat) (f : Nat → Nat → ElementType) :
    (CompressedMatrix.ofFn n n f : CompressedMatrix SO).isUniLower = true ↔
      (∀ i, i < n → f i i = 1) ∧ (∀ i j, i < j → j < n → f i j = 0) := by
  rw [CompressedMatrix.isUniLower_iff]
  constructor
  · rintro ⟨_, h2, h3⟩
    constructor
    · intro i hi
      have := h2 i hi
      rw [CompressedMatrix.get_ofFn, if_pos ⟨hi, hi⟩] at this
      exact this
    · intro i j hij hj
      have := h3 i j (Nat.lt_trans hij hj) hj hij
      rw [CompressedMatrix.get_ofFn, if_pos ⟨Nat.lt_trans hij hj, hj⟩] at this
      exact this
  · rintro ⟨h2, h3⟩
    refine ⟨rfl, ?_, ?_⟩
    · intro i hi
      have hi' : i < n := hi
      rw [CompressedMatrix.get_ofFn, if_pos ⟨hi', hi'⟩]
      exact h2 i hi'
    · intro i j hi hj hij
      have hi' : i < n := hi
      have hj' : j < n := hj
      rw [CompressedMatrix.get_ofFn, if_pos ⟨hi', hj'⟩]
      exact h3 i j hij hj'

/-- The outcome of `A *= B` for conforming operands, in terms of the product. -/
theorem mulAssign_conforming {SO : Bool} (A : UniLowerMatrix SO) (B : CompressedMatrix SO)
    (t : Bool) (h1 : B.columns = A.rows) (h2 : B.rows = A.columns) :
    A.mulAssign B t =
      if (CompressedMatrix.ofFn A.matrix_.m_ B.n_
          (CompressedMatrix.productCell A.matrix_ B) : CompressedMatrix SO).isUniLower then
        ⟨if !t then UniLowerMatrix.resetUpper ⟨CompressedMatrix.ofFn A.matrix_.m_ B.n_
            (CompressedMatrix.productCell A.matrix_ B)⟩
          else ⟨CompressedMatrix.ofFn A.matrix_.m_ B.n_
            (CompressedMatrix.productCell A.matrix_ B)⟩, Except.ok ()⟩
      else
        ⟨A, Except.error (Exception.invalid_argument "Invalid assignment to unilower matrix")⟩ := by
  unfold UniLowerMatrix.mulAssign
  have hd : ¬ A.matrix_.rows ≠ B.columns := fun hne => hne h1.symm
  rw [if_neg hd, mul_ok A.matrix_ B h2.symm]
  cases hU : (CompressedMatrix.ofFn A.matrix_.m_ B.n_
      (CompressedMatrix.productCell A.matrix_ B) : CompressedMatrix SO).isUniLower
  · simp [hU]
  · simp [hU]

theorem mulAssign_raises_state {SO : Bool} (A : UniLowerMatrix SO) (B : CompressedMatrix SO)
    (t : Bool) (h : (A.mulAssign B t).raisesInvalidArgument) : (A.mulAssign B t).state = A := by
  unfold UniLowerMatrix.mulAssign at h ⊢
  by_cases hd : A.matrix_.rows ≠ B.columns
  · rw [if_pos hd]
  · rw [if_neg hd] at h ⊢
    cases hmul : A.matrix_.mul B with
    | error e => simp only [hmul]
    | ok tmp =>
      simp only [hmul] at h ⊢
      by_cases hU : (!tmp.isUniLower) = true
      · simp only [hU, if_true]
      · simp only [hU] at h
        obtain ⟨w, hw⟩ := h
        cases hw

namespace Line

theorem length_set_of_not_stored {l : Line} {idx : Nat} (h : l.stored idx = false)
    (v : ElementType) : (l.set idx v).length = l.length + 1 := by
  induction l with
  | nil => rfl
  | cons e es ih =>
    unfold stored at h
    rw [List.any_cons, Bool.or_eq_false_iff] at h
    have hne : ¬ e.1 = idx := by simpa using h.1
    unfold set
    by_cases h1 : idx < e.1
    · simp [h1]
    · have h3 : ¬ idx = e.1 := fun e' => hne e'.symm
      simp only [h1, h3, if_false, List.length_cons]
      rw [ih h.2]

theorem stored_cons (e : Nat × ElementType) (es : Line) (k : Nat) :
    stored (e :: es) k = (e.1 == k || stored es k) := rfl

theorem stored_set (l : Line) (idx : Nat) (v : ElementType) (k : Nat) :
    (l.set idx v).stored k = (decide (k = idx) || l.stored k) := by
  induction l with
  | nil =>
    by_cases hk : k = idx
    · subst hk; simp [set, stored]
    · have : ¬ idx = k := fun e => hk e.symm
      simp [set, stored, hk, this]
  | cons e es ih =>
    unfold set
    by_cases h1 : idx < e.1
    · simp only [h1, if_true]
      rw [stored_cons]
      by_cases hk : k = idx
      · subst hk; simp
      · have : ¬ idx = k := fun e => hk e.symm
        simp [hk, this]
    · simp only [h1, if_false]
      by_cases h3 : idx = e.1
      · simp only [h3, if_true]
        rw [stored_cons, stored_cons]
        by_cases hk : k = e.1
        · subst hk; simp
        · have : ¬ e.1 = k := fun e => hk e.symm
          simp [hk, this]
      · simp only [h3, if_false]
        rw [stored_cons, stored_cons, ih]
        by_cases hk : k = idx
        · subst hk
          simp
        · simp [hk]

end Line

theorem sum_map_range_congr (f g : Nat → Nat) (n : Nat) (h : ∀ x, x < n → g x = f x) :
    ((List.range n).map g).sum = ((List.range n).map f).sum := by
  have : (List.range n).map g = (List.range n).map f := by
    apply List.map_congr_left
    intro x hx
    exact h x (List.mem_range.mp hx)
  rw [this]

theorem sum_map_range_succ_at (f g : Nat → Nat) (n k : Nat) (hk : k < n)
    (hne : ∀ x, x ≠ k → g x = f x) (hk1 : g k = f k + 1) :
    ((List.range n).map g).sum = ((List.range n).map f).sum + 1 := by
  induction n with
  | zero => exact absurd hk (Nat.not_lt_zero _)
  | succ n ih =>
    rw [List.range_succ, List.map_append, List.map_append, List.sum_append, List.sum_append]
    simp only [List.map_cons, List.map_nil, List.sum_cons, List.sum_nil, Nat.add_zero]
    by_cases hkn : k = n
    · subst hkn
      rw [sum_map_range_congr f g k (fun x hx => hne x (Nat.ne_of_lt hx)), hk1]
      omega
    · have hk' : k < n := by omega
      rw [ih hk', hne n (fun e => hkn e.symm)]
      omega

namespace CompressedMatrix

variable {SO : Bool}

theorem stored_set_cell (M : CompressedMatrix SO) (i j : Nat) (v : ElementType) (a b : Nat) :
    (M.set i j v).1.stored a b = (decide (a = i ∧ b = j) || M.stored a b) := by
  show ((M.withLine _ _).lines (lineOf SO a b)).stored (indexOf SO a b) = _
  rw [lines_withLine]
  by_cases hl : lineOf SO a b = lineOf SO i j
  · rw [if_pos hl, Line.stored_set]
    by_cases hi : indexOf SO a b = indexOf SO i j
    · have := (lineOf_indexOf_eq_iff SO a b i j).mp ⟨hl, hi⟩
      simp [hi, this]
    · have : ¬ (a = i ∧ b = j) := fun h => hi ((lineOf_indexOf_eq_iff SO a b i j).mpr h).2
      simp only [hi, this, decide_False, Bool.false_or]
      unfold stored
      rw [hl]
  · have : ¬ (a = i ∧ b = j) := fun h => hl ((lineOf_indexOf_eq_iff SO a b i j).mpr h).1
    rw [if_neg hl]
    simp only [this, decide_False, Bool.false_or]
    rfl

theorem nonZeros_set_of_not_stored (M : CompressedMatrix SO) (i j : Nat) (v : ElementType)
    (hl : lineOf SO i j < M.numLines) (hs : M.stored i j = false) :
    (M.set i j v).1.nonZeros = M.nonZeros + 1 := by
  unfold nonZeros
  have hnum : (M.set i j v).1.numLines = M.numLines := rfl
  rw [hnum]
  apply sum_map_range_succ_at _ _ _ (lineOf SO i j) hl
  · intro x hx
    show ((M.withLine _ _).lines x).length = (M.lines x).length
    rw [lines_withLine, if_neg hx]
  · show ((M.withLine _ _).lines (lineOf SO i j)).length = (M.lines (lineOf SO i j)).length + 1
    rw [lines_withLine, if_pos rfl]
    exact Line.length_set_of_not_stored hs v

end CompressedMatrix

namespace Line

theorem indexAt_eq_some_iff (l : Line) (p k : Nat) :
    l.indexAt p = some k ↔ ∃ (h : p < l.length), l[p].1 = k := by
  unfold indexAt
  rw [List.get?_eq_getElem?]
  constructor
  · intro h
    by_cases hp : p < l.length
    · rw [List.getElem?_eq_getElem hp] at h
      exact ⟨hp, by simpa using h⟩
    · rw [List.getElem?_eq_none (by omega)] at h
      cases h
  · rintro ⟨hp, hk⟩
    rw [List.getElem?_eq_getElem hp]
    simp [hk]

/-- In a well-formed line an index occurs at one position only. -/
theorem position_unique {l : Line} (hs : l.sorted) {p q : Nat} (hp : p < l.length)
    (hq : q < l.length) (h : l[p].1 = l[q].1) : p = q := by
  unfold sorted at hs
  rw [List.pairwise_iff_getElem] at hs
  rcases Nat.lt_trichotomy p q with hlt | heq | hgt
  · have := hs p q hp hq hlt
    omega
  · exact heq
  · have := hs q p hq hp hgt
    omega

/-- Cell values of a line after erasing a range of positions: the indices of the range read
zero, all others are unchanged. -/
theorem value_eraseRange_of_contains {l : Line} (hs : l.sorted) {first last : Nat}
    (k : Nat) (h : l.rangeContainsIndex first last k) :
    (l.eraseRange first last).value k = 0 := by
  obtain ⟨p, hp1, hp2, hpk⟩ := h
  obtain ⟨hp, hk⟩ := (indexAt_eq_some_iff l p k).mp hpk
  apply value_eq_zero_of_forall_ne
  intro e he hek
  unfold eraseRange at he
  rcases List.mem_append.mp he with he | he
  · obtain ⟨q, hq, hqe⟩ := List.mem_take_iff_getElem.mp he
    have hq1 : q < first := by
      have := hq
      simp at this
      omega
    have hq2 : q < l.length := by
      have := hq
      simp at this
      omega
    have : p = q := position_unique hs hp hq2 (by rw [hk, hqe, hek])
    omega
  · obtain ⟨q, hq, hqe⟩ := List.mem_drop_iff_getElem.mp he
    have hq2 : last + q < l.length := by omega
    have : p = last + q := position_unique hs hp hq2 (by rw [hk, hqe, hek])
    omega

theorem value_erasePos_of_index {l : Line} (hs : l.sorted) (pos k : Nat)
    (h : l.indexAt pos = some k) : (l.erasePos pos).value k = 0 := by
  obtain ⟨hp, hk⟩ := (indexAt_eq_some_iff l pos k).mp h
  apply value_eq_zero_of_forall_ne
  intro e he hek
  unfold erasePos at he
  obtain ⟨q, hq, hne, hqe⟩ := List.mem_eraseIdx_iff_getElem.mp he
  have : pos = q := position_unique hs hp hq (by rw [hk, hqe, hek])
  exact hne this.symm

theorem get?_eraseRange (l : Line) {first last : Nat} (hfl : first ≤ last)
    (hl : last ≤ l.length) (q : Nat) :
    (l.eraseRange first last).get? q =
      if q < first then l.get? q else l.get? (q + (last - first)) := by
  unfold eraseRange
  rw [List.get?_eq_getElem?, List.get?_eq_getElem?, List.get?_eq_getElem?]
  have hlen : (List.take first l).length = first := by
    rw [List.length_take]
    exact Nat.min_eq_left (by omega)
  by_cases hq : q < first
  · rw [if_pos hq, List.getElem?_append_left (by rw [hlen]; exact hq), List.getElem?_take,
      if_pos hq]
  · rw [if_neg hq, List.getElem?_append_right (by rw [hlen]; omega), hlen, List.getElem?_drop]
    congr 1
    omega

theorem get?_erasePos (l : Line) (pos q : Nat) :
    (l.erasePos pos).get? q = if q < pos then l.get? q else l.get? (q + 1) := by
  unfold erasePos
  rw [List.get?_eq_getElem?, List.get?_eq_getElem?, List.get?_eq_getElem?,
    List.getElem?_eraseIdx]

theorem stored_filter (p : Nat → Bool) (l : Line) (k : Nat) :
    stored (l.filter (fun e => p e.1)) k = (p k && l.stored k) := by
  induction l with
  | nil => simp [stored]
  | cons e es ih =>
    by_cases hp : p e.1 = true
    · rw [List.filter_cons, if_pos hp, stored_cons, stored_cons, ih]
      by_cases hk : e.1 = k
      · subst hk; simp [hp]
      · have hb : (e.1 == k) = false := by simpa using hk
        rw [hb, Bool.false_or, Bool.false_or]
    · rw [List.filter_cons, if_neg hp, stored_cons, ih]
      by_cases hk : e.1 = k
      · subst hk
        have : p e.1 = false := by simpa using hp
        simp [this]
      · have hb : (e.1 == k) = false := by simpa using hk
        rw [hb, Bool.false_or]

end Line

namespace CompressedMatrix

variable {SO : Bool}

theorem stored_erase (M : CompressedMatrix SO) (i j a b : Nat) :
    (M.erase i j).stored a b = (!(decide (a = i ∧ b = j)) && M.stored a b) := by
  show ((M.withLine _ _).lines (lineOf SO a b)).stored (indexOf SO a b) = _
  rw [lines_withLine]
  by_cases hl : lineOf SO a b = lineOf SO i j
  · rw [if_pos hl]
    unfold Line.eraseIndex
    rw [Line.stored_filter (fun x => x != indexOf SO i j)]
    by_cases hi : indexOf SO a b = indexOf SO i j
    · have := (lineOf_indexOf_eq_iff SO a b i j).mp ⟨hl, hi⟩
      simp [hi, this]
    · have : ¬ (a = i ∧ b = j) := fun h => hi ((lineOf_indexOf_eq_iff SO a b i j).mpr h).2
      simp only [this, decide_False, Bool.not_false, Bool.true_and]
      unfold stored
      rw [hl]
      simp [hi]
  · have : ¬ (a = i ∧ b = j) := fun h => hl ((lineOf_indexOf_eq_iff SO a b i j).mpr h).1
    rw [if_neg hl]
    simp only [this, decide_False, Bool.not_false, Bool.true_and]
    rfl

end CompressedMatrix

theorem eraseRange_check_iff {SO : Bool} (A : UniLowerMatrix SO) (i : Nat)
    (first last : Iterator) :
    (List.range' first.pos_ (last.pos_ - first.pos_)).any
        (fun p => decide ((A.matrix_.lines i).indexAt p = some i)) = true ↔
      (A.matrix_.lines i).rangeContainsIndex first.pos_ last.pos_ i := by
  rw [List.any_eq_true]
  constructor
  · rintro ⟨p, hp, hpi⟩
    rw [List.mem_range'_1] at hp
    exact ⟨p, hp.1, by omega, by simpa using hpi⟩
  · rintro ⟨p, hp1, hp2, hpi⟩
    refine ⟨p, ?_, by simpa using hpi⟩
    rw [List.mem_range'_1]
    omega

theorem forLoopThrowing_empty {σ ρ : Type} (lo hi : Nat) (h : hi ≤ lo)
    (body : Nat → σ → Outcome σ ρ) (s : σ) :
    forLoopThrowing lo hi body s = ⟨s, Except.ok ()⟩ := by
  unfold forLoopThrowing
  have : hi - lo = 0 := by omega
  rw [this]; rfl

theorem forLoopThrowing_succ_left {σ ρ : Type} (lo cnt : Nat) (body : Nat → σ → Outcome σ ρ)
    (s : σ) (r : ρ) (h : (body lo s).result = Except.ok r) :
    forLoopThrowing lo (lo + (cnt + 1)) body s =
      forLoopThrowing (lo + 1) (lo + 1 + cnt) body (body lo s).state := by
  unfold forLoopThrowing
  have h1 : lo + (cnt + 1) - lo = cnt + 1 := by omega
  have h2 : lo + 1 + cnt - (lo + 1) = cnt := by omega
  rw [h1, h2, List.range'_succ, List.foldl_cons]
  simp only [h]
  rfl

namespace CompressedMatrix

variable {SO : Bool}

theorem insert_diag_of_empty (M : CompressedMatrix SO) (k : Nat) (h : M.lines k = []) :
    M.insert k k 1 = ⟨M.withLine k [(k, 1)], Except.ok 0⟩ := by
  have hs : ¬ M.stored k k = true := by
    unfold stored
    rw [lineOf_diag, h]
    simp [Line.stored]
  unfold insert
  rw [if_neg hs]
  unfold set
  simp only [lineOf_diag, indexOf_diag, h]
  simp [Line.set, Line.lowerBound]

/-- The loop of `resize` that inserts the diagonal entries of the new rows/columns, run on
storage whose new lines are empty: it does not throw and stores `(k,1)` in line `k`. -/
theorem forLoopThrowing_insert_diag (cnt : Nat) :
    ∀ (lo : Nat) (M : CompressedMatrix SO),
      (∀ k, lo ≤ k → k < lo + cnt → M.lines k = []) →
      (forLoopThrowing lo (lo + cnt) (fun i N => N.insert i i 1) M).result = Except.ok () ∧
      (forLoopThrowing lo (lo + cnt) (fun i N => N.insert i i 1) M).state.m_ = M.m_ ∧
      (forLoopThrowing lo (lo + cnt) (fun i N => N.insert i i 1) M).state.n_ = M.n_ ∧
      ∀ k, (forLoopThrowing lo (lo + cnt) (fun i N => N.insert i i 1) M).state.lines k =
        if lo ≤ k ∧ k < lo + cnt then [(k, 1)] else M.lines k := by
  induction cnt with
  | zero =>
    intro lo M _
    rw [forLoopThrowing_empty _ _ (by omega)]
    refine ⟨rfl, rfl, rfl, ?_⟩
    intro k
    have : ¬ (lo ≤ k ∧ k < lo + 0) := by omega
    rw [if_neg this]
  | succ cnt ih =>
    intro lo M hM
    have hlo : M.lines lo = [] := hM lo (Nat.le_refl _) (by omega)
    have hins := insert_diag_of_empty M lo hlo
    rw [forLoopThrowing_succ_left lo cnt (fun i N => N.insert i i 1) M 0
      (by show (M.insert lo lo 1).result = Except.ok 0; rw [hins])]
    simp only [hins]
    have hM1 : ∀ k, lo + 1 ≤ k → k < lo + 1 + cnt → (M.withLine lo [(lo, 1)]).lines k = [] := by
      intro k hk1 hk2
      rw [lines_withLine, if_neg (by omega)]
      exact hM k (by omega) (by omega)
    obtain ⟨h1, h2, h3, h4⟩ := ih (lo + 1) (M.withLine lo [(lo, 1)]) hM1
    refine ⟨h1, h2, h3, ?_⟩
    intro k
    rw [h4 k, lines_withLine]
    by_cases hk : k = lo
    · subst hk
      have h5 : ¬ (k + 1 ≤ k ∧ k < k + 1 + cnt) := by omega
      have h6 : k ≤ k ∧ k < k + (cnt + 1) := by omega
      rw [if_neg h5, if_pos rfl, if_pos h6]
    · by_cases hr : lo + 1 ≤ k ∧ k < lo + 1 + cnt
      · have h6 : lo ≤ k ∧ k < lo + (cnt + 1) := by omega
        rw [if_pos hr, if_pos h6]
      · have h6 : ¬ (lo ≤ k ∧ k < lo + (cnt + 1)) := by omega
        rw [if_neg hr, if_neg hk, if_neg h6]

theorem resize_preserve_lines (M : CompressedMatrix SO) (m n k : Nat) :
    (M.resize m n true).lines k =
      if k < M.numLines ∧ k < (if SO then n else m) then
        (M.lines k).filter (fun e => decide (e.1 < (if SO then m else n)))
      else [] := rfl

theorem resize_m (M : CompressedMatrix SO) (m n : Nat) (p : Bool) :
    (M.resize m n p).m_ = m := by
  cases p <;> rfl

theorem resize_n (M : CompressedMatrix SO) (m n : Nat) (p : Bool) :
    (M.resize m n p).n_ = n := by
  cases p <;> rfl

end CompressedMatrix

theorem numLines_of_Invariant {SO : Bool} {A : UniLowerMatrix SO} (hA : A.Invariant) :
    A.matrix_.numLines = A.rows := by
  have h : A.matrix_.m_ = A.matrix_.n_ := hA.2.1
  unfold CompressedMatrix.numLines
  cases SO
  · rfl
  · show A.matrix_.n_ = A.matrix_.m_
    exact h.symm

theorem lineLength_of_Invariant {SO : Bool} {A : UniLowerMatrix SO} (hA : A.Invariant) :
    A.matrix_.lineLength = A.rows := by
  have h : A.matrix_.m_ = A.matrix_.n_ := hA.2.1
  unfold CompressedMatrix.lineLength
  cases SO
  · show A.matrix_.n_ = A.matrix_.m_
    exact h.symm
  · rfl

/-- The lines of the storage after a growing `resize(m, true)` of a valid adaptor. -/
theorem resize_growth_lines {SO : Bool} (A : UniLowerMatrix SO) (hA : A.Invariant) (m : Nat)
    (hm : A.rows < m) :
    (A.resize m true).result = Except.ok () ∧
    (A.resize m true).state.matrix_.m_ = m ∧
    (A.resize m true).state.matrix_.n_ = m ∧
    ∀ k, (A.resize m true).state.matrix_.lines k =
      if A.rows ≤ k ∧ k < m then [(k, 1)]
      else if k < A.rows then (A.matrix_.lines k).filter (fun e => decide (e.1 < m))
      else [] := by
  have hnum := numLines_of_Invariant hA
  have hM0 : ∀ k, (A.matrix_.resize m m true).lines k =
      if k < A.rows ∧ k < m then (A.matrix_.lines k).filter (fun e => decide (e.1 < m))
      else [] := by
    intro k
    rw [CompressedMatrix.resize_preserve_lines, hnum]
    cases SO <;> rfl
  obtain ⟨c, hc⟩ : ∃ c, m = A.rows + c := ⟨m - A.rows, by omega⟩
  have hempty : ∀ k, A.rows ≤ k → k < A.rows + c → (A.matrix_.resize m m true).lines k = [] := by
    intro k hk1 _
    rw [hM0 k, if_neg (by omega)]
  obtain ⟨h1, h2, h3, h4⟩ :=
    CompressedMatrix.forLoopThrowing_insert_diag c A.rows (A.matrix_.resize m m true) hempty
  have hres : A.resize m true =
      ⟨⟨(forLoopThrowing A.rows (A.rows + c) (fun i N => N.insert i i 1)
          (A.matrix_.resize m m true)).state⟩,
        (forLoopThrowing A.rows (A.rows + c) (fun i N => N.insert i i 1)
          (A.matrix_.resize m m true)).result⟩ := by
    unfold UniLowerMatrix.resize
    have : m > A.matrix_.rows := hm
    simp only [this, if_true]
    rw [hc]
    rfl
  rw [hres]
  refine ⟨h1, ?_, ?_, ?_⟩
  · exact h2.trans (CompressedMatrix.resize_m _ _ _ _)
  · exact h3.trans (CompressedMatrix.resize_n _ _ _ _)
  · intro k
    refine (h4 k).trans ?_
    rw [hM0 k, ← hc]
    by_cases hk : A.rows ≤ k ∧ k < m
    · rw [if_pos hk, if_pos hk]
    · rw [if_neg hk, if_neg hk]
      by_cases hk2 : k < A.rows
      · have : k < A.rows ∧ k < m := ⟨hk2, by omega⟩
        rw [if_pos this, if_pos hk2]
      · have : ¬ (k < A.rows ∧ k < m) := fun h => hk2 h.1
        rw [if_neg this, if_neg hk2]

theorem sized_Bounded {SO : Bool} (n : Nat) : (sized n : UniLowerMatrix SO).matrix_.Bounded := by
  intro k e he
  rw [sized_lines] at he
  have hnum : (sized n : UniLowerMatrix SO).matrix_.numLines = n := by
    rw [numLines_of_Invariant (Invariant.sized n), sized_rows]
  have hlen : (sized n : UniLowerMatrix SO).matrix_.lineLength = n := by
    rw [lineLength_of_Invariant (Invariant.sized n), sized_rows]
  by_cases hk : k < n
  · rw [if_pos hk] at he
    have : e = (k, 1) := by simpa using he
    rw [hnum, hlen, this]
    exact ⟨hk, hk⟩
  · rw [if_neg hk] at he
    cases he

theorem Bounded_set {SO : Bool} {M : CompressedMatrix SO} (hB : M.Bounded) {i j : Nat}
    (hi : i < M.m_) (hj : j < M.n_) (v : ElementType) : (M.set i j v).1.Bounded := by
  intro k e he
  have he' : e ∈ (M.withLine (lineOf SO i j)
      ((M.lines (lineOf SO i j)).set (indexOf SO i j) v)).lines k := he
  rw [CompressedMatrix.lines_withLine] at he'
  show k < M.numLines ∧ e.1 < M.lineLength
  by_cases hk : k = lineOf SO i j
  · rw [if_pos hk] at he'
    rcases Line.mem_set he' with h | h
    · rw [h, hk]
      cases SO
      · exact ⟨hi, hj⟩
      · exact ⟨hj, hi⟩
    · rw [hk]
      exact hB _ e h
  · rw [if_neg hk] at he'
    exact hB k e he'

theorem exampleWithEntry_Invariant : exampleWithEntry.Invariant :=
  Invariant.set (Invariant.sized 2) 1 0 5

theorem exampleWithEntry_Bounded : exampleWithEntry.matrix_.Bounded :=
  Bounded_set (sized_Bounded 2) (by decide) (by decide) 5

/-! ## Lemmas for resizing, construction, reset, iterators and reachability -/

theorem lowerCells_succ (n : Nat) :
    lowerCells (n + 1) = lowerCells n ++ (List.range (n + 1)).map (fun j => (n, j)) := by
  unfold lowerCells
  rw [List.range_succ, List.map_append, List.flatten_append]
  simp [List.range_succ]

theorem mem_lowerCells (n : Nat) (p : Nat × Nat) :
    p ∈ lowerCells n ↔ p.2 ≤ p.1 ∧ p.1 < n := by
  induction n with
  | zero => simp [lowerCells]
  | succ n ih =>
    rw [lowerCells_succ, List.mem_append, ih, List.mem_map]
    constructor
    · rintro (⟨h1, h2⟩ | ⟨j, hj, rfl⟩)
      · exact ⟨h1, by omega⟩
      · rw [List.mem_range] at hj
        exact ⟨by show j ≤ n; omega, by show n < n + 1; omega⟩
    · rintro ⟨h1, h2⟩
      by_cases h : p.1 < n
      · exact Or.inl ⟨h1, h⟩
      · refine Or.inr ⟨p.2, ?_, ?_⟩
        · rw [List.mem_range]; omega
        · have : p.1 = n := by omega
          rw [← this]

theorem nodup_lowerCells (n : Nat) : (lowerCells n).Nodup := by
  induction n with
  | zero => simp [lowerCells]
  | succ n ih =>
    rw [lowerCells_succ]
    refine List.Nodup.append ih ?_ ?_
    · refine List.Nodup.map ?_ (List.nodup_range _)
      intro a b hab
      exact (Prod.mk.inj hab).2
    · intro p hp hq
      rw [mem_lowerCells] at hp
      rw [List.mem_map] at hq
      obtain ⟨j, _, rfl⟩ := hq
      exact absurd hp.2 (Nat.lt_irrefl n)

theorem two_mul_length_lowerCells (n : Nat) : 2 * (lowerCells n).length = n * (n + 1) := by
  induction n with
  | zero => simp [lowerCells]
  | succ n ih =>
    rw [lowerCells_succ, List.length_append, List.length_map, List.length_range, Nat.mul_add, ih]
    ring

theorem length_lowerCells (n : Nat) : (lowerCells n).length = n * (n + 1) / 2 := by
  have h := two_mul_length_lowerCells n
  omega

theorem maxNonZeros_eq (w n : Nat) :
    UniLowerMatrix.maxNonZeros w n = ((n + 1) * n % 2 ^ w) / 2 := by
  unfold UniLowerMatrix.maxNonZeros
  rw [Nat.mod_mul_mod]

theorem index_iterate_increment (m : Nat) (it : Iterator) :
    (Nat.iterate Iterator.increment m it).index_ = it.index_ := by
  induction m generalizing it with
  | zero => rfl
  | succ m ih =>
    rw [Function.iterate_succ_apply, ih]
    rfl

theorem flagCorrect_of_tag {SO : Bool} (it : Iterator) (M : CompressedMatrix SO) (k : Nat)
    (h : it.index_ = k) : it.flagCorrect M k := by
  intro idx hidx
  unfold Iterator.deref cellOfLine
  rw [hidx, h]
  cases SO <;> simp [eq_comm]

namespace Line

theorem filter_index_eq_nil_of_lt {l : Line} {k : Nat} (h : ∀ e ∈ l, k < e.1) :
    l.filter (fun e => decide (e.1 = k)) = [] := by
  rw [List.filter_eq_nil_iff]
  intro e he
  have := h e he
  simp; omega

theorem length_filter_index_eq {l : Line} (hs : l.sorted) {k : Nat} (hv : l.value k ≠ 0) :
    (l.filter (fun e => decide (e.1 = k))).length = 1 := by
  induction l with
  | nil => exact absurd rfl hv
  | cons e es ih =>
    have hs2 : e :: es |>.Pairwise (fun a b => a.1 < b.1) := hs
    rw [List.pairwise_cons] at hs2
    by_cases hek : e.1 = k
    · rw [List.filter_cons_of_pos (by simpa using hek)]
      have hnil : es.filter (fun e => decide (e.1 = k)) = [] :=
        filter_index_eq_nil_of_lt (fun x hx => by rw [← hek]; exact hs2.1 x hx)
      rw [hnil]
      rfl
    · rw [List.filter_cons_of_neg (by simpa using hek)]
      apply ih hs2.2
      have hval : value (e :: es) k = value es k := by
        show (if e.1 = k then e.2 else value es k) = value es k
        rw [if_neg hek]
      rw [← hval]
      exact hv

end Line

namespace UniLowerMatrix

variable {SO : Bool}

/-- Cell values after `reset( i )`: the cells of row/column `i` below the diagonal read 0,
all other cells are unchanged. -/
theorem resetAt_get (A : UniLowerMatrix SO) (hwf : A.matrix_.WF) (i a b : Nat) :
    (A.resetAt i).matrix_.get a b =
      if lineOf SO a b = i ∧ b < a then 0 else A.matrix_.get a b := by
  cases SO
  · show (A.matrix_.withLine i
      ((A.matrix_.lines i).eraseRange 0 ((A.matrix_.lines i).lowerBound i))).get a b = _
    rw [CompressedMatrix.get_withLine]
    simp only [Line.eraseRange, List.take_zero, List.nil_append]
    rw [Line.drop_lowerBound (hwf i) i,
      Line.value_filter (fun x => decide (i ≤ x)) (A.matrix_.lines i)]
    simp only [lineOf, indexOf, Bool.false_eq_true, if_false]
    by_cases hai : a = i
    · subst hai
      by_cases hba : b < a
      · have : ¬ a ≤ b := by omega
        simp [hba, this]
      · have : a ≤ b := by omega
        simp [hba, this, CompressedMatrix.get, lineOf, indexOf]
    · simp [hai]
  · show (A.matrix_.withLine i
      ((A.matrix_.lines i).eraseRange ((A.matrix_.lines i).lowerBound (i + 1))
        (A.matrix_.lines i).length)).get a b = _
    rw [CompressedMatrix.get_withLine]
    simp only [Line.eraseRange, List.drop_length, List.append_nil]
    rw [Line.take_lowerBound (hwf i) (i + 1),
      Line.value_filter (fun x => decide (x < i + 1)) (A.matrix_.lines i)]
    simp only [lineOf, indexOf, if_true]
    by_cases hbi : b = i
    · subst hbi
      by_cases hba : b < a
      · have : ¬ a < b + 1 := by omega
        simp [hba, this]
      · have : a < b + 1 := by omega
        simp [hba, this, CompressedMatrix.get, lineOf, indexOf]
    · simp [hbi]

theorem resetAt_rows (A : UniLowerMatrix SO) (i : Nat) : (A.resetAt i).rows = A.rows := by
  cases SO <;> rfl

theorem resetAt_columns (A : UniLowerMatrix SO) (i : Nat) :
    (A.resetAt i).columns = A.columns := by
  cases SO <;> rfl

theorem reset_nonZerosAt {A : UniLowerMatrix SO} (hA : A.Invariant)
    (hup : ∀ i j, i < j → A.matrix_.stored i j = false) (i : Nat) (hi : i < A.rows) :
    A.reset.nonZerosAt i = 1 := by
  have hnum : i < A.matrix_.numLines := by rw [numLines_of_Invariant hA]; exact hi
  have hval : (A.matrix_.lines i).value i ≠ 0 := by
    have h1 : A.matrix_.get i i = 1 := hA.2.2.1 i hi
    have h2 : A.matrix_.get i i = (A.matrix_.lines i).value i := by
      unfold CompressedMatrix.get lineOf indexOf
      cases SO <;> rfl
    rw [← h2, h1]
    decide
  show (A.reset.matrix_.lines i).length = 1
  rw [reset_lines A hA.1 i, if_pos hnum]
  have hfil : (A.matrix_.lines i).filter
      (fun e => if SO then decide (e.1 < i + 1) else decide (i ≤ e.1)) =
      (A.matrix_.lines i).filter (fun e => decide (e.1 = i)) := by
    apply List.filter_congr
    intro e he
    cases SO
    · have hle : e.1 ≤ i := by
        by_contra hlt
        have hst := hup i e.1 (by omega)
        have : (A.matrix_.lines i).stored e.1 = true :=
          (Line.stored_iff _ _).mpr ⟨e.2, he⟩
        have hst2 : (A.matrix_.lines i).stored e.1 = false := hst
        rw [this] at hst2
        cases hst2
      simp only [Bool.false_eq_true, if_false]
      by_cases h : e.1 = i
      · simp [h]
      · have : ¬ i ≤ e.1 := by omega
        simp [h, this]
    · have hle : i ≤ e.1 := by
        by_contra hlt
        have hst := hup e.1 i (by omega)
        have : (A.matrix_.lines i).stored e.1 = true :=
          (Line.stored_iff _ _).mpr ⟨e.2, he⟩
        have hst2 : (A.matrix_.lines i).stored e.1 = false := hst
        rw [this] at hst2
        cases hst2
      simp only [if_true]
      by_cases h : e.1 = i
      · simp [h]
      · have : ¬ e.1 < i + 1 := by omega
        simp [h, this]
  rw [hfil]
  exact Line.length_filter_index_eq (hA.1 i) hval

end UniLowerMatrix

theorem foldl_throwing_error {σ ρ : Type} (body : Nat → σ → Outcome σ ρ) (L : List Nat)
    (acc : Outcome σ Unit) (e : Exception) (h : acc.result = Except.error e) :
    L.foldl (fun (acc : Outcome σ Unit) k =>
      match acc.result with
      | Except.error _ => acc
      | Except.ok _ => ⟨(body k acc.state).state, (body k acc.state).result.map (fun _ => ())⟩)
      acc = acc := by
  induction L with
  | nil => rfl
  | cons k L ih =>
    rw [List.foldl_cons]
    simp only [h]
    exact ih

theorem forLoopThrowing_error_left {σ ρ : Type} (lo cnt : Nat) (body : Nat → σ → Outcome σ ρ)
    (s : σ) (e : Exception) (h : (body lo s).result = Except.error e) :
    forLoopThrowing lo (lo + (cnt + 1)) body s = ⟨(body lo s).state, Except.error e⟩ := by
  unfold forLoopThrowing
  have h1 : lo + (cnt + 1) - lo = cnt + 1 := by omega
  rw [h1, List.range'_succ, List.foldl_cons]
  have hacc : (⟨(body lo s).state, (body lo s).result.map (fun _ => ())⟩ : Outcome σ Unit) =
      ⟨(body lo s).state, Except.error e⟩ := by
    rw [h]; rfl
  show List.foldl _ (⟨(body lo s).state, (body lo s).result.map (fun _ => ())⟩ : Outcome σ Unit)
    _ = _
  rw [hacc]
  exact foldl_throwing_error body _ _ e rfl

/-- A loop whose body first tests a condition and throws when it holds: without a hit the
loop runs through. -/
theorem forLoopThrowing_guard_none {σ : Type} (c : Nat → Prop) [DecidablePred c]
    (e : Exception) (b : Nat → σ → σ) (cnt : Nat) :
    ∀ (lo : Nat) (s : σ), (∀ k, lo ≤ k → k < lo + cnt → ¬ c k) →
      forLoopThrowing lo (lo + cnt)
        (fun k t => if c k then (⟨t, Except.error e⟩ : Outcome σ Unit)
          else ⟨b k t, Except.ok ()⟩) s = ⟨forLoop lo (lo + cnt) b s, Except.ok ()⟩ := by
  induction cnt with
  | zero =>
    intro lo s _
    rw [forLoopThrowing_empty lo (lo + 0) (Nat.le_refl _), forLoop_empty lo (lo + 0) (Nat.le_refl _)]
  | succ cnt ih =>
    intro lo s h
    have hlo : ¬ c lo := h lo (Nat.le_refl _) (by omega)
    rw [forLoopThrowing_succ_left lo cnt _ s () (by simp [hlo]), forLoop_succ_left]
    have hstate : (if c lo then (⟨s, Except.error e⟩ : Outcome σ Unit)
        else ⟨b lo s, Except.ok ()⟩).state = b lo s := by simp [hlo]
    simp only [hstate]
    exact ih (lo + 1) (b lo s) (fun k h1 h2 => h k (by omega) (by omega))

/-- A loop whose body first tests a condition and throws when it holds: the loop is left at
the first hit, with the state the earlier iterations produced. -/
theorem forLoopThrowing_guard_first {σ : Type} (c : Nat → Prop) [DecidablePred c]
    (e : Exception) (b : Nat → σ → σ) (d : Nat) :
    ∀ (lo hi : Nat) (s : σ), lo + d < hi → c (lo + d) →
      (∀ k, lo ≤ k → k < lo + d → ¬ c k) →
      forLoopThrowing lo hi
        (fun k t => if c k then (⟨t, Except.error e⟩ : Outcome σ Unit)
          else ⟨b k t, Except.ok ()⟩) s = ⟨forLoop lo (lo + d) b s, Except.error e⟩ := by
  induction d with
  | zero =>
    intro lo hi s hlt hc _
    have hc0 : c lo := hc
    obtain ⟨cnt, rfl⟩ : ∃ cnt, hi = lo + (cnt + 1) := ⟨hi - lo - 1, by omega⟩
    rw [forLoopThrowing_error_left lo cnt _ s e (by simp [hc0]),
      forLoop_empty lo (lo + 0) (Nat.le_refl _)]
    simp [hc0]
  | succ d ih =>
    intro lo hi s hlt hc h
    have hlo : ¬ c lo := h lo (Nat.le_refl _) (by omega)
    obtain ⟨cnt, rfl⟩ : ∃ cnt, hi = lo + (cnt + 1) := ⟨hi - lo - 1, by omega⟩
    rw [forLoopThrowing_succ_left lo cnt _ s () (by simp [hlo])]
    have hstate : (if c lo then (⟨s, Except.error e⟩ : Outcome σ Unit)
        else ⟨b lo s, Except.ok ()⟩).state = b lo s := by simp [hlo]
    simp only [hstate]
    have hd : lo + (d + 1) = lo + 1 + d := by omega
    rw [hd, ih (lo + 1) (lo + 1 + cnt) (b lo s) (by omega) (by rw [← hd]; exact hc)
      (fun k h1 h2 => h k (by omega) (by omega))]
    have h3 : lo + 1 + d = lo + (d + 1) := by omega
    rw [h3, forLoop_succ_left, hd]

theorem foldlM_guard_none {σ : Type} (c : Nat → Prop) [DecidablePred c]
    (e : Exception) (b : Nat → σ → σ) (L : List Nat) :
    ∀ s : σ, (∀ k ∈ L, ¬ c k) →
      L.foldlM (fun (t : σ) k => if c k then (Except.error e : Except Exception σ)
        else Except.ok (b k t)) s = Except.ok (L.foldl (fun t k => b k t) s) := by
  induction L with
  | nil => intro s _; rfl
  | cons k L ih =>
    intro s h
    have hk : ¬ c k := h k (List.mem_cons_self _ _)
    rw [List.foldlM_cons, List.foldl_cons, if_neg hk]
    exact ih (b k s) (fun x hx => h x (List.mem_cons_of_mem _ hx))

theorem foldlM_guard_hit {σ : Type} (c : Nat → Prop) [DecidablePred c]
    (e : Exception) (b : Nat → σ → σ) (L : List Nat) :
    ∀ s : σ, (∃ k ∈ L, c k) →
      L.foldlM (fun (t : σ) k => if c k then (Except.error e : Except Exception σ)
        else Except.ok (b k t)) s = Except.error e := by
  induction L with
  | nil => intro s h; obtain ⟨k, hk, _⟩ := h; cases hk
  | cons k L ih =>
    intro s h
    rw [List.foldlM_cons]
    by_cases hk : c k
    · rw [if_pos hk]; rfl
    · rw [if_neg hk]
      obtain ⟨x, hx, hcx⟩ := h
      rcases List.mem_cons.mp hx with rfl | hx2
      · exact absurd hcx hk
      · exact ih (b k s) ⟨x, hx2, hcx⟩

namespace UniLowerMatrix

variable {SO : Bool}

theorem sizedCapacitiesStorage_first (n : Nat) (nonzeros : List Nat) (i : Nat) (hi : i < n)
    (hz : nonzeros.getD i 0 = 0) (hprev : ∀ k, k < i → nonzeros.getD k 0 ≠ 0) :
    (sizedCapacitiesStorage n nonzeros : Outcome (CompressedMatrix SO) Unit).result =
      Except.error (Exception.invalid_argument "Invalid capacity specification") ∧
    ∀ k, (sizedCapacitiesStorage n nonzeros : Outcome (CompressedMatrix SO) Unit).state.lines k =
      if k < i then [(k, 1)] else [] := by
  have h := forLoopThrowing_guard_first (fun k => nonzeros.getD k 0 = 0)
    (Exception.invalid_argument "Invalid capacity specification")
    (fun (i : Nat) (M : CompressedMatrix SO) => (M.append i i 1).finalize i) i 0 n
    (CompressedMatrix.create n n (nonzeros.take n).sum) (by omega)
    (by rw [Nat.zero_add]; exact hz) (fun k _ hk => hprev k (by omega))
  have h2 : (sizedCapacitiesStorage n nonzeros : Outcome (CompressedMatrix SO) Unit) = _ := h
  rw [h2]
  refine ⟨rfl, fun k => ?_⟩
  show (forLoop 0 (0 + i) _ (CompressedMatrix.create n n (nonzeros.take n).sum)).lines k = _
  rw [Nat.zero_add, sized_body_eq,
    (CompressedMatrix.forLoop_lines
      (fun (i : Nat) (l : Line) => l ++ [(i, (1 : ElementType))]) 0 i
      (CompressedMatrix.create n n (nonzeros.take n).sum)).2.2 k]
  by_cases hk : k < i
  · rw [if_pos ⟨Nat.zero_le _, hk⟩, if_pos hk]
    rfl
  · rw [if_neg (fun h2 => hk h2.2), if_neg hk]
    rfl

theorem sizedCapacitiesStorage_none (n : Nat) (nonzeros : List Nat)
    (h : ∀ k, k < n → nonzeros.getD k 0 ≠ 0) :
    (sizedCapacitiesStorage n nonzeros : Outcome (CompressedMatrix SO) Unit) =
      ⟨(sized n : UniLowerMatrix SO).matrix_, Except.ok ()⟩ := by
  have h1 := forLoopThrowing_guard_none (fun k => nonzeros.getD k 0 = 0)
    (Exception.invalid_argument "Invalid capacity specification")
    (fun (i : Nat) (M : CompressedMatrix SO) => (M.append i i 1).finalize i) n 0
    (CompressedMatrix.create n n (nonzeros.take n).sum)
    (fun k _ hk => h k (by omega))
  rw [Nat.zero_add] at h1
  have h2 : (sizedCapacitiesStorage n nonzeros : Outcome (CompressedMatrix SO) Unit) =
      ⟨forLoop 0 n (fun (i : Nat) (M : CompressedMatrix SO) => (M.append i i 1).finalize i)
        (CompressedMatrix.create n n (nonzeros.take n).sum), Except.ok ()⟩ := h1
  rw [h2, sized_matrix]
  rfl

theorem sizedCapacities_none (n : Nat) (nonzeros : List Nat)
    (h : ∀ k, k < n → nonzeros.getD k 0 ≠ 0) :
    (sizedCapacities n nonzeros : Except Exception (UniLowerMatrix SO)) =
      Except.ok (sized n) := by
  have h1 := foldlM_guard_none (fun k => nonzeros.getD k 0 = 0)
    (Exception.invalid_argument "Invalid capacity specification")
    (fun (i : Nat) (M : CompressedMatrix SO) => (M.append i i 1).finalize i) (List.range n)
    (CompressedMatrix.create n n (nonzeros.take n).sum)
    (fun k hk => h k (List.mem_range.mp hk))
  have h2 : (sizedCapacities n nonzeros : Except Exception (UniLowerMatrix SO)) =
      (Except.ok ((List.range n).foldl (fun t k => (t.append k k 1).finalize k)
        (CompressedMatrix.create n n (nonzeros.take n).sum))).map UniLowerMatrix.mk := by
    unfold sizedCapacities
    exact congrArg (Except.map UniLowerMatrix.mk) h1
  rw [h2, sized_eq]
  show Except.ok _ = Except.ok (⟨forLoop 0 n _ (CompressedMatrix.create n n n)⟩ :
    UniLowerMatrix SO)
  unfold forLoop
  rw [List.range_eq_range']
  rfl

theorem sizedCapacities_hit (n : Nat) (nonzeros : List Nat) (i : Nat) (hi : i < n)
    (hz : nonzeros.getD i 0 = 0) :
    (sizedCapacities n nonzeros : Except Exception (UniLowerMatrix SO)) =
      Except.error (Exception.invalid_argument "Invalid capacity specification") := by
  have h1 := foldlM_guard_hit (fun k => nonzeros.getD k 0 = 0)
    (Exception.invalid_argument "Invalid capacity specification")
    (fun (i : Nat) (M : CompressedMatrix SO) => (M.append i i 1).finalize i) (List.range n)
    (CompressedMatrix.create n n (nonzeros.take n).sum)
    ⟨i, List.mem_range.mpr hi, hz⟩
  unfold sizedCapacities
  exact congrArg (Except.map UniLowerMatrix.mk) h1

theorem sizedCapacities_raises_iff (n : Nat) (nonzeros : List Nat) :
    ctorRaisesInvalidArgument (sizedCapacities n nonzeros : Except Exception (UniLowerMatrix SO)) ↔
      ∃ i, i < n ∧ nonzeros.getD i 0 = 0 := by
  constructor
  · intro hr
    by_contra hne
    have hall : ∀ k, k < n → nonzeros.getD k 0 ≠ 0 := fun k hk hz => hne ⟨k, hk, hz⟩
    obtain ⟨w, hw⟩ := hr
    rw [sizedCapacities_none n nonzeros hall] at hw
    cases hw
  · rintro ⟨i, hi, hz⟩
    exact ⟨_, sizedCapacities_hit n nonzeros i hi hz⟩

end UniLowerMatrix

theorem getD_eq_get (l : List Nat) (i : Nat) (h : i < l.length) :
    l.getD i 0 = l.get ⟨i, h⟩ := by
  simp [List.getD, List.getElem?_eq_getElem h]

theorem forLoopThrowing_preserves {σ ρ : Type} (P : σ → Prop) (body : Nat → σ → Outcome σ ρ)
    (hP : ∀ k s, P s → P (body k s).state) (lo hi : Nat) (s : σ) (hs : P s) :
    P (forLoopThrowing lo hi body s).state := by
  unfold forLoopThrowing
  have key : ∀ (L : List Nat) (acc : Outcome σ Unit), P acc.state →
      P (L.foldl (fun (acc : Outcome σ Unit) k =>
        match acc.result with
        | Except.error _ => acc
        | Except.ok _ =>
          ⟨(body k acc.state).state, (body k acc.state).result.map (fun _ => ())⟩) acc).state := by
    intro L
    induction L with
    | nil => intro acc h; exact h
    | cons k L ih =>
      intro acc h
      rw [List.foldl_cons]
      apply ih
      split
      · exact h
      · exact hP k acc.state h
  exact key _ _ hs

namespace UniLowerMatrix

variable {SO : Bool}

/-- The adapted matrix is square. -/
theorem square_of_dims {A B : UniLowerMatrix SO} (h : A.rows = A.columns)
    (hm : B.matrix_.m_ = A.matrix_.m_) (hn : B.matrix_.n_ = A.matrix_.n_) :
    B.rows = B.columns := by
  show B.matrix_.m_ = B.matrix_.n_
  rw [hm, hn]
  exact h

theorem square_of_isUniLower {M : CompressedMatrix SO} (h : M.isUniLower = true) :
    M.m_ = M.n_ := ((CompressedMatrix.isUniLower_iff M).mp h).1

theorem square_resetUpper {A : UniLowerMatrix SO} (h : A.rows = A.columns) :
    A.resetUpper.rows = A.resetUpper.columns := by
  rw [resetUpper_rows, resetUpper_columns]; exact h

theorem square_storage_addAssign (M B : CompressedMatrix SO) (h : M.m_ = M.n_) :
    (M.addAssign B).state.m_ = (M.addAssign B).state.n_ := by
  unfold CompressedMatrix.addAssign
  split
  · exact h
  · exact h

theorem square_storage_subAssign (M B : CompressedMatrix SO) (h : M.m_ = M.n_) :
    (M.subAssign B).state.m_ = (M.subAssign B).state.n_ := by
  unfold CompressedMatrix.subAssign
  split
  · exact h
  · exact h

theorem square_storage_insert (M : CompressedMatrix SO) (i j : Nat) (v : ElementType)
    (h : M.m_ = M.n_) : (M.insert i j v).state.m_ = (M.insert i j v).state.n_ := by
  unfold CompressedMatrix.insert
  split
  · exact h
  · exact h

theorem square_access (M : CompressedMatrix SO) (i j : Nat) (h : M.m_ = M.n_) :
    (M.access i j).m_ = (M.access i j).n_ := by
  unfold CompressedMatrix.access
  split
  · exact h
  · exact h

theorem square_convert {m : CompressedMatrix SO} {t : Bool} {A : UniLowerMatrix SO}
    (ht : t = true → m.isUniLower = true) (h : convert m t = Except.ok A) :
    A.rows = A.columns := by
  unfold convert at h
  have hu : m.isUniLower = true := by
    cases t
    · cases hm : m.isUniLower
      · simp [hm] at h
      · rfl
    · exact ht rfl
  have hsq : m.m_ = m.n_ := square_of_isUniLower hu
  simp only [hu, Bool.not_true, Bool.and_false, Bool.false_eq_true, if_false] at h
  cases h
  split
  · exact square_resetUpper (A := ⟨m⟩) hsq
  · exact hsq

theorem square_assign (A : UniLowerMatrix SO) (rhs : CompressedMatrix SO) (t : Bool)
    (h : A.rows = A.columns) (ht : t = true → rhs.isUniLower = true) :
    (A.assign rhs t).state.rows = (A.assign rhs t).state.columns := by
  unfold assign
  split
  · exact h
  · rename_i hc
    have hu : rhs.isUniLower = true := by
      cases t
      · cases hm : rhs.isUniLower
        · simp [hm] at hc
        · rfl
      · exact ht rfl
    have hsq : rhs.m_ = rhs.n_ := square_of_isUniLower hu
    dsimp only
    split
    · exact square_resetUpper (A := ⟨rhs⟩) hsq
    · exact hsq

theorem square_assignComputation (A : UniLowerMatrix SO) (rhs : CompressedMatrix SO)
    (sq t : Bool) (h : A.rows = A.columns) (ht : t = true → rhs.isUniLower = true) :
    (A.assignComputation rhs sq t).state.rows = (A.assignComputation rhs sq t).state.columns := by
  unfold assignComputation
  split
  · exact h
  · split
    · rename_i htt
      exact square_of_isUniLower (ht htt)
    · dsimp only
      split
      · exact h
      · rename_i hc
        have hu : rhs.isUniLower = true := by
          cases hm : rhs.isUniLower
          · simp [hm] at hc
          · rfl
        exact square_resetUpper (A := ⟨rhs⟩) (square_of_isUniLower hu)

theorem square_addAssign (A : UniLowerMatrix SO) (rhs : CompressedMatrix SO) (t : Bool)
    (h : A.rows = A.columns) :
    (A.addAssign rhs t).state.rows = (A.addAssign rhs t).state.columns := by
  have hs := square_storage_addAssign A.matrix_ rhs h
  unfold addAssign
  split
  · exact h
  · split
    · exact hs
    · dsimp only
      split
      · exact square_resetUpper (A := ⟨(A.matrix_.addAssign rhs).state⟩) hs
      · exact hs

theorem square_subAssign (A : UniLowerMatrix SO) (rhs : CompressedMatrix SO) (t : Bool)
    (h : A.rows = A.columns) :
    (A.subAssign rhs t).state.rows = (A.subAssign rhs t).state.columns := by
  have hs := square_storage_subAssign A.matrix_ rhs h
  unfold subAssign
  split
  · exact h
  · split
    · exact hs
    · dsimp only
      split
      · exact square_resetUpper (A := ⟨(A.matrix_.subAssign rhs).state⟩) hs
      · exact hs

theorem square_addAssignComputation (A : UniLowerMatrix SO) (rhs : CompressedMatrix SO)
    (sq t : Bool) (h : A.rows = A.columns) :
    (A.addAssignComputation rhs sq t).state.rows =
      (A.addAssignComputation rhs sq t).state.columns := by
  have hs := square_storage_addAssign A.matrix_ rhs h
  unfold addAssignComputation
  split
  · exact h
  · split
    · exact hs
    · dsimp only
      split
      · exact h
      · split
        · exact hs
        · exact square_resetUpper (A := ⟨(A.matrix_.addAssign rhs).state⟩) hs

theorem square_subAssignComputation (A : UniLowerMatrix SO) (rhs : CompressedMatrix SO)
    (sq t : Bool) (h : A.rows = A.columns) :
    (A.subAssignComputation rhs sq t).state.rows =
      (A.subAssignComputation rhs sq t).state.columns := by
  have hs := square_storage_subAssign A.matrix_ rhs h
  unfold subAssignComputation
  split
  · exact h
  · split
    · exact hs
    · dsimp only
      split
      · exact h
      · split
        · exact hs
        · exact square_resetUpper (A := ⟨(A.matrix_.subAssign rhs).state⟩) hs

theorem square_mulAssign (A : UniLowerMatrix SO) (rhs : CompressedMatrix SO) (t : Bool)
    (h : A.rows = A.columns) :
    (A.mulAssign rhs t).state.rows = (A.mulAssign rhs t).state.columns := by
  unfold mulAssign
  split
  · exact h
  · split
    · exact h
    · rename_i tmp _
      split
      · exact h
      · rename_i hc
        have hu : tmp.isUniLower = true := by
          cases hm : tmp.isUniLower
          · simp [hm] at hc
          · rfl
        dsimp only
        split
        · exact square_resetUpper (A := ⟨tmp⟩) (square_of_isUniLower hu)
        · exact square_of_isUniLower hu

theorem square_resize (A : UniLowerMatrix SO) (n : Nat) (preserve : Bool) :
    (A.resize n preserve).state.rows = (A.resize n preserve).state.columns := by
  have hM : (A.matrix_.resize n n preserve).m_ = (A.matrix_.resize n n preserve).n_ := by
    rw [CompressedMatrix.resize_m, CompressedMatrix.resize_n]
  unfold resize
  dsimp only
  split
  · exact forLoopThrowing_preserves (fun (N : CompressedMatrix SO) => N.m_ = N.n_)
      (fun i N => N.insert i i 1)
      (fun k N hN => square_storage_insert N k k 1 hN) _ _ _ hM
  · exact hM

theorem square_writeThrough (A : UniLowerMatrix SO) (k : Nat) (it : Iterator)
    (op : UniLowerElement → Line → Outcome Line Unit) (h : A.rows = A.columns) :
    (A.writeThrough k it op).state.rows = (A.writeThrough k it op).state.columns := h

theorem square_set (A : UniLowerMatrix SO) (i j : Nat) (v : ElementType)
    (h : A.rows = A.columns) : (A.set i j v).state.rows = (A.set i j v).state.columns := by
  unfold UniLowerMatrix.set
  split
  · exact h
  · exact h

theorem square_insert (A : UniLowerMatrix SO) (i j : Nat) (v : ElementType)
    (h : A.rows = A.columns) :
    (A.insert i j v).state.rows = (A.insert i j v).state.columns := by
  unfold UniLowerMatrix.insert
  split
  · exact h
  · exact square_storage_insert A.matrix_ i j v h

theorem square_append (A : UniLowerMatrix SO) (i j : Nat) (v : ElementType) (c : Bool)
    (h : A.rows = A.columns) :
    (A.append i j v c).state.rows = (A.append i j v c).state.columns := by
  unfold UniLowerMatrix.append
  split
  · exact h
  · split
    · exact square_storage_insert A.matrix_ i j v h
    · exact h

theorem square_erase (A : UniLowerMatrix SO) (i j : Nat) (h : A.rows = A.columns) :
    (A.erase i j).state.rows = (A.erase i j).state.columns := by
  unfold UniLowerMatrix.erase
  split
  · exact h
  · exact h

theorem square_erasePos (A : UniLowerMatrix SO) (i : Nat) (pos : Iterator)
    (h : A.rows = A.columns) :
    (A.erasePos i pos).state.rows = (A.erasePos i pos).state.columns := by
  unfold UniLowerMatrix.erasePos
  split
  · exact h
  · exact h

theorem square_eraseRange (A : UniLowerMatrix SO) (i : Nat) (first last : Iterator)
    (h : A.rows = A.columns) :
    (A.eraseRange i first last).state.rows = (A.eraseRange i first last).state.columns := by
  unfold UniLowerMatrix.eraseRange
  split
  · exact h
  · exact h

theorem square_proxyWrite (A : UniLowerMatrix SO) (p : UniLowerProxy)
    (f : ElementType → ElementType) (h : A.rows = A.columns) :
    (p.write A f).state.rows = (p.write A f).state.columns := by
  unfold UniLowerProxy.write
  split
  · exact h
  · exact h

theorem ReachableResizing.square {A : UniLowerMatrix SO} (h : ReachableResizing A) :
    A.rows = A.columns := by
  induction h with
  | default => rfl
  | sized n => rw [sized_rows, sized_columns]
  | sizedNonzeros n nz => rw [sizedNonzeros_eq]; exact (sized_rows n).trans (sized_columns n).symm
  | sizedCapacities n nz A h =>
    rw [sizedCapacities_ok h, sized_rows, sized_columns]
  | copy m _ ih => exact ih
  | convert m t A ht h => exact square_convert ht h
  | call A i j _ ih => exact square_access A.matrix_ i j ih
  | proxyWrite A i j f _ ih =>
    exact square_proxyWrite _ _ f (square_access A.matrix_ i j ih)
  | elementAssign A k it v _ ih => exact ih
  | elementAddAssign A k it v _ ih => exact ih
  | elementSubAssign A k it v _ ih => exact ih
  | elementMulAssign A k it v _ ih => exact ih
  | elementDivAssign A k it v _ ih => exact ih
  | set A i j v _ ih => exact square_set A i j v ih
  | insert A i j v _ ih => exact square_insert A i j v ih
  | append A i j v c _ ih => exact square_append A i j v c ih
  | finalize A i _ ih => exact ih
  | erase A i j _ ih => exact square_erase A i j ih
  | erasePos A i pos _ ih => exact square_erasePos A i pos ih
  | eraseRange A i f l _ ih => exact square_eraseRange A i f l ih
  | reset A _ ih => rw [reset_rows, reset_columns]; exact ih
  | resetAt A i _ ih => cases SO <;> exact ih
  | resize A n p _ _ => exact square_resize A n p
  | swapLeft A m _ _ _ ih2 => exact ih2
  | swapRight A m _ _ ih1 _ => exact ih1
  | copyAssign A rhs _ _ _ ih2 => exact ih2
  | assign A rhs t _ ht ih => exact square_assign A rhs t ih ht
  | assignComputation A rhs sq t _ _ ht ih => exact square_assignComputation A rhs sq t ih ht
  | addAssign A rhs t _ _ ih => exact square_addAssign A rhs t ih
  | addAssignComputation A rhs sq t _ _ _ ih => exact square_addAssignComputation A rhs sq t ih
  | subAssign A rhs t _ _ ih => exact square_subAssign A rhs t ih
  | subAssignComputation A rhs sq t _ _ _ ih => exact square_subAssignComputation A rhs sq t ih
  | mulAssign A rhs t _ _ ih => exact square_mulAssign A rhs t ih

end UniLowerMatrix

namespace UniLowerMatrix

variable {SO : Bool}

theorem WF_access {M : CompressedMatrix SO} (hwf : M.WF) (i j : Nat) : (M.access i j).WF := by
  unfold CompressedMatrix.access
  split
  · exact hwf
  · exact CompressedMatrix.WF_set hwf i j 0

theorem Invariant.call {A : UniLowerMatrix SO} (hA : A.Invariant) (i j : Nat) :
    (A.call i j).1.Invariant := by
  refine Invariant.of_cells hA (WF_access hA.1 i j) ?_ ?_ ?_ ?_
  · show (A.matrix_.access i j).m_ = A.matrix_.m_
    unfold CompressedMatrix.access
    split <;> rfl
  · show (A.matrix_.access i j).n_ = A.matrix_.n_
    unfold CompressedMatrix.access
    split <;> rfl
  · intro a
    exact CompressedMatrix.get_access A.matrix_ i j a a
  · intro a b _
    exact Or.inl (CompressedMatrix.get_access A.matrix_ i j a b)

end UniLowerMatrix

theorem exampleWithEntry_no_upper :
    ∀ i j, i < j → exampleWithEntry.matrix_.stored i j = false := by
  intro i j hij
  have h0 : exampleWithEntry.matrix_.lines 0 = [(0, 1)] := by decide
  have h1 : exampleWithEntry.matrix_.lines 1 = [(0, 5), (1, 1)] := by decide
  have h2 : ∀ k, exampleWithEntry.matrix_.lines (k + 2) = [] := by
    intro k
    show (((UniLowerMatrix.sized 2 : UniLowerMatrix false).matrix_.withLine 1 _).lines (k + 2)) = []
    rw [CompressedMatrix.lines_withLine, if_neg (by omega), sized_lines, if_neg (by omega)]
  show (exampleWithEntry.matrix_.lines i).stored j = false
  match i with
  | 0 => rw [h0]; simp [Line.stored]; omega
  | 1 => rw [h1]; simp [Line.stored]; omega
  | k + 2 => rw [h2]; rfl

/-! ## Lemmas for const access, normalization, the assignment paths and the stored diagonal -/

namespace CompressedMatrix

variable {SO : Bool}

theorem stored_of_get_ne_zero (M : CompressedMatrix SO) (i j : Nat) (h : M.get i j ≠ 0) :
    M.stored i j = true := by
  cases hs : M.stored i j
  · exact absurd (Line.value_eq_zero_of_not_stored hs) h
  · rfl

end CompressedMatrix

namespace UniLowerMatrix

variable {SO : Bool}

theorem resize_shrink (A : UniLowerMatrix SO) (m : Nat) (hm : m ≤ A.rows) (p : Bool) :
    A.resize m p = ⟨⟨A.matrix_.resize m m p⟩, Except.ok ()⟩ := by
  unfold resize
  have : ¬ m > A.matrix_.rows := by
    have : A.matrix_.rows = A.rows := rfl
    omega
  simp only [this, if_false]

theorem resize_preserve_get (M : CompressedMatrix SO) (hsq : M.m_ = M.n_) (m i j : Nat)
    (hi : i < m) (hj : j < m) (hmn : m ≤ M.m_) :
    (M.resize m m true).get i j = M.get i j := by
  unfold CompressedMatrix.get
  rw [CompressedMatrix.resize_preserve_lines]
  simp only [ite_self]
  have hl : lineOf SO i j < M.numLines ∧ lineOf SO i j < m := by
    unfold lineOf CompressedMatrix.numLines
    cases SO
    · simp only [Bool.false_eq_true, if_false]; omega
    · simp only [if_true]; omega
  rw [if_pos hl]
  have hidx : indexOf SO i j < m := by
    unfold indexOf
    cases SO
    · simp only [Bool.false_eq_true, if_false]; omega
    · simp only [if_true]; omega
  rw [Line.value_filter (fun x => decide (x < m))]
  simp [hidx]

theorem assignComputation_eq_assign (A : UniLowerMatrix SO) (M : CompressedMatrix SO)
    (sq t : Bool) (h : M.isSquare = true) :
    A.assignComputation M sq t = A.assign M t := by
  unfold assignComputation assign
  cases t <;> cases hU : M.isUniLower <;> simp [h, hU]

theorem assign_nonsquare (A : UniLowerMatrix SO) (M : CompressedMatrix SO)
    (h : M.isSquare = false) :
    A.assign M false =
      ⟨A, Except.error (Exception.invalid_argument "Invalid assignment to unilower matrix")⟩ := by
  have hU : M.isUniLower = false := by
    unfold CompressedMatrix.isUniLower
    rw [h]; rfl
  unfold assign
  simp [hU]

theorem assignComputation_nonsquare (A : UniLowerMatrix SO) (M : CompressedMatrix SO)
    (t : Bool) (h : M.isSquare = false) :
    A.assignComputation M false t =
      ⟨A, Except.error (Exception.invalid_argument "Invalid assignment to unilower matrix")⟩ := by
  unfold assignComputation
  simp [h]

theorem insert_raises_iff (A : UniLowerMatrix SO) (i j : Nat) (v : ElementType) :
    (A.insert i j v).raisesInvalidArgument ↔ (i ≤ j ∨ A.matrix_.stored i j = true) := by
  unfold UniLowerMatrix.insert CompressedMatrix.insert
  by_cases hij : i ≤ j
  · rw [if_pos hij]
    exact ⟨fun _ => Or.inl hij, fun _ => ⟨_, rfl⟩⟩
  · rw [if_neg hij]
    cases hs : A.matrix_.stored i j
    · simp only [Bool.false_eq_true, if_false]
      constructor
      · rintro ⟨w, hw⟩
        cases hw
      · rintro (h | h)
        · exact absurd h hij
        · cases h
    · simp only [if_true]
      exact ⟨fun _ => Or.inr (by simp), fun _ => ⟨_, rfl⟩⟩

theorem append_unchecked (A : UniLowerMatrix SO) (i j : Nat) (v : ElementType) :
    A.append i j v false =
      ⟨(A.insert i j v).state, (A.insert i j v).result.map (fun _ => ())⟩ := by
  unfold UniLowerMatrix.append UniLowerMatrix.insert
  by_cases hij : i ≤ j
  · rw [if_pos hij, if_pos hij]
    rfl
  · rw [if_neg hij, if_neg hij]
    simp only [Bool.not_false, Bool.true_or, if_true]
    cases (A.matrix_.insert i j v).result <;> rfl

end UniLowerMatrix

theorem raises_map_iff {σ ρ τ : Type} (s : σ) (r : Except Exception ρ) (f : ρ → τ) :
    (⟨s, r.map f⟩ : Outcome σ τ).raisesInvalidArgument ↔
      (⟨s, r⟩ : Outcome σ ρ).raisesInvalidArgument := by
  cases r with
  | error e =>
    constructor
    · rintro ⟨w, hw⟩; exact ⟨w, by cases hw; rfl⟩
    · rintro ⟨w, hw⟩; exact ⟨w, by cases hw; rfl⟩
  | ok x =>
    constructor
    · rintro ⟨w, hw⟩; cases hw
    · rintro ⟨w, hw⟩; cases hw

theorem succeeds_map_iff {σ ρ τ : Type} (s : σ) (r : Except Exception ρ) (f : ρ → τ) :
    (⟨s, r.map f⟩ : Outcome σ τ).succeeds ↔ (⟨s, r⟩ : Outcome σ ρ).succeeds := by
  cases r with
  | error e =>
    constructor
    · rintro ⟨w, hw⟩; cases hw
    · rintro ⟨w, hw⟩; cases hw
  | ok x =>
    exact ⟨fun _ => ⟨x, rfl⟩, fun _ => ⟨f x, rfl⟩⟩

namespace UniLowerMatrix

variable {SO : Bool}

theorem numLines_of_square {M : CompressedMatrix SO} (h : M.m_ = M.n_) : M.numLines = M.m_ := by
  unfold CompressedMatrix.numLines
  cases SO
  · rfl
  · exact h.symm

theorem resetUpper_stored_upper (M : CompressedMatrix SO) (hwf : M.WF) (hsq : M.m_ = M.n_)
    (i j : Nat) (hij : i < j) (hj : j < M.m_) :
    (UniLowerMatrix.mk M).resetUpper.matrix_.stored i j = false := by
  unfold CompressedMatrix.stored
  have hl : lineOf SO i j < M.numLines := by
    rw [numLines_of_square hsq]
    unfold lineOf
    cases SO
    · simp only [Bool.false_eq_true, if_false]; omega
    · simp only [if_true]; omega
  rw [resetUpper_lines (UniLowerMatrix.mk M) hwf, if_pos hl]
  cases SO
  · simp only [Bool.false_eq_true, if_false, lineOf, indexOf]
    rw [Line.stored_filter (fun x => decide (x ≤ i))]
    have : ¬ j ≤ i := by omega
    simp [this]
  · simp only [if_true, lineOf, indexOf]
    rw [Line.stored_filter (fun x => decide (j ≤ x))]
    have : ¬ j ≤ i := by omega
    simp [this]

theorem resetUpper_mem_lower (M : CompressedMatrix SO) (hwf : M.WF) (i j : Nat)
    (v : ElementType) (hji : j ≤ i) :
    (indexOf SO i j, v) ∈ (UniLowerMatrix.mk M).resetUpper.matrix_.lines (lineOf SO i j) ↔
      (indexOf SO i j, v) ∈ M.lines (lineOf SO i j) := by
  rw [resetUpper_lines (UniLowerMatrix.mk M) hwf]
  by_cases hl : lineOf SO i j < M.numLines
  · rw [if_pos hl, List.mem_filter]
    cases SO
    · simp only [Bool.false_eq_true, if_false, lineOf, indexOf]
      simp [hji]
    · simp only [if_true, lineOf, indexOf]
      simp [hji]
  · rw [if_neg hl]

theorem convert_dynamic_state {m : CompressedMatrix SO} {B : UniLowerMatrix SO}
    (h : convert m false = Except.ok B) :
    m.isUniLower = true ∧ B = (UniLowerMatrix.mk m).resetUpper := by
  unfold convert at h
  cases hU : m.isUniLower
  · simp [hU] at h
  · simp [hU] at h
    exact ⟨rfl, h.symm⟩

theorem assignComputation_dynamic_state (A : UniLowerMatrix SO) (M : CompressedMatrix SO)
    (sq : Bool) (h : (A.assignComputation M sq false).succeeds) :
    M.isUniLower = true ∧
      (A.assignComputation M sq false).state = (UniLowerMatrix.mk M).resetUpper := by
  unfold assignComputation at h ⊢
  by_cases hc : (!sq && !M.isSquare) = true
  · rw [if_pos hc] at h
    obtain ⟨w, hw⟩ := h
    cases hw
  · rw [if_neg hc] at h ⊢
    cases hU : M.isUniLower
    · simp [hU] at h
      obtain ⟨w, hw⟩ := h
      cases hw
    · simp [hU]

end UniLowerMatrix

namespace UniLowerMatrix

variable {SO : Bool}

theorem addAssign_eq (A : UniLowerMatrix SO) (B : CompressedMatrix SO)
    (hr : B.rows = A.rows) (hc : B.columns = A.columns) (hS : B.isStrictlyLower = true)
    (t : Bool) :
    A.addAssign B t =
      ⟨if !t then UniLowerMatrix.resetUpper ⟨CompressedMatrix.ofFn A.matrix_.m_ A.matrix_.n_
          (fun i j => A.matrix_.get i j + B.get i j)⟩
        else ⟨CompressedMatrix.ofFn A.matrix_.m_ A.matrix_.n_
          (fun i j => A.matrix_.get i j + B.get i j)⟩, Except.ok ()⟩ := by
  unfold UniLowerMatrix.addAssign
  rw [storage_addAssign_ok A.matrix_ B hr hc]
  simp [hS]

theorem subAssign_eq (A : UniLowerMatrix SO) (B : CompressedMatrix SO)
    (hr : B.rows = A.rows) (hc : B.columns = A.columns) (hS : B.isStrictlyLower = true)
    (t : Bool) :
    A.subAssign B t =
      ⟨if !t then UniLowerMatrix.resetUpper ⟨CompressedMatrix.ofFn A.matrix_.m_ A.matrix_.n_
          (fun i j => A.matrix_.get i j - B.get i j)⟩
        else ⟨CompressedMatrix.ofFn A.matrix_.m_ A.matrix_.n_
          (fun i j => A.matrix_.get i j - B.get i j)⟩, Except.ok ()⟩ := by
  unfold UniLowerMatrix.subAssign
  rw [storage_subAssign_ok A.matrix_ B hr hc]
  simp [hS]

/-- Cells of the state that a compound assignment with a strictly lower right-hand side
leaves: the cell-by-cell combination, whether or not the upper part is reset. -/
theorem combine_cells (A : UniLowerMatrix SO) (hA : A.Invariant) (B : CompressedMatrix SO)
    (hr : B.rows = A.rows) (hc : B.columns = A.columns) (hS : B.isStrictlyLower = true)
    (op : ElementType → ElementType → ElementType) (hop : op 0 0 = 0) (t : Bool)
    (i j : Nat) (hi : i < A.rows) (hj : j < A.columns) :
    (if !t then UniLowerMatrix.resetUpper ⟨CompressedMatrix.ofFn A.matrix_.m_ A.matrix_.n_
          (fun i j => op (A.matrix_.get i j) (B.get i j))⟩
      else (⟨CompressedMatrix.ofFn A.matrix_.m_ A.matrix_.n_
          (fun i j => op (A.matrix_.get i j) (B.get i j))⟩ : UniLowerMatrix SO)).callConst i j =
      op (A.callConst i j) (B.get i j) := by
  have hi2 : i < A.matrix_.m_ := hi
  have hj2 : j < A.matrix_.n_ := hj
  have hbase : (CompressedMatrix.ofFn A.matrix_.m_ A.matrix_.n_
      (fun i j => op (A.matrix_.get i j) (B.get i j)) : CompressedMatrix SO).get i j =
      op (A.matrix_.get i j) (B.get i j) := by
    rw [CompressedMatrix.get_ofFn, if_pos ⟨hi2, hj2⟩]
  cases t
  · simp only [Bool.not_false, if_true]
    have hwf : (⟨CompressedMatrix.ofFn A.matrix_.m_ A.matrix_.n_
        (fun i j => op (A.matrix_.get i j) (B.get i j))⟩ : UniLowerMatrix SO).matrix_.WF :=
      CompressedMatrix.ofFn_WF A.matrix_.m_ A.matrix_.n_ _
    show (UniLowerMatrix.resetUpper _).matrix_.get i j = _
    rw [resetUpper_get _ hwf]
    by_cases hup : i < j
    · have hjr : j < A.rows := by rw [hA.2.1]; exact hj
      have hA0 : A.matrix_.get i j = 0 := hA.2.2.2 i j hup hjr
      have hB0 : B.get i j = 0 :=
        ((isStrictlyLower_iff_cells A hA B hr hc).mp hS) i j hi hj (Nat.le_of_lt hup)
      have hl : lineOf SO i j < (CompressedMatrix.ofFn A.matrix_.m_ A.matrix_.n_
          (fun i j => op (A.matrix_.get i j) (B.get i j)) : CompressedMatrix SO).numLines := by
        unfold lineOf CompressedMatrix.numLines
        cases SO
        · exact hi2
        · exact hj2
      rw [if_pos ⟨hl, hup⟩]
      show 0 = op (A.matrix_.get i j) (B.get i j)
      rw [hA0, hB0, hop]
    · rw [if_neg (fun h => hup h.2)]
      exact hbase
  · simp only [Bool.not_true, Bool.false_eq_true, if_false]
    exact hbase

end UniLowerMatrix

theorem sum_map_range_eq_zero (f : Nat → Int) (n : Nat) (h : ∀ x, x < n → f x = 0) :
    ((List.range n).map f).sum = 0 := by
  induction n with
  | zero => rfl
  | succ n ih =>
    rw [List.range_succ, List.map_append, List.sum_append, ih (fun x hx => h x (by omega))]
    simp [h n (Nat.lt_succ_self n)]

theorem sum_map_range_eq_single (f : Nat → Int) (n k : Nat) (hk : k < n)
    (h : ∀ x, x < n → x ≠ k → f x = 0) : ((List.range n).map f).sum = f k := by
  induction n with
  | zero => exact absurd hk (Nat.not_lt_zero _)
  | succ n ih =>
    rw [List.range_succ, List.map_append, List.sum_append]
    by_cases hkn : k = n
    · subst hkn
      rw [sum_map_range_eq_zero f k (fun x hx => h x (by omega) (by omega))]
      simp
    · rw [ih (by omega) (fun x hx hxk => h x (by omega) hxk)]
      simp [h n (Nat.lt_succ_self n) (fun hnk => hkn hnk.symm)]

namespace UniLowerMatrix

variable {SO : Bool}

/-- In the product of a valid unit lower `A` with `B`, a cell on or above the diagonal equals
the cell of `B`, provided the rows of `B` above row `i` are zero in column `j`. -/
theorem productCell_upper (A : UniLowerMatrix SO) (hA : A.Invariant) (B : CompressedMatrix SO)
    (i j : Nat) (hi : i < A.rows) (hB : ∀ k, k < i → B.get k j = 0) :
    CompressedMatrix.productCell A.matrix_ B i j = B.get i j := by
  unfold CompressedMatrix.productCell
  have hn : A.matrix_.n_ = A.rows := hA.2.1.symm
  rw [hn, sum_map_range_eq_single (fun k => A.matrix_.get i k * B.get k j) A.rows i hi]
  · show A.matrix_.get i i * B.get i j = B.get i j
    have h1 : A.matrix_.get i i = 1 := hA.2.2.1 i hi
    rw [h1, Int.one_mul]
  · intro x hx hxi
    show A.matrix_.get i x * B.get x j = 0
    by_cases hlt : x < i
    · rw [hB x hlt, Int.mul_zero]
    · have h0 : A.matrix_.get i x = 0 := hA.2.2.2 i x (by omega) hx
      rw [h0, Int.zero_mul]

theorem productCell_eq_of_product_unilower (A : UniLowerMatrix SO) (hA : A.Invariant)
    (B : CompressedMatrix SO)
    (hP : ∀ i j, i < j → j < A.rows → CompressedMatrix.productCell A.matrix_ B i j = 0) :
    ∀ i, i < A.rows → ∀ j, i ≤ j → j < A.rows →
      CompressedMatrix.productCell A.matrix_ B i j = B.get i j := by
  intro i
  induction i using Nat.strong_induction_on with
  | _ i ih =>
    intro hi j hij hj
    apply productCell_upper A hA B i j hi
    intro k hk
    rw [← ih k hk (by omega) j (by omega) hj]
    exact hP k j (by omega) hj

theorem product_unilower_iff (A : UniLowerMatrix SO) (hA : A.Invariant)
    (B : CompressedMatrix SO) :
    ((∀ i, i < A.rows → CompressedMatrix.productCell A.matrix_ B i i = 1) ∧
      (∀ i j, i < j → j < A.rows → CompressedMatrix.productCell A.matrix_ B i j = 0)) ↔
    ((∀ i, i < A.rows → B.get i i = 1) ∧ (∀ i j, i < j → j < A.rows → B.get i j = 0)) := by
  constructor
  · rintro ⟨hd, hu⟩
    have h := productCell_eq_of_product_unilower A hA B hu
    exact ⟨fun i hi => by rw [← h i hi i (Nat.le_refl _) hi]; exact hd i hi,
      fun i j hij hj => by
        rw [← h i (by omega) j (Nat.le_of_lt hij) hj]; exact hu i j hij hj⟩
  · rintro ⟨hd, hu⟩
    have h : ∀ i, i < A.rows → ∀ j, i ≤ j → j < A.rows →
        CompressedMatrix.productCell A.matrix_ B i j = B.get i j :=
      fun i hi j hij hj =>
        productCell_upper A hA B i j hi (fun k hk => hu k j (by omega) hj)
    exact ⟨fun i hi => by rw [h i hi i (Nat.le_refl _) hi]; exact hd i hi,
      fun i j hij hj => by
        rw [h i (by omega) j (Nat.le_of_lt hij) hj]; exact hu i j hij hj⟩

theorem mulAssign_succeeds_iff (A : UniLowerMatrix SO) (hA : A.Invariant)
    (B : CompressedMatrix SO) (hr : B.rows = A.rows) (hc : B.columns = A.columns) (t : Bool) :
    (A.mulAssign B t).succeeds ↔
      ((∀ i, i < A.rows → CompressedMatrix.productCell A.matrix_ B i i = 1) ∧
        (∀ i j, i < j → j < A.rows → CompressedMatrix.productCell A.matrix_ B i j = 0)) := by
  have hBn : B.n_ = A.matrix_.m_ := hc.trans hA.2.1.symm
  rw [mulAssign_conforming A B t (hc.trans hA.2.1.symm) (hr.trans hA.2.1), hBn]
  have hiff := @isUniLower_ofFn_iff SO A.matrix_.m_
    (CompressedMatrix.productCell A.matrix_ B)
  cases hU : (CompressedMatrix.ofFn A.matrix_.m_ A.matrix_.m_
      (CompressedMatrix.productCell A.matrix_ B) : CompressedMatrix SO).isUniLower
  · simp only [Bool.false_eq_true, if_false]
    constructor
    · rintro ⟨w, hw⟩
      cases hw
    · intro h
      rw [hiff.mpr h] at hU
      cases hU
  · simp only [if_true]
    exact ⟨fun _ => hiff.mp hU, fun _ => ⟨(), rfl⟩⟩

end UniLowerMatrix

namespace UniLowerMatrix

variable {SO : Bool}

theorem UnitDiagonal.of_Invariant {A : UniLowerMatrix SO} (hA : A.Invariant) :
    A.UnitDiagonal := ⟨hA.1, hA.2.1, hA.2.2.1⟩

theorem UnitDiagonal.of_diag_cells {A B : UniLowerMatrix SO} (hA : A.UnitDiagonal)
    (hwf : B.matrix_.WF) (hr : B.matrix_.m_ = A.matrix_.m_) (hc : B.matrix_.n_ = A.matrix_.n_)
    (hd : ∀ i, B.matrix_.get i i = A.matrix_.get i i) : B.UnitDiagonal := by
  obtain ⟨_, h2, h3⟩ := hA
  refine ⟨hwf, ?_, ?_⟩
  · show B.matrix_.m_ = B.matrix_.n_
    rw [hr, hc]; exact h2
  · intro i hi
    show B.matrix_.get i i = 1
    rw [hd i]
    exact h3 i (by show i < A.matrix_.m_; rw [← hr]; exact hi)

/-- Replacing line `k` by a well-formed line with the same diagonal value keeps the unit
diagonal. -/
theorem UnitDiagonal.withLine {A : UniLowerMatrix SO} (hA : A.UnitDiagonal) (k : Nat)
    {l : Line} (hs : l.sorted) (hdiag : l.value k = (A.matrix_.lines k).value k) :
    UnitDiagonal (⟨A.matrix_.withLine k l⟩ : UniLowerMatrix SO) := by
  refine UnitDiagonal.of_diag_cells hA (CompressedMatrix.WF_withLine hA.1 k hs) rfl rfl ?_
  intro i
  show (A.matrix_.withLine k l).get i i = _
  rw [CompressedMatrix.get_withLine, lineOf_diag, indexOf_diag]
  by_cases h : i = k
  · rw [if_pos h, h, hdiag]
    show _ = (A.matrix_.lines (lineOf SO k k)).value (indexOf SO k k)
    rw [lineOf_diag, indexOf_diag]
  · rw [if_neg h]

theorem UnitDiagonal.after_resetUpper {A : UniLowerMatrix SO} (hA : A.UnitDiagonal) :
    A.resetUpper.UnitDiagonal := by
  refine UnitDiagonal.of_diag_cells hA (resetUpper_WF A hA.1) (resetUpper_rows A)
    (resetUpper_columns A) ?_
  intro i
  rw [resetUpper_get A hA.1]
  have : ¬ (lineOf SO i i < A.matrix_.numLines ∧ i < i) := fun h => Nat.lt_irrefl _ h.2
  rw [if_neg this]

theorem UnitDiagonal.after_storage_set {A : UniLowerMatrix SO} (hA : A.UnitDiagonal) {i j : Nat}
    (hij : ¬ i ≤ j) (v : ElementType) :
    UnitDiagonal (⟨(A.matrix_.set i j v).1⟩ : UniLowerMatrix SO) := by
  refine UnitDiagonal.of_diag_cells hA (CompressedMatrix.WF_set hA.1 i j v) rfl rfl ?_
  intro k
  show (A.matrix_.set i j v).1.get k k = _
  rw [CompressedMatrix.get_set]
  have : ¬ (k = i ∧ k = j) := by omega
  rw [if_neg this]

theorem UnitDiagonal.after_storage_insert {A : UniLowerMatrix SO} (hA : A.UnitDiagonal) {i j : Nat}
    (hij : ¬ i ≤ j) (v : ElementType) :
    UnitDiagonal (⟨(A.matrix_.insert i j v).state⟩ : UniLowerMatrix SO) := by
  unfold CompressedMatrix.insert
  by_cases hs : A.matrix_.stored i j = true
  · rw [if_pos hs]; exact hA
  · rw [if_neg hs]; exact UnitDiagonal.after_storage_set hA hij v

theorem UnitDiagonal.after_set {A : UniLowerMatrix SO} (hA : A.UnitDiagonal) (i j : Nat)
    (v : ElementType) : (A.set i j v).state.UnitDiagonal := by
  unfold UniLowerMatrix.set
  by_cases hij : i ≤ j
  · rw [if_pos hij]; exact hA
  · rw [if_neg hij]; exact UnitDiagonal.after_storage_set hA hij v

theorem UnitDiagonal.after_insert {A : UniLowerMatrix SO} (hA : A.UnitDiagonal) (i j : Nat)
    (v : ElementType) : (A.insert i j v).state.UnitDiagonal := by
  unfold UniLowerMatrix.insert
  by_cases hij : i ≤ j
  · rw [if_pos hij]; exact hA
  · rw [if_neg hij]; exact UnitDiagonal.after_storage_insert hA hij v

theorem UnitDiagonal.after_append {A : UniLowerMatrix SO} (hA : A.UnitDiagonal) (i j : Nat)
    (v : ElementType) (check : Bool) : (A.append i j v check).state.UnitDiagonal := by
  unfold UniLowerMatrix.append
  by_cases hij : i ≤ j
  · rw [if_pos hij]; exact hA
  · rw [if_neg hij]
    by_cases hc : (!check || !(v == 0)) = true
    · rw [if_pos hc]; exact UnitDiagonal.after_storage_insert hA hij v
    · rw [if_neg hc]; exact hA

theorem UnitDiagonal.after_erase {A : UniLowerMatrix SO} (hA : A.UnitDiagonal) (i j : Nat) :
    (A.erase i j).state.UnitDiagonal := by
  unfold UniLowerMatrix.erase
  by_cases hij : i = j
  · rw [if_pos hij]; exact hA
  · rw [if_neg hij]
    refine UnitDiagonal.of_diag_cells hA (CompressedMatrix.WF_erase hA.1 i j) rfl rfl ?_
    intro k
    show (A.matrix_.erase i j).get k k = _
    rw [CompressedMatrix.get_erase]
    have : ¬ (k = i ∧ k = j) := by omega
    rw [if_neg this]

theorem UnitDiagonal.after_erasePos {A : UniLowerMatrix SO} (hA : A.UnitDiagonal) (i : Nat)
    (pos : Iterator) : (A.erasePos i pos).state.UnitDiagonal := by
  unfold UniLowerMatrix.erasePos
  by_cases h : pos.base ≠ A.matrix_.end_ i ∧ (A.matrix_.lines i).indexAt pos.pos_ = some i
  · rw [if_pos h]; exact hA
  · rw [if_neg h]
    by_cases he : (A.matrix_.lines i).indexAt pos.pos_ = some i
    · have hend : pos.pos_ = (A.matrix_.lines i).length := by
        by_contra hne
        exact h ⟨hne, he⟩
      have : (A.matrix_.lines i).indexAt pos.pos_ = none := by
        unfold Line.indexAt
        rw [hend, List.get?_eq_getElem?, List.getElem?_eq_none (Nat.le_refl _)]
        rfl
      rw [this] at he
      cases he
    · exact UnitDiagonal.withLine hA i
        (Line.sorted_of_sublist (List.eraseIdx_sublist _ _) (hA.1 i))
        (Line.value_erasePos (hA.1 i) pos.pos_ i he)

theorem UnitDiagonal.after_eraseRange {A : UniLowerMatrix SO} (hA : A.UnitDiagonal) (i : Nat)
    (first last : Iterator) (hfl : first.pos_ ≤ last.pos_) :
    (A.eraseRange i first last).state.UnitDiagonal := by
  unfold UniLowerMatrix.eraseRange
  by_cases h : (List.range' first.pos_ (last.pos_ - first.pos_)).any
      (fun p => decide ((A.matrix_.lines i).indexAt p = some i)) = true
  · rw [if_pos h]; exact hA
  · rw [if_neg h]
    have hno : ∀ p, first.pos_ ≤ p → p < last.pos_ →
        (A.matrix_.lines i).indexAt p ≠ some i := by
      intro p hp1 hp2 hp
      apply h
      rw [List.any_eq_true]
      refine ⟨p, ?_, by simpa using hp⟩
      rw [List.mem_range'_1]
      omega
    exact UnitDiagonal.withLine hA i
      (Line.sorted_of_sublist (Line.eraseRange_sublist _ hfl) (hA.1 i))
      (Line.value_eraseRange (hA.1 i) hfl i hno)

theorem UnitDiagonal.after_reset {A : UniLowerMatrix SO} (hA : A.UnitDiagonal) :
    A.reset.UnitDiagonal := by
  refine UnitDiagonal.of_diag_cells hA (reset_WF A hA.1) (reset_rows A) (reset_columns A) ?_
  intro i
  rw [reset_get A hA.1]
  have : ¬ (lineOf SO i i < A.matrix_.numLines ∧ i < i) := fun h => Nat.lt_irrefl _ h.2
  rw [if_neg this]

theorem resetAt_WF (A : UniLowerMatrix SO) (hwf : A.matrix_.WF) (i : Nat) :
    (A.resetAt i).matrix_.WF := by
  cases SO
  · exact CompressedMatrix.WF_withLine hwf i
      (Line.sorted_of_sublist (Line.eraseRange_sublist _ (Nat.zero_le _)) (hwf i))
  · refine CompressedMatrix.WF_withLine hwf i (Line.sorted_of_sublist ?_ (hwf i))
    show (Line.eraseRange (A.matrix_.lines i) ((A.matrix_.lines i).lowerBound (i + 1))
      (A.matrix_.lines i).length).Sublist (A.matrix_.lines i)
    simp only [Line.eraseRange, List.drop_length, List.append_nil]
    exact List.take_sublist _ _

theorem UnitDiagonal.after_resetAt {A : UniLowerMatrix SO} (hA : A.UnitDiagonal) (i : Nat) :
    (A.resetAt i).UnitDiagonal := by
  refine UnitDiagonal.of_diag_cells hA (resetAt_WF A hA.1 i) (resetAt_rows A i)
    (resetAt_columns A i) ?_
  intro a
  rw [resetAt_get A hA.1, if_neg (fun h => Nat.lt_irrefl _ h.2)]

theorem UnitDiagonal.after_call {A : UniLowerMatrix SO} (hA : A.UnitDiagonal) (i j : Nat) :
    (A.call i j).1.UnitDiagonal := by
  refine UnitDiagonal.of_diag_cells hA (WF_access hA.1 i j) ?_ ?_ ?_
  · show (A.matrix_.access i j).m_ = A.matrix_.m_
    unfold CompressedMatrix.access
    split <;> rfl
  · show (A.matrix_.access i j).n_ = A.matrix_.n_
    unfold CompressedMatrix.access
    split <;> rfl
  · intro a
    exact CompressedMatrix.get_access A.matrix_ i j a a

theorem UnitDiagonal.proxyWrite {A : UniLowerMatrix SO} (hA : A.UnitDiagonal) (i j : Nat)
    (f : ElementType → ElementType) :
    ((A.call i j).2.write (A.call i j).1 f).state.UnitDiagonal := by
  have hC := UnitDiagonal.after_call hA i j
  unfold UniLowerProxy.write
  by_cases hij : i ≤ j
  · have hr : (A.call i j).2.restricted_ = true := by
      show decide (i ≤ j) = true
      simpa using hij
    rw [if_pos hr]; exact hC
  · have hr : ¬ (A.call i j).2.restricted_ = true := by
      show ¬ decide (i ≤ j) = true
      simpa using hij
    rw [if_neg hr]
    exact UnitDiagonal.after_storage_set hC hij _

end UniLowerMatrix

namespace Line

theorem map_fst_modifyValue (l : Line) (pos : Nat) (f : ElementType → ElementType) :
    (l.modifyValue pos f).map Prod.fst = l.map Prod.fst := by
  unfold modifyValue
  induction l generalizing pos with
  | nil => rw [List.modify_nil]
  | cons e es ih =>
    cases pos with
    | zero => rw [List.modify_zero_cons]; rfl
    | succ p => rw [List.modify_succ_cons, List.map_cons, List.map_cons, ih p]

theorem sorted_iff_map_fst (l : Line) : l.sorted ↔ (l.map Prod.fst).Pairwise (fun a b => a < b) := by
  unfold sorted
  rw [List.pairwise_map]

theorem sorted_modifyValue {l : Line} (hs : l.sorted) (pos : Nat)
    (f : ElementType → ElementType) : (l.modifyValue pos f).sorted := by
  rw [sorted_iff_map_fst, map_fst_modifyValue]
  exact (sorted_iff_map_fst l).mp hs

theorem value_modifyValue_of_ne (l : Line) (pos : Nat) (f : ElementType → ElementType)
    (k : Nat) (h : l.indexAt pos ≠ some k) : (l.modifyValue pos f).value k = l.value k := by
  unfold modifyValue
  induction l generalizing pos with
  | nil => rw [List.modify_nil]
  | cons e es ih =>
    cases pos with
    | zero =>
      rw [List.modify_zero_cons]
      have hek : e.1 ≠ k := by
        intro hk
        apply h
        show ((e :: es).get? 0).map Prod.fst = some k
        rw [← hk]; rfl
      show (if e.1 = k then f e.2 else value es k) = (if e.1 = k then e.2 else value es k)
      rw [if_neg hek, if_neg hek]
    | succ p =>
      rw [List.modify_succ_cons]
      have h2 : Line.indexAt es p ≠ some k := h
      show (if e.1 = k then e.2 else value (List.modify _ p es) k) =
        (if e.1 = k then e.2 else value es k)
      rw [ih p h2]

theorem find_lt_length_of_stored (l : Line) (k : Nat) (h : l.stored k = true) :
    l.find k < l.length := by
  induction l with
  | nil => cases h
  | cons e es ih =>
    show (if e.1 = k then 0 else find es k + 1) < (e :: es).length
    by_cases hek : e.1 = k
    · rw [if_pos hek]; exact Nat.succ_pos _
    · rw [if_neg hek]
      have h2 : Line.stored es k = true := by
        rw [stored_cons] at h
        have hb : (e.1 == k) = false := by simpa using hek
        rw [hb, Bool.false_or] at h
        exact h
      exact Nat.succ_lt_succ (ih h2)

theorem length_pos_of_stored (l : Line) (k : Nat) (h : l.stored k = true) : 1 ≤ l.length := by
  cases l with
  | nil => cases h
  | cons e es => exact Nat.succ_le_succ (Nat.zero_le _)

end Line

theorem le_sum_map_range (f : Nat → Nat) (n : Nat) (h : ∀ k, k < n → 1 ≤ f k) :
    n ≤ ((List.range n).map f).sum := by
  induction n with
  | zero => exact Nat.zero_le _
  | succ n ih =>
    rw [List.range_succ, List.map_append, List.sum_append]
    have h1 := ih (fun k hk => h k (by omega))
    have h2 := h n (Nat.lt_succ_self n)
    simp
    omega

namespace UniLowerMatrix

variable {SO : Bool}

theorem UnitDiagonal.writeThrough {A : UniLowerMatrix SO} (hA : A.UnitDiagonal) (k : Nat)
    (it : Iterator) (htag : it.index_ = k) (op : UniLowerElement → Line → Outcome Line Unit)
    (hop : ∀ e l, (op e l).state = l ∨
      (e.diagonal_ = false ∧ ∃ g, (op e l).state = l.modifyValue e.pos_ g)) :
    (A.writeThrough k it op).state.UnitDiagonal := by
  show UnitDiagonal (⟨A.matrix_.withLine k
    (op (it.deref (A.matrix_.lines k)) (A.matrix_.lines k)).state⟩ : UniLowerMatrix SO)
  rcases hop (it.deref (A.matrix_.lines k)) (A.matrix_.lines k) with h | ⟨hd, g, hg⟩
  · rw [h]
    exact UnitDiagonal.withLine hA k (hA.1 k) rfl
  · rw [hg]
    have hne : (A.matrix_.lines k).indexAt it.pos_ ≠ some k := by
      intro hk
      have : (it.deref (A.matrix_.lines k)).diagonal_ = true := by
        show decide ((A.matrix_.lines k).indexAt it.pos_ = some it.index_) = true
        rw [htag]
        simpa using hk
      rw [this] at hd
      cases hd
    exact UnitDiagonal.withLine hA k (Line.sorted_modifyValue (hA.1 k) _ _)
      (Line.value_modifyValue_of_ne _ it.pos_ g k hne)

theorem elementOp_assign (v : ElementType) (e : UniLowerElement) (l : Line) :
    (e.assign l v).state = l ∨
      (e.diagonal_ = false ∧ ∃ g, (e.assign l v).state = l.modifyValue e.pos_ g) := by
  unfold UniLowerElement.assign
  cases hd : e.diagonal_
  · exact Or.inr ⟨rfl, (fun _ => v), by simp⟩
  · exact Or.inl (by simp)

theorem elementOp_addAssign (v : ElementType) (e : UniLowerElement) (l : Line) :
    (e.addAssign l v).state = l ∨
      (e.diagonal_ = false ∧ ∃ g, (e.addAssign l v).state = l.modifyValue e.pos_ g) := by
  unfold UniLowerElement.addAssign
  cases hd : e.diagonal_
  · exact Or.inr ⟨rfl, (fun x => x + v), by simp⟩
  · exact Or.inl (by simp)

theorem elementOp_subAssign (v : ElementType) (e : UniLowerElement) (l : Line) :
    (e.subAssign l v).state = l ∨
      (e.diagonal_ = false ∧ ∃ g, (e.subAssign l v).state = l.modifyValue e.pos_ g) := by
  unfold UniLowerElement.subAssign
  cases hd : e.diagonal_
  · exact Or.inr ⟨rfl, (fun x => x - v), by simp⟩
  · exact Or.inl (by simp)

theorem elementOp_mulAssign (v : ElementType) (e : UniLowerElement) (l : Line) :
    (e.mulAssign l v).state = l ∨
      (e.diagonal_ = false ∧ ∃ g, (e.mulAssign l v).state = l.modifyValue e.pos_ g) := by
  unfold UniLowerElement.mulAssign
  cases hd : e.diagonal_
  · exact Or.inr ⟨rfl, (fun x => x * v), by simp⟩
  · exact Or.inl (by simp)

theorem elementOp_divAssign (v : ElementType) (e : UniLowerElement) (l : Line) :
    (e.divAssign l v).state = l ∨
      (e.diagonal_ = false ∧ ∃ g, (e.divAssign l v).state = l.modifyValue e.pos_ g) := by
  unfold UniLowerElement.divAssign
  cases hd : e.diagonal_
  · exact Or.inr ⟨rfl, (fun x => Int.tdiv x v), by simp⟩
  · exact Or.inl (by simp)

theorem resize_preserve_WF (M : CompressedMatrix SO) (hwf : M.WF) (m n : Nat) :
    (M.resize m n true).WF := by
  intro k
  rw [CompressedMatrix.resize_preserve_lines]
  by_cases h : k < M.numLines ∧ k < (if SO then n else m)
  · rw [if_pos h]; exact List.Pairwise.filter _ (hwf k)
  · rw [if_neg h]; exact List.Pairwise.nil

theorem resize_growth_lines_of_square (A : UniLowerMatrix SO) (hsq : A.rows = A.columns)
    (m : Nat) (hm : A.rows < m) :
    (A.resize m true).result = Except.ok () ∧
    (A.resize m true).state.matrix_.m_ = m ∧
    (A.resize m true).state.matrix_.n_ = m ∧
    ∀ k, (A.resize m true).state.matrix_.lines k =
      if A.rows ≤ k ∧ k < m then [(k, 1)]
      else if k < A.rows then (A.matrix_.lines k).filter (fun e => decide (e.1 < m))
      else [] := by
  have hnum : A.matrix_.numLines = A.rows := numLines_of_square hsq
  have hM0 : ∀ k, (A.matrix_.resize m m true).lines k =
      if k < A.rows ∧ k < m then (A.matrix_.lines k).filter (fun e => decide (e.1 < m))
      else [] := by
    intro k
    rw [CompressedMatrix.resize_preserve_lines, hnum]
    cases SO <;> rfl
  obtain ⟨c, hc⟩ : ∃ c, m = A.rows + c := ⟨m - A.rows, by omega⟩
  have hempty : ∀ k, A.rows ≤ k → k < A.rows + c → (A.matrix_.resize m m true).lines k = [] := by
    intro k hk1 _
    rw [hM0 k, if_neg (by omega)]
  obtain ⟨h1, h2, h3, h4⟩ :=
    CompressedMatrix.forLoopThrowing_insert_diag c A.rows (A.matrix_.resize m m true) hempty
  have hres : A.resize m true =
      ⟨⟨(forLoopThrowing A.rows (A.rows + c) (fun i N => N.insert i i 1)
          (A.matrix_.resize m m true)).state⟩,
        (forLoopThrowing A.rows (A.rows + c) (fun i N => N.insert i i 1)
          (A.matrix_.resize m m true)).result⟩ := by
    unfold UniLowerMatrix.resize
    have : m > A.matrix_.rows := hm
    simp only [this, if_true]
    rw [hc]
    rfl
  rw [hres]
  refine ⟨h1, ?_, ?_, ?_⟩
  · exact h2.trans (CompressedMatrix.resize_m _ _ _ _)
  · exact h3.trans (CompressedMatrix.resize_n _ _ _ _)
  · intro k
    refine (h4 k).trans ?_
    rw [hM0 k, ← hc]
    by_cases hk : A.rows ≤ k ∧ k < m
    · rw [if_pos hk, if_pos hk]
    · rw [if_neg hk, if_neg hk]
      by_cases hk2 : k < A.rows
      · have : k < A.rows ∧ k < m := ⟨hk2, by omega⟩
        rw [if_pos this, if_pos hk2]
      · have : ¬ (k < A.rows ∧ k < m) := fun h => hk2 h.1
        rw [if_neg this, if_neg hk2]

theorem UnitDiagonal.resize {A : UniLowerMatrix SO} (hA : A.UnitDiagonal) (n : Nat) :
    (A.resize n true).state.UnitDiagonal := by
  by_cases hn : n ≤ A.rows
  · rw [resize_shrink A n hn true]
    refine ⟨resize_preserve_WF A.matrix_ hA.1 n n, ?_, ?_⟩
    · show (A.matrix_.resize n n true).m_ = (A.matrix_.resize n n true).n_
      rw [CompressedMatrix.resize_m, CompressedMatrix.resize_n]
    · intro i hi
      have hi2 : i < n := by
        have : (A.matrix_.resize n n true).m_ = n := CompressedMatrix.resize_m _ _ _ _
        have hi3 : i < (A.matrix_.resize n n true).m_ := hi
        omega
      show (A.matrix_.resize n n true).get i i = 1
      rw [resize_preserve_get A.matrix_ hA.2.1 n i i hi2 hi2 hn]
      exact hA.2.2 i (by omega)
  · have hm : A.rows < n := by omega
    obtain ⟨_, h2, h3, h4⟩ := resize_growth_lines_of_square A hA.2.1 n hm
    refine ⟨?_, ?_, ?_⟩
    · intro k
      rw [h4 k]
      split
      · exact List.pairwise_singleton _ _
      · split
        · exact List.Pairwise.filter _ (hA.1 k)
        · exact List.Pairwise.nil
    · exact h2.trans h3.symm
    · intro i hi
      have hi2 : i < n := by
        have hi3 : i < (A.resize n true).state.matrix_.m_ := hi
        omega
      show ((A.resize n true).state.matrix_.lines (lineOf SO i i)).value (indexOf SO i i) = 1
      rw [lineOf_diag, indexOf_diag, h4 i]
      by_cases hg : A.rows ≤ i ∧ i < n
      · rw [if_pos hg]
        show (if i = i then (1 : ElementType) else Line.value [] i) = 1
        rw [if_pos rfl]
      · rw [if_neg hg]
        have hlt : i < A.rows := by omega
        rw [if_pos hlt, Line.value_filter (fun x => decide (x < n))]
        have h1 := hA.2.2 i hlt
        have h1' : A.matrix_.get i i = 1 := h1
        unfold CompressedMatrix.get at h1'
        rw [lineOf_diag, indexOf_diag] at h1'
        simp [hi2, h1']

end UniLowerMatrix

namespace UniLowerMatrix

variable {SO : Bool}

theorem UnitDiagonal.after_assign {A : UniLowerMatrix SO} (hA : A.UnitDiagonal)
    {rhs : CompressedMatrix SO} (hwf : rhs.WF) {t : Bool}
    (ht : t = true → rhs.isUniLower = true) : (A.assign rhs t).state.UnitDiagonal := by
  unfold UniLowerMatrix.assign
  by_cases h : (!t && !rhs.isUniLower) = true
  · rw [if_pos h]; exact hA
  · rw [if_neg h]
    have hU : rhs.isUniLower = true := by
      cases t
      · simpa using h
      · exact ht rfl
    have h1 : UnitDiagonal (⟨rhs⟩ : UniLowerMatrix SO) :=
      UnitDiagonal.of_Invariant (Invariant.of_isUniLower hwf hU)
    show UnitDiagonal (if (!t) = true then _ else _)
    by_cases h2 : (!t) = true
    · rw [if_pos h2]; exact h1.after_resetUpper
    · rw [if_neg h2]; exact h1

theorem UnitDiagonal.after_assignComputation {A : UniLowerMatrix SO} (hA : A.UnitDiagonal)
    {rhs : CompressedMatrix SO} (hwf : rhs.WF) {sq t : Bool}
    (ht : t = true → rhs.isUniLower = true) :
    (A.assignComputation rhs sq t).state.UnitDiagonal := by
  unfold UniLowerMatrix.assignComputation
  by_cases h : (!sq && !rhs.isSquare) = true
  · rw [if_pos h]; exact hA
  · rw [if_neg h]
    by_cases h2 : t = true
    · rw [if_pos h2]
      exact UnitDiagonal.of_Invariant (Invariant.of_isUniLower hwf (ht h2))
    · rw [if_neg h2]
      show UnitDiagonal (Outcome.state (if (!rhs.isUniLower) = true then _ else _))
      by_cases h3 : (!rhs.isUniLower) = true
      · rw [if_pos h3]; exact hA
      · rw [if_neg h3]
        have hU : rhs.isUniLower = true := by simpa using h3
        exact (UnitDiagonal.of_Invariant (Invariant.of_isUniLower hwf hU)).after_resetUpper

/-- Combining a state with unit diagonal cell by cell with a strictly lower matrix keeps the
unit diagonal. -/
theorem UnitDiagonal.after_storage_combine {A : UniLowerMatrix SO} (hA : A.UnitDiagonal)
    {rhs : CompressedMatrix SO} (hS : rhs.isStrictlyLower = true)
    (hm : rhs.m_ = A.matrix_.m_) (hn : rhs.n_ = A.matrix_.n_)
    (op : ElementType → ElementType → ElementType) (hop : ∀ x, op x 0 = x) :
    UnitDiagonal (⟨CompressedMatrix.ofFn A.matrix_.m_ A.matrix_.n_
      (fun i j => op (A.matrix_.get i j) (rhs.get i j))⟩ : UniLowerMatrix SO) := by
  obtain ⟨_, h2, h3⟩ := hA
  obtain ⟨_, hz⟩ := (CompressedMatrix.isStrictlyLower_iff rhs).mp hS
  have h2' : A.matrix_.m_ = A.matrix_.n_ := h2
  refine ⟨CompressedMatrix.ofFn_WF _ _ _, h2, ?_⟩
  intro i hi
  have hi' : i < A.matrix_.m_ := hi
  show (CompressedMatrix.ofFn _ _ _ : CompressedMatrix SO).get i i = 1
  rw [CompressedMatrix.get_ofFn]
  have : i < A.matrix_.m_ ∧ i < A.matrix_.n_ := ⟨hi', by omega⟩
  rw [if_pos this, hz i i (by omega) (by omega) (Nat.le_refl _), hop]
  exact h3 i hi

theorem UnitDiagonal.after_storage_addAssign {A : UniLowerMatrix SO} (hA : A.UnitDiagonal)
    {rhs : CompressedMatrix SO} (hS : rhs.isStrictlyLower = true) :
    UnitDiagonal (⟨(A.matrix_.addAssign rhs).state⟩ : UniLowerMatrix SO) := by
  unfold CompressedMatrix.addAssign
  by_cases h : rhs.m_ ≠ A.matrix_.m_ ∨ rhs.n_ ≠ A.matrix_.n_
  · rw [if_pos h]; exact hA
  · rw [if_neg h]
    exact UnitDiagonal.after_storage_combine hA hS (by omega) (by omega) (fun x y => x + y)
      (fun x => Int.add_zero x)

theorem UnitDiagonal.after_storage_subAssign {A : UniLowerMatrix SO} (hA : A.UnitDiagonal)
    {rhs : CompressedMatrix SO} (hS : rhs.isStrictlyLower = true) :
    UnitDiagonal (⟨(A.matrix_.subAssign rhs).state⟩ : UniLowerMatrix SO) := by
  unfold CompressedMatrix.subAssign
  by_cases h : rhs.m_ ≠ A.matrix_.m_ ∨ rhs.n_ ≠ A.matrix_.n_
  · rw [if_pos h]; exact hA
  · rw [if_neg h]
    exact UnitDiagonal.after_storage_combine hA hS (by omega) (by omega) (fun x y => x - y)
      (fun x => Int.sub_zero x)

theorem UnitDiagonal.after_addAssign {A : UniLowerMatrix SO} (hA : A.UnitDiagonal)
    {rhs : CompressedMatrix SO} {t : Bool}
    (ht : t = true → rhs.isStrictlyLower = true) : (A.addAssign rhs t).state.UnitDiagonal := by
  unfold UniLowerMatrix.addAssign
  by_cases h : (!t && !rhs.isStrictlyLower) = true
  · rw [if_pos h]; exact hA
  · rw [if_neg h]
    have hS : rhs.isStrictlyLower = true := by
      cases t
      · simpa using h
      · exact ht rfl
    have h1 := UnitDiagonal.after_storage_addAssign hA hS
    split
    · exact h1
    · show UnitDiagonal (if (!t) = true then _ else _)
      by_cases h2 : (!t) = true
      · rw [if_pos h2]; exact h1.after_resetUpper
      · rw [if_neg h2]; exact h1

theorem UnitDiagonal.after_subAssign {A : UniLowerMatrix SO} (hA : A.UnitDiagonal)
    {rhs : CompressedMatrix SO} {t : Bool}
    (ht : t = true → rhs.isStrictlyLower = true) : (A.subAssign rhs t).state.UnitDiagonal := by
  unfold UniLowerMatrix.subAssign
  by_cases h : (!t && !rhs.isStrictlyLower) = true
  · rw [if_pos h]; exact hA
  · rw [if_neg h]
    have hS : rhs.isStrictlyLower = true := by
      cases t
      · simpa using h
      · exact ht rfl
    have h1 := UnitDiagonal.after_storage_subAssign hA hS
    split
    · exact h1
    · show UnitDiagonal (if (!t) = true then _ else _)
      by_cases h2 : (!t) = true
      · rw [if_pos h2]; exact h1.after_resetUpper
      · rw [if_neg h2]; exact h1

theorem UnitDiagonal.after_addAssignComputation {A : UniLowerMatrix SO} (hA : A.UnitDiagonal)
    {rhs : CompressedMatrix SO} {sq t : Bool}
    (ht : t = true → rhs.isStrictlyLower = true) :
    (A.addAssignComputation rhs sq t).state.UnitDiagonal := by
  unfold UniLowerMatrix.addAssignComputation
  by_cases h : (!sq && !rhs.isSquare) = true
  · rw [if_pos h]; exact hA
  · rw [if_neg h]
    by_cases h2 : t = true
    · rw [if_pos h2]
      exact UnitDiagonal.after_storage_addAssign hA (ht h2)
    · rw [if_neg h2]
      show UnitDiagonal (Outcome.state (if (!rhs.isStrictlyLower) = true then _ else _))
      by_cases h3 : (!rhs.isStrictlyLower) = true
      · rw [if_pos h3]; exact hA
      · rw [if_neg h3]
        have hS : rhs.isStrictlyLower = true := by simpa using h3
        have h1 := UnitDiagonal.after_storage_addAssign hA hS
        split
        · exact h1
        · exact h1.after_resetUpper

theorem UnitDiagonal.after_subAssignComputation {A : UniLowerMatrix SO} (hA : A.UnitDiagonal)
    {rhs : CompressedMatrix SO} {sq t : Bool}
    (ht : t = true → rhs.isStrictlyLower = true) :
    (A.subAssignComputation rhs sq t).state.UnitDiagonal := by
  unfold UniLowerMatrix.subAssignComputation
  by_cases h : (!sq && !rhs.isSquare) = true
  · rw [if_pos h]; exact hA
  · rw [if_neg h]
    by_cases h2 : t = true
    · rw [if_pos h2]
      exact UnitDiagonal.after_storage_subAssign hA (ht h2)
    · rw [if_neg h2]
      show UnitDiagonal (Outcome.state (if (!rhs.isStrictlyLower) = true then _ else _))
      by_cases h3 : (!rhs.isStrictlyLower) = true
      · rw [if_pos h3]; exact hA
      · rw [if_neg h3]
        have hS : rhs.isStrictlyLower = true := by simpa using h3
        have h1 := UnitDiagonal.after_storage_subAssign hA hS
        split
        · exact h1
        · exact h1.after_resetUpper

theorem UnitDiagonal.after_mulAssign {A : UniLowerMatrix SO} (hA : A.UnitDiagonal)
    (rhs : CompressedMatrix SO) (t : Bool) : (A.mulAssign rhs t).state.UnitDiagonal := by
  unfold UniLowerMatrix.mulAssign
  by_cases h : A.matrix_.rows ≠ rhs.columns
  · rw [if_pos h]; exact hA
  · rw [if_neg h]
    cases hmul : A.matrix_.mul rhs with
    | error e => exact hA
    | ok tmp =>
      show UnitDiagonal (Outcome.state (if (!tmp.isUniLower) = true then _ else _))
      by_cases h3 : (!tmp.isUniLower) = true
      · rw [if_pos h3]; exact hA
      · rw [if_neg h3]
        have hU : tmp.isUniLower = true := by simpa using h3
        have h1 : UnitDiagonal (⟨tmp⟩ : UniLowerMatrix SO) :=
          UnitDiagonal.of_Invariant (Invariant.of_isUniLower (mul_WF hmul) hU)
        show UnitDiagonal (if (!t) = true then _ else _)
        by_cases h2 : (!t) = true
        · rw [if_pos h2]; exact h1.after_resetUpper
        · rw [if_neg h2]; exact h1

/-- Every state reachable without discarding entries has a unit diagonal. -/
theorem ReachablePreserving.unitDiagonal {A : UniLowerMatrix SO}
    (h : ReachablePreserving A) : A.UnitDiagonal := by
  induction h with
  | default => exact UnitDiagonal.of_Invariant Invariant.default
  | sized n => exact UnitDiagonal.of_Invariant (Invariant.sized n)
  | sizedNonzeros n nz =>
    rw [sizedNonzeros_eq]; exact UnitDiagonal.of_Invariant (Invariant.sized n)
  | sizedCapacities n nz A h =>
    rw [sizedCapacities_ok h]; exact UnitDiagonal.of_Invariant (Invariant.sized n)
  | copy m _ ih => exact ih
  | convert m t A hwf ht h => exact UnitDiagonal.of_Invariant (Invariant.convert hwf ht h)
  | call A i j _ ih => exact ih.after_call i j
  | proxyWrite A i j f _ ih => exact ih.proxyWrite i j f
  | elementAssign A k it v _ htag ih =>
    exact ih.writeThrough k it htag _ (elementOp_assign v)
  | elementAddAssign A k it v _ htag ih =>
    exact ih.writeThrough k it htag _ (elementOp_addAssign v)
  | elementSubAssign A k it v _ htag ih =>
    exact ih.writeThrough k it htag _ (elementOp_subAssign v)
  | elementMulAssign A k it v _ htag ih =>
    exact ih.writeThrough k it htag _ (elementOp_mulAssign v)
  | elementDivAssign A k it v _ htag ih =>
    exact ih.writeThrough k it htag _ (elementOp_divAssign v)
  | set A i j v _ ih => exact ih.after_set i j v
  | insert A i j v _ ih => exact ih.after_insert i j v
  | append A i j v c _ ih => exact ih.after_append i j v c
  | finalize A i _ ih => exact ih
  | erase A i j _ ih => exact ih.after_erase i j
  | erasePos A i pos _ ih => exact ih.after_erasePos i pos
  | eraseRange A i f l _ hfl ih => exact ih.after_eraseRange i f l hfl
  | reset A _ ih => exact ih.after_reset
  | resetAt A i _ ih => exact ih.after_resetAt i
  | resize A n _ ih => exact ih.resize n
  | swapLeft A m _ _ _ ih2 => exact ih2
  | swapRight A m _ _ ih1 _ => exact ih1
  | copyAssign A rhs _ _ _ ih2 => exact ih2
  | assign A rhs t _ hwf ht ih => exact ih.after_assign hwf ht
  | assignComputation A rhs sq t _ hwf _ ht ih => exact ih.after_assignComputation hwf ht
  | addAssign A rhs t _ _ ht ih => exact ih.after_addAssign ht
  | addAssignComputation A rhs sq t _ _ _ ht ih => exact ih.after_addAssignComputation ht
  | subAssign A rhs t _ _ ht ih => exact ih.after_subAssign ht
  | subAssignComputation A rhs sq t _ _ _ ht ih => exact ih.after_subAssignComputation ht
  | mulAssign A rhs t _ _ _ ih => exact ih.after_mulAssign rhs t

theorem UnitDiagonal.stored {A : UniLowerMatrix SO} (hA : A.UnitDiagonal) (i : Nat)
    (hi : i < A.rows) : A.matrix_.stored i i = true := by
  apply CompressedMatrix.stored_of_get_ne_zero
  have h1 : A.matrix_.get i i = 1 := hA.2.2 i hi
  rw [h1]; decide

theorem UnitDiagonal.line_stored {A : UniLowerMatrix SO} (hA : A.UnitDiagonal) (i : Nat)
    (hi : i < A.rows) : (A.matrix_.lines i).stored i = true := by
  have h := hA.stored i hi
  unfold CompressedMatrix.stored at h
  rw [lineOf_diag, indexOf_diag] at h
  exact h

theorem UnitDiagonal.find_ne_end {A : UniLowerMatrix SO} (hA : A.UnitDiagonal) (i : Nat)
    (hi : i < A.rows) (start : Nat → Nat) :
    Iterator.ne start i i (A.find i i) (A.end_ i) = true := by
  have h := Line.find_lt_length_of_stored _ _ (hA.line_stored i hi)
  have hp : (A.find i i).pos_ = (A.matrix_.lines i).find i := by
    show (A.matrix_.lines (lineOf SO i i)).find (indexOf SO i i) = _
    rw [lineOf_diag, indexOf_diag]
  have he : (A.end_ i).pos_ = (A.matrix_.lines i).length := rfl
  unfold Iterator.ne Iterator.eq Iterator.position
  rw [hp, he]
  simp
  omega

theorem UnitDiagonal.nonZeros_ge {A : UniLowerMatrix SO} (hA : A.UnitDiagonal) :
    A.rows ≤ A.nonZeros := by
  have hnum : A.matrix_.numLines = A.rows := numLines_of_square hA.2.1
  show A.rows ≤ ((List.range A.matrix_.numLines).map (fun k => A.matrix_.nonZerosAt k)).sum
  rw [hnum]
  exact le_sum_map_range _ _ (fun k hk => Line.length_pos_of_stored _ _ (hA.line_stored k hk))

end UniLowerMatrix

theorem exampleStrictlyLower_cells :
    ∀ i j, i < exampleWithEntry.rows → j < exampleWithEntry.columns → i ≤ j →
      exampleStrictlyLower.get i j = 0 := by
  intro i j hi hj hij
  have hi2 : i < 2 := hi
  have hj2 : j < 2 := hj
  interval_cases i <;> interval_cases j <;> rfl

/-! ## Lemmas for the arithmetic of `int`, the capacity of the constructed storage and the
positions of iterators -/

theorem wrapInt_of_inRange (x : Int) (h : intInRange x) : wrapInt x = x := by
  unfold wrapInt
  unfold intInRange at h
  rw [Int.emod_eq_of_lt (by omega) (by omega)]
  omega

theorem wrapInt_inRange (x : Int) : intInRange (wrapInt x) := by
  unfold wrapInt intInRange
  have h1 := Int.emod_nonneg (x + 2 ^ 31) (show (2 : Int) ^ 32 ≠ 0 by norm_num)
  have h2 := Int.emod_lt_of_pos (x + 2 ^ 31) (show (0 : Int) < 2 ^ 32 by norm_num)
  constructor <;> omega

theorem tdiv_inRange (x v : Int) (hx : intInRange x) (hv : v ≠ 0)
    (h : ¬(x = -2 ^ 31 ∧ v = -1)) : intInRange (Int.tdiv x v) := by
  unfold intInRange at *
  have hq := Int.natAbs_tdiv x v
  by_cases h1 : v = 1
  · subst h1; rw [Int.tdiv_one]; exact hx
  by_cases h2 : v = -1
  · subst h2
    rw [Int.tdiv_neg, Int.tdiv_one]
    have : x ≠ -2 ^ 31 := fun hx2 => h ⟨hx2, rfl⟩
    constructor <;> omega
  have hv2 : 2 ≤ v.natAbs := by omega
  have h3 : (x.natAbs).div (v.natAbs) ≤ x.natAbs / 2 := by
    show x.natAbs / v.natAbs ≤ x.natAbs / 2
    exact Nat.div_le_div_left hv2 (by norm_num)
  have h4 : x.natAbs ≤ 2 ^ 31 := by omega
  have h5 : (Int.tdiv x v).natAbs ≤ 2 ^ 30 := by
    rw [hq]
    refine le_trans h3 ?_
    omega
  constructor <;> omega

namespace Line

end Line

namespace UniLowerMatrix

variable {SO : Bool}

end UniLowerMatrix
namespace Line
end Line

theorem CompressedMatrix.Layout.start_le {SO : Bool} {M : CompressedMatrix SO}
    {start : Nat → Nat} (h : M.Layout start) (k1 k2 : Nat) (hk : k1 ≤ k2) :
    start k1 ≤ start k2 := by
  induction k2 with
  | zero =>
    have : k1 = 0 := by omega
    rw [this]
  | succ k ih =>
    by_cases hk2 : k1 ≤ k
    · have h1 := ih hk2
      have h2 := h k
      omega
    · have : k1 = k + 1 := by omega
      rw [this]

theorem sized_Layout {SO : Bool} (n : Nat) :
    (UniLowerMatrix.sized n : UniLowerMatrix SO).matrix_.Layout (fun k => k) := by
  intro k
  rw [UniLowerMatrix.sized_lines]
  by_cases hk : k < n
  · rw [if_pos hk]; exact Nat.le_refl _
  · rw [if_neg hk]; exact Nat.le_succ _

/-! # The claims -/

/-- C1: Every adaptor state reachable from a constructor by the public operations `set`,
`insert`, `append`, `erase` (three forms), `reset()`, `reset(i)`, `swap`, copy assignment,
matrix assignment, `+=`, `-=` and `*=` (whether a call succeeds or raises) has every
diagonal cell `(i,i)`, `i < rows()`, reading 1 and every cell `(i,j)`, `i < j < rows()`,
reading 0. -/
theorem C1_invariant_preservation {SO : Bool} (A : UniLowerMatrix SO)
    (h : UniLowerMatrix.Reachable A) :
    (∀ i, i < A.rows → A.callConst i i = 1) ∧
      (∀ i j, i < j → j < A.rows → A.callConst i j = 0) :=
  ⟨h.invariant.2.2.1, h.invariant.2.2.2⟩

/-- C1 at a concrete state: the 3×3 row-major identity after `set(2,0,5)`, a rejected
`set(0,1,7)` and `reset(2)`. -/
theorem C1_invariant_preservation_witness :
    UniLowerMatrix.Reachable exampleReached ∧
      exampleReached.callConst 2 2 = 1 ∧ exampleReached.callConst 0 1 = 0 :=
  have hR : UniLowerMatrix.Reachable exampleReached :=
    Reachable.resetAt _ 2 (Reachable.set _ 0 1 7 (Reachable.set _ 2 0 5 (Reachable.sized 3)))
  ⟨hR, (C1_invariant_preservation exampleReached hR).1 2 (by decide),
    (C1_invariant_preservation exampleReached hR).2 0 1 (by decide) (by decide)⟩

/-- C2: For a source whose type does not guarantee unit-lower-triangularity, the converting
constructor raises `std::invalid_argument` exactly when the source is non-square, or has a
nonzero above the diagonal, or has a diagonal entry different from 1; when it raises, no
adaptor is produced. -/
theorem C2_convert_rejection {SO : Bool} (m : CompressedMatrix SO) :
    (ctorRaisesInvalidArgument (UniLowerMatrix.convert m false) ↔
      (m.rows ≠ m.columns ∨
        (∃ i j, i < m.rows ∧ j < m.columns ∧ i < j ∧ m.get i j ≠ 0) ∨
        (∃ i, i < m.rows ∧ i < m.columns ∧ m.get i i ≠ 1))) ∧
    (ctorRaisesInvalidArgument (UniLowerMatrix.convert m false) →
      ∀ A, UniLowerMatrix.convert m false ≠ Except.ok A) := by
  have key : ctorRaisesInvalidArgument (UniLowerMatrix.convert m false) ↔
      m.isUniLower = false := by
    unfold ctorRaisesInvalidArgument UniLowerMatrix.convert
    cases hU : m.isUniLower
    · simp [hU]
    · simp [hU]
  constructor
  · rw [key]
    constructor
    · intro hU
      by_contra hcon
      simp only [not_or, not_exists, not_and, not_not] at hcon
      obtain ⟨h1, h2, h3⟩ := hcon
      have : m.isUniLower = true := by
        rw [CompressedMatrix.isUniLower_iff]
        refine ⟨h1, ?_, ?_⟩
        · intro i hi
          exact h3 i hi (by show i < m.n_; rw [← show m.m_ = m.n_ from h1]; exact hi)
        · intro i j hi hj hij
          exact h2 i j hi hj hij
      rw [hU] at this
      cases this
    · intro h
      cases hU : m.isUniLower
      · rfl
      · exfalso
        obtain ⟨h1, h2, h3⟩ := (CompressedMatrix.isUniLower_iff m).mp hU
        rcases h with h | ⟨i, j, hi, hj, hij, hne⟩ | ⟨i, hi, _, hne⟩
        · exact h h1
        · exact hne (h3 i j hi hj hij)
        · exact hne (h2 i hi)
  · rintro ⟨w, hw⟩ A hA
    rw [hw] at hA
    cases hA

/-- C3: For a well-formed square source `M` that is unit lower triangular (explicit zeros
above the diagonal allowed), the converting constructor succeeds, and the adaptor has the
dimensions of `M` and reads `M(i,j)` at every cell. -/
theorem C3_convert_round_trip {SO : Bool} (M : CompressedMatrix SO) (hwf : M.WF)
    (hsq : M.rows = M.columns) (hdiag : ∀ i, i < M.rows → M.get i i = 1)
    (hupper : ∀ i j, i < j → j < M.columns → M.get i j = 0) :
    ∃ A, UniLowerMatrix.convert M false = Except.ok A ∧
      A.rows = M.rows ∧ A.columns = M.columns ∧
      ∀ i j, i < M.rows → j < M.columns → A.callConst i j = M.get i j := by
  have hU : M.isUniLower = true := by
    rw [CompressedMatrix.isUniLower_iff]
    exact ⟨hsq, hdiag, fun i j _ hj hij => hupper i j hij hj⟩
  refine ⟨(⟨M⟩ : UniLowerMatrix SO).resetUpper, ?_, resetUpper_rows _, resetUpper_columns _, ?_⟩
  · unfold UniLowerMatrix.convert
    simp [hU]
  · intro i j _ hj
    show (UniLowerMatrix.resetUpper ⟨M⟩).matrix_.get i j = _
    rw [resetUpper_get _ hwf]
    by_cases h : lineOf SO i j < M.numLines ∧ i < j
    · rw [if_pos h]
      exact (hupper i j h.2 hj).symm
    · rw [if_neg h]

/-- C3 at the 2×2 source that stores an explicit zero above the diagonal. -/
theorem C3_convert_round_trip_witness :
    (exampleUniLower.WF ∧ exampleUniLower.rows = exampleUniLower.columns ∧
      (∀ i, i < exampleUniLower.rows → exampleUniLower.get i i = 1) ∧
      (∀ i j, i < j → j < exampleUniLower.columns → exampleUniLower.get i j = 0)) ∧
    ∃ A, UniLowerMatrix.convert exampleUniLower false = Except.ok A ∧
      A.rows = exampleUniLower.rows ∧ A.columns = exampleUniLower.columns ∧
      ∀ i j, i < exampleUniLower.rows → j < exampleUniLower.columns →
        A.callConst i j = exampleUniLower.get i j :=
  have hd : ∀ i, i < exampleUniLower.rows → exampleUniLower.get i i = 1 := by
    intro i hi
    have hi2 : i < 2 := hi
    interval_cases i <;> rfl
  have hu : ∀ i j, i < j → j < exampleUniLower.columns → exampleUniLower.get i j = 0 := by
    intro i j hij hj
    have hj2 : j < 2 := hj
    interval_cases j
    · omega
    · interval_cases i
      rfl
  ⟨⟨exampleUniLower_WF, rfl, hd, hu⟩,
    C3_convert_round_trip exampleUniLower exampleUniLower_WF rfl hd hu⟩

/-- C4: The sized constructor builds the identity: `UniLowerMatrix(n)` is `n × n`, stores
`n` entries, one in each row/column, reads 1 on the diagonal and 0 everywhere else. -/
theorem C4_sized_constructor_identity {SO : Bool} (n : Nat) :
    (sized n : UniLowerMatrix SO).rows = n ∧
    (sized n : UniLowerMatrix SO).columns = n ∧
    (sized n : UniLowerMatrix SO).nonZeros = n ∧
    (∀ i, i < n → (sized n : UniLowerMatrix SO).nonZerosAt i = 1) ∧
    (∀ i, i < n → (sized n : UniLowerMatrix SO).callConst i i = 1) ∧
    (∀ i j, i ≠ j → (sized n : UniLowerMatrix SO).callConst i j = 0) := by
  refine ⟨sized_rows n, sized_columns n, sized_nonZeros n, ?_, ?_, ?_⟩
  · intro i hi
    show ((sized n : UniLowerMatrix SO).matrix_.lines i).length = 1
    rw [sized_lines, if_pos hi]
    rfl
  · intro i hi
    show (sized n : UniLowerMatrix SO).matrix_.get i i = 1
    rw [sized_get]
    simp [hi]
  · intro i j hij
    show (sized n : UniLowerMatrix SO).matrix_.get i j = 0
    rw [sized_get]
    have : ¬ (i = j ∧ i < n) := fun h => hij h.1
    rw [if_neg this]

/-- C5: For a valid adaptor and in-range `i ≤ j`, every write through the value returned by
the mutable `operator()(i,j)` (assignment, `+=`, `-=`, `*=`, `/=`) raises
`std::invalid_argument` and leaves every cell value unchanged: the diagonal still reads 1
and the cells above it still read 0. -/
theorem C5_restricted_cells_reject_writes {SO : Bool} (A : UniLowerMatrix SO)
    (hA : A.Invariant) (i j : Nat) (_hi : i < A.rows) (_hj : j < A.columns) (hij : i ≤ j)
    (v : ElementType) :
    rejectedWrite A ((A.call i j).2.assign (A.call i j).1 v) ∧
    rejectedWrite A ((A.call i j).2.addAssign (A.call i j).1 v) ∧
    rejectedWrite A ((A.call i j).2.subAssign (A.call i j).1 v) ∧
    rejectedWrite A ((A.call i j).2.mulAssign (A.call i j).1 v) ∧
    rejectedWrite A ((A.call i j).2.divAssign (A.call i j).1 v) :=
  ⟨rejectedWrite_write A hA i j hij _, rejectedWrite_write A hA i j hij _,
    rejectedWrite_write A hA i j hij _, rejectedWrite_write A hA i j hij _,
    rejectedWrite_write A hA i j hij _⟩

/-- C5 at the 3×3 identity: an assignment to the cell `(0,1)` above the diagonal and an
addition assignment to the diagonal cell `(1,1)`. -/
theorem C5_restricted_cells_reject_writes_witness :
    ((UniLowerMatrix.sized 3 : UniLowerMatrix false).Invariant ∧
      0 < (UniLowerMatrix.sized 3 : UniLowerMatrix false).rows ∧
      1 < (UniLowerMatrix.sized 3 : UniLowerMatrix false).columns ∧ 0 ≤ 1) ∧
    rejectedWrite (UniLowerMatrix.sized 3 : UniLowerMatrix false)
      (((UniLowerMatrix.sized 3 : UniLowerMatrix false).call 0 1).2.assign
        ((UniLowerMatrix.sized 3 : UniLowerMatrix false).call 0 1).1 5) ∧
    rejectedWrite (UniLowerMatrix.sized 3 : UniLowerMatrix false)
      (((UniLowerMatrix.sized 3 : UniLowerMatrix false).call 1 1).2.addAssign
        ((UniLowerMatrix.sized 3 : UniLowerMatrix false).call 1 1).1 5) :=
  ⟨⟨Invariant.sized 3, by decide, by decide, by decide⟩,
    (C5_restricted_cells_reject_writes (UniLowerMatrix.sized 3) (Invariant.sized 3) 0 1
      (by decide) (by decide) (by decide) 5).1,
    (C5_restricted_cells_reject_writes (UniLowerMatrix.sized 3) (Invariant.sized 3) 1 1
      (by decide) (by decide) (by decide) 5).2.1⟩

/-- C6: A guarded value (and a guarded element) constructed with the diagonal flag set rejects
`=`, `+=`, `-=`, `*=`, `/=` and the real/imaginary setters with `std::invalid_argument` for
every argument and leaves the referenced cell unchanged; conversion to the element value
returns the content of the cell. -/
theorem C6_guarded_value_diagonal {α : Type} [Numeric α] (cell v : α) (c : ComplexElement)
    (value : Int) (l : Line) (pos : Nat) (x : ElementType) :
    (((UniLowerValue.mk true).copyAssign cell v).raisesInvalidArgument ∧
      ((UniLowerValue.mk true).copyAssign cell v).state = cell) ∧
    (((UniLowerValue.mk true).assign cell v).raisesInvalidArgument ∧
      ((UniLowerValue.mk true).assign cell v).state = cell) ∧
    (((UniLowerValue.mk true).addAssign cell v).raisesInvalidArgument ∧
      ((UniLowerValue.mk true).addAssign cell v).state = cell) ∧
    (((UniLowerValue.mk true).subAssign cell v).raisesInvalidArgument ∧
      ((UniLowerValue.mk true).subAssign cell v).state = cell) ∧
    (((UniLowerValue.mk true).mulAssign cell v).raisesInvalidArgument ∧
      ((UniLowerValue.mk true).mulAssign cell v).state = cell) ∧
    (∃ o, (UniLowerValue.mk true).divAssign cell v = some o ∧ o.raisesInvalidArgument ∧
      o.state = cell) ∧
    (((UniLowerValue.mk true).setReal c value).raisesInvalidArgument ∧
      ((UniLowerValue.mk true).setReal c value).state = c) ∧
    (((UniLowerValue.mk true).setImag c value).raisesInvalidArgument ∧
      ((UniLowerValue.mk true).setImag c value).state = c) ∧
    (UniLowerValue.mk true).toElementType cell = cell ∧
    (((UniLowerElement.mk pos true).assign l x).raisesInvalidArgument ∧
      ((UniLowerElement.mk pos true).assign l x).state = l) ∧
    (((UniLowerElement.mk pos true).addAssign l x).raisesInvalidArgument ∧
      ((UniLowerElement.mk pos true).addAssign l x).state = l) ∧
    (((UniLowerElement.mk pos true).subAssign l x).raisesInvalidArgument ∧
      ((UniLowerElement.mk pos true).subAssign l x).state = l) ∧
    (((UniLowerElement.mk pos true).mulAssign l x).raisesInvalidArgument ∧
      ((UniLowerElement.mk pos true).mulAssign l x).state = l) ∧
    (((UniLowerElement.mk pos true).divAssign l x).raisesInvalidArgument ∧
      ((UniLowerElement.mk pos true).divAssign l x).state = l) ∧
    (UniLowerElement.mk pos true).value = UniLowerValue.mk true := by
  refine ⟨⟨⟨_, rfl⟩, rfl⟩, ⟨⟨_, rfl⟩, rfl⟩, ⟨⟨_, rfl⟩, rfl⟩, ⟨⟨_, rfl⟩, rfl⟩, ⟨⟨_, rfl⟩, rfl⟩,
    ⟨_, rfl, ⟨_, rfl⟩, rfl⟩, ⟨⟨_, rfl⟩, rfl⟩, ⟨⟨_, rfl⟩, rfl⟩, rfl, ⟨⟨_, rfl⟩, rfl⟩, ⟨⟨_, rfl⟩, rfl⟩,
    ⟨⟨_, rfl⟩, rfl⟩, ⟨⟨_, rfl⟩, rfl⟩, ⟨⟨_, rfl⟩, rfl⟩, rfl⟩

/-- C7: A guarded value constructed with the diagonal flag clear forwards every write to the
cell and never raises: `=` leaves `v`, `+=`, `-=` and `*=` leave the sum, the difference and the
product of the element type, `/=` leaves its quotient wherever the element type defines one,
and conversion to the element value returns the content of the cell. For a cell of type `int`
holding `a`: `+=`, `-=` and `*=` leave `a+b`, `a-b` and `a*b` reduced modulo `2^32` into the range
of `int`, which is the exact result whenever that is representable, and `/=` leaves `a/b`
truncated towards zero for every divisor `b ≠ 0` other than `INT_MIN / -1`; the division has
no defined result in these two cases. -/
theorem C7_guarded_value_free {α : Type} [Numeric α] (x v : α) (a b : Int) :
    (((UniLowerValue.mk false).assign x v).succeeds ∧
      ((UniLowerValue.mk false).assign x v).state = v) ∧
    (((UniLowerValue.mk false).addAssign x v).succeeds ∧
      ((UniLowerValue.mk false).addAssign x v).state = Numeric.add x v) ∧
    (((UniLowerValue.mk false).subAssign x v).succeeds ∧
      ((UniLowerValue.mk false).subAssign x v).state = Numeric.sub x v) ∧
    (((UniLowerValue.mk false).mulAssign x v).succeeds ∧
      ((UniLowerValue.mk false).mulAssign x v).state = Numeric.mul x v) ∧
    ((∀ q, Numeric.div x v = some q →
        ∃ o, (UniLowerValue.mk false).divAssign x v = some o ∧ o.succeeds ∧ o.state = q) ∧
      (∀ o, (UniLowerValue.mk false).divAssign x v = some o →
        o.succeeds ∧ Numeric.div x v = some o.state)) ∧
    (UniLowerValue.mk false).toElementType x = x ∧
    (((UniLowerValue.mk false).addAssign a b).state = wrapInt (a + b) ∧
      intInRange ((UniLowerValue.mk false).addAssign a b).state ∧
      (intInRange (a + b) → ((UniLowerValue.mk false).addAssign a b).state = a + b)) ∧
    (((UniLowerValue.mk false).subAssign a b).state = wrapInt (a - b) ∧
      intInRange ((UniLowerValue.mk false).subAssign a b).state ∧
      (intInRange (a - b) → ((UniLowerValue.mk false).subAssign a b).state = a - b)) ∧
    (((UniLowerValue.mk false).mulAssign a b).state = wrapInt (a * b) ∧
      intInRange ((UniLowerValue.mk false).mulAssign a b).state ∧
      (intInRange (a * b) → ((UniLowerValue.mk false).mulAssign a b).state = a * b)) ∧
    (b ≠ 0 → ¬(a = -2 ^ 31 ∧ b = -1) →
      ∃ o, (UniLowerValue.mk false).divAssign a b = some o ∧ o.succeeds ∧
        o.state = Int.tdiv a b ∧ (intInRange a → intInRange o.state)) ∧
    ((b = 0 ∨ (a = -2 ^ 31 ∧ b = -1)) → (UniLowerValue.mk false).divAssign a b = none) := by
  refine ⟨⟨⟨_, rfl⟩, rfl⟩, ⟨⟨_, rfl⟩, rfl⟩, ⟨⟨_, rfl⟩, rfl⟩, ⟨⟨_, rfl⟩, rfl⟩, ⟨?_, ?_⟩, rfl,
    ⟨rfl, wrapInt_inRange _, fun h => wrapInt_of_inRange _ h⟩,
    ⟨rfl, wrapInt_inRange _, fun h => wrapInt_of_inRange _ h⟩,
    ⟨rfl, wrapInt_inRange _, fun h => wrapInt_of_inRange _ h⟩, ?_, ?_⟩
  · intro q hq
    refine ⟨⟨q, Except.ok ()⟩, ?_, ⟨_, rfl⟩, rfl⟩
    simp [UniLowerValue.divAssign, hq]
  · intro o ho
    simp only [UniLowerValue.divAssign, Bool.false_eq_true, if_false, Option.map_eq_some'] at ho
    obtain ⟨q, hq, rfl⟩ := ho
    exact ⟨⟨_, rfl⟩, hq⟩
  · intro hb hmin
    have hd : intDiv a b = some (Int.tdiv a b) := by
      unfold intDiv
      rw [if_neg]
      rintro (h | h)
      · exact hb h
      · exact hmin h
    refine ⟨⟨Int.tdiv a b, Except.ok ()⟩, ?_, ⟨_, rfl⟩, rfl, fun ha => tdiv_inRange a b ha hb hmin⟩
    show Option.map _ (intDiv a b) = _
    rw [hd]
    rfl
  · intro h
    show Option.map _ (intDiv a b) = _
    unfold intDiv
    rw [if_pos h]
    rfl

/-- C7 on `int` cells: `6 += 3` leaves 9, `INT_MAX += 1` leaves `INT_MIN`, `-7 /= 2` leaves `-3`
and `7 /= 0` has no defined result. -/
theorem C7_guarded_value_free_witness :
    (intInRange (6 + 3) ∧ ((UniLowerValue.mk false).addAssign (6 : Int) 3).state = 6 + 3) ∧
    ((UniLowerValue.mk false).addAssign (2147483647 : Int) 1).state = -2147483648 ∧
    (∃ o, (UniLowerValue.mk false).divAssign (-7 : Int) 2 = some o ∧ o.succeeds ∧
      o.state = -3) ∧
    (UniLowerValue.mk false).divAssign (7 : Int) 0 = none :=
  ⟨⟨by decide, (C7_guarded_value_free (6 : Int) 3 6 3).2.2.2.2.2.2.1.2.2 (by decide)⟩,
    ((C7_guarded_value_free (0 : Int) 0 2147483647 1).2.2.2.2.2.2.1.1).trans (by decide),
    (let ⟨o, h1, h2, h3, _⟩ := (C7_guarded_value_free (0 : Int) 0 (-7) 2).2.2.2.2.2.2.2.2.2.1
      (by decide) (by decide)
     ⟨o, h1, h2, h3.trans (by decide)⟩),
    (C7_guarded_value_free (0 : Int) 0 7 0).2.2.2.2.2.2.2.2.2.2 (Or.inl rfl)⟩

/-- C8: Assignment of a non-computation matrix whose type does not guarantee
unit-lower-triangularity succeeds exactly when the matrix is square and unit lower
triangular; after success the adaptor has the dimensions of `M` and every cell equals the
corresponding cell of `M`. -/
theorem C8_assign_accepts_unilower {SO : Bool} (A : UniLowerMatrix SO)
    (M : CompressedMatrix SO) (hwf : M.WF) :
    ((A.assign M false).succeeds ↔
      (M.rows = M.columns ∧ (∀ i, i < M.rows → M.get i i = 1) ∧
        (∀ i j, i < j → j < M.columns → M.get i j = 0))) ∧
    ((A.assign M false).succeeds →
      (A.assign M false).state.rows = M.rows ∧
      (A.assign M false).state.columns = M.columns ∧
      ∀ i j, i < M.rows → j < M.columns →
        (A.assign M false).state.callConst i j = M.get i j) := by
  have hiff : M.isUniLower = true ↔
      (M.rows = M.columns ∧ (∀ i, i < M.rows → M.get i i = 1) ∧
        (∀ i j, i < j → j < M.columns → M.get i j = 0)) := by
    rw [CompressedMatrix.isUniLower_iff]
    constructor
    · rintro ⟨h1, h2, h3⟩
      refine ⟨h1, h2, fun i j hij hj => h3 i j ?_ hj hij⟩
      have : j < M.m_ := by rw [h1]; exact hj
      exact Nat.lt_trans hij this
    · rintro ⟨h1, h2, h3⟩
      exact ⟨h1, h2, fun i j _ hj hij => h3 i j hij hj⟩
  constructor
  · rw [assign_succeeds_iff, hiff]
  · intro hs
    have hU := (assign_succeeds_iff A M).mp hs
    rw [assign_state_of_isUniLower A M hU]
    refine ⟨resetUpper_rows _, resetUpper_columns _, ?_⟩
    intro i j _ hj
    show (UniLowerMatrix.resetUpper ⟨M⟩).matrix_.get i j = _
    rw [resetUpper_get _ hwf]
    by_cases h : lineOf SO i j < M.numLines ∧ i < j
    · rw [if_pos h]
      exact ((hiff.mp hU).2.2 i j h.2 hj).symm
    · rw [if_neg h]

/-- C8 at the 2×2 identity as target and the 2×2 unit lower source with an explicit zero. -/
theorem C8_assign_accepts_unilower_witness :
    exampleUniLower.WF ∧
    ((UniLowerMatrix.sized 2 : UniLowerMatrix false).assign exampleUniLower false).succeeds ∧
    ((UniLowerMatrix.sized 2 : UniLowerMatrix false).assign exampleUniLower
      false).state.callConst 1 0 = exampleUniLower.get 1 0 :=
  ⟨exampleUniLower_WF, by decide,
    ((C8_assign_accepts_unilower (UniLowerMatrix.sized 2) exampleUniLower
      exampleUniLower_WF).2 (by decide)).2.2 1 0 (by decide) (by decide)⟩

/-- C9: Validate-before-commit for assignment: when `A = M` raises `std::invalid_argument`,
on the non-computation path or on the computation path (the non-square rejection
included), the adaptor is left in the state it had before the call. -/
theorem C9_assign_failure_leaves_state {SO : Bool} (A : UniLowerMatrix SO)
    (M : CompressedMatrix SO) (isSquareT isUniLowerT : Bool) :
    ((A.assign M isUniLowerT).raisesInvalidArgument → (A.assign M isUniLowerT).state = A) ∧
    ((A.assignComputation M isSquareT isUniLowerT).raisesInvalidArgument →
      (A.assignComputation M isSquareT isUniLowerT).state = A) := by
  constructor
  · unfold UniLowerMatrix.assign
    by_cases h : (!isUniLowerT && !M.isUniLower) = true
    · rw [if_pos h]; intro _; rfl
    · rw [if_neg h]
      rintro ⟨w, hw⟩
      cases hw
  · unfold UniLowerMatrix.assignComputation
    by_cases h : (!isSquareT && !M.isSquare) = true
    · rw [if_pos h]; intro _; rfl
    · rw [if_neg h]
      by_cases h2 : isUniLowerT = true
      · rw [if_pos h2]
        rintro ⟨w, hw⟩
        cases hw
      · rw [if_neg h2]
        show Outcome.raisesInvalidArgument (if (!M.isUniLower) = true then _ else _) →
          Outcome.state (if (!M.isUniLower) = true then _ else _) = A
        by_cases h3 : (!M.isUniLower) = true
        · rw [if_pos h3]; intro _; rfl
        · rw [if_neg h3]
          rintro ⟨w, hw⟩
          cases hw

/-- C9 at the 2×2 identity, with a source that has a nonzero above the diagonal on the
non-computation path and a non-square source on the computation path. -/
theorem C9_assign_failure_leaves_state_witness :
    (((UniLowerMatrix.sized 2 : UniLowerMatrix false).assign exampleNotUniLower
        false).raisesInvalidArgument ∧
      ((UniLowerMatrix.sized 2 : UniLowerMatrix false).assign exampleNotUniLower false).state =
        UniLowerMatrix.sized 2) ∧
    (((UniLowerMatrix.sized 2 : UniLowerMatrix false).assignComputation exampleNonSquare
        false false).raisesInvalidArgument ∧
      ((UniLowerMatrix.sized 2 : UniLowerMatrix false).assignComputation exampleNonSquare
        false false).state = UniLowerMatrix.sized 2) :=
  ⟨⟨by decide,
    (C9_assign_failure_leaves_state (UniLowerMatrix.sized 2) exampleNotUniLower false false).1
      (by decide)⟩,
   ⟨by decide,
    (C9_assign_failure_leaves_state (UniLowerMatrix.sized 2) exampleNonSquare false false).2
      (by decide)⟩⟩

/-- C10, as stated, fails on the code: on the 2×2 identity, adding a matrix whose only
nonzero lies below the diagonal succeeds, and adding (or subtracting) a strictly upper
matrix raises. -/
theorem C10_addend_rule_counterexample :
    (exampleStrictlyLower.get 1 0 ≠ 0 ∧
      ¬ ((UniLowerMatrix.sized 2 : UniLowerMatrix false).addAssign exampleStrictlyLower
        false).raisesInvalidArgument) ∧
    ((∀ i, i < 2 → ∀ j, j < 2 → j ≤ i → exampleStrictlyUpper.get i j = 0) ∧
      ¬ ((UniLowerMatrix.sized 2 : UniLowerMatrix false).addAssign exampleStrictlyUpper
        false).succeeds ∧
      ¬ ((UniLowerMatrix.sized 2 : UniLowerMatrix false).subAssign exampleStrictlyUpper
        false).succeeds) := by
  decide

/-- C10, amended: for a valid `n × n` adaptor `u` and an `n × n` matrix `mat2` whose type is
not statically strictly lower, `u += mat2` and `u -= mat2` raise `std::invalid_argument`
whenever `mat2` has a nonzero on or above the diagonal, and succeed whenever `mat2` is
strictly lower (zero on and above the diagonal). -/
theorem C10_addend_rule_amended {SO : Bool} (u : UniLowerMatrix SO) (hu : u.Invariant)
    (mat2 : CompressedMatrix SO) (hr : mat2.rows = u.rows) (hc : mat2.columns = u.columns) :
    ((∃ i j, i < u.rows ∧ j < u.columns ∧ i ≤ j ∧ mat2.get i j ≠ 0) →
      (u.addAssign mat2 false).raisesInvalidArgument ∧
      (u.subAssign mat2 false).raisesInvalidArgument) ∧
    ((∀ i j, i < u.rows → j < u.columns → i ≤ j → mat2.get i j = 0) →
      (u.addAssign mat2 false).succeeds ∧ (u.subAssign mat2 false).succeeds) := by
  have hsq : mat2.m_ = mat2.n_ := by
    have h1 : mat2.m_ = u.matrix_.m_ := hr
    have h2 : mat2.n_ = u.matrix_.n_ := hc
    have h3 : u.matrix_.m_ = u.matrix_.n_ := hu.2.1
    omega
  constructor
  · rintro ⟨i, j, hi, hj, hij, hne⟩
    have hS : mat2.isStrictlyLower = false := by
      cases h : mat2.isStrictlyLower
      · rfl
      · exfalso
        obtain ⟨_, hz⟩ := (CompressedMatrix.isStrictlyLower_iff mat2).mp h
        exact hne (hz i j (by rw [show mat2.m_ = u.rows from hr]; exact hi)
          (by rw [show mat2.n_ = u.columns from hc]; exact hj) hij)
    exact ⟨(addAssign_raises_iff u mat2 hr hc).mpr hS, (subAssign_raises_iff u mat2 hr hc).mpr hS⟩
  · intro hz
    have hS : mat2.isStrictlyLower = true := by
      rw [CompressedMatrix.isStrictlyLower_iff]
      refine ⟨hsq, ?_⟩
      intro i j hi hj hij
      exact hz i j (by rw [← show mat2.m_ = u.rows from hr]; exact hi)
        (by rw [← show mat2.n_ = u.columns from hc]; exact hj) hij
    exact ⟨(addAssign_succeeds_iff u mat2 hr hc).mpr hS, (subAssign_succeeds_iff u mat2 hr hc).mpr hS⟩

/-- C10, amended, on the 2×2 identity: a strictly lower addend is accepted, an addend with a
nonzero above the diagonal is rejected. -/
theorem C10_addend_rule_amended_witness :
    ((UniLowerMatrix.sized 2 : UniLowerMatrix false).Invariant ∧
      exampleStrictlyLower.rows = (UniLowerMatrix.sized 2 : UniLowerMatrix false).rows ∧
      exampleStrictlyLower.columns = (UniLowerMatrix.sized 2 : UniLowerMatrix false).columns ∧
      exampleStrictlyUpper.rows = (UniLowerMatrix.sized 2 : UniLowerMatrix false).rows ∧
      exampleStrictlyUpper.columns = (UniLowerMatrix.sized 2 : UniLowerMatrix false).columns) ∧
    (((UniLowerMatrix.sized 2 : UniLowerMatrix false).addAssign exampleStrictlyLower
        false).succeeds ∧
      ((UniLowerMatrix.sized 2 : UniLowerMatrix false).subAssign exampleStrictlyLower
        false).succeeds) ∧
    (((UniLowerMatrix.sized 2 : UniLowerMatrix false).addAssign exampleStrictlyUpper
        false).raisesInvalidArgument ∧
      ((UniLowerMatrix.sized 2 : UniLowerMatrix false).subAssign exampleStrictlyUpper
        false).raisesInvalidArgument) :=
  ⟨⟨Invariant.sized 2, by decide, by decide, by decide, by decide⟩,
    (C10_addend_rule_amended (UniLowerMatrix.sized 2) (Invariant.sized 2) exampleStrictlyLower
      (by decide) (by decide)).2
      (by
        intro i j hi hj hij
        have hi2 : i < 2 := hi
        have hj2 : j < 2 := hj
        interval_cases i <;> interval_cases j <;> rfl),
    (C10_addend_rule_amended (UniLowerMatrix.sized 2) (Invariant.sized 2) exampleStrictlyUpper
      (by decide) (by decide)).1 ⟨0, 1, by decide, by decide, by decide, by decide⟩⟩

/-- C11: For a valid `n × n` adaptor `A` and an `n × n` matrix `B` whose type is not statically
strictly lower, `A += B` succeeds (on the non-computation and on the computation path)
exactly when `B` is zero on and above the diagonal; after success every cell of `A` reads
the old `A(i,j) + B(i,j)`, the diagonal still reads 1 and the part above it 0. -/
theorem C11_addAssign_strictly_lower {SO : Bool} (A : UniLowerMatrix SO) (hA : A.Invariant)
    (B : CompressedMatrix SO) (hr : B.rows = A.rows) (hc : B.columns = A.columns)
    (isSquareT : Bool) :
    ((A.addAssign B false).succeeds ↔
      ∀ i j, i < A.rows → j < A.columns → i ≤ j → B.get i j = 0) ∧
    ((A.addAssignComputation B isSquareT false).succeeds ↔
      ∀ i j, i < A.rows → j < A.columns → i ≤ j → B.get i j = 0) ∧
    ((A.addAssign B false).succeeds →
      cellwiseResult (fun x y => x + y) A B (A.addAssign B false).state) ∧
    ((A.addAssignComputation B isSquareT false).succeeds →
      cellwiseResult (fun x y => x + y) A B
        (A.addAssignComputation B isSquareT false).state) := by
  have hsq : B.isSquare = true := by
    rw [CompressedMatrix.isSquare_iff]
    have h1 : B.m_ = A.matrix_.m_ := hr
    have h2 : B.n_ = A.matrix_.n_ := hc
    have h3 : A.matrix_.m_ = A.matrix_.n_ := hA.2.1
    omega
  rw [addAssignComputation_eq A B hsq isSquareT]
  have hiff : (A.addAssign B false).succeeds ↔
      ∀ i j, i < A.rows → j < A.columns → i ≤ j → B.get i j = 0 := by
    rw [addAssign_succeeds_iff A B hr hc, isStrictlyLower_iff_cells A hA B hr hc]
  have hres : (A.addAssign B false).succeeds →
      cellwiseResult (fun x y => x + y) A B (A.addAssign B false).state := by
    intro hs
    exact cellwiseResult_addAssign A hA B hr hc ((addAssign_succeeds_iff A B hr hc).mp hs)
  exact ⟨hiff, hiff, hres, hres⟩

/-- C11 on the 2×2 identity and a strictly lower addend with the entry 5 at `(1,0)`. -/
theorem C11_addAssign_strictly_lower_witness :
    ((UniLowerMatrix.sized 2 : UniLowerMatrix false).Invariant ∧
      exampleStrictlyLower.rows = (UniLowerMatrix.sized 2 : UniLowerMatrix false).rows ∧
      exampleStrictlyLower.columns = (UniLowerMatrix.sized 2 : UniLowerMatrix false).columns) ∧
    ((UniLowerMatrix.sized 2 : UniLowerMatrix false).addAssign exampleStrictlyLower
      false).succeeds ∧
    cellwiseResult (fun x y => x + y) (UniLowerMatrix.sized 2) exampleStrictlyLower
      ((UniLowerMatrix.sized 2 : UniLowerMatrix false).addAssign exampleStrictlyLower
        false).state ∧
    ((UniLowerMatrix.sized 2 : UniLowerMatrix false).addAssign exampleStrictlyLower
      false).state.callConst 1 0 = 5 :=
  ⟨⟨Invariant.sized 2, by decide, by decide⟩, by decide,
    (C11_addAssign_strictly_lower (UniLowerMatrix.sized 2) (Invariant.sized 2)
      exampleStrictlyLower (by decide) (by decide) false).2.2.1 (by decide),
    by decide⟩

/-- C12: No partial mutation on a failed compound addition or subtraction: whenever `A += B`
or `A -= B` raises `std::invalid_argument`, on the non-computation or on the computation
path, the adaptor is left with the dimensions and the stored entries it had before. -/
theorem C12_compound_failure_leaves_state {SO : Bool} (A : UniLowerMatrix SO)
    (B : CompressedMatrix SO) (isSquareT isStrictlyLowerT : Bool) :
    ((A.addAssign B isStrictlyLowerT).raisesInvalidArgument →
      (A.addAssign B isStrictlyLowerT).state = A) ∧
    ((A.addAssignComputation B isSquareT isStrictlyLowerT).raisesInvalidArgument →
      (A.addAssignComputation B isSquareT isStrictlyLowerT).state = A) ∧
    ((A.subAssign B isStrictlyLowerT).raisesInvalidArgument →
      (A.subAssign B isStrictlyLowerT).state = A) ∧
    ((A.subAssignComputation B isSquareT isStrictlyLowerT).raisesInvalidArgument →
      (A.subAssignComputation B isSquareT isStrictlyLowerT).state = A) :=
  ⟨addAssign_raises_state A B isStrictlyLowerT,
    addAssignComputation_raises_state A B isSquareT isStrictlyLowerT,
    subAssign_raises_state A B isStrictlyLowerT,
    subAssignComputation_raises_state A B isSquareT isStrictlyLowerT⟩

/-- C12 on a rejected strictly upper addend and on an addend of the wrong size whose type is
statically strictly lower. -/
theorem C12_compound_failure_leaves_state_witness :
    (((UniLowerMatrix.sized 2 : UniLowerMatrix false).addAssign exampleStrictlyUpper
        false).raisesInvalidArgument ∧
      ((UniLowerMatrix.sized 2 : UniLowerMatrix false).addAssign exampleStrictlyUpper
        false).state = UniLowerMatrix.sized 2) ∧
    (((UniLowerMatrix.sized 3 : UniLowerMatrix false).subAssignComputation exampleStrictlyLower
        true true).raisesInvalidArgument ∧
      ((UniLowerMatrix.sized 3 : UniLowerMatrix false).subAssignComputation exampleStrictlyLower
        true true).state = UniLowerMatrix.sized 3) :=
  ⟨⟨by decide,
    (C12_compound_failure_leaves_state (UniLowerMatrix.sized 2) exampleStrictlyUpper
      false false).1 (by decide)⟩,
   ⟨by decide,
    (C12_compound_failure_leaves_state (UniLowerMatrix.sized 3) exampleStrictlyLower
      true true).2.2.2 (by decide)⟩⟩

/-- C13: `A *= B` raises `std::invalid_argument` when the column count of `B` differs from the
row count of `A`, when the product is not defined, and when the product `A * B` is not
unit lower triangular; in every raising case `A` keeps its dimensions and entries. -/
theorem C13_mulAssign_failure {SO : Bool} (A : UniLowerMatrix SO) (B : CompressedMatrix SO)
    (isUniLowerT : Bool) :
    (B.columns ≠ A.rows → (A.mulAssign B isUniLowerT).raisesInvalidArgument) ∧
    (B.rows ≠ A.columns → (A.mulAssign B isUniLowerT).raisesInvalidArgument) ∧
    (B.columns = A.rows → B.rows = A.columns →
      ¬ ((∀ i, i < A.rows → CompressedMatrix.productCell A.matrix_ B i i = 1) ∧
        (∀ i j, i < j → j < A.rows → CompressedMatrix.productCell A.matrix_ B i j = 0)) →
      (A.mulAssign B isUniLowerT).raisesInvalidArgument) ∧
    ((A.mulAssign B isUniLowerT).raisesInvalidArgument →
      (A.mulAssign B isUniLowerT).state = A) := by
  refine ⟨?_, ?_, ?_, mulAssign_raises_state A B isUniLowerT⟩
  · intro h
    unfold UniLowerMatrix.mulAssign
    have : A.matrix_.rows ≠ B.columns := fun e => h e.symm
    rw [if_pos this]
    exact ⟨_, rfl⟩
  · intro h
    unfold UniLowerMatrix.mulAssign
    by_cases hd : A.matrix_.rows ≠ B.columns
    · rw [if_pos hd]; exact ⟨_, rfl⟩
    · rw [if_neg hd, mul_error A.matrix_ B (fun e => h e.symm)]
      exact ⟨_, rfl⟩
  · intro h1 h2 hnot
    rw [mulAssign_conforming A B isUniLowerT h1 h2]
    have hn : B.n_ = A.matrix_.m_ := h1
    have hU : (CompressedMatrix.ofFn A.matrix_.m_ B.n_
        (CompressedMatrix.productCell A.matrix_ B) : CompressedMatrix SO).isUniLower = false := by
      cases hU : (CompressedMatrix.ofFn A.matrix_.m_ B.n_
        (CompressedMatrix.productCell A.matrix_ B) : CompressedMatrix SO).isUniLower
      · rfl
      · exfalso
        rw [hn, isUniLower_ofFn_iff] at hU
        exact hnot hU
    rw [hU]
    exact ⟨_, rfl⟩

/-- C13 on the 2×2 identity with the entry 5 at `(1,0)`: a factor whose product is not unit
lower triangular, and a factor with the wrong number of columns. -/
theorem C13_mulAssign_failure_witness :
    ((exampleWithEntry.mulAssign exampleNotUniLower false).raisesInvalidArgument ∧
      (exampleWithEntry.mulAssign exampleNotUniLower false).state = exampleWithEntry) ∧
    (exampleNonSquare.columns ≠ exampleWithEntry.rows ∧
      (exampleWithEntry.mulAssign exampleNonSquare false).raisesInvalidArgument ∧
      (exampleWithEntry.mulAssign exampleNonSquare false).state = exampleWithEntry) :=
  ⟨⟨by decide,
    (C13_mulAssign_failure exampleWithEntry exampleNotUniLower false).2.2.2 (by decide)⟩,
   ⟨by decide,
    (C13_mulAssign_failure exampleWithEntry exampleNonSquare false).1 (by decide),
    (C13_mulAssign_failure exampleWithEntry exampleNonSquare false).2.2.2 (by decide)⟩⟩

/-- C14: For a valid `n × n` adaptor `A` and an `n × n` matrix `B`, a successful `A *= B` leaves
`A` as an `n × n` matrix whose cell `(i,j)` is the sum over `k` of the old `A(i,k) * B(k,j)`,
and the new `A` is unit lower triangular. -/
theorem C14_mulAssign_result {SO : Bool} (A : UniLowerMatrix SO) (hA : A.Invariant)
    (B : CompressedMatrix SO) (hr : B.rows = A.rows) (hc : B.columns = A.columns)
    (isUniLowerT : Bool) (hs : (A.mulAssign B isUniLowerT).succeeds) :
    (A.mulAssign B isUniLowerT).state.rows = A.rows ∧
    (A.mulAssign B isUniLowerT).state.columns = A.columns ∧
    (∀ i j, i < A.rows → j < A.columns →
      (A.mulAssign B isUniLowerT).state.callConst i j =
        CompressedMatrix.productCell A.matrix_ B i j) ∧
    (∀ i, i < A.rows → (A.mulAssign B isUniLowerT).state.callConst i i = 1) ∧
    (∀ i j, i < j → j < A.rows → (A.mulAssign B isUniLowerT).state.callConst i j = 0) := by
  have hsq : A.matrix_.m_ = A.matrix_.n_ := hA.2.1
  have hm : B.m_ = A.matrix_.m_ := hr
  have hn : B.n_ = A.matrix_.n_ := hc
  have h1 : B.columns = A.rows := by
    show B.n_ = A.matrix_.m_
    omega
  have h2 : B.rows = A.columns := by
    show B.m_ = A.matrix_.n_
    omega
  have hinv : (A.mulAssign B isUniLowerT).state.Invariant := Invariant.mulAssign hA B isUniLowerT
  rw [mulAssign_conforming A B isUniLowerT h1 h2] at hs hinv ⊢
  have hn' : B.n_ = A.matrix_.m_ := h1
  cases hU : (CompressedMatrix.ofFn A.matrix_.m_ B.n_
      (CompressedMatrix.productCell A.matrix_ B) : CompressedMatrix SO).isUniLower
  · rw [hU] at hs
    obtain ⟨r, hr'⟩ := hs
    simp at hr'
  · rw [hU] at hinv
    simp only [if_true] at hinv ⊢
    have hU2 := hU
    rw [hn', isUniLower_ofFn_iff] at hU2
    have hwf : (⟨CompressedMatrix.ofFn A.matrix_.m_ B.n_
        (CompressedMatrix.productCell A.matrix_ B)⟩ : UniLowerMatrix SO).matrix_.WF :=
      CompressedMatrix.ofFn_WF A.matrix_.m_ B.n_ _
    have hcell : ∀ i j, i < A.rows → j < A.columns →
        (CompressedMatrix.ofFn A.matrix_.m_ B.n_
          (CompressedMatrix.productCell A.matrix_ B) : CompressedMatrix SO).get i j =
          CompressedMatrix.productCell A.matrix_ B i j := by
      intro i j hi hj
      rw [CompressedMatrix.get_ofFn, if_pos ⟨hi, by rw [hn]; exact hj⟩]
    cases isUniLowerT
    · simp only [Bool.not_false, if_true] at hinv ⊢
      refine ⟨?_, ?_, ?_, ?_, ?_⟩
      · rw [resetUpper_rows]; rfl
      · rw [resetUpper_columns]; exact hn
      · intro i j hi hj
        show (UniLowerMatrix.resetUpper _).matrix_.get i j = _
        rw [resetUpper_get _ hwf]
        by_cases h : lineOf SO i j < (CompressedMatrix.ofFn A.matrix_.m_ B.n_
            (CompressedMatrix.productCell A.matrix_ B) : CompressedMatrix SO).numLines ∧ i < j
        · rw [if_pos h]
          have hj' : j < A.matrix_.m_ := by
            have : j < A.matrix_.n_ := hj
            omega
          exact (hU2.2 i j h.2 hj').symm
        · rw [if_neg h]
          exact hcell i j hi hj
      · intro i hi
        exact hinv.2.2.1 i (by rw [resetUpper_rows]; exact hi)
      · intro i j hij hj
        exact hinv.2.2.2 i j hij (by rw [resetUpper_rows]; exact hj)
    · simp only [Bool.not_true, Bool.false_eq_true, if_false] at hinv ⊢
      refine ⟨rfl, hn, ?_, ?_, ?_⟩
      · intro i j hi hj
        exact hcell i j hi hj
      · intro i hi
        exact hinv.2.2.1 i hi
      · intro i j hij hj
        exact hinv.2.2.2 i j hij hj

/-- C14 on the 2×2 identity with the entry 5 at `(1,0)` and a unit lower factor with the entry
2 at `(1,0)`: the cell `(1,0)` of the product reads `5·1 + 1·2 = 7`. -/
theorem C14_mulAssign_result_witness :
    (exampleWithEntry.Invariant ∧
      exampleUniLowerFactor.rows = exampleWithEntry.rows ∧
      exampleUniLowerFactor.columns = exampleWithEntry.columns ∧
      (exampleWithEntry.mulAssign exampleUniLowerFactor false).succeeds) ∧
    (exampleWithEntry.mulAssign exampleUniLowerFactor false).state.callConst 1 0 =
      CompressedMatrix.productCell exampleWithEntry.matrix_ exampleUniLowerFactor 1 0 ∧
    CompressedMatrix.productCell exampleWithEntry.matrix_ exampleUniLowerFactor 1 0 = 7 :=
  ⟨⟨exampleWithEntry_Invariant, by decide, by decide, by decide⟩,
    (C14_mulAssign_result exampleWithEntry exampleWithEntry_Invariant exampleUniLowerFactor
      (by decide) (by decide) false (by decide)).2.2.1 1 0 (by decide) (by decide),
    by decide⟩

/-- C15: `set(i,j,value)` raises `std::invalid_argument` exactly when `i ≤ j` and then leaves the
matrix unchanged; for `i > j` it succeeds, afterwards cell `(i,j)` reads `value` and every
other cell reads what it read before. -/
theorem C15_set_strict_lower {SO : Bool} (A : UniLowerMatrix SO) (i j : Nat)
    (value : ElementType) :
    ((A.set i j value).raisesInvalidArgument ↔ i ≤ j) ∧
    (i ≤ j → (A.set i j value).state = A) ∧
    (j < i → (A.set i j value).succeeds ∧
      (A.set i j value).state.rows = A.rows ∧ (A.set i j value).state.columns = A.columns ∧
      (A.set i j value).state.callConst i j = value ∧
      ∀ a b, ¬ (a = i ∧ b = j) → (A.set i j value).state.callConst a b = A.callConst a b) := by
  unfold UniLowerMatrix.set
  by_cases hij : i ≤ j
  · rw [if_pos hij]
    refine ⟨⟨fun _ => hij, fun _ => ⟨_, rfl⟩⟩, fun _ => rfl, fun h => absurd hij (by omega)⟩
  · rw [if_neg hij]
    refine ⟨⟨?_, fun h => absurd h hij⟩, fun h => absurd h hij, fun _ => ⟨⟨_, rfl⟩, rfl, rfl, ?_, ?_⟩⟩
    · rintro ⟨w, hw⟩
      cases hw
    · show (A.matrix_.set i j value).1.get i j = value
      rw [CompressedMatrix.get_set, if_pos ⟨rfl, rfl⟩]
    · intro a b hab
      show (A.matrix_.set i j value).1.get a b = A.matrix_.get a b
      rw [CompressedMatrix.get_set, if_neg hab]

/-- C16: For in-range `i`, `j`, `insert(i,j,value)` raises `std::invalid_argument` if `i ≤ j` or
if an explicit entry is already stored at `(i,j)`, and leaves the matrix unchanged in both
cases; otherwise it succeeds, `nonZeros()` grows by exactly one and cell `(i,j)` reads
`value`. -/
theorem C16_insert_rejects_restricted_and_duplicates {SO : Bool} (A : UniLowerMatrix SO)
    (i j : Nat) (value : ElementType) (hi : i < A.rows) (hj : j < A.columns) :
    ((i ≤ j ∨ A.matrix_.stored i j = true) →
      (A.insert i j value).raisesInvalidArgument ∧ (A.insert i j value).state = A) ∧
    (j < i → A.matrix_.stored i j = false →
      (A.insert i j value).succeeds ∧
      (A.insert i j value).state.nonZeros = A.nonZeros + 1 ∧
      (A.insert i j value).state.callConst i j = value ∧
      ∀ a b, ¬ (a = i ∧ b = j) →
        (A.insert i j value).state.callConst a b = A.callConst a b) := by
  unfold UniLowerMatrix.insert CompressedMatrix.insert
  constructor
  · intro h
    by_cases hij : i ≤ j
    · rw [if_pos hij]
      exact ⟨⟨_, rfl⟩, rfl⟩
    · rw [if_neg hij]
      have hs : A.matrix_.stored i j = true := by
        rcases h with h | h
        · exact absurd h hij
        · exact h
      rw [if_pos hs]
      exact ⟨⟨_, rfl⟩, rfl⟩
  · intro hji hs
    have hij : ¬ i ≤ j := by omega
    have hs' : ¬ A.matrix_.stored i j = true := by rw [hs]; exact Bool.false_ne_true
    rw [if_neg hij, if_neg hs']
    have hl : lineOf SO i j < A.matrix_.numLines := by
      have hi' : i < A.matrix_.m_ := hi
      have hj' : j < A.matrix_.n_ := hj
      cases SO
      · exact hi'
      · exact hj'
    refine ⟨⟨_, rfl⟩, CompressedMatrix.nonZeros_set_of_not_stored A.matrix_ i j value hl hs, ?_, ?_⟩
    · show (A.matrix_.set i j value).1.get i j = value
      rw [CompressedMatrix.get_set, if_pos ⟨rfl, rfl⟩]
    · intro a b hab
      show (A.matrix_.set i j value).1.get a b = A.matrix_.get a b
      rw [CompressedMatrix.get_set, if_neg hab]

/-- C16 on the 2×2 identity: inserting at the free cell `(1,0)`, and inserting there again. -/
theorem C16_insert_rejects_restricted_and_duplicates_witness :
    (1 < (UniLowerMatrix.sized 2 : UniLowerMatrix false).rows ∧
      0 < (UniLowerMatrix.sized 2 : UniLowerMatrix false).columns ∧
      1 < exampleWithEntry.rows ∧ 0 < exampleWithEntry.columns) ∧
    (((UniLowerMatrix.sized 2 : UniLowerMatrix false).insert 1 0 5).succeeds ∧
      ((UniLowerMatrix.sized 2 : UniLowerMatrix false).insert 1 0 5).state.nonZeros =
        (UniLowerMatrix.sized 2 : UniLowerMatrix false).nonZeros + 1) ∧
    ((exampleWithEntry.insert 1 0 7).raisesInvalidArgument ∧
      (exampleWithEntry.insert 1 0 7).state = exampleWithEntry) :=
  ⟨⟨by decide, by decide, by decide, by decide⟩,
    ⟨((C16_insert_rejects_restricted_and_duplicates (UniLowerMatrix.sized 2) 1 0 5
        (by decide) (by decide)).2 (by decide) (by decide)).1,
      ((C16_insert_rejects_restricted_and_duplicates (UniLowerMatrix.sized 2) 1 0 5
        (by decide) (by decide)).2 (by decide) (by decide)).2.1⟩,
    (C16_insert_rejects_restricted_and_duplicates exampleWithEntry 1 0 7
      (by decide) (by decide)).1 (Or.inr (by decide))⟩

/-- C17: Erasing a range is all-or-nothing. If the range `[first,last)` of row/column `i`
contains the diagonal element, `erase(i,first,last)` raises `std::invalid_argument` and the
matrix is unchanged. Otherwise it succeeds, exactly the elements at the positions of the
range are removed from row/column `i` (the cells they held read 0), and every other element
and cell is unchanged. -/
theorem C17_eraseRange_all_or_nothing {SO : Bool} (A : UniLowerMatrix SO) (hA : A.Invariant)
    (i : Nat) (first last : Iterator) (hfl : first.pos_ ≤ last.pos_)
    (hl : last.pos_ ≤ (A.matrix_.lines i).length) :
    ((A.matrix_.lines i).rangeContainsIndex first.pos_ last.pos_ i →
      (A.eraseRange i first last).raisesInvalidArgument ∧
      (A.eraseRange i first last).state = A) ∧
    (¬ (A.matrix_.lines i).rangeContainsIndex first.pos_ last.pos_ i →
      (A.eraseRange i first last).succeeds ∧
      (A.eraseRange i first last).state.rows = A.rows ∧
      (A.eraseRange i first last).state.columns = A.columns ∧
      (∀ k, k ≠ i → (A.eraseRange i first last).state.matrix_.lines k = A.matrix_.lines k) ∧
      (∀ q, ((A.eraseRange i first last).state.matrix_.lines i).get? q =
        if q < first.pos_ then (A.matrix_.lines i).get? q
        else (A.matrix_.lines i).get? (q + (last.pos_ - first.pos_))) ∧
      (∀ a b, lineOf SO a b = i →
        (A.matrix_.lines i).rangeContainsIndex first.pos_ last.pos_ (indexOf SO a b) →
        (A.eraseRange i first last).state.callConst a b = 0) ∧
      (∀ a b, ¬ (lineOf SO a b = i ∧
          (A.matrix_.lines i).rangeContainsIndex first.pos_ last.pos_ (indexOf SO a b)) →
        (A.eraseRange i first last).state.callConst a b = A.callConst a b)) := by
  unfold UniLowerMatrix.eraseRange
  constructor
  · intro h
    rw [if_pos ((eraseRange_check_iff A i first last).mpr h)]
    exact ⟨⟨_, rfl⟩, rfl⟩
  · intro h
    have hc : ¬ (List.range' first.pos_ (last.pos_ - first.pos_)).any
        (fun p => decide ((A.matrix_.lines i).indexAt p = some i)) = true :=
      fun hc => h ((eraseRange_check_iff A i first last).mp hc)
    rw [if_neg hc]
    refine ⟨⟨_, rfl⟩, rfl, rfl, ?_, ?_, ?_, ?_⟩
    · intro k hk
      show (A.matrix_.withLine i _).lines k = _
      rw [CompressedMatrix.lines_withLine, if_neg hk]
    · intro q
      show ((A.matrix_.withLine i _).lines i).get? q = _
      rw [CompressedMatrix.lines_withLine, if_pos rfl]
      exact Line.get?_eraseRange _ hfl hl q
    · intro a b hab hcont
      show (A.matrix_.withLine i _).get a b = 0
      rw [CompressedMatrix.get_withLine, if_pos hab]
      exact Line.value_eraseRange_of_contains (hA.1 i) _ hcont
    · intro a b hab
      show (A.matrix_.withLine i _).get a b = A.matrix_.get a b
      rw [CompressedMatrix.get_withLine]
      by_cases hline : lineOf SO a b = i
      · rw [if_pos hline]
        have hno : ∀ p, first.pos_ ≤ p → p < last.pos_ →
            (A.matrix_.lines i).indexAt p ≠ some (indexOf SO a b) :=
          fun p hp1 hp2 hp => hab ⟨hline, p, hp1, hp2, hp⟩
        show ((A.matrix_.lines i).eraseRange first.pos_ last.pos_).value _ = _
        rw [Line.value_eraseRange (hA.1 i) hfl _ hno]
        show _ = (A.matrix_.lines (lineOf SO a b)).value (indexOf SO a b)
        rw [hline]
      · rw [if_neg hline]

/-- C17 on row 1 of the 2×2 identity with the entry 5 at `(1,0)`, which holds the elements
`(0,5)` and `(1,1)`: erasing both positions is rejected, erasing the first one succeeds. -/
theorem C17_eraseRange_all_or_nothing_witness :
    (exampleWithEntry.Invariant ∧ (0 : Nat) ≤ 2 ∧
      2 ≤ (exampleWithEntry.matrix_.lines 1).length ∧ (0 : Nat) ≤ 1 ∧
      1 ≤ (exampleWithEntry.matrix_.lines 1).length) ∧
    ((exampleWithEntry.eraseRange 1 ⟨0, 1⟩ ⟨2, 1⟩).raisesInvalidArgument ∧
      (exampleWithEntry.eraseRange 1 ⟨0, 1⟩ ⟨2, 1⟩).state = exampleWithEntry) ∧
    ((exampleWithEntry.eraseRange 1 ⟨0, 1⟩ ⟨1, 1⟩).succeeds ∧
      (exampleWithEntry.eraseRange 1 ⟨0, 1⟩ ⟨1, 1⟩).state.callConst 1 0 = 0 ∧
      (exampleWithEntry.eraseRange 1 ⟨0, 1⟩ ⟨1, 1⟩).state.callConst 1 1 = 1) :=
  have hno : ¬ (exampleWithEntry.matrix_.lines 1).rangeContainsIndex 0 1 1 := by
    rintro ⟨p, _, hp2, hp3⟩
    have hp : p = 0 := by omega
    subst hp
    revert hp3
    decide
  ⟨⟨exampleWithEntry_Invariant, by decide, by decide, by decide, by decide⟩,
    (C17_eraseRange_all_or_nothing exampleWithEntry exampleWithEntry_Invariant 1 ⟨0, 1⟩ ⟨2, 1⟩
      (by decide) (by decide)).1 ⟨1, by decide, by decide, by decide⟩,
    ((C17_eraseRange_all_or_nothing exampleWithEntry exampleWithEntry_Invariant 1 ⟨0, 1⟩ ⟨1, 1⟩
      (by decide) (by decide)).2 hno).1,
    ((C17_eraseRange_all_or_nothing exampleWithEntry exampleWithEntry_Invariant 1 ⟨0, 1⟩ ⟨1, 1⟩
      (by decide) (by decide)).2 hno).2.2.2.2.2.1 1 0 rfl ⟨0, by decide, by decide, by decide⟩,
    by decide⟩

/-- C18: `erase(i,j)` raises `std::invalid_argument` exactly when `i = j`, and `erase(i,pos)`
exactly when `pos` is not the end of row/column `i` and refers to the diagonal element.
When they raise the matrix is unchanged; when they succeed only the addressed entry is
removed (its cell then reads 0) and every other cell is unchanged. -/
theorem C18_erase_single_element {SO : Bool} (A : UniLowerMatrix SO) (hA : A.Invariant)
    (i j : Nat) (pos : Iterator) :
    (((A.erase i j).raisesInvalidArgument ↔ i = j) ∧
      (i = j → (A.erase i j).state = A) ∧
      (i ≠ j → (A.erase i j).succeeds ∧
        (A.erase i j).state.callConst i j = 0 ∧
        (A.erase i j).state.matrix_.stored i j = false ∧
        ∀ a b, ¬ (a = i ∧ b = j) →
          (A.erase i j).state.callConst a b = A.callConst a b ∧
          (A.erase i j).state.matrix_.stored a b = A.matrix_.stored a b)) ∧
    (((A.erasePos i pos).raisesInvalidArgument ↔
        (pos.pos_ ≠ (A.matrix_.lines i).length ∧
          (A.matrix_.lines i).indexAt pos.pos_ = some i)) ∧
      ((A.erasePos i pos).raisesInvalidArgument → (A.erasePos i pos).state = A) ∧
      (¬ (A.erasePos i pos).raisesInvalidArgument →
        (A.erasePos i pos).succeeds ∧
        (∀ k, k ≠ i → (A.erasePos i pos).state.matrix_.lines k = A.matrix_.lines k) ∧
        (∀ q, ((A.erasePos i pos).state.matrix_.lines i).get? q =
          if q < pos.pos_ then (A.matrix_.lines i).get? q
          else (A.matrix_.lines i).get? (q + 1)) ∧
        (∀ a b, lineOf SO a b = i →
          (A.matrix_.lines i).indexAt pos.pos_ = some (indexOf SO a b) →
          (A.erasePos i pos).state.callConst a b = 0) ∧
        (∀ a b, ¬ (lineOf SO a b = i ∧
            (A.matrix_.lines i).indexAt pos.pos_ = some (indexOf SO a b)) →
          (A.erasePos i pos).state.callConst a b = A.callConst a b))) := by
  constructor
  · unfold UniLowerMatrix.erase
    by_cases hij : i = j
    · rw [if_pos hij]
      exact ⟨⟨fun _ => hij, fun _ => ⟨_, rfl⟩⟩, fun _ => rfl, fun h => absurd hij h⟩
    · rw [if_neg hij]
      refine ⟨⟨?_, fun h => absurd h hij⟩, fun h => absurd h hij, fun _ => ⟨⟨_, rfl⟩, ?_, ?_, ?_⟩⟩
      · rintro ⟨w, hw⟩
        cases hw
      · show (A.matrix_.erase i j).get i j = 0
        rw [CompressedMatrix.get_erase, if_pos ⟨rfl, rfl⟩]
      · show (A.matrix_.erase i j).stored i j = false
        rw [CompressedMatrix.stored_erase]
        simp
      · intro a b hab
        constructor
        · show (A.matrix_.erase i j).get a b = A.matrix_.get a b
          rw [CompressedMatrix.get_erase, if_neg hab]
        · show (A.matrix_.erase i j).stored a b = A.matrix_.stored a b
          rw [CompressedMatrix.stored_erase]
          simp [hab]
  · unfold UniLowerMatrix.erasePos
    by_cases hc : pos.base ≠ A.matrix_.end_ i ∧ (A.matrix_.lines i).indexAt pos.pos_ = some i
    · rw [if_pos hc]
      exact ⟨⟨fun _ => hc, fun _ => ⟨_, rfl⟩⟩, fun _ => rfl, fun h => absurd ⟨_, rfl⟩ h⟩
    · rw [if_neg hc]
      have hnr : ¬ Outcome.raisesInvalidArgument
          (⟨⟨A.matrix_.erasePos i pos.base⟩, Except.ok ⟨pos.base, i⟩⟩ :
            Outcome (UniLowerMatrix SO) Iterator) := by
        rintro ⟨w, hw⟩
        cases hw
      refine ⟨⟨fun h => absurd h hnr, fun h => absurd h hc⟩, fun h => absurd h hnr,
        fun _ => ⟨⟨_, rfl⟩, ?_, ?_, ?_, ?_⟩⟩
      · intro k hk
        show (A.matrix_.withLine i _).lines k = _
        rw [CompressedMatrix.lines_withLine, if_neg hk]
      · intro q
        show ((A.matrix_.withLine i _).lines i).get? q = _
        rw [CompressedMatrix.lines_withLine, if_pos rfl]
        exact Line.get?_erasePos _ _ q
      · intro a b hab hidx
        show (A.matrix_.withLine i _).get a b = 0
        rw [CompressedMatrix.get_withLine, if_pos hab]
        exact Line.value_erasePos_of_index (hA.1 i) _ _ hidx
      · intro a b hab
        show (A.matrix_.withLine i _).get a b = A.matrix_.get a b
        rw [CompressedMatrix.get_withLine]
        by_cases hline : lineOf SO a b = i
        · rw [if_pos hline]
          have hno : (A.matrix_.lines i).indexAt pos.pos_ ≠ some (indexOf SO a b) :=
            fun hp => hab ⟨hline, hp⟩
          show ((A.matrix_.lines i).erasePos pos.pos_).value _ = _
          rw [Line.value_erasePos (hA.1 i) _ _ hno]
          show _ = (A.matrix_.lines (lineOf SO a b)).value (indexOf SO a b)
          rw [hline]
        · rw [if_neg hline]

/-- C18 on the 2×2 identity with the entry 5 at `(1,0)`: erasing `(1,0)` by indices and by
position, and the rejected erasure of the diagonal element of row 1. -/
theorem C18_erase_single_element_witness :
    exampleWithEntry.Invariant ∧
    ((exampleWithEntry.erase 1 0).succeeds ∧ (exampleWithEntry.erase 1 0).state.callConst 1 0 = 0) ∧
    ((exampleWithEntry.erasePos 1 ⟨1, 1⟩).raisesInvalidArgument ∧
      (exampleWithEntry.erasePos 1 ⟨1, 1⟩).state = exampleWithEntry) ∧
    (exampleWithEntry.erasePos 1 ⟨0, 1⟩).state.callConst 1 0 = 0 :=
  ⟨exampleWithEntry_Invariant,
    ⟨((C18_erase_single_element exampleWithEntry exampleWithEntry_Invariant 1 0 ⟨1, 1⟩).1.2.2
        (by decide)).1,
      ((C18_erase_single_element exampleWithEntry exampleWithEntry_Invariant 1 0 ⟨1, 1⟩).1.2.2
        (by decide)).2.1⟩,
    ⟨(C18_erase_single_element exampleWithEntry exampleWithEntry_Invariant 1 0 ⟨1, 1⟩).2.1.mpr
        ⟨by decide, by decide⟩,
      (C18_erase_single_element exampleWithEntry exampleWithEntry_Invariant 1 0 ⟨1, 1⟩).2.2.1
        (by decide)⟩,
    ((C18_erase_single_element exampleWithEntry exampleWithEntry_Invariant 1 0 ⟨0, 1⟩).2.2.2
      (by decide)).2.2.2.1 1 0 rfl (by decide)⟩

/-- C19, as stated, fails on the code: on the 2×2 identity with the entry 5 stored at `(1,0)`,
`append(1,0,7,false)` does not add the entry `(1,0) = 7`; the call raises and the cell
still reads 5. -/
theorem C19_append_counterexample :
    exampleWithEntry.callConst 1 0 = 5 ∧
    (exampleWithEntry.append 1 0 7 false).raisesInvalidArgument ∧
    (exampleWithEntry.append 1 0 7 false).state.callConst 1 0 = 5 := by
  decide

/-- C19, amended: `append(i,j,value,check)` raises `std::invalid_argument` whenever `i ≤ j`,
regardless of `check` and `value`; for `i > j` with `check` set and `value` zero it succeeds
and leaves the matrix unchanged; for `i > j` with `check` clear or `value` nonzero the entry
`(i,j) = value` is added when no entry is stored at `(i,j)`, and the call raises
`std::invalid_argument` and leaves the matrix unchanged when an entry is stored there. -/
theorem C19_append_amended {SO : Bool} (A : UniLowerMatrix SO) (i j : Nat)
    (value : ElementType) (check : Bool) :
    (i ≤ j → (A.append i j value check).raisesInvalidArgument ∧
      (A.append i j value check).state = A) ∧
    (j < i → check = true → value = 0 →
      (A.append i j value check).succeeds ∧ (A.append i j value check).state = A) ∧
    (j < i → (check = false ∨ value ≠ 0) → A.matrix_.stored i j = false →
      (A.append i j value check).succeeds ∧
      (A.append i j value check).state.matrix_.stored i j = true ∧
      (A.append i j value check).state.callConst i j = value ∧
      ∀ a b, ¬ (a = i ∧ b = j) →
        (A.append i j value check).state.callConst a b = A.callConst a b ∧
        (A.append i j value check).state.matrix_.stored a b = A.matrix_.stored a b) ∧
    (j < i → (check = false ∨ value ≠ 0) → A.matrix_.stored i j = true →
      (A.append i j value check).raisesInvalidArgument ∧
      (A.append i j value check).state = A) := by
  unfold UniLowerMatrix.append
  refine ⟨?_, ?_, ?_, ?_⟩
  · intro hij
    rw [if_pos hij]
    exact ⟨⟨_, rfl⟩, rfl⟩
  · intro hji hc hv
    have hij : ¬ i ≤ j := by omega
    subst hc; subst hv
    rw [if_neg hij]
    exact ⟨⟨_, rfl⟩, rfl⟩
  · intro hji hcv hs
    have hij : ¬ i ≤ j := by omega
    have hcond : (!check || !(value == 0)) = true := by
      rcases hcv with h | h
      · simp [h]
      · simp [h]
    have hs' : ¬ A.matrix_.stored i j = true := by rw [hs]; exact Bool.false_ne_true
    rw [if_neg hij, if_pos hcond]
    unfold CompressedMatrix.insert
    rw [if_neg hs']
    refine ⟨⟨_, rfl⟩, ?_, ?_, ?_⟩
    · show (A.matrix_.set i j value).1.stored i j = true
      rw [CompressedMatrix.stored_set_cell]
      simp
    · show (A.matrix_.set i j value).1.get i j = value
      rw [CompressedMatrix.get_set, if_pos ⟨rfl, rfl⟩]
    · intro a b hab
      constructor
      · show (A.matrix_.set i j value).1.get a b = A.matrix_.get a b
        rw [CompressedMatrix.get_set, if_neg hab]
      · show (A.matrix_.set i j value).1.stored a b = A.matrix_.stored a b
        rw [CompressedMatrix.stored_set_cell]
        simp [hab]
  · intro hji hcv hs
    have hij : ¬ i ≤ j := by omega
    have hcond : (!check || !(value == 0)) = true := by
      rcases hcv with h | h
      · simp [h]
      · simp [h]
    rw [if_neg hij, if_pos hcond]
    unfold CompressedMatrix.insert
    rw [if_pos hs]
    exact ⟨⟨_, rfl⟩, rfl⟩

/-- C19, amended, on 2×2 matrices: a rejected append on the diagonal, a skipped zero, an entry
added to the identity at the free cell `(1,0)`, and a duplicate. -/
theorem C19_append_amended_witness :
    ((0 : Nat) ≤ 0 ∧ (0 : Nat) < 1 ∧ exampleWithEntry.matrix_.stored 1 0 = true ∧
      (UniLowerMatrix.sized 2 : UniLowerMatrix false).matrix_.stored 1 0 = false) ∧
    ((exampleWithEntry.append 0 0 3 false).raisesInvalidArgument ∧
      (exampleWithEntry.append 0 0 3 false).state = exampleWithEntry) ∧
    ((exampleWithEntry.append 1 0 0 true).succeeds ∧
      (exampleWithEntry.append 1 0 0 true).state = exampleWithEntry) ∧
    (((UniLowerMatrix.sized 2 : UniLowerMatrix false).append 1 0 7 true).succeeds ∧
      ((UniLowerMatrix.sized 2 : UniLowerMatrix false).append 1 0 7 true).state.callConst 1 0
        = 7) ∧
    ((exampleWithEntry.append 1 0 7 false).raisesInvalidArgument ∧
      (exampleWithEntry.append 1 0 7 false).state = exampleWithEntry) :=
  ⟨⟨by decide, by decide, by decide, by decide⟩,
    (C19_append_amended exampleWithEntry 0 0 3 false).1 (by decide),
    (C19_append_amended exampleWithEntry 1 0 0 true).2.1 (by decide) rfl rfl,
    ⟨((C19_append_amended (UniLowerMatrix.sized 2) 1 0 7 true).2.2.1 (by decide)
        (Or.inr (by decide)) (by decide)).1,
      ((C19_append_amended (UniLowerMatrix.sized 2) 1 0 7 true).2.2.1 (by decide)
        (Or.inr (by decide)) (by decide)).2.2.1⟩,
    (C19_append_amended exampleWithEntry 1 0 7 false).2.2.2 (by decide) (Or.inl rfl)
      (by decide)⟩

/-- C20: Resize growth preserves identity: for a valid `n × n` adaptor (whose storage holds no
entry outside the matrix) and `m > n`, `resize(m, true)` succeeds and yields an `m × m`
adaptor in which every cell `(i,j)` with `i,j < n` reads what it read before, cell `(k,k)`
reads 1 for every `k` in `[n,m)`, and every other cell with an index in `[n,m)` reads 0. -/
theorem C20_resize_growth_preserves_identity {SO : Bool} (A : UniLowerMatrix SO)
    (hA : A.Invariant) (hB : A.matrix_.Bounded) (m : Nat) (hm : A.rows < m) :
    (A.resize m true).succeeds ∧
    (A.resize m true).state.rows = m ∧ (A.resize m true).state.columns = m ∧
    (∀ i j, i < A.rows → j < A.rows →
      (A.resize m true).state.callConst i j = A.callConst i j) ∧
    (∀ k, A.rows ≤ k → k < m → (A.resize m true).state.callConst k k = 1) ∧
    (∀ i j, i < m → j < m → i ≠ j → (A.rows ≤ i ∨ A.rows ≤ j) →
      (A.resize m true).state.callConst i j = 0) := by
  obtain ⟨h1, h2, h3, h4⟩ := resize_growth_lines A hA m hm
  have hlines : ∀ i j, (A.resize m true).state.callConst i j =
      Line.value (if A.rows ≤ lineOf SO i j ∧ lineOf SO i j < m then [(lineOf SO i j, 1)]
        else if lineOf SO i j < A.rows then
          (A.matrix_.lines (lineOf SO i j)).filter (fun e => decide (e.1 < m))
        else []) (indexOf SO i j) := by
    intro i j
    show ((A.resize m true).state.matrix_.lines (lineOf SO i j)).value (indexOf SO i j) = _
    rw [h4]
  have hrange : ∀ i j, i < m → j < m → lineOf SO i j < m ∧ indexOf SO i j < m := by
    intro i j hi hj
    cases SO
    · exact ⟨hi, hj⟩
    · exact ⟨hj, hi⟩
  refine ⟨⟨(), h1⟩, h2, h3, ?_, ?_, ?_⟩
  · intro i j hi hj
    have hL : lineOf SO i j < A.rows ∧ indexOf SO i j < A.rows := by
      cases SO
      · exact ⟨hi, hj⟩
      · exact ⟨hj, hi⟩
    rw [hlines, if_neg (by omega), if_pos hL.1,
      Line.value_filter (fun x => decide (x < m)) _ _]
    have : indexOf SO i j < m := by omega
    simp only [this, decide_True, if_true]
    rfl
  · intro k hk1 hk2
    rw [hlines, lineOf_diag, indexOf_diag, if_pos ⟨hk1, hk2⟩]
    simp [Line.value]
  · intro i j hi hj hij hor
    have hr := hrange i j hi hj
    have hne : lineOf SO i j ≠ indexOf SO i j := by
      cases SO
      · exact hij
      · exact fun e => hij e.symm
    rw [hlines]
    by_cases hL : A.rows ≤ lineOf SO i j
    · rw [if_pos ⟨hL, hr.1⟩]
      simp [Line.value, hne]
    · have hL' : lineOf SO i j < A.rows := by omega
      rw [if_neg (fun h => hL h.1), if_pos hL']
      have hidx : A.rows ≤ indexOf SO i j := by
        cases SO
        · rcases hor with h | h
          · exact absurd h hL
          · exact h
        · rcases hor with h | h
          · exact h
          · exact absurd h hL
      apply Line.value_eq_zero_of_forall_ne
      intro e he hek
      have hmem : e ∈ A.matrix_.lines (lineOf SO i j) := (List.mem_filter.mp he).1
      have hb := (hB _ e hmem).2
      rw [lineLength_of_Invariant hA] at hb
      omega

/-- C20 on the 2×2 row-major identity with the entry 5 at `(1,0)`, resized to 4×4. -/
theorem C20_resize_growth_preserves_identity_witness :
    (exampleWithEntry.Invariant ∧ exampleWithEntry.matrix_.Bounded ∧
      exampleWithEntry.rows < 4) ∧
    (exampleWithEntry.resize 4 true).succeeds ∧
    (exampleWithEntry.resize 4 true).state.rows = 4 ∧
    (exampleWithEntry.resize 4 true).state.callConst 1 0 = exampleWithEntry.callConst 1 0 ∧
    (exampleWithEntry.resize 4 true).state.callConst 3 3 = 1 ∧
    (exampleWithEntry.resize 4 true).state.callConst 3 1 = 0 :=
  ⟨⟨exampleWithEntry_Invariant, exampleWithEntry_Bounded, by decide⟩,
    (C20_resize_growth_preserves_identity exampleWithEntry exampleWithEntry_Invariant
      exampleWithEntry_Bounded 4 (by decide)).1,
    (C20_resize_growth_preserves_identity exampleWithEntry exampleWithEntry_Invariant
      exampleWithEntry_Bounded 4 (by decide)).2.1,
    (C20_resize_growth_preserves_identity exampleWithEntry exampleWithEntry_Invariant
      exampleWithEntry_Bounded 4 (by decide)).2.2.2.1 1 0 (by decide) (by decide),
    (C20_resize_growth_preserves_identity exampleWithEntry exampleWithEntry_Invariant
      exampleWithEntry_Bounded 4 (by decide)).2.2.2.2.1 3 (by decide) (by decide),
    (C20_resize_growth_preserves_identity exampleWithEntry exampleWithEntry_Invariant
      exampleWithEntry_Bounded 4 (by decide)).2.2.2.2.2 3 1 (by decide) (by decide)
      (by decide) (Or.inl (by decide))⟩

/-- C21, evaluated on the code: `resize(4, false)` on the valid 2×2 row-major identity succeeds and
yields a 4×4 matrix whose cells `(0,0)` and `(1,1)` read 0: the diagonal below the old size is
lost, only the new indices 2 and 3 receive the entry 1. With `preserve` set the cell `(0,0)`
still reads 1. -/
theorem C21_resize_without_preserve_loses_diagonal :
    (UniLowerMatrix.sized 2 : UniLowerMatrix false).Invariant ∧
    ((UniLowerMatrix.sized 2 : UniLowerMatrix false).resize 4 false).succeeds ∧
    ((UniLowerMatrix.sized 2 : UniLowerMatrix false).resize 4 false).state.rows = 4 ∧
    ((UniLowerMatrix.sized 2 : UniLowerMatrix false).resize 4 false).state.columns = 4 ∧
    ((UniLowerMatrix.sized 2 : UniLowerMatrix false).resize 4 false).state.callConst 0 0 = 0 ∧
    ((UniLowerMatrix.sized 2 : UniLowerMatrix false).resize 4 false).state.callConst 1 1 = 0 ∧
    ((UniLowerMatrix.sized 2 : UniLowerMatrix false).resize 4 false).state.callConst 2 2 = 1 ∧
    ((UniLowerMatrix.sized 2 : UniLowerMatrix false).resize 4 false).state.callConst 3 3 = 1 ∧
    ((UniLowerMatrix.sized 2 : UniLowerMatrix false).resize 4 true).state.callConst 0 0 = 1 :=
  ⟨Invariant.sized 2, by decide, by decide, by decide, by decide, by decide, by decide,
    by decide, by decide⟩

/-- C22, as stated, fails on the code: for `n = 2` and the capacities `[1, 0]` the constructor
raises `std::invalid_argument`, but at the throw the diagonal entry of row 0 has already been
appended to the storage, which then holds one entry. -/
theorem C22_capacity_check_counterexample :
    ctorRaisesInvalidArgument
      (sizedCapacities 2 [1, 0] : Except Exception (UniLowerMatrix false)) ∧
    (sizedCapacitiesStorage 2 [1, 0] :
      Outcome (CompressedMatrix false) Unit).raisesInvalidArgument ∧
    (sizedCapacitiesStorage 2 [1, 0] :
      Outcome (CompressedMatrix false) Unit).state.stored 0 0 = true ∧
    (sizedCapacitiesStorage 2 [1, 0] :
      Outcome (CompressedMatrix false) Unit).state.nonZeros = 1 :=
  ⟨⟨_, rfl⟩, by decide, by decide, by decide⟩

/-- C22, amended: for a capacity vector with at least `n` entries, `UniLowerMatrix(n, capacities)`
raises `std::invalid_argument` exactly when `capacities[i] == 0` for some `i < n`; the error is
raised at the first such `i`, when the storage under construction holds the diagonal entries
of the rows/columns before `i` and no other entry; when no entry is zero the result is the
`n × n` identity. -/
theorem C22_capacity_check_amended {SO : Bool} (n : Nat) (nonzeros : List Nat)
    (hlen : n ≤ nonzeros.length) :
    (ctorRaisesInvalidArgument
        (sizedCapacities n nonzeros : Except Exception (UniLowerMatrix SO)) ↔
      ∃ i, ∃ h : i < n, nonzeros.get ⟨i, Nat.lt_of_lt_of_le h hlen⟩ = 0) ∧
    (∀ i (hi : i < n), nonzeros.get ⟨i, Nat.lt_of_lt_of_le hi hlen⟩ = 0 →
      (∀ k (hk : k < i),
        nonzeros.get ⟨k, Nat.lt_of_lt_of_le (Nat.lt_trans hk hi) hlen⟩ ≠ 0) →
      (sizedCapacitiesStorage n nonzeros :
        Outcome (CompressedMatrix SO) Unit).raisesInvalidArgument ∧
      ∀ k, (sizedCapacitiesStorage n nonzeros :
        Outcome (CompressedMatrix SO) Unit).state.lines k = if k < i then [(k, 1)] else []) ∧
    ((∀ i (hi : i < n), nonzeros.get ⟨i, Nat.lt_of_lt_of_le hi hlen⟩ ≠ 0) →
      (sizedCapacities n nonzeros : Except Exception (UniLowerMatrix SO)) =
        Except.ok (sized n) ∧
      (sizedCapacitiesStorage n nonzeros : Outcome (CompressedMatrix SO) Unit) =
        ⟨(sized n : UniLowerMatrix SO).matrix_, Except.ok ()⟩) := by
  have hget : ∀ i (hi : i < n),
      nonzeros.getD i 0 = nonzeros.get ⟨i, Nat.lt_of_lt_of_le hi hlen⟩ :=
    fun i hi => getD_eq_get nonzeros i (Nat.lt_of_lt_of_le hi hlen)
  refine ⟨?_, ?_, ?_⟩
  · rw [sizedCapacities_raises_iff]
    constructor
    · rintro ⟨i, hi, hz⟩
      exact ⟨i, hi, by rw [← hget i hi]; exact hz⟩
    · rintro ⟨i, hi, hz⟩
      exact ⟨i, hi, by rw [hget i hi]; exact hz⟩
  · intro i hi hz hprev
    have h := @sizedCapacitiesStorage_first SO n nonzeros i hi
      (by rw [hget i hi]; exact hz)
      (fun k hk => by rw [hget k (Nat.lt_trans hk hi)]; exact hprev k hk)
    exact ⟨⟨_, h.1⟩, h.2⟩
  · intro hall
    have hall2 : ∀ k, k < n → nonzeros.getD k 0 ≠ 0 :=
      fun k hk => by rw [hget k hk]; exact hall k hk
    exact ⟨sizedCapacities_none n nonzeros hall2, sizedCapacitiesStorage_none n nonzeros hall2⟩

/-- C22, amended, on `n = 2`: the capacities `[1, 0]` raise after the diagonal entry of row 0 has
been appended, and the capacities `[1, 3]` give the 2×2 identity. -/
theorem C22_capacity_check_amended_witness :
    (2 ≤ ([1, 0] : List Nat).length ∧ 2 ≤ ([1, 3] : List Nat).length) ∧
    ((sizedCapacitiesStorage 2 [1, 0] :
        Outcome (CompressedMatrix false) Unit).raisesInvalidArgument ∧
      (sizedCapacitiesStorage 2 [1, 0] : Outcome (CompressedMatrix false) Unit).state.lines 0 =
        if 0 < 1 then [(0, 1)] else []) ∧
    (sizedCapacities 2 [1, 3] : Except Exception (UniLowerMatrix false)) =
      Except.ok (UniLowerMatrix.sized 2) :=
  ⟨⟨by decide, by decide⟩,
    ⟨((C22_capacity_check_amended 2 [1, 0] (by decide)).2.1 1 (by decide) rfl
        (fun k hk => by interval_cases k; simp)).1,
      ((C22_capacity_check_amended 2 [1, 0] (by decide)).2.1 1 (by decide) rfl
        (fun k hk => by interval_cases k; simp)).2 0⟩,
    ((C22_capacity_check_amended 2 [1, 3] (by decide)).2.2
      (fun i hi => by interval_cases i <;> simp)).1⟩

/-- C23: The adaptor is always square: `rows() == columns()` holds in every state reachable from
a constructor by public operations, successful or failed, `resize` (with either value of
`preserve`), `swap`, mutable element access and iterator writes included. -/
theorem C23_always_square {SO : Bool} (A : UniLowerMatrix SO) (h : ReachableResizing A) :
    A.rows = A.columns :=
  h.square

/-- C23 on the state after `resize(4, false)` of the 2×2 identity and on the state after a
rejected assignment of a 2×3 matrix. -/
theorem C23_always_square_witness :
    (ReachableResizing
        ((UniLowerMatrix.sized 2 : UniLowerMatrix false).resize 4 false).state ∧
      ((UniLowerMatrix.sized 2 : UniLowerMatrix false).resize 4 false).state.rows = 4 ∧
      ((UniLowerMatrix.sized 2 : UniLowerMatrix false).resize 4 false).state.rows =
        ((UniLowerMatrix.sized 2 : UniLowerMatrix false).resize 4 false).state.columns) ∧
    (ReachableResizing (exampleWithEntry.assign exampleNonSquare false).state ∧
      (exampleWithEntry.assign exampleNonSquare false).raisesInvalidArgument ∧
      (exampleWithEntry.assign exampleNonSquare false).state.rows =
        (exampleWithEntry.assign exampleNonSquare false).state.columns) :=
  ⟨⟨ReachableResizing.resize _ 4 false (ReachableResizing.sized 2), by decide,
      C23_always_square _ (ReachableResizing.resize _ 4 false (ReachableResizing.sized 2))⟩,
    ⟨ReachableResizing.assign _ exampleNonSquare false
        (ReachableResizing.set _ 1 0 5 (ReachableResizing.sized 2)) (fun h => by cases h),
      by decide,
      C23_always_square _ (ReachableResizing.assign _ exampleNonSquare false
        (ReachableResizing.set _ 1 0 5 (ReachableResizing.sized 2)) (fun h => by cases h))⟩⟩

/-- C24: For a valid `n × n` adaptor of either storage order, `reset()` leaves the adaptor
`n × n`, every diagonal cell reads 1, every off-diagonal cell reads 0, and when no entry was
stored above the diagonal `nonZeros(i)` is 1 for every `i < n`. -/
theorem C24_reset_identity {SO : Bool} (A : UniLowerMatrix SO) (hA : A.Invariant) :
    A.reset.rows = A.rows ∧ A.reset.columns = A.columns ∧
    (∀ i, i < A.rows → A.reset.callConst i i = 1) ∧
    (∀ i j, i < A.rows → j < A.rows → i ≠ j → A.reset.callConst i j = 0) ∧
    ((∀ i j, i < j → A.matrix_.stored i j = false) →
      ∀ i, i < A.rows → A.reset.nonZerosAt i = 1) := by
  have hinv := Invariant.reset hA
  have hr := reset_rows A
  refine ⟨hr, reset_columns A, ?_, ?_, fun hup i hi => reset_nonZerosAt hA hup i hi⟩
  · intro i hi
    exact hinv.2.2.1 i (by rw [hr]; exact hi)
  · intro i j hi hj hij
    by_cases hlt : i < j
    · exact hinv.2.2.2 i j hlt (by rw [hr]; exact hj)
    · have hji : j < i := by omega
      show A.reset.matrix_.get i j = 0
      rw [reset_get A hA.1]
      have hl : lineOf SO i j < A.matrix_.numLines := by
        rw [numLines_of_Invariant hA]
        unfold lineOf
        cases SO
        · exact hi
        · exact hj
      rw [if_pos ⟨hl, hji⟩]

/-- C24 on the 2×2 row-major identity with the entry 5 at `(1,0)`. -/
theorem C24_reset_identity_witness :
    (exampleWithEntry.Invariant ∧ ∀ i j, i < j → exampleWithEntry.matrix_.stored i j = false) ∧
    exampleWithEntry.callConst 1 0 = 5 ∧
    exampleWithEntry.reset.rows = exampleWithEntry.rows ∧
    exampleWithEntry.reset.callConst 1 1 = 1 ∧
    exampleWithEntry.reset.callConst 1 0 = 0 ∧
    exampleWithEntry.reset.nonZerosAt 1 = 1 :=
  ⟨⟨exampleWithEntry_Invariant, exampleWithEntry_no_upper⟩, by decide,
    (C24_reset_identity exampleWithEntry exampleWithEntry_Invariant).1,
    (C24_reset_identity exampleWithEntry exampleWithEntry_Invariant).2.2.1 1 (by decide),
    (C24_reset_identity exampleWithEntry exampleWithEntry_Invariant).2.2.2.1 1 0
      (by decide) (by decide) (by decide),
    (C24_reset_identity exampleWithEntry exampleWithEntry_Invariant).2.2.2.2
      exampleWithEntry_no_upper 1 (by decide)⟩

/-- C25: For a valid adaptor and in-range `i`, after `reset(i)` every cell `(i,j)` with `j < i`
reads 0 on a row-major adaptor and every cell `(k,i)` with `k > i` reads 0 on a column-major
adaptor; cell `(i,i)` still reads 1, every cell outside row `i` (respectively column `i`) and
every cell on or above the diagonal reads what it read before, and the size is unchanged. -/
theorem C25_resetAt_clears_free_part {SO : Bool} (A : UniLowerMatrix SO) (hA : A.Invariant)
    (i : Nat) (hi : i < A.rows) :
    (SO = false → ∀ j, j < i → (A.resetAt i).callConst i j = 0) ∧
    (SO = true → ∀ k, i < k → (A.resetAt i).callConst k i = 0) ∧
    (A.resetAt i).callConst i i = 1 ∧
    (∀ a b, lineOf SO a b ≠ i → (A.resetAt i).callConst a b = A.callConst a b) ∧
    (∀ a b, a ≤ b → (A.resetAt i).callConst a b = A.callConst a b) ∧
    (A.resetAt i).rows = A.rows ∧ (A.resetAt i).columns = A.columns := by
  refine ⟨?_, ?_, ?_, ?_, ?_, resetAt_rows A i, resetAt_columns A i⟩
  · intro hso j hj
    subst hso
    show (A.resetAt i).matrix_.get i j = 0
    rw [resetAt_get A hA.1, if_pos ⟨rfl, hj⟩]
  · intro hso k hk
    subst hso
    show (A.resetAt i).matrix_.get k i = 0
    rw [resetAt_get A hA.1, if_pos ⟨rfl, hk⟩]
  · show (A.resetAt i).matrix_.get i i = 1
    rw [resetAt_get A hA.1, if_neg (fun h => Nat.lt_irrefl _ h.2)]
    exact hA.2.2.1 i hi
  · intro a b hab
    show (A.resetAt i).matrix_.get a b = A.matrix_.get a b
    rw [resetAt_get A hA.1, if_neg (fun h => hab h.1)]
  · intro a b hab
    show (A.resetAt i).matrix_.get a b = A.matrix_.get a b
    rw [resetAt_get A hA.1, if_neg (fun h => by omega)]

/-- C25 on row 1 of the 2×2 row-major identity with the entry 5 at `(1,0)`. -/
theorem C25_resetAt_clears_free_part_witness :
    (exampleWithEntry.Invariant ∧ 1 < exampleWithEntry.rows) ∧
    exampleWithEntry.callConst 1 0 = 5 ∧
    (exampleWithEntry.resetAt 1).callConst 1 0 = 0 ∧
    (exampleWithEntry.resetAt 1).callConst 1 1 = 1 ∧
    (exampleWithEntry.resetAt 1).callConst 0 0 = exampleWithEntry.callConst 0 0 :=
  ⟨⟨exampleWithEntry_Invariant, by decide⟩, by decide,
    (C25_resetAt_clears_free_part exampleWithEntry exampleWithEntry_Invariant 1
      (by decide)).1 rfl 0 (by decide),
    (C25_resetAt_clears_free_part exampleWithEntry exampleWithEntry_Invariant 1
      (by decide)).2.2.1,
    (C25_resetAt_clears_free_part exampleWithEntry exampleWithEntry_Invariant 1
      (by decide)).2.2.2.1 0 0 (by decide)⟩

/-- C26: For valid adaptors `a` and `b`, after `a.swap(b)` the dimensions and every cell of `a`
are those of the old `b` and vice versa, both satisfy the unit-lower invariant, and swapping
twice restores both operands. (`swap` has no exception channel: it returns the two states.) -/
theorem C26_swap_exchanges {SO : Bool} (a b : UniLowerMatrix SO) (ha : a.Invariant)
    (hb : b.Invariant) :
    ((a.swap b).1.rows = b.rows ∧ (a.swap b).1.columns = b.columns ∧
      ∀ i j, (a.swap b).1.callConst i j = b.callConst i j) ∧
    ((a.swap b).2.rows = a.rows ∧ (a.swap b).2.columns = a.columns ∧
      ∀ i j, (a.swap b).2.callConst i j = a.callConst i j) ∧
    (a.swap b).1.Invariant ∧ (a.swap b).2.Invariant ∧
    (a.swap b).1.swap (a.swap b).2 = (a, b) :=
  ⟨⟨rfl, rfl, fun _ _ => rfl⟩, ⟨rfl, rfl, fun _ _ => rfl⟩, hb, ha, rfl⟩

/-- C26 on the 2×2 identity with the entry 5 at `(1,0)` and the 3×3 identity. -/
theorem C26_swap_exchanges_witness :
    (exampleWithEntry.Invariant ∧ (UniLowerMatrix.sized 3 : UniLowerMatrix false).Invariant) ∧
    (exampleWithEntry.swap (UniLowerMatrix.sized 3)).1.rows = 3 ∧
    (exampleWithEntry.swap (UniLowerMatrix.sized 3)).2.callConst 1 0 = 5 ∧
    (exampleWithEntry.swap (UniLowerMatrix.sized 3)).1.swap
      (exampleWithEntry.swap (UniLowerMatrix.sized 3)).2 =
        (exampleWithEntry, UniLowerMatrix.sized 3) :=
  ⟨⟨exampleWithEntry_Invariant, Invariant.sized 3⟩,
    ((C26_swap_exchanges exampleWithEntry (UniLowerMatrix.sized 3) exampleWithEntry_Invariant
      (Invariant.sized 3)).1.1).trans (sized_rows 3),
    ((C26_swap_exchanges exampleWithEntry (UniLowerMatrix.sized 3) exampleWithEntry_Invariant
      (Invariant.sized 3)).2.1.2.2 1 0).trans (by decide),
    (C26_swap_exchanges exampleWithEntry (UniLowerMatrix.sized 3) exampleWithEntry_Invariant
      (Invariant.sized 3)).2.2.2.2⟩

/-- C27: When `n*(n+1)` is representable in `size_t` (width `w`), `maxNonZeros(n)` is
`n*(n+1)/2`, the number of index pairs `(i,j)` with `j ≤ i < n` (`lowerCells n` lists exactly
these pairs, without repetition); for every `n` the result is `((n+1)*n mod 2^w)/2`. -/
theorem C27_maxNonZeros_counts_lower_cells (w n : Nat) :
    (n * (n + 1) < 2 ^ w →
      UniLowerMatrix.maxNonZeros w n = n * (n + 1) / 2 ∧
      UniLowerMatrix.maxNonZeros w n = (lowerCells n).length) ∧
    ((∀ p, p ∈ lowerCells n ↔ p.2 ≤ p.1 ∧ p.1 < n) ∧ (lowerCells n).Nodup) ∧
    UniLowerMatrix.maxNonZeros w n = ((n + 1) * n % 2 ^ w) / 2 := by
  refine ⟨fun h => ?_, ⟨mem_lowerCells n, nodup_lowerCells n⟩, maxNonZeros_eq w n⟩
  have h1 : UniLowerMatrix.maxNonZeros w n = n * (n + 1) / 2 := by
    rw [maxNonZeros_eq, Nat.mul_comm (n + 1) n, Nat.mod_eq_of_lt h]
  exact ⟨h1, by rw [h1, length_lowerCells]⟩

/-- C27 on `n = 3` with 64-bit `size_t`, and on `n = 5` with a 4-bit `size_t`, where the product
30 wraps to 14. -/
theorem C27_maxNonZeros_counts_lower_cells_witness :
    3 * (3 + 1) < 2 ^ 64 ∧
    UniLowerMatrix.maxNonZeros 64 3 = 3 * (3 + 1) / 2 ∧
    UniLowerMatrix.maxNonZeros 64 3 = (lowerCells 3).length ∧
    UniLowerMatrix.maxNonZeros 4 5 = (5 + 1) * 5 % 2 ^ 4 / 2 ∧
    UniLowerMatrix.maxNonZeros 4 5 = 7 :=
  ⟨by decide, ((C27_maxNonZeros_counts_lower_cells 64 3).1 (by decide)).1,
    ((C27_maxNonZeros_counts_lower_cells 64 3).1 (by decide)).2,
    (C27_maxNonZeros_counts_lower_cells 4 5).2.2, by decide⟩

/-- C28: For every `n` and `nonzeros` (also `nonzeros < n`), `UniLowerMatrix(n, nonzeros)` has the
dimensions and the stored entries of `UniLowerMatrix(n)`, the `n × n` identity. The storage the
two constructors leave differs in its capacity only: it is `max(nonzeros, n)` for
`UniLowerMatrix(n, nonzeros)`, which covers both `nonzeros` and the `n` diagonal entries that
are stored, and `n` for `UniLowerMatrix(n)`. -/
theorem C28_capacity_constructor_is_identity {SO : Bool} (n nonzeros : Nat) :
    (sizedNonzeros n nonzeros : UniLowerMatrix SO) = sized n ∧
    (sizedNonzeros n nonzeros : UniLowerMatrix SO).rows = n ∧
    (sizedNonzeros n nonzeros : UniLowerMatrix SO).columns = n ∧
    (∀ k, (sizedNonzeros n nonzeros : UniLowerMatrix SO).matrix_.lines k =
      if k < n then [(k, 1)] else []) ∧
    (∀ i j, (sizedNonzeros n nonzeros : UniLowerMatrix SO).callConst i j =
      if i = j ∧ i < n then 1 else 0) ∧
    (sizedNonzerosStorage n nonzeros : ReservedMatrix SO).matrix =
      (sizedStorage n : ReservedMatrix SO).matrix ∧
    (sizedNonzerosStorage n nonzeros : ReservedMatrix SO).capacity = max nonzeros n ∧
    (sizedStorage n : ReservedMatrix SO).capacity = n ∧
    (sizedNonzeros n nonzeros : UniLowerMatrix SO).nonZeros ≤
      (sizedNonzerosStorage n nonzeros : ReservedMatrix SO).capacity ∧
    nonzeros ≤ (sizedNonzerosStorage n nonzeros : ReservedMatrix SO).capacity := by
  have hcap : (sizedNonzerosStorage n nonzeros : ReservedMatrix SO).capacity = max nonzeros n :=
    (ReservedMatrix.forLoop_diagonal 0 n (ReservedMatrix.create n n (max nonzeros n))).2
  have heq : (sizedNonzeros n nonzeros : UniLowerMatrix SO) = sized n := sizedNonzeros_eq n nonzeros
  refine ⟨heq, ?_, ?_, ?_, ?_, congrArg UniLowerMatrix.matrix_ heq, hcap,
    (ReservedMatrix.forLoop_diagonal 0 n (ReservedMatrix.create n n n)).2, ?_, ?_⟩
  · rw [heq]; exact sized_rows n
  · rw [heq]; exact sized_columns n
  · intro k; rw [heq]; exact sized_lines n k
  · intro i j; rw [heq]; exact sized_get n i j
  · rw [hcap, heq, sized_nonZeros]; exact Nat.le_max_right _ _
  · rw [hcap]; exact Nat.le_max_left _ _

/-- C30: For both storage orders, the iterators returned by `begin(i)` (also after any number of
increments), `find(i,j)`, `lowerBound(i,j)`, `upperBound(i,j)`, `set(i,j,v)`, `insert(i,j,v)`
and the two iterator forms of `erase` dereference to an element flagged diagonal exactly when
the row of the element they refer to equals its column. -/
theorem C30_iterator_flag_correct {SO : Bool} (A : UniLowerMatrix SO) (i j : Nat)
    (v : ElementType) (pos first last : Iterator) :
    (A.begin_ i).flagCorrect A.matrix_ i ∧
    (A.find i j).flagCorrect A.matrix_ (lineOf SO i j) ∧
    (A.lowerBound i j).flagCorrect A.matrix_ (lineOf SO i j) ∧
    (A.upperBound i j).flagCorrect A.matrix_ (lineOf SO i j) ∧
    (∀ it, (A.set i j v).result = Except.ok it →
      it.flagCorrect (A.set i j v).state.matrix_ (lineOf SO i j)) ∧
    (∀ it, (A.insert i j v).result = Except.ok it →
      it.flagCorrect (A.insert i j v).state.matrix_ (lineOf SO i j)) ∧
    (∀ it, (A.erasePos i pos).result = Except.ok it →
      it.flagCorrect (A.erasePos i pos).state.matrix_ i) ∧
    (∀ it, (A.eraseRange i first last).result = Except.ok it →
      it.flagCorrect (A.eraseRange i first last).state.matrix_ i) ∧
    (∀ m, (Nat.iterate Iterator.increment m (A.begin_ i)).flagCorrect A.matrix_ i) := by
  refine ⟨flagCorrect_of_tag _ _ _ rfl, ?_, ?_, ?_, ?_, ?_, ?_, ?_, ?_⟩
  · exact flagCorrect_of_tag _ _ _ (by cases SO <;> rfl)
  · exact flagCorrect_of_tag _ _ _ (by cases SO <;> rfl)
  · exact flagCorrect_of_tag _ _ _ (by cases SO <;> rfl)
  · intro it hit
    refine flagCorrect_of_tag _ _ _ ?_
    unfold UniLowerMatrix.set at hit
    split at hit
    · cases hit
    · cases hit
      cases SO <;> rfl
  · intro it hit
    refine flagCorrect_of_tag _ _ _ ?_
    unfold UniLowerMatrix.insert at hit
    split at hit
    · cases hit
    · cases hres : (A.matrix_.insert i j v).result with
      | error e => simp [hres, Except.map] at hit
      | ok p =>
        simp [hres, Except.map] at hit
        rw [← hit]
        cases SO <;> rfl
  · intro it hit
    refine flagCorrect_of_tag _ _ _ ?_
    unfold UniLowerMatrix.erasePos at hit
    split at hit
    · cases hit
    · cases hit
      rfl
  · intro it hit
    refine flagCorrect_of_tag _ _ _ ?_
    unfold UniLowerMatrix.eraseRange at hit
    split at hit
    · cases hit
    · cases hit
      rfl
  · intro m
    exact flagCorrect_of_tag _ _ _ (index_iterate_increment m _)

/-- C30 on row 1 of the 2×2 row-major identity with the entry 5 at `(1,0)`: `find(1,1)` refers to
the diagonal element and is flagged, `begin(1)` refers to the element `(1,0)` and is not. -/
theorem C30_iterator_flag_correct_witness :
    ((exampleWithEntry.matrix_.lines 1).indexAt (exampleWithEntry.find 1 1).pos_ = some 1 ∧
      (((exampleWithEntry.find 1 1).deref (exampleWithEntry.matrix_.lines 1)).diagonal_ = true ↔
        (cellOfLine false 1 1).1 = (cellOfLine false 1 1).2) ∧
      ((exampleWithEntry.find 1 1).deref (exampleWithEntry.matrix_.lines 1)).diagonal_ = true) ∧
    ((exampleWithEntry.matrix_.lines 1).indexAt (exampleWithEntry.begin_ 1).pos_ = some 0 ∧
      (((exampleWithEntry.begin_ 1).deref (exampleWithEntry.matrix_.lines 1)).diagonal_ = true ↔
        (cellOfLine false 1 0).1 = (cellOfLine false 1 0).2) ∧
      ((exampleWithEntry.begin_ 1).deref (exampleWithEntry.matrix_.lines 1)).diagonal_ = false) :=
  ⟨⟨by decide,
      (C30_iterator_flag_correct exampleWithEntry 1 1 0 ⟨0, 1⟩ ⟨0, 1⟩ ⟨0, 1⟩).2.1 1 (by decide),
      by decide⟩,
    ⟨by decide,
      (C30_iterator_flag_correct exampleWithEntry 1 1 0 ⟨0, 1⟩ ⟨0, 1⟩ ⟨0, 1⟩).1 0 (by decide),
      by decide⟩⟩

/-- C31, as stated, fails on the code: in the state that `resize(4, false)` leaves of the 2×2
row-major identity no entry is stored at `(0,0)`, and the const element access `(0,0)` returns
0, not 1. -/
theorem C31_const_access_counterexample :
    ((UniLowerMatrix.sized 2 : UniLowerMatrix false).resize 4 false).succeeds ∧
    0 < ((UniLowerMatrix.sized 2 : UniLowerMatrix false).resize 4 false).state.rows ∧
    ((UniLowerMatrix.sized 2 : UniLowerMatrix false).resize 4 false).state.matrix_.stored 0 0
      = false ∧
    ((UniLowerMatrix.sized 2 : UniLowerMatrix false).resize 4 false).state.callConst 0 0 = 0 := by
  decide

/-- C31, amended: the const `operator()` returns what the storage holds, on the diagonal as off
it: 0 when no entry is stored at `(i,j)`, and the stored value when one is; it returns 1 at
`(i,i)` in every valid adaptor state, where the diagonal entry is stored. -/
theorem C31_const_access_amended {SO : Bool} (A : UniLowerMatrix SO) (i j : Nat) :
    (A.matrix_.stored i j = false → A.callConst i j = 0) ∧
    (A.matrix_.WF → ∀ v, (indexOf SO i j, v) ∈ A.matrix_.lines (lineOf SO i j) →
      A.callConst i j = v) ∧
    (A.Invariant → i < A.rows → A.matrix_.stored i i = true ∧ A.callConst i i = 1) := by
  refine ⟨fun h => Line.value_eq_zero_of_not_stored h, fun hwf v hv => ?_, fun hA hi => ?_⟩
  · exact Line.value_of_mem (hwf _) hv
  · have h1 := hA.2.2.1 i hi
    refine ⟨CompressedMatrix.stored_of_get_ne_zero _ _ _ ?_, h1⟩
    have h2 : A.matrix_.get i i = 1 := h1
    rw [h2]; decide

/-- C31, amended, on the 2×2 row-major identity with the entry 5 at `(1,0)`: the cell `(0,1)`
without an entry, the stored cell `(1,0)` and the diagonal cell `(1,1)`. -/
theorem C31_const_access_amended_witness :
    (exampleWithEntry.matrix_.stored 0 1 = false ∧ exampleWithEntry.callConst 0 1 = 0) ∧
    ((indexOf false 1 0, 5) ∈ exampleWithEntry.matrix_.lines (lineOf false 1 0) ∧
      exampleWithEntry.callConst 1 0 = 5) ∧
    (exampleWithEntry.Invariant ∧ 1 < exampleWithEntry.rows ∧
      exampleWithEntry.matrix_.stored 1 1 = true ∧ exampleWithEntry.callConst 1 1 = 1) :=
  ⟨⟨by decide, (C31_const_access_amended exampleWithEntry 0 1).1 (by decide)⟩,
    ⟨by decide,
      (C31_const_access_amended exampleWithEntry 1 0).2.1 exampleWithEntry_Invariant.1 5
        (by decide)⟩,
    ⟨exampleWithEntry_Invariant, by decide,
      (C31_const_access_amended exampleWithEntry 1 1).2.2 exampleWithEntry_Invariant
        (by decide)⟩⟩

/-- C32: For a square well-formed storage state of either storage order, `resetUpper()` keeps in
every row/column exactly the entries on and below the diagonal: no entry is left stored at
`(i,j)` with `i < j`, an entry `(i,j)` with `i ≥ j` is stored afterwards exactly when it
was stored before, with the same value, and the size is unchanged; hence after a dynamically
validated construction or assignment no entry is stored above the diagonal. -/
theorem C32_resetUpper_exact {SO : Bool} (M : CompressedMatrix SO) (hwf : M.WF)
    (hsq : M.m_ = M.n_) :
    ((UniLowerMatrix.mk M).resetUpper.rows = M.m_ ∧
      (UniLowerMatrix.mk M).resetUpper.columns = M.n_) ∧
    (∀ k, k < M.m_ → (UniLowerMatrix.mk M).resetUpper.matrix_.lines k =
      (M.lines k).filter (fun e => if SO then decide (k ≤ e.1) else decide (e.1 ≤ k))) ∧
    (∀ i j, i < j → j < M.m_ → (UniLowerMatrix.mk M).resetUpper.matrix_.stored i j = false) ∧
    (∀ i j v, j ≤ i →
      ((indexOf SO i j, v) ∈ (UniLowerMatrix.mk M).resetUpper.matrix_.lines (lineOf SO i j) ↔
        (indexOf SO i j, v) ∈ M.lines (lineOf SO i j))) ∧
    (∀ B : UniLowerMatrix SO, UniLowerMatrix.convert M false = Except.ok B →
      ∀ i j, i < j → j < B.rows → B.matrix_.stored i j = false) ∧
    (∀ A : UniLowerMatrix SO, (A.assign M false).succeeds →
      ∀ i j, i < j → j < (A.assign M false).state.rows →
        (A.assign M false).state.matrix_.stored i j = false) ∧
    (∀ (A : UniLowerMatrix SO) (isSquareT : Bool),
      (A.assignComputation M isSquareT false).succeeds →
      ∀ i j, i < j → j < (A.assignComputation M isSquareT false).state.rows →
        (A.assignComputation M isSquareT false).state.matrix_.stored i j = false) := by
  have hr : (UniLowerMatrix.mk M).resetUpper.rows = M.m_ := resetUpper_rows _
  refine ⟨⟨hr, resetUpper_columns _⟩, ?_, resetUpper_stored_upper M hwf hsq,
    fun i j v hji => resetUpper_mem_lower M hwf i j v hji, ?_, ?_, ?_⟩
  · intro k hk
    rw [resetUpper_lines (UniLowerMatrix.mk M) hwf, if_pos]
    rw [numLines_of_square hsq]
    exact hk
  · intro B hB i j hij hj
    obtain ⟨_, rfl⟩ := convert_dynamic_state hB
    exact resetUpper_stored_upper M hwf hsq i j hij (by rw [← hr]; exact hj)
  · intro A hs i j hij hj
    have hU := (assign_succeeds_iff A M).mp hs
    rw [assign_state_of_isUniLower A M hU] at hj ⊢
    exact resetUpper_stored_upper M hwf hsq i j hij (by rw [← hr]; exact hj)
  · intro A sq hs i j hij hj
    obtain ⟨_, hstate⟩ := assignComputation_dynamic_state A M sq hs
    rw [hstate] at hj ⊢
    exact resetUpper_stored_upper M hwf hsq i j hij (by rw [← hr]; exact hj)

/-- C32 on a 2×2 row-major unit lower matrix that stores an explicit zero at `(0,1)`. -/
theorem C32_resetUpper_exact_witness :
    (exampleUniLower.WF ∧ exampleUniLower.m_ = exampleUniLower.n_) ∧
    exampleUniLower.stored 0 1 = true ∧
    (UniLowerMatrix.mk exampleUniLower).resetUpper.matrix_.stored 0 1 = false ∧
    ((indexOf false 1 0, 4) ∈
      (UniLowerMatrix.mk exampleUniLower).resetUpper.matrix_.lines (lineOf false 1 0) ↔
      (indexOf false 1 0, 4) ∈ exampleUniLower.lines (lineOf false 1 0)) :=
  ⟨⟨exampleUniLower_WF, rfl⟩, by decide,
    (C32_resetUpper_exact exampleUniLower exampleUniLower_WF rfl).2.2.1 0 1
      (by decide) (by decide),
    (C32_resetUpper_exact exampleUniLower exampleUniLower_WF rfl).2.2.2.1 1 0 4 (by decide)⟩

/-- C33: For a valid `n × n` adaptor and `m < n`, `resize(m, true)` succeeds and yields an
`m × m` adaptor whose storage is what the storage resize leaves (nothing is inserted); every
cell `(i,j)` with `i, j < m` reads what it read before, so the diagonal below `m` reads 1. -/
theorem C33_shrink_keeps_block {SO : Bool} (A : UniLowerMatrix SO) (hA : A.Invariant)
    (m : Nat) (hm : m < A.rows) :
    (A.resize m true).succeeds ∧
    (A.resize m true).state.rows = m ∧ (A.resize m true).state.columns = m ∧
    (A.resize m true).state.matrix_ = A.matrix_.resize m m true ∧
    (∀ i j, i < m → j < m → (A.resize m true).state.callConst i j = A.callConst i j) ∧
    (∀ i, i < m → (A.resize m true).state.callConst i i = 1) := by
  rw [resize_shrink A m (Nat.le_of_lt hm) true]
  have hget : ∀ i j, i < m → j < m →
      (A.matrix_.resize m m true).get i j = A.matrix_.get i j :=
    fun i j hi hj => resize_preserve_get A.matrix_ hA.2.1 m i j hi hj (Nat.le_of_lt hm)
  refine ⟨⟨_, rfl⟩, CompressedMatrix.resize_m _ _ _ _, CompressedMatrix.resize_n _ _ _ _, rfl,
    hget, fun i hi => ?_⟩
  exact (hget i i hi hi).trans (hA.2.2.1 i (Nat.lt_trans hi hm))

/-- C33 on the 3×3 row-major identity with the entry 5 at `(1,0)`, shrunk to 2×2. -/
theorem C33_shrink_keeps_block_witness :
    (((UniLowerMatrix.sized 3 : UniLowerMatrix false).set 1 0 5).state.Invariant ∧
      2 < ((UniLowerMatrix.sized 3 : UniLowerMatrix false).set 1 0 5).state.rows) ∧
    ((((UniLowerMatrix.sized 3 : UniLowerMatrix false).set 1 0 5).state.resize 2 true).succeeds ∧
      (((UniLowerMatrix.sized 3 : UniLowerMatrix false).set 1 0 5).state.resize 2
        true).state.rows = 2 ∧
      (((UniLowerMatrix.sized 3 : UniLowerMatrix false).set 1 0 5).state.resize 2
        true).state.callConst 1 0 =
        ((UniLowerMatrix.sized 3 : UniLowerMatrix false).set 1 0 5).state.callConst 1 0 ∧
      (((UniLowerMatrix.sized 3 : UniLowerMatrix false).set 1 0 5).state.resize 2
        true).state.callConst 1 1 = 1) ∧
    ((UniLowerMatrix.sized 3 : UniLowerMatrix false).set 1 0 5).state.callConst 1 0 = 5 :=
  ⟨⟨Invariant.set (Invariant.sized 3) 1 0 5, by decide⟩,
    ⟨(C33_shrink_keeps_block _ (Invariant.set (Invariant.sized 3) 1 0 5) 2 (by decide)).1,
      (C33_shrink_keeps_block _ (Invariant.set (Invariant.sized 3) 1 0 5) 2 (by decide)).2.1,
      (C33_shrink_keeps_block _ (Invariant.set (Invariant.sized 3) 1 0 5) 2
        (by decide)).2.2.2.2.1 1 0 (by decide) (by decide),
      (C33_shrink_keeps_block _ (Invariant.set (Invariant.sized 3) 1 0 5) 2
        (by decide)).2.2.2.2.2 1 (by decide)⟩,
    by decide⟩

/-- C34: Assignment of a computation whose type is not statically square: when the result `E` is
not square the call raises `std::invalid_argument`, leaves `A` unchanged and its outcome
depends on the dimensions of `E` only, not on its entries; when `E` is square the outcome is
that of the assignment of a concrete matrix, which for a type that is not statically unit
lower succeeds exactly when `isUniLower` holds and otherwise leaves `A` unchanged. -/
theorem C34_computation_square_check {SO : Bool} (A : UniLowerMatrix SO)
    (E : CompressedMatrix SO) (isUniLowerT : Bool) :
    (E.isSquare = false →
      (A.assignComputation E false isUniLowerT).raisesInvalidArgument ∧
      (A.assignComputation E false isUniLowerT).state = A ∧
      ∀ E2 : CompressedMatrix SO, E2.m_ = E.m_ → E2.n_ = E.n_ →
        A.assignComputation E2 false isUniLowerT = A.assignComputation E false isUniLowerT) ∧
    (E.isSquare = true →
      A.assignComputation E false isUniLowerT = A.assign E isUniLowerT ∧
      ((A.assignComputation E false false).succeeds ↔ E.isUniLower = true) ∧
      ((A.assignComputation E false false).raisesInvalidArgument →
        (A.assignComputation E false false).state = A)) := by
  constructor
  · intro h
    rw [assignComputation_nonsquare A E isUniLowerT h]
    refine ⟨⟨_, rfl⟩, rfl, fun E2 hm hn => ?_⟩
    have h2 : E2.isSquare = false := by
      unfold CompressedMatrix.isSquare at h ⊢
      rw [hm, hn]; exact h
    exact assignComputation_nonsquare A E2 isUniLowerT h2
  · intro h
    refine ⟨assignComputation_eq_assign A E false isUniLowerT h, ?_, ?_⟩
    · rw [assignComputation_eq_assign A E false false h]
      exact assign_succeeds_iff A E
    · rw [assignComputation_eq_assign A E false false h]
      intro hr
      unfold assign at hr ⊢
      cases hU : E.isUniLower
      · simp [hU]
      · simp [hU] at hr
        obtain ⟨w, hw⟩ := hr
        cases hw

/-- C34 on a 2×3 result and on a square result with a nonzero above the diagonal. -/
theorem C34_computation_square_check_witness :
    (exampleNonSquare.isSquare = false ∧
      (exampleWithEntry.assignComputation exampleNonSquare false false).raisesInvalidArgument ∧
      (exampleWithEntry.assignComputation exampleNonSquare false false).state =
        exampleWithEntry) ∧
    (exampleNotUniLower.isSquare = true ∧
      exampleWithEntry.assignComputation exampleNotUniLower false false =
        exampleWithEntry.assign exampleNotUniLower false ∧
      (exampleWithEntry.assign exampleNotUniLower false).raisesInvalidArgument) :=
  ⟨⟨by decide,
      ((C34_computation_square_check exampleWithEntry exampleNonSquare false).1
        (by decide)).1,
      ((C34_computation_square_check exampleWithEntry exampleNonSquare false).1
        (by decide)).2.1⟩,
    ⟨by decide,
      ((C34_computation_square_check exampleWithEntry exampleNotUniLower false).2
        (by decide)).1,
      by decide⟩⟩

/-- C35: For a matrix value `M` whose type is not statically unit lower, the computation overload
and the non-computation overload of the assignment have the same outcome: both raise
`std::invalid_argument` and leave `A` unchanged, or both succeed and leave `A` with the same
dimensions and cell values. -/
theorem C35_assignment_paths_agree {SO : Bool} (A : UniLowerMatrix SO)
    (M : CompressedMatrix SO) (isSquareT : Bool) (hsq : isSquareT = true → M.isSquare = true) :
    A.assignComputation M isSquareT false = A.assign M false ∧
    (((A.assignComputation M isSquareT false).raisesInvalidArgument ∧
        (A.assign M false).raisesInvalidArgument ∧
        (A.assignComputation M isSquareT false).state = A ∧ (A.assign M false).state = A) ∨
      ((A.assignComputation M isSquareT false).succeeds ∧ (A.assign M false).succeeds ∧
        (A.assignComputation M isSquareT false).state.rows = (A.assign M false).state.rows ∧
        (A.assignComputation M isSquareT false).state.columns =
          (A.assign M false).state.columns ∧
        ∀ i j, (A.assignComputation M isSquareT false).state.callConst i j =
          (A.assign M false).state.callConst i j)) := by
  have heq : A.assignComputation M isSquareT false = A.assign M false := by
    cases hM : M.isSquare
    · have ht : isSquareT = false := by
        cases isSquareT
        · rfl
        · rw [hsq rfl] at hM; cases hM
      rw [ht, assignComputation_nonsquare A M false hM, assign_nonsquare A M hM]
    · exact assignComputation_eq_assign A M isSquareT false hM
  refine ⟨heq, ?_⟩
  rw [heq]
  cases hU : M.isUniLower
  · left
    have : A.assign M false =
        ⟨A, Except.error (Exception.invalid_argument "Invalid assignment to unilower matrix")⟩ := by
      unfold assign; simp [hU]
    rw [this]
    exact ⟨⟨_, rfl⟩, ⟨_, rfl⟩, rfl, rfl⟩
  · right
    have hs := (assign_succeeds_iff A M).mpr hU
    exact ⟨hs, hs, rfl, rfl, fun _ _ => rfl⟩

/-- C35 on a unit lower 2×2 matrix and on a 2×3 matrix. -/
theorem C35_assignment_paths_agree_witness :
    (exampleWithEntry.assignComputation exampleUniLower false false =
        exampleWithEntry.assign exampleUniLower false ∧
      (exampleWithEntry.assign exampleUniLower false).succeeds) ∧
    (exampleWithEntry.assignComputation exampleNonSquare false false =
        exampleWithEntry.assign exampleNonSquare false ∧
      (exampleWithEntry.assign exampleNonSquare false).raisesInvalidArgument) :=
  ⟨⟨(C35_assignment_paths_agree exampleWithEntry exampleUniLower false
        (fun h => Bool.noConfusion h)).1, by decide⟩,
    ⟨(C35_assignment_paths_agree exampleWithEntry exampleNonSquare false
        (fun h => Bool.noConfusion h)).1, by decide⟩⟩

/-- C36: For a valid `n × n` adaptor `A` and an `n × n` integer matrix `B`, `A *= B` succeeds
exactly when `B` is unit lower triangular. -/
theorem C36_mulAssign_accepts_exactly_unilower {SO : Bool} (A : UniLowerMatrix SO)
    (hA : A.Invariant) (B : CompressedMatrix SO) (hr : B.rows = A.rows)
    (hc : B.columns = A.columns) (isUniLowerT : Bool) :
    ((A.mulAssign B isUniLowerT).succeeds ↔
      ((∀ i, i < A.rows → B.get i i = 1) ∧ (∀ i j, i < j → j < A.rows → B.get i j = 0))) ∧
    ((A.mulAssign B isUniLowerT).succeeds ↔ B.isUniLower = true) := by
  have h1 := (mulAssign_succeeds_iff A hA B hr hc isUniLowerT).trans
    (product_unilower_iff A hA B)
  refine ⟨h1, h1.trans ?_⟩
  rw [CompressedMatrix.isUniLower_iff]
  have hm : B.m_ = A.rows := hr
  have hn : B.n_ = A.rows := hc.trans hA.2.1.symm
  constructor
  · rintro ⟨hd, hu⟩
    refine ⟨hm.trans hn.symm, fun i hi => hd i (by rw [← hm]; exact hi), ?_⟩
    intro i j _ hj hij
    exact hu i j hij (by rw [← hn]; exact hj)
  · rintro ⟨_, hd, hu⟩
    refine ⟨fun i hi => hd i (by rw [hm]; exact hi), ?_⟩
    intro i j hij hj
    exact hu i j (by rw [hm]; omega) (by rw [hn]; exact hj) hij

/-- C36 on the 2×2 identity with the entry 5 at `(1,0)`: a unit lower factor is accepted, a
strictly lower factor is rejected. -/
theorem C36_mulAssign_accepts_exactly_unilower_witness :
    (exampleWithEntry.Invariant ∧ exampleUniLowerFactor.rows = exampleWithEntry.rows ∧
      exampleUniLowerFactor.columns = exampleWithEntry.columns ∧
      exampleStrictlyLower.rows = exampleWithEntry.rows ∧
      exampleStrictlyLower.columns = exampleWithEntry.columns) ∧
    (exampleUniLowerFactor.isUniLower = true ∧
      (exampleWithEntry.mulAssign exampleUniLowerFactor false).succeeds) ∧
    (exampleStrictlyLower.isUniLower = false ∧
      ¬ (exampleWithEntry.mulAssign exampleStrictlyLower false).succeeds) :=
  ⟨⟨exampleWithEntry_Invariant, by decide, by decide, by decide, by decide⟩,
    ⟨by decide,
      (C36_mulAssign_accepts_exactly_unilower exampleWithEntry exampleWithEntry_Invariant
        exampleUniLowerFactor (by decide) (by decide) false).2.mpr (by decide)⟩,
    ⟨by decide,
      fun hs => absurd
        ((C36_mulAssign_accepts_exactly_unilower exampleWithEntry exampleWithEntry_Invariant
          exampleStrictlyLower (by decide) (by decide) false).2.mp hs) (by decide)⟩⟩

/-- C37: For a valid `n × n` adaptor `A` and an `n × n` strictly lower triangular matrix `B`,
`A += B` and then `A -= B` both succeed, the size is unchanged and every cell of `A` reads
what it read before the two operations. -/
theorem C37_sub_undoes_add {SO : Bool} (A : UniLowerMatrix SO) (hA : A.Invariant)
    (B : CompressedMatrix SO) (hr : B.rows = A.rows) (hc : B.columns = A.columns)
    (hB : ∀ i j, i < A.rows → j < A.columns → i ≤ j → B.get i j = 0) (t1 t2 : Bool) :
    (A.addAssign B t1).succeeds ∧
    ((A.addAssign B t1).state.subAssign B t2).succeeds ∧
    ((A.addAssign B t1).state.subAssign B t2).state.rows = A.rows ∧
    ((A.addAssign B t1).state.subAssign B t2).state.columns = A.columns ∧
    (∀ i j, i < A.rows → j < A.columns →
      ((A.addAssign B t1).state.subAssign B t2).state.callConst i j = A.callConst i j) := by
  have hS : B.isStrictlyLower = true := (isStrictlyLower_iff_cells A hA B hr hc).mpr hB
  have hInv : (A.addAssign B t1).state.Invariant := Invariant.addAssign hA (fun _ => hS)
  have hadd := addAssign_eq A B hr hc hS t1
  have hr1 : (A.addAssign B t1).state.rows = A.rows := by
    rw [hadd]
    cases t1
    · exact resetUpper_rows _
    · rfl
  have hc1 : (A.addAssign B t1).state.columns = A.columns := by
    rw [hadd]
    cases t1
    · exact resetUpper_columns _
    · rfl
  have hcell1 : ∀ i j, i < A.rows → j < A.columns →
      (A.addAssign B t1).state.callConst i j = A.callConst i j + B.get i j := by
    intro i j hi hj
    rw [hadd]
    exact combine_cells A hA B hr hc hS (fun x y => x + y) rfl t1 i j hi hj
  have hsub := subAssign_eq (A.addAssign B t1).state B (hr.trans hr1.symm) (hc.trans hc1.symm)
    hS t2
  have hr2 : ((A.addAssign B t1).state.subAssign B t2).state.rows = A.rows := by
    rw [hsub]
    cases t2
    · exact (resetUpper_rows _).trans hr1
    · exact hr1
  have hc2 : ((A.addAssign B t1).state.subAssign B t2).state.columns = A.columns := by
    rw [hsub]
    cases t2
    · exact (resetUpper_columns _).trans hc1
    · exact hc1
  refine ⟨⟨(), by rw [hadd]⟩, ⟨(), by rw [hsub]⟩, hr2, hc2, ?_⟩
  intro i j hi hj
  rw [hsub]
  have h := combine_cells (A.addAssign B t1).state hInv B (hr.trans hr1.symm)
    (hc.trans hc1.symm) hS (fun x y => x - y) rfl t2 i j (by rw [hr1]; exact hi)
    (by rw [hc1]; exact hj)
  rw [h, hcell1 i j hi hj]
  exact Int.add_sub_cancel _ _

/-- C37 on the 2×2 identity with the entry 5 at `(1,0)` and a strictly lower matrix with the
entry 5 at `(1,0)`: the cell reads 10 in between and 5 again at the end. -/
theorem C37_sub_undoes_add_witness :
    (exampleWithEntry.Invariant ∧ exampleStrictlyLower.rows = exampleWithEntry.rows ∧
      exampleStrictlyLower.columns = exampleWithEntry.columns) ∧
    (exampleWithEntry.addAssign exampleStrictlyLower false).state.callConst 1 0 = 10 ∧
    ((exampleWithEntry.addAssign exampleStrictlyLower false).state.subAssign
      exampleStrictlyLower false).succeeds ∧
    ((exampleWithEntry.addAssign exampleStrictlyLower false).state.subAssign
      exampleStrictlyLower false).state.callConst 1 0 = exampleWithEntry.callConst 1 0 :=
  ⟨⟨exampleWithEntry_Invariant, by decide, by decide⟩, by decide,
    (C37_sub_undoes_add exampleWithEntry exampleWithEntry_Invariant exampleStrictlyLower
      (by decide) (by decide) exampleStrictlyLower_cells false false).2.1,
    (C37_sub_undoes_add exampleWithEntry exampleWithEntry_Invariant exampleStrictlyLower
      (by decide) (by decide) exampleStrictlyLower_cells false false).2.2.2.2 1 0
      (by decide) (by decide)⟩

/-- C38: In every adaptor state reachable from a constructor by public operations other than
`resize` with `preserve == false`, an entry is stored at `(i,i)` for every `i < rows()`:
`find(i,i)` is not the end iterator of row/column `i` (they differ in their position within
the line, hence however the lines are arranged in the storage), `nonZeros(i) ≥ 1` and
`nonZeros() ≥ rows()`. -/
theorem C38_diagonal_explicitly_stored {SO : Bool} (A : UniLowerMatrix SO)
    (h : ReachablePreserving A) :
    (∀ i, i < A.rows →
      A.matrix_.stored i i = true ∧
      ((A.find i i).pos_ ≠ (A.end_ i).pos_ ∧
        ∀ start, Iterator.ne start i i (A.find i i) (A.end_ i) = true) ∧
      1 ≤ A.nonZerosAt i) ∧
    A.rows ≤ A.nonZeros := by
  have hU := h.unitDiagonal
  refine ⟨fun i hi => ⟨hU.stored i hi, ⟨?_, hU.find_ne_end i hi⟩,
    Line.length_pos_of_stored _ _ (hU.line_stored i hi)⟩, hU.nonZeros_ge⟩
  have h0 := hU.find_ne_end i hi (fun _ => 0)
  unfold Iterator.ne Iterator.eq Iterator.position at h0
  intro heq
  rw [heq] at h0
  simp at h0

/-- C38 on the state after `set(1,0,5)` and `resize(3, true)` of the 2×2 identity. -/
theorem C38_diagonal_explicitly_stored_witness :
    ReachablePreserving (exampleWithEntry.resize 3 true).state ∧
    (exampleWithEntry.resize 3 true).state.rows = 3 ∧
    ((exampleWithEntry.resize 3 true).state.matrix_.stored 2 2 = true ∧
      (((exampleWithEntry.resize 3 true).state.find 2 2).pos_ ≠
          ((exampleWithEntry.resize 3 true).state.end_ 2).pos_ ∧
        ∀ start, Iterator.ne start 2 2 ((exampleWithEntry.resize 3 true).state.find 2 2)
          ((exampleWithEntry.resize 3 true).state.end_ 2) = true) ∧
      1 ≤ (exampleWithEntry.resize 3 true).state.nonZerosAt 2) ∧
    (exampleWithEntry.resize 3 true).state.rows ≤ (exampleWithEntry.resize 3 true).state.nonZeros :=
  ⟨ReachablePreserving.resize _ 3
      (ReachablePreserving.set _ 1 0 5 (ReachablePreserving.sized 2)),
    by decide,
    (C38_diagonal_explicitly_stored _ (ReachablePreserving.resize _ 3
      (ReachablePreserving.set _ 1 0 5 (ReachablePreserving.sized 2)))).1 2 (by decide),
    (C38_diagonal_explicitly_stored _ (ReachablePreserving.resize _ 3
      (ReachablePreserving.set _ 1 0 5 (ReachablePreserving.sized 2)))).2⟩

/-- C39: `append(i,j,value,false)` leaves the adaptor in the state `insert(i,j,value)` leaves
it in and raises `std::invalid_argument` in exactly the same cases, which are `i ≤ j` and an
entry already stored at `(i,j)`; this holds for every `j`, whatever indices the row/column
already stores. -/
theorem C39_append_unchecked_is_insert {SO : Bool} (A : UniLowerMatrix SO) (i j : Nat)
    (value : ElementType) :
    (A.append i j value false).state = (A.insert i j value).state ∧
    ((A.append i j value false).raisesInvalidArgument ↔
      (A.insert i j value).raisesInvalidArgument) ∧
    ((A.append i j value false).succeeds ↔ (A.insert i j value).succeeds) ∧
    ((A.insert i j value).raisesInvalidArgument ↔
      (i ≤ j ∨ A.matrix_.stored i j = true)) := by
  rw [append_unchecked]
  exact ⟨rfl, raises_map_iff _ _ _, succeeds_map_iff _ _ _, insert_raises_iff A i j value⟩

/-- C39 on row 2 of a 3×3 matrix that stores the index 1: the entry with the smaller index 0 is
put at its sorted position, as by `insert`; and a duplicate raises for both. -/
theorem C39_append_unchecked_is_insert_witness :
    (((UniLowerMatrix.sized 3 : UniLowerMatrix false).set 2 1 4).state.append 2 0 7
        false).succeeds ∧
    (((UniLowerMatrix.sized 3 : UniLowerMatrix false).set 2 1 4).state.append 2 0 7
        false).state =
      (((UniLowerMatrix.sized 3 : UniLowerMatrix false).set 2 1 4).state.insert 2 0
        7).state ∧
    (((UniLowerMatrix.sized 3 : UniLowerMatrix false).set 2 1 4).state.append 2 0 7
        false).state.matrix_.lines 2 = [(0, 7), (1, 4), (2, 1)] ∧
    ((exampleWithEntry.append 1 0 7 false).raisesInvalidArgument ↔
      (exampleWithEntry.insert 1 0 7).raisesInvalidArgument) :=
  ⟨by decide,
    (C39_append_unchecked_is_insert
      ((UniLowerMatrix.sized 3 : UniLowerMatrix false).set 2 1 4).state 2 0 7).1,
    by decide,
    (C39_append_unchecked_is_insert exampleWithEntry 1 0 7).2.1⟩

/-- C40: For guarded iterators `a` of row/column `ka` and `b` of row/column `kb`, however the
lines are arranged in the storage: `a == b` holds exactly when the underlying storage positions
are equal, whatever row/column index each carries, `a != b` is its negation, `a - b` is the
difference of the storage positions, and the postfix increment returns the old `a` and advances
`a` by exactly one position, keeping its index. For iterators of the same row/column this is
equality and difference of the positions within the line; an iterator that refers to an element
of one row/column is different from every iterator of a later row/column, also when both carry
the same index and the same position within their lines. -/
theorem C40_iterator_position_only {SO : Bool} (start : Nat → Nat) (ka kb : Nat)
    (a b : Iterator) :
    (Iterator.eq start ka kb a b = true ↔ a.position start ka = b.position start kb) ∧
    (∀ i j, Iterator.eq start ka kb ⟨a.pos_, i⟩ ⟨b.pos_, j⟩ = Iterator.eq start ka kb a b) ∧
    Iterator.ne start ka kb a b = !(Iterator.eq start ka kb a b) ∧
    (Iterator.ne start ka kb a b = true ↔ a.position start ka ≠ b.position start kb) ∧
    Iterator.sub start ka kb a b =
      (a.position start ka : Int) - (b.position start kb : Int) ∧
    (∀ i j, Iterator.sub start ka kb ⟨a.pos_, i⟩ ⟨b.pos_, j⟩ = Iterator.sub start ka kb a b) ∧
    (a.postIncrement.2 = a ∧ Iterator.eq start ka ka a.postIncrement.2 a = true) ∧
    (a.postIncrement.1.position start ka = a.position start ka + 1 ∧
      a.postIncrement.1.index_ = a.index_ ∧
      Iterator.sub start ka ka a.postIncrement.1 a = 1) ∧
    ((Iterator.eq start ka ka a b = true ↔ a.pos_ = b.pos_) ∧
      Iterator.sub start ka ka a b = (a.pos_ : Int) - (b.pos_ : Int)) ∧
    (∀ M : CompressedMatrix SO, M.Layout start → ka < kb → a.pos_ < (M.lines ka).length →
      Iterator.eq start ka kb a b = false ∧ Iterator.ne start ka kb a b = true) := by
  refine ⟨?_, fun _ _ => rfl, rfl, ?_, rfl, fun _ _ => rfl, ⟨rfl, ?_⟩, ⟨?_, rfl, ?_⟩, ⟨?_, ?_⟩, ?_⟩
  · unfold Iterator.eq; simp
  · unfold Iterator.ne Iterator.eq; simp
  · unfold Iterator.postIncrement Iterator.eq; simp
  · unfold Iterator.postIncrement Iterator.position Iterator.increment
    exact (Nat.add_assoc _ _ _).symm
  · unfold Iterator.postIncrement Iterator.sub Iterator.position Iterator.increment
    push_cast
    omega
  · unfold Iterator.eq Iterator.position; simp
  · unfold Iterator.sub Iterator.position
    push_cast
    omega
  · intro M hM hlt ha
    have hlt2 : a.position start ka < b.position start kb := by
      unfold Iterator.position
      have h1 := CompressedMatrix.Layout.start_le hM (ka + 1) kb hlt
      have h2 := hM ka
      omega
    unfold Iterator.ne Iterator.eq
    constructor
    · simp; omega
    · simp; omega

/-- C40 on the 2×2 row-major identity, whose rows hold one element each and follow each other
directly in the storage: `begin(0)` and `begin(1)`, both at the first position of their row,
are different, `begin(1) - begin(0)` is 1, and `end(0)` equals `begin(1)`, also when an
iterator carries another index. -/
theorem C40_iterator_position_only_witness :
    (UniLowerMatrix.sized 2 : UniLowerMatrix false).matrix_.Layout (fun k => k) ∧
    ((UniLowerMatrix.sized 2 : UniLowerMatrix false).begin_ 0).pos_ <
      ((UniLowerMatrix.sized 2 : UniLowerMatrix false).matrix_.lines 0).length ∧
    Iterator.eq (fun k => k) 0 1 ((UniLowerMatrix.sized 2 : UniLowerMatrix false).begin_ 0)
      ((UniLowerMatrix.sized 2 : UniLowerMatrix false).begin_ 1) = false ∧
    Iterator.sub (fun k => k) 1 0 ((UniLowerMatrix.sized 2 : UniLowerMatrix false).begin_ 1)
      ((UniLowerMatrix.sized 2 : UniLowerMatrix false).begin_ 0) = 1 ∧
    Iterator.eq (fun k => k) 0 1 ((UniLowerMatrix.sized 2 : UniLowerMatrix false).end_ 0)
      ((UniLowerMatrix.sized 2 : UniLowerMatrix false).begin_ 1) = true ∧
    Iterator.eq (fun k => k) 0 1 ⟨1, 7⟩
      ((UniLowerMatrix.sized 2 : UniLowerMatrix false).begin_ 1) = true :=
  ⟨sized_Layout 2,
    by decide,
    ((C40_iterator_position_only (fun k => k) 0 1
      ((UniLowerMatrix.sized 2 : UniLowerMatrix false).begin_ 0)
      ((UniLowerMatrix.sized 2 : UniLowerMatrix false).begin_ 1)).2.2.2.2.2.2.2.2.2
      (UniLowerMatrix.sized 2 : UniLowerMatrix false).matrix_ (sized_Layout 2) (by decide)
      (by decide)).1,
    by decide, by decide, by decide⟩

end blaze
